import Mathlib

/-!
# The epoll event engine (`event-epoll.c`)

A shallow embedding of the slot table, the generation protocol, registration,
unregistration, interest change, the dispatch of one event, and the start,
reconfiguration and termination of the worker threads, followed by theorems
about them.

Conventions of the embedding.

* C `int` fields are `Int` (the generation counter, the reference count and the
  in-handler count are treated as unbounded integers, which agrees with the
  code as long as no counter passes `INT_MAX`; the namespace `EventEpoll32`
  further down repeats the functions with 32-bit wrap-around); the event mask
  is the `Nat` bit pattern of the 32-bit word.
* `ereg[t]` is `none` when the block pointer is `NULL`.
* The locks are not modelled: every function runs atomically. Where the code
  releases its locks in the middle of a function (around the handler call, at
  the start of a worker) the function is split at that point, and runs of
  several threads are interleavings of these parts.
* What the engine does to the outside (kernel calls, `close`, handler calls,
  thread creation) and every completed `__event_slot_dealloc` is appended to
  `World.trace`, oldest first.
* Results of the environment (does `calloc` succeed, does `epoll_ctl` succeed,
  what does the handler do and return) are arguments of the functions.
* A failed `assert`, the dereference of a `NULL` slot and an array access
  outside its bounds stop the run with a `Fault`.
-/

namespace EventEpoll

/-! ## Constants -/

/-- The constants of `event.h` used by the engine. The header is not part of the
sources, so the values are parameters. -/
structure Consts where
  EVENT_EPOLL_SLOTS : Nat
  EVENT_EPOLL_TABLES : Nat
  EVENT_MAX_THREADS : Nat

/-- Readiness bit of `<sys/epoll.h>`: data to read. -/
def EPOLLIN : Nat := 0x001
/-- Readiness bit of `<sys/epoll.h>`: urgent data to read. -/
def EPOLLPRI : Nat := 0x002
/-- Readiness bit of `<sys/epoll.h>`: writing possible. -/
def EPOLLOUT : Nat := 0x004
/-- Readiness bit of `<sys/epoll.h>`: error condition. -/
def EPOLLERR : Nat := 0x008
/-- Readiness bit of `<sys/epoll.h>`: hang up. -/
def EPOLLHUP : Nat := 0x010
/-- Flag of `<sys/epoll.h>`: edge-triggered delivery. -/
def EPOLLET : Nat := 0x80000000
/-- Flag of `<sys/epoll.h>`: one-shot delivery. -/
def EPOLLONESHOT : Nat := 0x40000000

/-- The C expression `~m` on a 32-bit word. -/
def bnot32 (m : Nat) : Nat := 0xFFFFFFFF ^^^ m

/-! ## Data model -/

/-- The record `struct event_slot_epoll` without its lock. `handler` and `data`
are pointers, `0` is `NULL`. -/
structure event_slot_epoll where
  fd : Int
  events : Nat
  gen : Int
  ref : Int
  do_close : Int
  in_handler : Int
  data : Nat
  handler : Nat
deriving DecidableEq, Repr

/-- A block of slots, indexed by offset. -/
abbrev SlotTable := Nat → event_slot_epoll

/-- The fields of `struct event_pool` that the epoll engine uses. -/
structure event_pool where
  fd : Int
  count : Int
  ereg : Nat → Option SlotTable
  slots_used : Nat → Int
  destroy : Int
  eventthreadcount : Int
  activethreadcount : Int
  pollers : Nat → Nat

/-- The payload `struct event_data` together with the readiness bits of one
`struct epoll_event`. -/
structure epoll_event where
  events : Nat
  idx : Int
  gen : Int
deriving DecidableEq, Repr

/-- One entry of the log of what the engine did. -/
inductive Effect
  | ctl_add (fd : Int) (events : Nat) (idx : Int) (gen : Int)
  | ctl_mod (fd : Int) (events : Nat) (idx : Int) (gen : Int)
  | ctl_del (fd : Int)
  | close (fd : Int)
  | handler (handler : Nat) (fd : Int) (idx : Int) (data : Nat)
      (poll_in : Nat) (poll_out : Nat) (poll_err : Nat)
  | slot_dealloc (idx : Int)
  | pthread_create (event_index : Nat) (started : Bool)
deriving DecidableEq, Repr

/-- The pool together with the log. -/
structure World where
  pool : event_pool
  trace : List Effect

/-- Ways in which a run stops abnormally. -/
inductive Fault
  | assertion
  | null_slot
  | bad_index
deriving DecidableEq, Repr

/-- Result of a run: a value or a fault. -/
inductive Res (α : Type)
  | ok (a : α)
  | fault (f : Fault)
deriving DecidableEq, Repr

/-- A slot pointer: block index and offset. -/
abbrev SlotPtr := Nat × Nat

/-- Whether the pointer `event_pool` passed to an entry point is `NULL` (`none`)
or the pool of the world. -/
abbrev PoolPtr := Option Unit

/-- A slot as `calloc` leaves it. -/
def zero_slot : event_slot_epoll :=
  { fd := 0, events := 0, gen := 0, ref := 0, do_close := 0, in_handler := 0,
    data := 0, handler := 0 }

/-- Read through a slot pointer; a block that has not been created reads as
zeroes. -/
def get_slot (p : event_pool) (t i : Nat) : event_slot_epoll :=
  match p.ereg t with
  | some table => table i
  | none => zero_slot

/-- Write through a slot pointer; nothing is written when the block has not been
created. -/
def set_slot (p : event_pool) (t i : Nat) (s : event_slot_epoll) : event_pool :=
  match p.ereg t with
  | some table => { p with ereg := Function.update p.ereg t (some (Function.update table i s)) }
  | none => p

/-- Set the used-count of block `t`. -/
def set_used (p : event_pool) (t : Nat) (v : Int) : event_pool :=
  { p with slots_used := Function.update p.slots_used t v }

/-- Write through a slot pointer, in a world. -/
def World.put (w : World) (t i : Nat) (s : event_slot_epoll) : World :=
  { w with pool := set_slot w.pool t i s }

/-- Append an entry to the log. -/
def World.emit (w : World) (e : Effect) : World :=
  { w with trace := w.trace ++ [e] }

/-- The kernel call `epoll_ctl`: `0` on success, `-1` on failure; a negative
descriptor is never valid (`EBADF`). -/
def epoll_ctl (ctl_ok : Bool) (fd : Int) : Int :=
  if fd < 0 then -1 else if ctl_ok then 0 else -1

/-! ## Slot table -/

/-- A slot of a block that `__event_newtable` has just set up. -/
def fresh_slot : event_slot_epoll := { zero_slot with fd := -1 }

/-- A block that `__event_newtable` has just set up. -/
def fresh_table : SlotTable := fun _ => fresh_slot

/-- Install a new block at `ereg[table_idx]` with used-count `0`. -/
def add_table (p : event_pool) (table_idx : Nat) : event_pool :=
  { p with ereg := Function.update p.ereg table_idx (some fresh_table),
           slots_used := Function.update p.slots_used table_idx 0 }

/-- The function `__event_newtable`: `none` when `calloc` fails. -/
def __event_newtable (p : event_pool) (table_idx : Nat) (calloc_ok : Bool) :
    Option (SlotTable × event_pool) :=
  if calloc_ok then some (fresh_table, add_table p table_idx)
  else none

/-- Outcome of the first loop of `__event_slot_alloc`. -/
inductive TableScan
  | nomem
  | found (table_idx : Nat) (table : SlotTable) (p : event_pool)
  | exhausted

/-- The first loop of `__event_slot_alloc`, `n` iterations starting at block `i`. -/
def scan_tables (k : Consts) (calloc_ok : Bool) (p : event_pool) : Nat → Nat → TableScan
  | 0, _ => .exhausted
  | n + 1, i =>
    if p.slots_used i = k.EVENT_EPOLL_SLOTS then
      scan_tables k calloc_ok p n (i + 1)
    else if p.slots_used i = 0 then
      match p.ereg i with
      | none =>
        match __event_newtable p i calloc_ok with
        | none => .nomem
        | some (table, p1) => .found i table p1
      | some table => .found i table p
    else
      match p.ereg i with
      | some table => .found i table p
      | none => scan_tables k calloc_ok p n (i + 1)

/-- The second loop of `__event_slot_alloc`: the value of `i` after at most `n`
iterations starting at offset `i`. -/
def find_free (table : SlotTable) : Nat → Nat → Nat
  | 0, i => i
  | n + 1, i => if (table i).fd = -1 then i else find_free table n (i + 1)

/-- The function `__event_slot_alloc`. -/
def __event_slot_alloc (k : Consts) (p : event_pool) (fd : Int) (calloc_ok : Bool) :
    event_pool × Int :=
  match scan_tables k calloc_ok p k.EVENT_EPOLL_TABLES 0 with
  | .nomem => (p, -1)
  | .exhausted => (p, -1)
  | .found table_idx table p1 =>
    let i := find_free table k.EVENT_EPOLL_SLOTS 0
    if i < k.EVENT_EPOLL_SLOTS then
      let gen := (table i).gen
      let p2 := set_slot p1 table_idx i { zero_slot with gen := gen + 1, fd := fd }
      (set_used p2 table_idx (p2.slots_used table_idx + 1),
        (table_idx * k.EVENT_EPOLL_SLOTS + i : Nat))
    else
      (p1, (table_idx * k.EVENT_EPOLL_SLOTS + i : Nat))

/-- The function `event_slot_alloc`. -/
def event_slot_alloc (k : Consts) (w : World) (fd : Int) (calloc_ok : Bool) : World × Int :=
  let r := __event_slot_alloc k w.pool fd calloc_ok
  ({ w with pool := r.1 }, r.2)

/-- Block index and offset of a handle (`idx / EVENT_EPOLL_SLOTS`,
`idx % EVENT_EPOLL_SLOTS`); `none` when the block index falls outside `ereg`. -/
def locate (k : Consts) (idx : Int) : Option SlotPtr :=
  if 0 ≤ idx ∧ 0 < k.EVENT_EPOLL_SLOTS ∧
      idx.toNat / k.EVENT_EPOLL_SLOTS < k.EVENT_EPOLL_TABLES then
    some (idx.toNat / k.EVENT_EPOLL_SLOTS, idx.toNat % k.EVENT_EPOLL_SLOTS)
  else none

/-- The function `__event_slot_dealloc`. -/
def __event_slot_dealloc (k : Consts) (w : World) (idx : Int) : Res World :=
  match locate k idx with
  | none => .fault .bad_index
  | some (table_idx, offset) =>
    match w.pool.ereg table_idx with
    | none => .ok w
    | some _ =>
      let slot := get_slot w.pool table_idx offset
      let p1 := set_slot w.pool table_idx offset { slot with gen := slot.gen + 1, fd := -1 }
      .ok (World.emit { w with pool := set_used p1 table_idx (p1.slots_used table_idx - 1) }
            (Effect.slot_dealloc idx))

/-- The function `event_slot_dealloc`. -/
def event_slot_dealloc (k : Consts) (w : World) (idx : Int) : Res World :=
  __event_slot_dealloc k w idx

/-- The function `event_slot_get`: the slot pointer is `none` for `NULL`. -/
def event_slot_get (k : Consts) (w : World) (idx : Int) : Res (World × Option SlotPtr) :=
  match locate k idx with
  | none => .fault .bad_index
  | some (table_idx, offset) =>
    match w.pool.ereg table_idx with
    | none => .ok (w, none)
    | some _ =>
      let slot := get_slot w.pool table_idx offset
      .ok (w.put table_idx offset { slot with ref := slot.ref + 1 }, some (table_idx, offset))

/-- The function `event_slot_unref`. -/
def event_slot_unref (k : Consts) (w : World) (slot : SlotPtr) (idx : Int) : Res World :=
  let s := get_slot w.pool slot.1 slot.2
  let ref := s.ref - 1
  let fd := s.fd
  let do_close := s.do_close
  let w1 : World := w.put slot.1 slot.2 { s with ref := ref }
  if ref ≠ 0 then .ok w1
  else
    match event_slot_dealloc k w1 idx with
    | .fault e => .fault e
    | .ok w2 =>
      if do_close ≠ 0 then .ok (w2.emit (Effect.close fd))
      else .ok w2

/-- The function `event_pool_new_epoll`; `epfd` is what `epoll_create` returns. -/
def event_pool_new_epoll (count eventthreadcount : Int) (calloc_ok : Bool) (epfd : Int) :
    Option event_pool :=
  if calloc_ok then
    if epfd = -1 then none
    else some { fd := epfd, count := count, ereg := fun _ => none, slots_used := fun _ => 0,
                destroy := 0, eventthreadcount := eventthreadcount, activethreadcount := 0,
                pollers := fun _ => 0 }
  else none

/-! ## Registration, unregistration, interest change -/

/-- The function `__slot_update_events`. -/
def __slot_update_events (slot : event_slot_epoll) (poll_in poll_out : Int) :
    event_slot_epoll :=
  let s1 : event_slot_epoll :=
    if poll_in = 1 then { slot with events := slot.events ||| EPOLLIN }
    else if poll_in = 0 then { slot with events := slot.events &&& bnot32 EPOLLIN }
    else slot
  if poll_out = 1 then { s1 with events := s1.events ||| EPOLLOUT }
  else if poll_out = 0 then { s1 with events := s1.events &&& bnot32 EPOLLOUT }
  else s1

/-- The function `event_register_epoll`. -/
def event_register_epoll (k : Consts) (w : World) (event_pool : PoolPtr) (fd : Int)
    (handler data : Nat) (poll_in poll_out : Int) (calloc_ok ctl_ok : Bool) :
    Res (World × Int) :=
  match event_pool with
  | none => .ok (w, -1)
  | some _ =>
    if w.pool.destroy = 1 then .ok (w, -1)
    else
      let a := event_slot_alloc k w fd calloc_ok
      let idx := a.2
      if idx = -1 then .ok (a.1, -1)
      else
        match event_slot_get k a.1 idx with
        | .fault e => .fault e
        | .ok (_, none) => .fault .null_slot
        | .ok (w2, some slot) =>
          if (get_slot w2.pool slot.1 slot.2).fd ≠ fd then .fault .assertion
          else
            let s := get_slot w2.pool slot.1 slot.2
            let s1 := __slot_update_events
              { s with events := EPOLLET, handler := handler, data := data } poll_in poll_out
            let ret := epoll_ctl ctl_ok fd
            let w3 : World :=
              (w2.put slot.1 slot.2 s1).emit (Effect.ctl_add fd s1.events idx s1.gen)
            if ret = -1 then
              match event_slot_unref k w3 slot idx with
              | .fault e => .fault e
              | .ok w4 => .ok (w4, -1)
            else .ok (w3, idx)

/-- The function `event_unregister_epoll_common`. -/
def event_unregister_epoll_common (k : Consts) (w : World) (event_pool : PoolPtr) (fd : Int)
    (idx : Int) (do_close : Int) (ctl_ok : Bool) : Res (World × Int) :=
  match event_pool with
  | none => .ok (w, -1)
  | some _ =>
    match event_slot_get k w idx with
    | .fault e => .fault e
    | .ok (_, none) => .fault .null_slot
    | .ok (w1, some slot) =>
      if (get_slot w1.pool slot.1 slot.2).fd ≠ fd then .fault .assertion
      else
        let ret := epoll_ctl ctl_ok fd
        let s := get_slot w1.pool slot.1 slot.2
        let w2 : World :=
          if ret = -1 then w1.emit (Effect.ctl_del fd)
          else (w1.emit (Effect.ctl_del fd)).put slot.1 slot.2
                 { s with do_close := do_close, gen := s.gen + 1 }
        match event_slot_unref k w2 slot idx with
        | .fault e => .fault e
        | .ok w3 =>
          match event_slot_unref k w3 slot idx with
          | .fault e => .fault e
          | .ok w4 => .ok (w4, ret)

/-- The function `event_unregister_epoll`. -/
def event_unregister_epoll (k : Consts) (w : World) (event_pool : PoolPtr) (fd : Int)
    (idx_hint : Int) (ctl_ok : Bool) : Res (World × Int) :=
  event_unregister_epoll_common k w event_pool fd idx_hint 0 ctl_ok

/-- The function `event_unregister_close_epoll`. -/
def event_unregister_close_epoll (k : Consts) (w : World) (event_pool : PoolPtr) (fd : Int)
    (idx_hint : Int) (ctl_ok : Bool) : Res (World × Int) :=
  event_unregister_epoll_common k w event_pool fd idx_hint 1 ctl_ok

/-- The function `event_select_on_epoll`. -/
def event_select_on_epoll (k : Consts) (w : World) (event_pool : PoolPtr) (fd : Int)
    (idx : Int) (poll_in poll_out : Int) (ctl_ok : Bool) : Res (World × Int) :=
  match event_pool with
  | none => .ok (w, idx)
  | some _ =>
    match event_slot_get k w idx with
    | .fault e => .fault e
    | .ok (_, none) => .fault .null_slot
    | .ok (w1, some slot) =>
      if (get_slot w1.pool slot.1 slot.2).fd ≠ fd then .fault .assertion
      else
        let s1 := __slot_update_events (get_slot w1.pool slot.1 slot.2) poll_in poll_out
        let _ret := epoll_ctl ctl_ok fd
        let w2 : World :=
          if s1.in_handler ≠ 0 then w1.put slot.1 slot.2 s1
          else (w1.put slot.1 slot.2 s1).emit (Effect.ctl_mod fd s1.events idx s1.gen)
        match event_slot_unref k w2 slot idx with
        | .fault e => .fault e
        | .ok w3 => .ok (w3, idx)

/-! ## Worker threads: reconfiguration -/

/-- Store a thread identity in `pollers[i]`. -/
def World.set_poller (w : World) (i : Nat) (t_id : Nat) : World :=
  { w with pool := { w.pool with pollers := Function.update w.pool.pollers i t_id } }

/-- Store the desired thread count. -/
def World.set_eventthreadcount (w : World) (value : Int) : World :=
  { w with pool := { w.pool with eventthreadcount := value } }

/-- What happens when `event_reconfigure_threads_epoll` tries to start the worker
for one array index. -/
inductive SpawnResult
  | calloc_failed
  | create_failed
  | created (t_id : Nat)

/-- The loop of `event_reconfigure_threads_epoll`: `n` iterations from index `i`. -/
def spawn_loop (spawn : Nat → SpawnResult) (w : World) : Nat → Nat → World
  | 0, _ => w
  | n + 1, i =>
    let w1 : World :=
      if w.pool.pollers i = 0 then
        match spawn i with
        | .calloc_failed => w
        | .create_failed => w.emit (Effect.pthread_create (i + 1) false)
        | .created t_id =>
          (w.set_poller i t_id).emit (Effect.pthread_create (i + 1) true)
      else w
    spawn_loop spawn w1 n (i + 1)

/-- The function `event_reconfigure_threads_epoll`. -/
def event_reconfigure_threads_epoll (k : Consts) (w : World) (value : Int)
    (spawn : Nat → SpawnResult) : Res (World × Int) :=
  let value1 : Int :=
    if w.pool.destroy = 1 then 0
    else
      let v : Int := if value > k.EVENT_MAX_THREADS then k.EVENT_MAX_THREADS else value
      if v ≤ 0 then 1 else v
  let oldthreadcount := w.pool.eventthreadcount
  if oldthreadcount < value1 then
    if oldthreadcount < 0 then .fault .bad_index
    else
      let w1 := spawn_loop spawn w (value1 - oldthreadcount).toNat oldthreadcount.toNat
      .ok (w1.set_eventthreadcount value1, 0)
  else
    .ok (w.set_eventthreadcount value1, 0)

/-! ## Dispatch of one event -/

/-- A call of the engine made while a handler runs (by the handler itself or by
another thread), with the results of the environment it meets. -/
inductive Call
  | register (fd : Int) (handler data : Nat) (poll_in poll_out : Int)
      (calloc_ok ctl_ok : Bool)
  | select_on (fd : Int) (idx : Int) (poll_in poll_out : Int) (ctl_ok : Bool)
  | unregister (fd : Int) (idx : Int) (do_close : Int) (ctl_ok : Bool)
  | reconfigure_threads (value : Int) (spawn : Nat → SpawnResult)

/-- Run one call on a valid pool pointer, dropping the returned value. -/
def run_call (k : Consts) (w : World) : Call → Res World
  | .register fd handler data poll_in poll_out calloc_ok ctl_ok =>
    match event_register_epoll k w (some ()) fd handler data poll_in poll_out calloc_ok ctl_ok with
    | .ok r => .ok r.1
    | .fault e => .fault e
  | .select_on fd idx poll_in poll_out ctl_ok =>
    match event_select_on_epoll k w (some ()) fd idx poll_in poll_out ctl_ok with
    | .ok r => .ok r.1
    | .fault e => .fault e
  | .unregister fd idx do_close ctl_ok =>
    match event_unregister_epoll_common k w (some ()) fd idx do_close ctl_ok with
    | .ok r => .ok r.1
    | .fault e => .fault e
  | .reconfigure_threads value spawn =>
    match event_reconfigure_threads_epoll k w value spawn with
    | .ok r => .ok r.1
    | .fault e => .fault e

/-- Run calls one after the other. -/
def run_calls (k : Consts) (w : World) : List Call → Res World
  | [] => .ok w
  | c :: cs =>
    match run_call k w c with
    | .ok w1 => run_calls k w1 cs
    | .fault e => .fault e

/-- What the first locked section of `event_dispatch_epoll_handler` leaves in
the local variables. -/
structure Captured where
  slot : SlotPtr
  fd : Int
  handler : Nat
  data : Nat

/-- The part of `event_dispatch_epoll_handler` up to `pre_unlock`. -/
def dispatch_enter (k : Consts) (w : World) (event : epoll_event) : Res (World × Captured) :=
  match event_slot_get k w event.idx with
  | .fault e => .fault e
  | .ok (_, none) => .fault .null_slot
  | .ok (w1, some slot) =>
    let s := get_slot w1.pool slot.1 slot.2
    let fd := s.fd
    if fd = -1 then .ok (w1, { slot := slot, fd := fd, handler := 0, data := 0 })
    else if event.gen ≠ s.gen then .ok (w1, { slot := slot, fd := fd, handler := 0, data := 0 })
    else
      .ok (w1.put slot.1 slot.2 { s with in_handler := s.in_handler + 1 },
           { slot := slot, fd := fd, handler := s.handler, data := s.data })

/-- The part of `event_dispatch_epoll_handler` after the handler has returned
`handler_ret`. -/
def dispatch_leave (k : Consts) (w : World) (event : epoll_event) (c : Captured)
    (handler_ret : Int) (mod_ok : Bool) : Res (World × Int) :=
  let s := get_slot w.pool c.slot.1 c.slot.2
  let s1 : event_slot_epoll := { s with in_handler := s.in_handler - 1 }
  let w1 := w.put c.slot.1 c.slot.2 s1
  let r : World × Int :=
    if event.gen ≠ s1.gen then (w1, handler_ret)
    else if s1.in_handler = 0 then
      (w1.emit (Effect.ctl_mod c.fd s1.events event.idx event.gen), epoll_ctl mod_ok c.fd)
    else (w1, handler_ret)
  match event_slot_unref k r.1 c.slot event.idx with
  | .fault e => .fault e
  | .ok w2 => .ok (w2, r.2)

/-- The function `event_dispatch_epoll_handler`. `body` lists the engine calls
made while the handler runs and `handler_ret` is what the handler returns. -/
def event_dispatch_epoll_handler (k : Consts) (w : World) (event : epoll_event)
    (body : List Call) (handler_ret : Int) (mod_ok : Bool) : Res (World × Int) :=
  match dispatch_enter k w event with
  | .fault e => .fault e
  | .ok (w1, c) =>
    if c.handler = 0 then
      match event_slot_unref k w1 c.slot event.idx with
      | .fault e => .fault e
      | .ok w2 => .ok (w2, -1)
    else
      let w2 : World :=
        w1.emit (Effect.handler c.handler c.fd event.idx c.data
                  (event.events &&& (EPOLLIN ||| EPOLLPRI))
                  (event.events &&& EPOLLOUT)
                  (event.events &&& (EPOLLERR ||| EPOLLHUP)))
      match run_calls k w2 body with
      | .fault e => .fault e
      | .ok w3 => dispatch_leave k w3 event c handler_ret mod_ok

/-! ## Sequences of engine operations -/

/-- One operation of the engine as seen from outside. -/
inductive Op
  | call (c : Call)
  | dispatch (event : epoll_event) (body : List Call) (handler_ret : Int) (mod_ok : Bool)

/-- Run one operation, dropping the returned value. -/
def run_op (k : Consts) (w : World) : Op → Res World
  | .call c => run_call k w c
  | .dispatch event body handler_ret mod_ok =>
    match event_dispatch_epoll_handler k w event body handler_ret mod_ok with
    | .ok r => .ok r.1
    | .fault e => .fault e

/-- Run operations one after the other. -/
def run_ops (k : Consts) (w : World) : List Op → Res World
  | [] => .ok w
  | o :: os =>
    match run_op k w o with
    | .ok w1 => run_ops k w1 os
    | .fault e => .fault e

/-! ## Predicates used in the statements -/

/-- Whether block `t` of the pool has been created. -/
def block_exists (p : event_pool) (t : Nat) : Prop := (p.ereg t).isSome = true

instance (p : event_pool) (t : Nat) : Decidable (block_exists p t) := by
  unfold block_exists; infer_instance

/-- Whether a log entry is a handler call. -/
def Effect.is_handler_call : Effect → Bool
  | .handler _ _ _ _ _ _ _ => true
  | _ => false

/-- Whether a log entry is a kernel call `epoll_ctl`. -/
def Effect.is_kernel_ctl : Effect → Bool
  | .ctl_add _ _ _ _ => true
  | .ctl_mod _ _ _ _ => true
  | .ctl_del _ => true
  | _ => false

/-- The world after `__event_slot_dealloc` ran on the slot `(t, i)` of an
existing block. -/
def dealloc_world (w : World) (idx : Int) (t i : Nat) : World :=
  World.emit
    { w with pool := set_used (set_slot w.pool t i { get_slot w.pool t i with
          gen := (get_slot w.pool t i).gen + 1, fd := -1 }) t (w.pool.slots_used t - 1) }
    (Effect.slot_dealloc idx)

/-- Blocks persist and no generation decreases from `p` to `q`. -/
def PoolLe (p q : event_pool) : Prop :=
  ∀ t, block_exists p t → block_exists q t ∧ ∀ i, (get_slot p t i).gen ≤ (get_slot q t i).gen

/-- From `w` to `w1` blocks persist, no generation decreases, and the log grows
by entries that are not handler calls. -/
def Quiet (w w1 : World) : Prop :=
  PoolLe w.pool w1.pool ∧
    ∃ extra, w1.trace = w.trace ++ extra ∧ ∀ e ∈ extra, Effect.is_handler_call e = false

/-- Number of offsets below `n` whose slot holds a descriptor. -/
def count_used (table : SlotTable) : Nat → Nat
  | 0 => 0
  | n + 1 => count_used table n + (if (table n).fd = -1 then 0 else 1)

/-- The used-count of every block agrees with its slots: a block that has not
been created counts `0`, a created block counts its slots whose `fd` is not
`-1`. -/
def Consistent (k : Consts) (p : event_pool) : Prop :=
  ∀ t, t < k.EVENT_EPOLL_TABLES →
    match p.ereg t with
    | none => p.slots_used t = 0
    | some table => p.slots_used t = count_used table k.EVENT_EPOLL_SLOTS

/-- The slot `(t, i)` can be handed out: its block has not been created yet or
its `fd` is `-1`. -/
def slot_free (p : event_pool) (t i : Nat) : Prop :=
  ¬ block_exists p t ∨ (get_slot p t i).fd = -1

instance (p : event_pool) (t i : Nat) : Decidable (slot_free p t i) := by
  unfold slot_free; infer_instance

/-- The first loop of `__event_slot_alloc` passes over block `j`: its used-count
says full, or the block has not been created although its used-count is not `0`. -/
def block_skipped (k : Consts) (p : event_pool) (j : Nat) : Prop :=
  p.slots_used j = k.EVENT_EPOLL_SLOTS ∨ (p.ereg j = none ∧ p.slots_used j ≠ 0)

/-- The slot that `__event_slot_alloc` writes when it takes an offset whose slot
was `s`, for the descriptor `fd`. -/
def taken_slot (s : event_slot_epoll) (fd : Int) : event_slot_epoll :=
  { zero_slot with gen := s.gen + 1, fd := fd }

/-- The slot that `event_register_epoll` leaves behind when it found the slot as
`s` right after the allocation: one more reference, the handler and the data
stored, and the mask set from `EPOLLET` and the two interest arguments. -/
def registered_slot (s : event_slot_epoll) (handler data : Nat) (poll_in poll_out : Int) :
    event_slot_epoll :=
  __slot_update_events
    { s with ref := s.ref + 1, events := EPOLLET, handler := handler, data := data }
    poll_in poll_out

/-- The slot `(t, i)` lies in an existing block, holds the descriptor `fd` and has
at least `n` references. -/
def slot_holds (p : event_pool) (t i : Nat) (fd : Int) (n : Int) : Prop :=
  block_exists p t ∧ (get_slot p t i).fd = fd ∧ n ≤ (get_slot p t i).ref

/-- Whether a call is an unregistration of the handle `h`. -/
def Call.unregisters (h : Int) : Call → Bool
  | .unregister _ idx _ _ => decide (idx = h)
  | _ => false

/-- Whether an operation unregisters the handle `h`, at top level or while a
handler runs. -/
def Op.unregisters (h : Int) : Op → Bool
  | .call c => c.unregisters h
  | .dispatch _ body _ _ => body.any (Call.unregisters h)

/-- The world in which the handler of a live event on slot `(t, i)` runs: the
dispatch holds its borrow, the in-handler count is raised and the handler call
is logged. -/
def handler_world (w : World) (event : epoll_event) (t i : Nat) : World :=
  (w.put t i { get_slot w.pool t i with
      ref := (get_slot w.pool t i).ref + 1,
      in_handler := (get_slot w.pool t i).in_handler + 1 }).emit
    (Effect.handler (get_slot w.pool t i).handler (get_slot w.pool t i).fd event.idx
      (get_slot w.pool t i).data
      (event.events &&& (EPOLLIN ||| EPOLLPRI))
      (event.events &&& EPOLLOUT)
      (event.events &&& (EPOLLERR ||| EPOLLHUP)))

/-- Every slot that holds a descriptor has at least one reference. -/
def busy_slots_referenced (p : event_pool) : Prop :=
  ∀ t i, block_exists p t → (get_slot p t i).fd ≠ -1 → 1 ≤ (get_slot p t i).ref

/-! ## Sequences of interest changes -/

/-- The calls `event_select_on_epoll (fd, idx, poll_in, poll_out)` for a list of
interest arguments `(poll_in, poll_out, does the kernel modify succeed)`. -/
def select_calls (fd idx : Int) (sel : List (Int × Int × Bool)) : List Call :=
  sel.map (fun a => Call.select_on fd idx a.1 a.2.1 a.2.2)

/-- The slot after `__slot_update_events` has been applied for each pair of
interest arguments in order. -/
def apply_selects (s : event_slot_epoll) (sel : List (Int × Int × Bool)) : event_slot_epoll :=
  sel.foldl (fun s1 a => __slot_update_events s1 a.1 a.2.1) s

/-! ## Worker threads: start of the dispatch, life of a worker -/

/-- Store the number of active threads. -/
def World.set_activethreadcount (w : World) (v : Int) : World :=
  { w with pool := { w.pool with activethreadcount := v } }

/-- The loop of `event_dispatch_epoll` that starts the workers: `n` iterations
from index `i`. A failure at index `0` leaves the loop. -/
def dispatch_spawn_loop (spawn : Nat → SpawnResult) (w : World) : Nat → Nat → World
  | 0, _ => w
  | n + 1, i =>
    match spawn i with
    | .calloc_failed => if i = 0 then w else dispatch_spawn_loop spawn w n (i + 1)
    | .create_failed =>
      if i = 0 then w.emit (Effect.pthread_create (i + 1) false)
      else dispatch_spawn_loop spawn (w.emit (Effect.pthread_create (i + 1) false)) n (i + 1)
    | .created t_id =>
      dispatch_spawn_loop spawn
        ((w.set_poller i t_id).emit (Effect.pthread_create (i + 1) true)) n (i + 1)

/-- The first locked section of `event_dispatch_epoll`: the caller counts itself
as active and starts the workers. -/
def event_dispatch_epoll_start (k : Consts) (w : World) (spawn : Nat → SpawnResult) : World :=
  let pollercount0 : Int := w.pool.eventthreadcount
  let pollercount1 : Int :=
    if pollercount0 > k.EVENT_MAX_THREADS then k.EVENT_MAX_THREADS else pollercount0
  let pollercount : Int := if pollercount1 ≤ 0 then 1 else pollercount1
  dispatch_spawn_loop spawn (w.set_activethreadcount (w.pool.activethreadcount + 1))
    pollercount.toNat 0

/-- The entry of `event_dispatch_epoll_worker`: the worker counts itself as
active. -/
def worker_enter (w : World) : World :=
  w.set_activethreadcount (w.pool.activethreadcount + 1)

/-- The check at the top of the loop of `event_dispatch_epoll_worker`, for the
worker with index `myindex`; the value returned is `timetodie`. -/
def worker_check_exit (w : World) (myindex : Nat) : Res (World × Bool) :=
  if w.pool.eventthreadcount < myindex then
    if myindex = 0 then .fault .bad_index
    else
      .ok ((w.set_poller (myindex - 1) 0).set_activethreadcount (w.pool.activethreadcount - 1),
           true)
  else .ok (w, false)

/-- The indices of the worker threads that the log entries created: one for
each `pthread_create` that succeeded. -/
def created_threads : List Effect → List Nat
  | [] => []
  | .pthread_create event_index true :: es => event_index :: created_threads es
  | _ :: es => created_threads es

/-- The pool and log together with the worker threads alive: `created` lists the
indices of the workers that exist and have not yet counted themselves as active,
`running` those that have and have not yet terminated. -/
structure ThreadSys where
  world : World
  created : List Nat
  running : List Nat

/-- A step of the thread system. -/
inductive ThreadStep
  | dispatch_entry (spawn : Nat → SpawnResult)
  | worker_start (myindex : Nat)
  | worker_exit (myindex : Nat)
  | reconfigure (value : Int) (spawn : Nat → SpawnResult)

/-- One step of the thread system; `none` when the step cannot be taken. -/
def thread_step (k : Consts) (s : ThreadSys) : ThreadStep → Option ThreadSys
  | .dispatch_entry spawn =>
    some { world := event_dispatch_epoll_start k s.world spawn,
           created := s.created ++
             created_threads ((event_dispatch_epoll_start k s.world spawn).trace.drop
               s.world.trace.length),
           running := s.running }
  | .worker_start myindex =>
    if myindex ∈ s.created then
      some { world := worker_enter s.world, created := s.created.erase myindex,
             running := myindex :: s.running }
    else none
  | .worker_exit myindex =>
    if myindex ∈ s.running then
      match worker_check_exit s.world myindex with
      | .ok (w1, true) =>
        some { world := w1, created := s.created, running := s.running.erase myindex }
      | _ => none
    else none
  | .reconfigure value spawn =>
    match event_reconfigure_threads_epoll k s.world value spawn with
    | .ok (w1, _) =>
      some { world := w1,
             created := s.created ++ created_threads (w1.trace.drop s.world.trace.length),
             running := s.running }
    | .fault _ => none

/-- Steps of the thread system one after the other. -/
def thread_steps (k : Consts) (s : ThreadSys) : List ThreadStep → Option ThreadSys
  | [] => some s
  | o :: os =>
    match thread_step k s o with
    | some s1 => thread_steps k s1 os
    | none => none

/-- Whether a step is an entry into `event_dispatch_epoll`. -/
def ThreadStep.is_dispatch_entry : ThreadStep → Bool
  | .dispatch_entry _ => true
  | _ => false

/-- Thread identities returned by `pthread_create` are not `0`. -/
def valid_spawn (spawn : Nat → SpawnResult) : Prop :=
  ∀ i t_id, spawn i = SpawnResult.created t_id → t_id ≠ 0

/-- The `pthread_create` calls of a step return thread identities that are not
`0`. -/
def ThreadStep.valid : ThreadStep → Prop
  | .dispatch_entry spawn => valid_spawn spawn
  | .reconfigure _ spawn => valid_spawn spawn
  | _ => True

/-- The thread system of a pool on which no thread has been started. -/
def ThreadSys.init (p : event_pool) : ThreadSys :=
  { world := { pool := p, trace := [] }, created := [], running := [] }

/-- What holds of the thread system once the dispatch has been entered from a
new pool: no two living workers have the same index, every living worker has an
index between `1` and `EVENT_MAX_THREADS` and an occupied thread-identity slot,
and the active count is one (the thread that entered the dispatch) more than
the number of running workers. -/
def thread_inv (k : Consts) (s : ThreadSys) : Prop :=
  (s.created ++ s.running).Nodup ∧
  (∀ j ∈ s.created ++ s.running,
    1 ≤ j ∧ j ≤ k.EVENT_MAX_THREADS ∧ s.world.pool.pollers (j - 1) ≠ 0) ∧
  s.world.pool.activethreadcount = 1 + (s.running.length : Int)

/-- The slot `(t, i)` lies in an existing block and has the given descriptor,
generation, reference count and in-handler count. -/
def slot_is (p : event_pool) (t i : Nat) (fd gen ref in_handler : Int) : Prop :=
  block_exists p t ∧ (get_slot p t i).fd = fd ∧ (get_slot p t i).gen = gen ∧
    (get_slot p t i).ref = ref ∧ (get_slot p t i).in_handler = in_handler

/-- Whether a call leaves the registration of the handle `h`, which holds the
descriptor `fd`, alone: it is not an unregistration of `h` and not a
registration of `fd`. -/
def Call.leaves (h : Int) (fd : Int) : Call → Bool
  | .register fd1 _ _ _ _ _ _ => decide (fd1 ≠ fd)
  | .unregister _ idx _ _ => decide (idx ≠ h)
  | _ => true

/-- The thread identity that an attempt to start a worker leaves to be recorded:
the new identity when `pthread_create` succeeded, nothing (`0`, the entry stays
vacant) otherwise. -/
def spawned_id : SpawnResult → Nat
  | .created t_id => t_id
  | _ => 0

/-- The call of `pthread_create` made by an attempt to start the worker for the
array index `i`: none when the allocation of the thread data failed. -/
def spawn_effect (i : Nat) : SpawnResult → Option Effect
  | .calloc_failed => none
  | .create_failed => some (Effect.pthread_create (i + 1) false)
  | .created _ => some (Effect.pthread_create (i + 1) true)

/-- The calls of `pthread_create` of one attempt for each vacant index among the
`n` indices from `i`, in increasing order of the index. -/
def spawn_attempts (spawn : Nat → SpawnResult) (pollers : Nat → Nat) (i n : Nat) :
    List Effect :=
  (List.range' i n).filterMap
    (fun m => if pollers m = 0 then spawn_effect m (spawn m) else none)

/-! ## Concrete worlds used to instantiate the theorems -/

/-- Small constants: two blocks of two slots, at most four threads. -/
def small_consts : Consts :=
  { EVENT_EPOLL_SLOTS := 2, EVENT_EPOLL_TABLES := 2, EVENT_MAX_THREADS := 4 }

/-- A pool as `event_pool_new_epoll 16 1` leaves it when `epoll_create` returns
`3`, with an empty log. -/
def new_world : World :=
  { pool := { fd := 3, count := 16, ereg := fun _ => none, slots_used := fun _ => 0,
              destroy := 0, eventthreadcount := 1, activethreadcount := 0,
              pollers := fun _ => 0 },
    trace := [] }

/-- The world of a result, or `new_world` after a fault. -/
def Res.world (r : Res (World × Int)) : World :=
  match r with
  | .ok (w, _) => w
  | .fault _ => new_world

/-- The world after registering descriptor `5` (handler `7`, data `9`, readable
only) in `new_world`; the handle is `0`, the tag is `(0, 1)`. -/
def world_registered : World :=
  (event_register_epoll small_consts new_world (some ()) 5 7 9 1 0 true true).world

/-- The world after then unregistering descriptor `5` at handle `0` with a
successful kernel delete and the close flag set. -/
def world_unregistered : World :=
  (event_unregister_epoll_common small_consts world_registered (some ()) 5 0 1 true).world

/-- The world after then registering descriptor `6` (handler `8`), which takes
handle `0` again. -/
def world_reused : World :=
  (event_register_epoll small_consts world_unregistered (some ()) 6 8 0 1 1 true true).world

/-- The world after registering descriptor `5` with a `NULL` handler in
`new_world`. -/
def world_null_handler : World :=
  (event_register_epoll small_consts new_world (some ()) 5 0 9 1 0 true true).world

/-- Operations after which handle `0` of `world_registered` is still registered:
selectOn on it, a live event for it whose handler changes the interest, the
registration of descriptor `6` (handle `1`), a stale event for handle `1`, the
unregistration of handle `1`, and a reconfiguration to two threads. -/
def stable_ops : List Op :=
  [Op.call (Call.select_on 5 0 1 1 true),
   Op.dispatch { events := 1, idx := 0, gen := 1 } [Call.select_on 5 0 0 1 true] 0 true,
   Op.call (Call.register 6 8 0 1 0 true true),
   Op.dispatch { events := 1, idx := 1, gen := 7 } [] 0 true,
   Op.call (Call.unregister 6 1 0 true),
   Op.call (Call.reconfigure_threads 2 (fun _ => SpawnResult.created 11))]

/-- The world after running `stable_ops` in `world_registered`. -/
def world_after_stable_ops : World :=
  match run_ops small_consts world_registered stable_ops with
  | .ok w => w
  | .fault _ => new_world

/-- The world `world_registered` with the pool's destroy flag set. -/
def world_destroying : World :=
  { pool := { world_registered.pool with destroy := 1 }, trace := world_registered.trace }

/-- The world after registering descriptor `5` in `new_world` with both interest
arguments `-1`. -/
def world_registered_unspecified : World :=
  (event_register_epoll small_consts new_world (some ()) 5 7 9 (-1) (-1) true true).world

/-- The world after a first worker has entered the dispatch of the event tagged
`(0, 1)` in `world_registered` and has not yet left its handler. -/
def world_in_handler : World :=
  match dispatch_enter small_consts world_registered { events := EPOLLIN, idx := 0, gen := 1 } with
  | .ok (w, _) => w
  | .fault _ => new_world

/-- The pool that `event_pool_new_epoll (16, 4)` returns when `epoll_create`
returns `3`. -/
def pool_four_threads : event_pool :=
  { fd := 3, count := 16, ereg := fun _ => none, slots_used := fun _ => 0,
    destroy := 0, eventthreadcount := 4, activethreadcount := 0, pollers := fun _ => 0 }

/-- A `pthread_create` that always succeeds and returns the identity `i + 100`
for array index `i`. -/
def spawn_all : Nat → SpawnResult := fun i => SpawnResult.created (i + 100)

/-- Steps after the entry into the dispatch: three workers start, the desired
count is lowered to `2`, worker `3` terminates, worker `4` starts and
terminates, the desired count is raised to `9` (clamped to `4`), and the two
new workers start. -/
def sample_thread_steps : List ThreadStep :=
  [ThreadStep.worker_start 1, ThreadStep.worker_start 2, ThreadStep.worker_start 3,
   ThreadStep.reconfigure 2 spawn_all, ThreadStep.worker_exit 3, ThreadStep.worker_start 4,
   ThreadStep.worker_exit 4, ThreadStep.reconfigure 9 spawn_all,
   ThreadStep.worker_start 3, ThreadStep.worker_start 4]

/-- The thread system after the entry into the dispatch on `pool_four_threads`
and `sample_thread_steps`. -/
def sample_thread_sys : ThreadSys :=
  match thread_steps small_consts (ThreadSys.init pool_four_threads)
      (ThreadStep.dispatch_entry spawn_all :: sample_thread_steps) with
  | some s => s
  | none => ThreadSys.init pool_four_threads

/-- The world after registering the descriptors `5`, `6`, `7` and `8` in
`new_world`: every slot of both blocks holds a descriptor. -/
def world_full : World :=
  match run_ops small_consts new_world
      [Op.call (Call.register 5 7 9 1 0 true true), Op.call (Call.register 6 7 9 1 0 true true),
       Op.call (Call.register 7 7 9 1 0 true true),
       Op.call (Call.register 8 7 9 1 0 true true)] with
  | .ok w => w
  | .fault _ => new_world

/-- Descriptor `5` is registered at handle `0` and unregistered with the close
flag, and the event tagged `(0, 1)`, queued before the unregistration, is then
dispatched. -/
def stale_ops : List Op :=
  [Op.call (Call.register 5 7 9 1 0 true true), Op.call (Call.unregister 5 0 1 true),
   Op.dispatch { events := 1, idx := 0, gen := 1 } [] 0 true]

/-- The world after running `stale_ops` in `new_world`. -/
def world_miscounted : World :=
  match run_ops small_consts new_world stale_ops with
  | .ok w => w
  | .fault _ => new_world

/-- The world after then registering the descriptors `6` and `7`. -/
def world_miscounted_full : World :=
  match run_ops small_consts world_miscounted
      [Op.call (Call.register 6 7 9 1 0 true true),
       Op.call (Call.register 7 7 9 1 0 true true)] with
  | .ok w => w
  | .fault _ => new_world

/-- Calls made while the handler of handle `0` of `world_registered` runs: an
interest change on the handle, the registration of descriptor `6`, and a
reconfiguration to two threads. -/
def handler_calls : List Call :=
  [Call.select_on 5 0 0 1 true, Call.register 6 8 0 1 0 true true,
   Call.reconfigure_threads 2 spawn_all]

/-- The world in which the handler of the event tagged `(0, 1)` returns after
`handler_calls`, started in `world_registered`. -/
def world_handler_returned : World :=
  match run_calls small_consts
      (handler_world world_registered { events := EPOLLIN, idx := 0, gen := 1 } 0 0)
      handler_calls with
  | .ok w => w
  | .fault _ => new_world

/-- The pool that `event_pool_new_epoll (16, 0)` returns when `epoll_create`
returns `3`. -/
def pool_zero_threads : event_pool :=
  { fd := 3, count := 16, ereg := fun _ => none, slots_used := fun _ => 0,
    destroy := 0, eventthreadcount := 0, activethreadcount := 0, pollers := fun _ => 0 }

/-- The world after raising the desired thread count of `new_world` to `3` and
lowering it to `1` again: the entries of the indices `1` and `2` still hold the
identities of their workers. -/
def world_shrunk : World :=
  match run_calls small_consts new_world
      [Call.reconfigure_threads 3 spawn_all, Call.reconfigure_threads 1 spawn_all] with
  | .ok w => w
  | .fault _ => new_world

/-- Descriptors `5`, `6` and `7` are registered (handles `0`, `1`, `2`), handle `0` is
unregistered, the event tagged `(0, 1)`, queued before the unregistration, is
dispatched, and descriptor `8` is registered (it takes handle `0` again). -/
def alias_ops : List Op :=
  [Op.call (Call.register 5 7 9 1 0 true true), Op.call (Call.register 6 7 9 1 0 true true),
   Op.call (Call.register 7 7 9 1 0 true true), Op.call (Call.unregister 5 0 0 true),
   Op.dispatch { events := 1, idx := 0, gen := 1 } [] 0 true,
   Op.call (Call.register 8 7 9 1 0 true true)]

/-- The world after running `alias_ops` in `new_world`: both slots of block `0`
hold a descriptor while its used-count is `1`; in block `1` slot `0` holds
descriptor `7` and slot `1` is free. -/
def world_alias : World :=
  match run_ops small_consts new_world alias_ops with
  | .ok w => w
  | .fault _ => new_world

/-- The world after registering descriptor `7` a second time in `world_alias`. -/
def world_alias_again : World :=
  (event_register_epoll small_consts world_alias (some ()) 7 8 10 1 1 true true).world

/-- The pool that `event_pool_new_epoll (16, n)` returns when `epoll_create`
returns `3`. -/
def pool_of_count (n : Int) : event_pool :=
  { fd := 3, count := 16, ereg := fun _ => none, slots_used := fun _ => 0,
    destroy := 0, eventthreadcount := n, activethreadcount := 0, pollers := fun _ => 0 }

/-- The world in which the handler of the event tagged `(0, 1)` of
`world_registered` has unregistered handle `0` with a succeeding kernel delete. -/
def world_unregistered_in_handler : World :=
  match run_calls small_consts
      (handler_world world_registered { events := EPOLLIN, idx := 0, gen := 1 } 0 0)
      [Call.unregister 5 0 1 true] with
  | .ok w => w
  | .fault _ => new_world

/-- The world in which the handler has then unregistered handle `0` a second
time, the kernel delete failing. -/
def world_unregistered_twice : World :=
  match run_calls small_consts world_unregistered_in_handler [Call.unregister 5 0 1 false] with
  | .ok w => w
  | .fault _ => new_world

/-- The world after a second worker has dispatched the event tagged `(0, 1)` in
`world_in_handler`, its handler changing the interest of handle `0` to writing
only. -/
def world_second_dispatch : World :=
  (event_dispatch_epoll_handler small_consts world_in_handler
    { events := EPOLLIN, idx := 0, gen := 1 } (select_calls 5 0 [(0, 1, true)]) 0 true).world

end EventEpoll

/-!
# The poll event engine (`event-poll.c`)

A shallow embedding of the registration array of the fallback engine: the
search `__event_getindex`, `event_register_poll` and `event_unregister_poll`.

* The array `event_pool->reg` has `count` elements whenever it is not `NULL`
  (`event_pool_new_poll` and `event_register_poll` allocate it so); `reg` is
  `none` for a `NULL` array. The content of elements that `realloc` adds is
  whatever the function `reg` holds there.
* An access outside the array or through a `NULL` array and the overflow of an
  `int` are undefined behaviour: the functions then return `none`.
* Does `realloc` succeed is an argument of `event_register_poll`. The mutex and
  `errno` are not modelled.
-/

namespace EventPoll

/-! ## Constants -/

/-- The bit `POLLIN` of `<sys/poll.h>`. -/
def POLLIN : Nat := 0x001

/-- The bit `POLLPRI` of `<sys/poll.h>`. -/
def POLLPRI : Nat := 0x002

/-- The bit `POLLOUT` of `<sys/poll.h>`. -/
def POLLOUT : Nat := 0x004

/-- The largest `int`. -/
def INT_MAX : Int := 2147483647

/-- Bitwise complement of a 32-bit word. -/
def bnot32 (x : Nat) : Nat := 0xFFFFFFFF ^^^ x

/-! ## Data model -/

/-- One element of the array `event_pool->reg`; the event mask is the bit pattern
of the field `events`, handler and data pointers are numbers. -/
structure reg_entry where
  fd : Int
  events : Nat
  data : Nat
  handler : Nat
deriving DecidableEq

/-- The fields of `struct event_pool` that the poll engine's registration
functions use. -/
structure event_pool where
  count : Int
  reg : Option (Nat → reg_entry)
  used : Int
  changed : Int

/-- A pool pointer: `none` is `NULL`. -/
abbrev PoolPtr := Option Unit

/-- The element `reg[i]`, for an index inside the array. -/
def reg_read (p : event_pool) (i : Int) : Option reg_entry :=
  match p.reg with
  | none => none
  | some a => if 0 ≤ i ∧ i < p.count then some (a i.toNat) else none

/-- The assignment `reg[i] = e`, for an index inside the array. -/
def reg_write (p : event_pool) (i : Int) (e : reg_entry) : Option event_pool :=
  match p.reg with
  | none => none
  | some a =>
    if 0 ≤ i ∧ i < p.count then some { p with reg := some (Function.update a i.toNat e) }
    else none

/-! ## Search -/

/-- The loop of `__event_getindex`: `n` more iterations from index `i`. -/
def getindex_loop (p : event_pool) (fd : Int) : Nat → Nat → Option Int
  | 0, _ => some (-1)
  | n + 1, i =>
    match reg_read p i with
    | none => none
    | some e => if e.fd = fd then some (i : Int) else getindex_loop p fd n (i + 1)

/-- The function `__event_getindex`. -/
def __event_getindex (p : event_pool) (event_pool : PoolPtr) (fd idx : Int) : Option Int :=
  match event_pool with
  | none => some (-1)
  | some _ =>
    if idx > -1 ∧ idx < p.used then
      match reg_read p idx with
      | none => none
      | some e => if e.fd = fd then some idx else getindex_loop p fd p.used.toNat 0
    else getindex_loop p fd p.used.toNat 0

/-! ## Registration and unregistration -/

/-- The function `event_register_poll`. -/
def event_register_poll (p : event_pool) (event_pool : PoolPtr) (fd : Int)
    (handler data : Nat) (poll_in poll_out : Int) (realloc_ok : Bool) :
    Option (EventPoll.event_pool × Int) :=
  match event_pool with
  | none => some (p, -1)
  | some _ =>
    let grown : Option (Option EventPoll.event_pool) :=
      if p.count = p.used then
        if p.count + 256 > INT_MAX then none
        else if realloc_ok then
          some (some { p with count := p.count + 256,
                              reg := some (match p.reg with
                                           | some a => a
                                           | none => fun _ => ⟨0, 0, 0, 0⟩) })
        else some none
      else some (some p)
    match grown with
    | none => none
    | some none => some ({ p with count := p.count + 256, reg := none }, -1)
    | some (some p1) =>
      if p1.used + 1 > INT_MAX then none
      else
        let idx := p1.used
        let p2 : EventPoll.event_pool := { p1 with used := p1.used + 1 }
        let e0 : Nat := POLLPRI
        let e1 : Nat :=
          if poll_in = 1 then e0 ||| POLLIN
          else if poll_in = 0 then e0 &&& bnot32 POLLIN
          else e0
        let e2 : Nat :=
          if poll_out = 1 then e1 ||| POLLOUT
          else if poll_out = 0 then e1 &&& bnot32 POLLOUT
          else e1
        match reg_write p2 idx { fd := fd, events := e2, data := data, handler := handler } with
        | none => none
        | some p3 => some ({ p3 with changed := 1 }, idx)

/-- The function `event_unregister_poll`. -/
def event_unregister_poll (p : event_pool) (event_pool : PoolPtr) (fd idx_hint : Int) :
    Option (EventPoll.event_pool × Int) :=
  match event_pool with
  | none => some (p, -1)
  | some _ =>
    match __event_getindex p event_pool fd idx_hint with
    | none => none
    | some idx =>
      if idx = -1 then some (p, -1)
      else
        let p1 : EventPoll.event_pool := { p with used := p.used - 1 }
        match reg_read p1 p1.used with
        | none => none
        | some e =>
          match reg_write p1 idx e with
          | none => none
          | some p2 => some ({ p2 with changed := 1 }, idx)

/-! ## Predicates used in the statements -/

/-- The element `reg[i]` of a pool; an arbitrary element for a `NULL` array. -/
def get_reg (p : event_pool) (i : Nat) : reg_entry :=
  match p.reg with
  | some a => a i
  | none => ⟨0, 0, 0, 0⟩

/-- The pool is well formed: the array is allocated and `0 ≤ used ≤ count`. -/
def well_formed (p : event_pool) : Prop :=
  p.reg.isSome = true ∧ 0 ≤ p.used ∧ p.used ≤ p.count

/-- An entry with descriptor `fd` is registered: it is among `reg[0 .. used)`. -/
def registered (p : event_pool) (fd : Int) : Prop :=
  ∃ i : Nat, (i : Int) < p.used ∧ (get_reg p i).fd = fd

/-- The registered descriptors are pairwise distinct. -/
def distinct_fds (p : event_pool) : Prop :=
  ∀ i j : Nat, (i : Int) < p.used → (j : Int) < p.used →
    (get_reg p i).fd = (get_reg p j).fd → i = j

/-- The entry `e` is one of the registrations `reg[0 .. used)`. -/
def is_registration (p : event_pool) (e : reg_entry) : Prop :=
  ∃ i : Nat, (i : Int) < p.used ∧ get_reg p i = e

/-! ## Concrete pools used to instantiate the theorems -/

/-- A pool with room for four entries in which the descriptors `3`, `5` and `7`
are registered. -/
def sample_pool : event_pool :=
  { count := 4,
    reg := some (fun i =>
      if i = 0 then ⟨3, 3, 0, 10⟩
      else if i = 1 then ⟨5, 3, 50, 11⟩
      else if i = 2 then ⟨7, 6, 70, 12⟩
      else ⟨0, 0, 0, 0⟩),
    used := 3, changed := 0 }

/-- A pool whose array of three entries is full: the descriptors `3`, `5` and `7`
are registered. -/
def full_pool : event_pool := { sample_pool with count := 3 }

/-- The pool that `event_register_poll` leaves when it has to grow the array of
`full_pool` and `realloc` fails. -/
def pool_without_array : event_pool :=
  { count := 259, reg := none, used := 3, changed := 0 }

/-- A pool whose array of one entry is full: descriptor `3` is registered. -/
def single_pool : event_pool :=
  { count := 1, reg := some (fun _ => ⟨3, 3, 0, 10⟩), used := 1, changed := 0 }

/-- The pool that `event_register_poll` leaves when it has to grow the array of
`single_pool` and `realloc` fails. -/
def single_pool_without_array : event_pool :=
  { count := 257, reg := none, used := 1, changed := 0 }

/-- A pool whose array of `INT_MAX` entries is full: entry `i` holds descriptor
`i`. -/
def huge_pool : event_pool :=
  { count := INT_MAX, reg := some (fun i => ⟨(i : Int), 3, 0, 10⟩), used := INT_MAX,
    changed := 0 }

end EventPoll

/-!
# The epoll event engine with 32-bit counters

The fields `gen`, `ref` and `in_handler` of a slot and the used-counts are `int`s.
This part repeats the functions of `event-epoll.c` that increment or decrement
one of them, with the result wrapped to 32 bits in two's complement, which is
what the compiled code stores when the counter passes `INT_MAX` (the overflow
of a signed `int` is undefined behaviour in C). Everything else, the data model
included, is shared with `EventEpoll`; below `INT_MAX` the two readings agree.
-/

namespace EventEpoll32

open EventEpoll (Consts event_slot_epoll event_pool World Effect Res Fault SlotPtr PoolPtr
  TableScan epoll_event Call Captured get_slot set_slot set_used zero_slot fresh_table
  scan_tables find_free locate epoll_ctl __slot_update_events EPOLLET EPOLLIN EPOLLPRI EPOLLOUT
  EPOLLERR EPOLLHUP event_reconfigure_threads_epoll small_consts new_world)

/-- The value an `int` holds after an addition or subtraction whose exact result
is `x`: `x` wrapped to 32 bits in two's complement. -/
def wrap_int (x : Int) : Int := (x + 2147483648) % 4294967296 - 2147483648

/-- The function `__event_slot_alloc`. -/
def __event_slot_alloc (k : Consts) (p : event_pool) (fd : Int) (calloc_ok : Bool) :
    event_pool × Int :=
  match scan_tables k calloc_ok p k.EVENT_EPOLL_TABLES 0 with
  | .nomem => (p, -1)
  | .exhausted => (p, -1)
  | .found table_idx table p1 =>
    let i := find_free table k.EVENT_EPOLL_SLOTS 0
    if i < k.EVENT_EPOLL_SLOTS then
      let gen := (table i).gen
      let p2 := set_slot p1 table_idx i { zero_slot with gen := wrap_int (gen + 1), fd := fd }
      (set_used p2 table_idx (wrap_int (p2.slots_used table_idx + 1)),
        (table_idx * k.EVENT_EPOLL_SLOTS + i : Nat))
    else
      (p1, (table_idx * k.EVENT_EPOLL_SLOTS + i : Nat))

/-- The function `event_slot_alloc`. -/
def event_slot_alloc (k : Consts) (w : World) (fd : Int) (calloc_ok : Bool) : World × Int :=
  let r := __event_slot_alloc k w.pool fd calloc_ok
  ({ w with pool := r.1 }, r.2)

/-- The function `__event_slot_dealloc`. -/
def __event_slot_dealloc (k : Consts) (w : World) (idx : Int) : Res World :=
  match locate k idx with
  | none => .fault .bad_index
  | some (table_idx, offset) =>
    match w.pool.ereg table_idx with
    | none => .ok w
    | some _ =>
      let slot := get_slot w.pool table_idx offset
      let p1 := set_slot w.pool table_idx offset
        { slot with gen := wrap_int (slot.gen + 1), fd := -1 }
      .ok (World.emit
            { w with pool := set_used p1 table_idx (wrap_int (p1.slots_used table_idx - 1)) }
            (Effect.slot_dealloc idx))

/-- The function `event_slot_dealloc`. -/
def event_slot_dealloc (k : Consts) (w : World) (idx : Int) : Res World :=
  __event_slot_dealloc k w idx

/-- The function `event_slot_get`: the slot pointer is `none` for `NULL`. -/
def event_slot_get (k : Consts) (w : World) (idx : Int) : Res (World × Option SlotPtr) :=
  match locate k idx with
  | none => .fault .bad_index
  | some (table_idx, offset) =>
    match w.pool.ereg table_idx with
    | none => .ok (w, none)
    | some _ =>
      let slot := get_slot w.pool table_idx offset
      .ok (w.put table_idx offset { slot with ref := wrap_int (slot.ref + 1) },
           some (table_idx, offset))

/-- The function `event_slot_unref`. -/
def event_slot_unref (k : Consts) (w : World) (slot : SlotPtr) (idx : Int) : Res World :=
  let s := get_slot w.pool slot.1 slot.2
  let ref := wrap_int (s.ref - 1)
  let fd := s.fd
  let do_close := s.do_close
  let w1 : World := w.put slot.1 slot.2 { s with ref := ref }
  if ref ≠ 0 then .ok w1
  else
    match event_slot_dealloc k w1 idx with
    | .fault e => .fault e
    | .ok w2 =>
      if do_close ≠ 0 then .ok (w2.emit (Effect.close fd))
      else .ok w2

/-- The function `event_register_epoll`. -/
def event_register_epoll (k : Consts) (w : World) (event_pool : PoolPtr) (fd : Int)
    (handler data : Nat) (poll_in poll_out : Int) (calloc_ok ctl_ok : Bool) :
    Res (World × Int) :=
  match event_pool with
  | none => .ok (w, -1)
  | some _ =>
    if w.pool.destroy = 1 then .ok (w, -1)
    else
      let a := event_slot_alloc k w fd calloc_ok
      let idx := a.2
      if idx = -1 then .ok (a.1, -1)
      else
        match event_slot_get k a.1 idx with
        | .fault e => .fault e
        | .ok (_, none) => .fault .null_slot
        | .ok (w2, some slot) =>
          if (get_slot w2.pool slot.1 slot.2).fd ≠ fd then .fault .assertion
          else
            let s := get_slot w2.pool slot.1 slot.2
            let s1 := __slot_update_events
              { s with events := EPOLLET, handler := handler, data := data } poll_in poll_out
            let ret := epoll_ctl ctl_ok fd
            let w3 : World :=
              (w2.put slot.1 slot.2 s1).emit (Effect.ctl_add fd s1.events idx s1.gen)
            if ret = -1 then
              match event_slot_unref k w3 slot idx with
              | .fault e => .fault e
              | .ok w4 => .ok (w4, -1)
            else .ok (w3, idx)

/-- The function `event_unregister_epoll_common`. -/
def event_unregister_epoll_common (k : Consts) (w : World) (event_pool : PoolPtr) (fd : Int)
    (idx : Int) (do_close : Int) (ctl_ok : Bool) : Res (World × Int) :=
  match event_pool with
  | none => .ok (w, -1)
  | some _ =>
    match event_slot_get k w idx with
    | .fault e => .fault e
    | .ok (_, none) => .fault .null_slot
    | .ok (w1, some slot) =>
      if (get_slot w1.pool slot.1 slot.2).fd ≠ fd then .fault .assertion
      else
        let ret := epoll_ctl ctl_ok fd
        let s := get_slot w1.pool slot.1 slot.2
        let w2 : World :=
          if ret = -1 then w1.emit (Effect.ctl_del fd)
          else (w1.emit (Effect.ctl_del fd)).put slot.1 slot.2
                 { s with do_close := do_close, gen := wrap_int (s.gen + 1) }
        match event_slot_unref k w2 slot idx with
        | .fault e => .fault e
        | .ok w3 =>
          match event_slot_unref k w3 slot idx with
          | .fault e => .fault e
          | .ok w4 => .ok (w4, ret)

/-- The function `event_select_on_epoll`. -/
def event_select_on_epoll (k : Consts) (w : World) (event_pool : PoolPtr) (fd : Int)
    (idx : Int) (poll_in poll_out : Int) (ctl_ok : Bool) : Res (World × Int) :=
  match event_pool with
  | none => .ok (w, idx)
  | some _ =>
    match event_slot_get k w idx with
    | .fault e => .fault e
    | .ok (_, none) => .fault .null_slot
    | .ok (w1, some slot) =>
      if (get_slot w1.pool slot.1 slot.2).fd ≠ fd then .fault .assertion
      else
        let s1 := __slot_update_events (get_slot w1.pool slot.1 slot.2) poll_in poll_out
        let _ret := epoll_ctl ctl_ok fd
        let w2 : World :=
          if s1.in_handler ≠ 0 then w1.put slot.1 slot.2 s1
          else (w1.put slot.1 slot.2 s1).emit (Effect.ctl_mod fd s1.events idx s1.gen)
        match event_slot_unref k w2 slot idx with
        | .fault e => .fault e
        | .ok w3 => .ok (w3, idx)

/-- Run one call on a valid pool pointer, dropping the returned value. -/
def run_call (k : Consts) (w : World) : Call → Res World
  | .register fd handler data poll_in poll_out calloc_ok ctl_ok =>
    match event_register_epoll k w (some ()) fd handler data poll_in poll_out calloc_ok ctl_ok with
    | .ok r => .ok r.1
    | .fault e => .fault e
  | .select_on fd idx poll_in poll_out ctl_ok =>
    match event_select_on_epoll k w (some ()) fd idx poll_in poll_out ctl_ok with
    | .ok r => .ok r.1
    | .fault e => .fault e
  | .unregister fd idx do_close ctl_ok =>
    match event_unregister_epoll_common k w (some ()) fd idx do_close ctl_ok with
    | .ok r => .ok r.1
    | .fault e => .fault e
  | .reconfigure_threads value spawn =>
    match event_reconfigure_threads_epoll k w value spawn with
    | .ok r => .ok r.1
    | .fault e => .fault e

/-- Run calls one after the other. -/
def run_calls (k : Consts) (w : World) : List Call → Res World
  | [] => .ok w
  | c :: cs =>
    match run_call k w c with
    | .ok w1 => run_calls k w1 cs
    | .fault e => .fault e

/-- The part of `event_dispatch_epoll_handler` up to `pre_unlock`. -/
def dispatch_enter (k : Consts) (w : World) (event : epoll_event) : Res (World × Captured) :=
  match event_slot_get k w event.idx with
  | .fault e => .fault e
  | .ok (_, none) => .fault .null_slot
  | .ok (w1, some slot) =>
    let s := get_slot w1.pool slot.1 slot.2
    let fd := s.fd
    if fd = -1 then .ok (w1, { slot := slot, fd := fd, handler := 0, data := 0 })
    else if event.gen ≠ s.gen then .ok (w1, { slot := slot, fd := fd, handler := 0, data := 0 })
    else
      .ok (w1.put slot.1 slot.2 { s with in_handler := wrap_int (s.in_handler + 1) },
           { slot := slot, fd := fd, handler := s.handler, data := s.data })

/-- The part of `event_dispatch_epoll_handler` after the handler has returned
`handler_ret`. -/
def dispatch_leave (k : Consts) (w : World) (event : epoll_event) (c : Captured)
    (handler_ret : Int) (mod_ok : Bool) : Res (World × Int) :=
  let s := get_slot w.pool c.slot.1 c.slot.2
  let s1 : event_slot_epoll := { s with in_handler := wrap_int (s.in_handler - 1) }
  let w1 := w.put c.slot.1 c.slot.2 s1
  let r : World × Int :=
    if event.gen ≠ s1.gen then (w1, handler_ret)
    else if s1.in_handler = 0 then
      (w1.emit (Effect.ctl_mod c.fd s1.events event.idx event.gen), epoll_ctl mod_ok c.fd)
    else (w1, handler_ret)
  match event_slot_unref k r.1 c.slot event.idx with
  | .fault e => .fault e
  | .ok w2 => .ok (w2, r.2)

/-- The function `event_dispatch_epoll_handler`. `body` lists the engine calls
made while the handler runs and `handler_ret` is what the handler returns. -/
def event_dispatch_epoll_handler (k : Consts) (w : World) (event : epoll_event)
    (body : List Call) (handler_ret : Int) (mod_ok : Bool) : Res (World × Int) :=
  match dispatch_enter k w event with
  | .fault e => .fault e
  | .ok (w1, c) =>
    if c.handler = 0 then
      match event_slot_unref k w1 c.slot event.idx with
      | .fault e => .fault e
      | .ok w2 => .ok (w2, -1)
    else
      let w2 : World :=
        w1.emit (Effect.handler c.handler c.fd event.idx c.data
                  (event.events &&& (EPOLLIN ||| EPOLLPRI))
                  (event.events &&& EPOLLOUT)
                  (event.events &&& (EPOLLERR ||| EPOLLHUP)))
      match run_calls k w2 body with
      | .fault e => .fault e
      | .ok w3 => dispatch_leave k w3 event c handler_ret mod_ok

/-! ## Concrete worlds used to instantiate the theorems -/

/-- One registration of descriptor `5` followed by its unregistration at handle
`0`, the kernel calls succeeding. -/
def cycle : List Call :=
  [Call.register 5 7 9 1 0 true true, Call.unregister 5 0 0 true]

/-- The calls of `n` such pairs. -/
def cycles : Nat → List Call
  | 0 => []
  | n + 1 => cycle ++ cycles n

/-- The slot that the unregistration of descriptor `5` leaves, with generation
`g`. -/
def released_slot (g : Int) : event_slot_epoll :=
  { fd := -1, events := EPOLLET ||| EPOLLIN, gen := g, ref := 0, do_close := 0,
    in_handler := 0, data := 9, handler := 7 }

/-- A pool as `new_world` has it in which block `0` exists, with `s` in its slot
`0`, the other slots as `__event_newtable` sets them up, and used-count `used`;
the log is `tr`. -/
def one_slot_world (s : event_slot_epoll) (used : Int) (tr : List Effect) : World :=
  { pool := { fd := 3, count := 16,
              ereg := Function.update (fun _ => none) 0 (some (Function.update fresh_table 0 s)),
              slots_used := Function.update (fun _ => 0) 0 used,
              destroy := 0, eventthreadcount := 1, activethreadcount := 0,
              pollers := fun _ => 0 },
    trace := tr }

/-- The world after a pair of `cycle`: slot `0` of block `0` is free again, with
generation `g`. -/
def cycle_world (g : Int) (tr : List Effect) : World :=
  one_slot_world (released_slot g) 0 tr

/-- The world in which slot `0` of block `0` holds the registration of `fd` with
interest in reading, tagged with generation `g`. -/
def busy_world (fd : Int) (handler data : Nat) (g : Int) (tr : List Effect) : World :=
  one_slot_world
    { fd := fd, events := EPOLLET ||| EPOLLIN, gen := g, ref := 1, do_close := 0,
      in_handler := 0, data := data, handler := handler } 1 tr

end EventEpoll32

/-! # Theorems -/

namespace EventEpoll

/-! ## Reading and writing slots -/

theorem get_slot_set_slot (p : event_pool) (t i : Nat) (s : event_slot_epoll) (t1 i1 : Nat) :
    get_slot (set_slot p t i s) t1 i1 =
      if block_exists p t ∧ t1 = t ∧ i1 = i then s else get_slot p t1 i1 := by
  cases h : p.ereg t with
  | none => simp [set_slot, block_exists, h]
  | some table =>
    by_cases ht : t1 = t
    · subst ht
      by_cases hi : i1 = i
      · subst hi; simp [set_slot, get_slot, block_exists, h]
      · simp [set_slot, get_slot, block_exists, h, hi, Function.update]
    · simp [set_slot, get_slot, block_exists, h, ht, Function.update]

theorem get_slot_set_slot_same (p : event_pool) (t i : Nat) (s : event_slot_epoll)
    (h : block_exists p t) : get_slot (set_slot p t i s) t i = s := by
  simp [get_slot_set_slot, h]

@[simp] theorem block_exists_set_slot (p : event_pool) (t i : Nat) (s : event_slot_epoll)
    (t1 : Nat) : block_exists (set_slot p t i s) t1 ↔ block_exists p t1 := by
  cases h : p.ereg t with
  | none => simp [set_slot, h]
  | some table =>
    by_cases ht : t1 = t
    · subst ht; simp [set_slot, block_exists, h]
    · simp [set_slot, block_exists, h, ht, Function.update]

@[simp] theorem slots_used_set_slot (p : event_pool) (t i : Nat) (s : event_slot_epoll) :
    (set_slot p t i s).slots_used = p.slots_used := by
  unfold set_slot; split <;> rfl

@[simp] theorem destroy_set_slot (p : event_pool) (t i : Nat) (s : event_slot_epoll) :
    (set_slot p t i s).destroy = p.destroy := by
  unfold set_slot; split <;> rfl

@[simp] theorem eventthreadcount_set_slot (p : event_pool) (t i : Nat) (s : event_slot_epoll) :
    (set_slot p t i s).eventthreadcount = p.eventthreadcount := by
  unfold set_slot; split <;> rfl

@[simp] theorem pollers_set_slot (p : event_pool) (t i : Nat) (s : event_slot_epoll) :
    (set_slot p t i s).pollers = p.pollers := by
  unfold set_slot; split <;> rfl

@[simp] theorem get_slot_set_used (p : event_pool) (t : Nat) (v : Int) (t1 i1 : Nat) :
    get_slot (set_used p t v) t1 i1 = get_slot p t1 i1 := rfl

@[simp] theorem block_exists_set_used (p : event_pool) (t : Nat) (v : Int) (t1 : Nat) :
    block_exists (set_used p t v) t1 ↔ block_exists p t1 := Iff.rfl

@[simp] theorem slots_used_set_used (p : event_pool) (t : Nat) (v : Int) (t1 : Nat) :
    (set_used p t v).slots_used t1 = if t1 = t then v else p.slots_used t1 := by
  simp [set_used, Function.update]

@[simp] theorem destroy_set_used (p : event_pool) (t : Nat) (v : Int) :
    (set_used p t v).destroy = p.destroy := rfl

@[simp] theorem get_slot_add_table (p : event_pool) (t t1 i1 : Nat) :
    get_slot (add_table p t) t1 i1 = if t1 = t then fresh_slot else get_slot p t1 i1 := by
  by_cases h : t1 = t
  · subst h; simp [add_table, get_slot, fresh_table]
  · simp [add_table, get_slot, h, Function.update]

@[simp] theorem block_exists_add_table (p : event_pool) (t t1 : Nat) :
    block_exists (add_table p t) t1 ↔ t1 = t ∨ block_exists p t1 := by
  by_cases h : t1 = t
  · subst h; simp [add_table, block_exists]
  · simp [add_table, block_exists, h, Function.update]

@[simp] theorem slots_used_add_table (p : event_pool) (t t1 : Nat) :
    (add_table p t).slots_used t1 = if t1 = t then 0 else p.slots_used t1 := by
  simp [add_table, Function.update]

@[simp] theorem destroy_add_table (p : event_pool) (t : Nat) :
    (add_table p t).destroy = p.destroy := rfl

@[simp] theorem put_pool (w : World) (t i : Nat) (s : event_slot_epoll) :
    (w.put t i s).pool = set_slot w.pool t i s := rfl

@[simp] theorem put_trace (w : World) (t i : Nat) (s : event_slot_epoll) :
    (w.put t i s).trace = w.trace := rfl

@[simp] theorem emit_pool (w : World) (e : Effect) : (w.emit e).pool = w.pool := rfl

@[simp] theorem emit_trace (w : World) (e : Effect) : (w.emit e).trace = w.trace ++ [e] := rfl

@[simp] theorem dealloc_world_trace (w : World) (idx : Int) (t i : Nat) :
    (dealloc_world w idx t i).trace = w.trace ++ [Effect.slot_dealloc idx] := rfl

@[simp] theorem block_exists_dealloc_world (w : World) (idx : Int) (t i t1 : Nat) :
    block_exists (dealloc_world w idx t i).pool t1 ↔ block_exists w.pool t1 := by
  simp [dealloc_world]

theorem get_slot_dealloc_world (w : World) (idx : Int) (t i t1 i1 : Nat) :
    get_slot (dealloc_world w idx t i).pool t1 i1 =
      if block_exists w.pool t ∧ t1 = t ∧ i1 = i then
        { get_slot w.pool t i with gen := (get_slot w.pool t i).gen + 1, fd := -1 }
      else get_slot w.pool t1 i1 := by
  simp [dealloc_world, get_slot_set_slot]

@[simp] theorem slots_used_dealloc_world (w : World) (idx : Int) (t i t1 : Nat) :
    (dealloc_world w idx t i).pool.slots_used t1 =
      if t1 = t then w.pool.slots_used t - 1 else w.pool.slots_used t1 := by
  simp [dealloc_world]

/-! ## The slot-table primitives on an existing block -/

theorem locate_some (k : Consts) (idx : Int) (t i : Nat) (h : locate k idx = some (t, i)) :
    0 ≤ idx ∧ t < k.EVENT_EPOLL_TABLES ∧ i < k.EVENT_EPOLL_SLOTS ∧
      idx = ((t * k.EVENT_EPOLL_SLOTS + i : Nat) : Int) := by
  unfold locate at h
  split at h
  · rename_i hc
    obtain ⟨h0, hs, ht⟩ := hc
    simp only [Option.some.injEq, Prod.mk.injEq] at h
    obtain ⟨rfl, rfl⟩ := h
    refine ⟨h0, ht, Nat.mod_lt _ hs, ?_⟩
    have := Nat.div_add_mod idx.toNat k.EVENT_EPOLL_SLOTS
    have h2 : (idx.toNat : Int) = idx := Int.toNat_of_nonneg h0
    rw [Nat.mul_comm] at this
    omega
  · simp at h

theorem locate_of_lt (k : Consts) (t i : Nat) (ht : t < k.EVENT_EPOLL_TABLES)
    (hi : i < k.EVENT_EPOLL_SLOTS) :
    locate k ((t * k.EVENT_EPOLL_SLOTS + i : Nat) : Int) = some (t, i) := by
  have hs : 0 < k.EVENT_EPOLL_SLOTS := by omega
  have hd : (t * k.EVENT_EPOLL_SLOTS + i) / k.EVENT_EPOLL_SLOTS = t := by
    rw [Nat.mul_comm, Nat.mul_add_div hs, Nat.div_eq_of_lt hi]; rfl
  have hm : (t * k.EVENT_EPOLL_SLOTS + i) % k.EVENT_EPOLL_SLOTS = i := by
    rw [Nat.mul_comm, Nat.mul_add_mod, Nat.mod_eq_of_lt hi]
  unfold locate
  simp only [Int.toNat_ofNat, hd, hm]
  rw [if_pos ⟨Int.ofNat_nonneg _, hs, ht⟩]

theorem locate_inj (k : Consts) (idx idx1 : Int) (q : SlotPtr)
    (h : locate k idx = some q) (h1 : locate k idx1 = some q) : idx = idx1 := by
  obtain ⟨t, i⟩ := q
  have a := (locate_some k idx t i h).2.2.2
  have b := (locate_some k idx1 t i h1).2.2.2
  rw [a, b]

theorem event_slot_get_ok (k : Consts) (w : World) (idx : Int) (t i : Nat)
    (hloc : locate k idx = some (t, i)) (hblk : block_exists w.pool t) :
    event_slot_get k w idx =
      .ok (w.put t i { get_slot w.pool t i with ref := (get_slot w.pool t i).ref + 1 },
           some (t, i)) := by
  unfold block_exists at hblk
  cases h : w.pool.ereg t with
  | none => simp [h] at hblk
  | some table => simp [event_slot_get, hloc, h]

theorem event_slot_get_some (k : Consts) (w w1 : World) (idx : Int) (slot : SlotPtr)
    (h : event_slot_get k w idx = .ok (w1, some slot)) :
    locate k idx = some slot ∧ block_exists w.pool slot.1 ∧
      w1 = w.put slot.1 slot.2
        { get_slot w.pool slot.1 slot.2 with ref := (get_slot w.pool slot.1 slot.2).ref + 1 } := by
  unfold event_slot_get at h
  split at h
  · simp at h
  · rename_i t i hloc
    cases he : w.pool.ereg t with
    | none => simp [he] at h
    | some table =>
      simp only [he, Res.ok.injEq, Prod.mk.injEq, Option.some.injEq] at h
      obtain ⟨h1, h2⟩ := h
      subst h2
      exact ⟨hloc, by simp [block_exists, he], h1.symm⟩

theorem event_slot_dealloc_ok (k : Consts) (w : World) (idx : Int) (t i : Nat)
    (hloc : locate k idx = some (t, i)) (hblk : block_exists w.pool t) :
    event_slot_dealloc k w idx = .ok (dealloc_world w idx t i) := by
  unfold block_exists at hblk
  cases h : w.pool.ereg t with
  | none => simp [h] at hblk
  | some table => simp [event_slot_dealloc, __event_slot_dealloc, hloc, h, dealloc_world]

theorem event_slot_unref_ok (k : Consts) (w : World) (idx : Int) (t i : Nat)
    (hloc : locate k idx = some (t, i)) (hblk : block_exists w.pool t) :
    event_slot_unref k w (t, i) idx =
      if (get_slot w.pool t i).ref - 1 ≠ 0 then
        .ok (w.put t i { get_slot w.pool t i with ref := (get_slot w.pool t i).ref - 1 })
      else if (get_slot w.pool t i).do_close ≠ 0 then
        .ok ((dealloc_world
          (w.put t i { get_slot w.pool t i with ref := (get_slot w.pool t i).ref - 1 }) idx t i).emit
            (Effect.close (get_slot w.pool t i).fd))
      else
        .ok (dealloc_world
          (w.put t i { get_slot w.pool t i with ref := (get_slot w.pool t i).ref - 1 }) idx t i) := by
  have hb : block_exists
      (w.put t i { get_slot w.pool t i with ref := (get_slot w.pool t i).ref - 1 }).pool t := by
    simpa using hblk
  simp only [event_slot_unref, event_slot_dealloc_ok k _ idx t i hloc hb]

/-! ## Blocks persist, generations never decrease -/

theorem PoolLe.le_self (p : event_pool) : PoolLe p p := fun _ h => ⟨h, fun _ => le_refl _⟩

theorem PoolLe.le_then {p q r : event_pool} (h1 : PoolLe p q) (h2 : PoolLe q r) : PoolLe p r :=
  fun t h => ⟨(h2 t (h1 t h).1).1, fun i => le_trans ((h1 t h).2 i) ((h2 t (h1 t h).1).2 i)⟩

theorem PoolLe_set_slot (p : event_pool) (t i : Nat) (s : event_slot_epoll)
    (h : (get_slot p t i).gen ≤ s.gen) : PoolLe p (set_slot p t i s) := by
  intro t1 hb
  refine ⟨(block_exists_set_slot p t i s t1).2 hb, fun i1 => ?_⟩
  rw [get_slot_set_slot]
  split
  · rename_i hc; obtain ⟨_, rfl, rfl⟩ := hc; exact h
  · exact le_refl _

theorem PoolLe_set_used (p : event_pool) (t : Nat) (v : Int) : PoolLe p (set_used p t v) :=
  fun _ h => ⟨h, fun _ => le_refl _⟩

theorem PoolLe_add_table (p : event_pool) (t : Nat) (h : ¬ block_exists p t) :
    PoolLe p (add_table p t) := by
  intro t1 hb
  have hne : t1 ≠ t := fun e => h (e ▸ hb)
  exact ⟨by simp [hb], fun i => by simp [hne]⟩

theorem Quiet.quiet_self (w : World) : Quiet w w :=
  ⟨PoolLe.le_self _, [], by simp, by simp⟩

theorem Quiet.quiet_then {w w1 w2 : World} (h1 : Quiet w w1) (h2 : Quiet w1 w2) : Quiet w w2 := by
  obtain ⟨a1, e1, b1, c1⟩ := h1
  obtain ⟨a2, e2, b2, c2⟩ := h2
  refine ⟨a1.le_then a2, e1 ++ e2, by rw [b2, b1, List.append_assoc], ?_⟩
  intro e he
  rcases List.mem_append.1 he with h | h
  · exact c1 e h
  · exact c2 e h

theorem Quiet_put (w : World) (t i : Nat) (s : event_slot_epoll)
    (h : (get_slot w.pool t i).gen ≤ s.gen) : Quiet w (w.put t i s) :=
  ⟨PoolLe_set_slot _ _ _ _ h, [], by simp, by simp⟩

theorem Quiet_emit (w : World) (e : Effect) (h : Effect.is_handler_call e = false) :
    Quiet w (w.emit e) :=
  ⟨PoolLe.le_self _, [e], by simp, by simpa using h⟩

theorem Quiet_dealloc_world (w : World) (idx : Int) (t i : Nat) :
    Quiet w (dealloc_world w idx t i) := by
  refine ⟨?_, [Effect.slot_dealloc idx], by simp, by simp [Effect.is_handler_call]⟩
  exact (PoolLe_set_slot _ _ _ _ (by simp)).le_then (PoolLe_set_used _ _ _)

theorem Quiet_dealloc (k : Consts) (w w1 : World) (idx : Int)
    (h : event_slot_dealloc k w idx = .ok w1) : Quiet w w1 := by
  unfold event_slot_dealloc __event_slot_dealloc at h
  split at h
  · simp at h
  · rename_i t i hloc
    split at h
    · simp at h; subst h; exact Quiet.quiet_self _
    · simp only [Res.ok.injEq] at h; subst h
      exact Quiet_dealloc_world w idx t i

theorem Quiet_get (k : Consts) (w w1 : World) (idx : Int) (sl : Option SlotPtr)
    (h : event_slot_get k w idx = .ok (w1, sl)) : Quiet w w1 := by
  unfold event_slot_get at h
  split at h
  · simp at h
  · split at h
    · simp at h; rw [← h.1]; exact Quiet.quiet_self _
    · simp at h; rw [← h.1]
      exact Quiet_put _ _ _ _ (by simp)

theorem Quiet_unref (k : Consts) (w w1 : World) (slot : SlotPtr) (idx : Int)
    (h : event_slot_unref k w slot idx = .ok w1) : Quiet w w1 := by
  unfold event_slot_unref at h
  simp only [] at h
  have h0 : Quiet w (w.put slot.1 slot.2
      { get_slot w.pool slot.1 slot.2 with ref := (get_slot w.pool slot.1 slot.2).ref - 1 }) :=
    Quiet_put _ _ _ _ (by simp)
  split at h
  · simp at h; subst h; exact h0
  · split at h
    · simp at h
    · rename_i w2 hd
      have h2 := Quiet_dealloc k _ _ _ hd
      split at h
      · simp at h; subst h
        exact (h0.quiet_then h2).quiet_then (Quiet_emit _ _ rfl)
      · simp at h; subst h; exact h0.quiet_then h2

/-! ## The allocator -/

theorem scan_tables_found (k : Consts) (ok : Bool) (p : event_pool) :
    ∀ (n i t : Nat) (table : SlotTable) (p1 : event_pool),
      scan_tables k ok p n i = .found t table p1 →
      i ≤ t ∧ t < i + n ∧ (∀ j, i ≤ j → j < t → block_skipped k p j) ∧
      p.slots_used t ≠ k.EVENT_EPOLL_SLOTS ∧
      ((p.ereg t = some table ∧ p1 = p) ∨
       (p.ereg t = none ∧ p.slots_used t = 0 ∧ table = fresh_table ∧ p1 = add_table p t)) := by
  intro n
  induction n with
  | zero => intro i t table p1 h; simp [scan_tables] at h
  | succ n ih =>
    intro i t table p1 h
    unfold scan_tables at h
    have step : ∀ (hs : block_skipped k p i),
        scan_tables k ok p n (i + 1) = .found t table p1 →
        i ≤ t ∧ t < i + (n + 1) ∧ (∀ j, i ≤ j → j < t → block_skipped k p j) ∧
        p.slots_used t ≠ k.EVENT_EPOLL_SLOTS ∧
        ((p.ereg t = some table ∧ p1 = p) ∨
         (p.ereg t = none ∧ p.slots_used t = 0 ∧ table = fresh_table ∧ p1 = add_table p t)) := by
      intro hs h1
      obtain ⟨a, b, c, d⟩ := ih (i + 1) t table p1 h1
      refine ⟨by omega, by omega, fun j hj1 hj2 => ?_, d⟩
      by_cases hji : j = i
      · subst hji; exact hs
      · exact c j (by omega) hj2
    split at h
    · rename_i hfull
      exact step (Or.inl hfull) h
    · rename_i hnf
      split at h
      · rename_i hzero
        split at h
        · rename_i hnone
          unfold __event_newtable at h
          cases ok with
          | false => simp at h
          | true =>
            simp only [if_true, TableScan.found.injEq] at h
            obtain ⟨rfl, rfl, rfl⟩ := h
            exact ⟨le_refl _, by omega, fun j a b => by omega, hnf,
              Or.inr ⟨hnone, hzero, rfl, rfl⟩⟩
        · rename_i tb hsome
          simp only [TableScan.found.injEq] at h
          obtain ⟨rfl, rfl, rfl⟩ := h
          exact ⟨le_refl _, by omega, fun j a b => by omega, hnf, Or.inl ⟨hsome, rfl⟩⟩
      · rename_i hnz
        split at h
        · rename_i tb hsome
          simp only [TableScan.found.injEq] at h
          obtain ⟨rfl, rfl, rfl⟩ := h
          exact ⟨le_refl _, by omega, fun j a b => by omega, hnf, Or.inl ⟨hsome, rfl⟩⟩
        · rename_i hnone
          exact step (Or.inr ⟨hnone, hnz⟩) h

theorem scan_tables_exhausted (k : Consts) (ok : Bool) (p : event_pool) :
    ∀ (n i : Nat), scan_tables k ok p n i = .exhausted →
      ∀ j, i ≤ j → j < i + n → block_skipped k p j := by
  intro n
  induction n with
  | zero => intro i _ j h1 h2; omega
  | succ n ih =>
    intro i h j h1 h2
    unfold scan_tables at h
    have step : block_skipped k p i → scan_tables k ok p n (i + 1) = .exhausted →
        block_skipped k p j := by
      intro hs h3
      by_cases hji : j = i
      · subst hji; exact hs
      · exact ih (i + 1) h3 j (by omega) (by omega)
    split at h
    · rename_i hfull; exact step (Or.inl hfull) h
    · split at h
      · split at h
        · unfold __event_newtable at h
          cases ok <;> simp at h
        · simp at h
      · rename_i hnz
        split at h
        · simp at h
        · rename_i hnone; exact step (Or.inr ⟨hnone, hnz⟩) h

theorem scan_tables_nomem (k : Consts) (ok : Bool) (p : event_pool) :
    ∀ (n i : Nat), scan_tables k ok p n i = .nomem → ok = false := by
  intro n
  induction n with
  | zero => intro i h; simp [scan_tables] at h
  | succ n ih =>
    intro i h
    unfold scan_tables at h
    split at h
    · exact ih _ h
    · split at h
      · split at h
        · unfold __event_newtable at h
          cases ok with
          | false => rfl
          | true => simp at h
        · simp at h
      · split at h
        · simp at h
        · exact ih _ h

theorem find_free_spec (table : SlotTable) :
    ∀ (n i : Nat), i ≤ find_free table n i ∧ find_free table n i ≤ i + n ∧
      (∀ j, i ≤ j → j < find_free table n i → (table j).fd ≠ -1) ∧
      (find_free table n i < i + n → (table (find_free table n i)).fd = -1) := by
  intro n
  induction n with
  | zero => intro i; simp [find_free]; intro j h1 h2; omega
  | succ n ih =>
    intro i
    unfold find_free
    split
    · rename_i hfd
      exact ⟨le_refl _, by omega, fun j h1 h2 => by omega, fun _ => hfd⟩
    · rename_i hfd
      obtain ⟨a, b, c, d⟩ := ih (i + 1)
      refine ⟨by omega, by omega, fun j h1 h2 => ?_, fun h => d (by omega)⟩
      by_cases hji : j = i
      · subst hji; exact hfd
      · exact c j (by omega) h2

/-- What `__event_slot_alloc` does, in any pool: it gives up, or it returns the
handle after a block that is full although its used-count does not say so, or it
takes the first free offset of the first block it does not pass over. -/
theorem alloc_cases (k : Consts) (p : event_pool) (fd : Int) (ok : Bool) :
    (__event_slot_alloc k p fd ok = (p, -1) ∧
      (ok = false ∨ ∀ j, j < k.EVENT_EPOLL_TABLES → block_skipped k p j)) ∨
    (∃ t table, t < k.EVENT_EPOLL_TABLES ∧ p.ereg t = some table ∧
      p.slots_used t ≠ k.EVENT_EPOLL_SLOTS ∧
      (∀ j, j < k.EVENT_EPOLL_SLOTS → (table j).fd ≠ -1) ∧
      __event_slot_alloc k p fd ok =
        (p, ((t * k.EVENT_EPOLL_SLOTS + k.EVENT_EPOLL_SLOTS : Nat) : Int))) ∨
    (∃ t i base, t < k.EVENT_EPOLL_TABLES ∧ i < k.EVENT_EPOLL_SLOTS ∧
      (∀ j, j < t → block_skipped k p j) ∧
      ((block_exists p t ∧ base = p) ∨
        (¬ block_exists p t ∧ p.slots_used t = 0 ∧ ok = true ∧ base = add_table p t)) ∧
      base.slots_used t ≠ k.EVENT_EPOLL_SLOTS ∧
      block_exists base t ∧ (get_slot base t i).fd = -1 ∧
      (∀ j, j < i → (get_slot base t j).fd ≠ -1) ∧
      __event_slot_alloc k p fd ok =
        (set_used (set_slot base t i (taken_slot (get_slot base t i) fd)) t
            (base.slots_used t + 1),
          ((t * k.EVENT_EPOLL_SLOTS + i : Nat) : Int))) := by
  unfold __event_slot_alloc
  cases hs : scan_tables k ok p k.EVENT_EPOLL_TABLES 0 with
  | nomem => exact Or.inl ⟨rfl, Or.inl (scan_tables_nomem k ok p _ _ hs)⟩
  | exhausted =>
    exact Or.inl ⟨rfl, Or.inr fun j hj =>
      scan_tables_exhausted k ok p _ _ hs j (Nat.zero_le _) (by omega)⟩
  | found t table p1 =>
    obtain ⟨_, ht, hskip, hnf, hcase⟩ := scan_tables_found k ok p _ _ t table p1 hs
    obtain ⟨_, hle, hbusy, hfree⟩ := find_free_spec table k.EVENT_EPOLL_SLOTS 0
    have htable : ∀ j, get_slot p1 t j = table j ∧ block_exists p1 t := by
      intro j
      rcases hcase with ⟨he, rfl⟩ | ⟨_, _, rfl, rfl⟩
      · simp [get_slot, block_exists, he]
      · simp [fresh_table]
    by_cases hlt : find_free table k.EVENT_EPOLL_SLOTS 0 < k.EVENT_EPOLL_SLOTS
    · right; right
      refine ⟨t, find_free table k.EVENT_EPOLL_SLOTS 0, p1, by omega, hlt,
        fun j hj => hskip j (Nat.zero_le _) hj, ?_, ?_, (htable 0).2, ?_, ?_, ?_⟩
      · rcases hcase with ⟨he, rfl⟩ | ⟨he, hz, rfl, rfl⟩
        · exact Or.inl ⟨by simp [block_exists, he], rfl⟩
        · refine Or.inr ⟨by simp [block_exists, he], hz, ?_, rfl⟩
          cases ok with
          | true => rfl
          | false =>
            exfalso
            have hx := hs
            clear hlt hfree hbusy hle htable
            revert hx
            have : ∀ n i t1 tb q, scan_tables k false p n i = .found t1 tb q →
                p.ereg t1 ≠ none := by
              intro n
              induction n with
              | zero => intro i t1 tb q h; simp [scan_tables] at h
              | succ n ih =>
                intro i t1 tb q h
                unfold scan_tables at h
                split at h
                · exact ih _ _ _ _ h
                · split at h
                  · split at h
                    · simp [__event_newtable] at h
                    · rename_i tb2 hsome
                      simp only [TableScan.found.injEq] at h
                      obtain ⟨rfl, _, _⟩ := h
                      simp [hsome]
                  · split at h
                    · rename_i tb2 hsome
                      simp only [TableScan.found.injEq] at h
                      obtain ⟨rfl, _, _⟩ := h
                      simp [hsome]
                    · exact ih _ _ _ _ h
            intro hx
            exact this _ _ _ _ _ hx he
      · rcases hcase with ⟨_, rfl⟩ | ⟨_, hz, _, rfl⟩
        · exact hnf
        · simp only [slots_used_add_table, if_true]
          rw [hz] at hnf; exact hnf
      · rw [(htable _).1]; exact hfree (by omega)
      · intro j hj; rw [(htable _).1]; exact hbusy j (Nat.zero_le _) hj
      · simp only [hlt, if_true, taken_slot, (htable _).1, slots_used_set_slot]
    · have heq : find_free table k.EVENT_EPOLL_SLOTS 0 = k.EVENT_EPOLL_SLOTS := by omega
      rcases hcase with ⟨he, rfl⟩ | ⟨_, hz, rfl, rfl⟩
      · right; left
        refine ⟨t, table, by omega, he, hnf, fun j hj => hbusy j (Nat.zero_le _) (by omega), ?_⟩
        simp only [heq, lt_irrefl, if_false]
      · exfalso
        have hpos : 0 < k.EVENT_EPOLL_SLOTS := by
          rcases Nat.eq_zero_or_pos k.EVENT_EPOLL_SLOTS with h0 | h0
          · rw [hz, h0] at hnf; exact absurd rfl hnf
          · exact h0
        have h1 : find_free fresh_table k.EVENT_EPOLL_SLOTS 0 = 0 := by
          cases hk : k.EVENT_EPOLL_SLOTS with
          | zero => omega
          | succ m => simp [find_free, fresh_table, fresh_slot]
        omega

/-! ## Every call keeps blocks and generations, and calls no handler -/

@[simp] theorem update_events_gen (s : event_slot_epoll) (a b : Int) :
    (__slot_update_events s a b).gen = s.gen := by
  unfold __slot_update_events; simp only []; split_ifs <;> rfl

@[simp] theorem update_events_fd (s : event_slot_epoll) (a b : Int) :
    (__slot_update_events s a b).fd = s.fd := by
  unfold __slot_update_events; simp only []; split_ifs <;> rfl

@[simp] theorem update_events_ref (s : event_slot_epoll) (a b : Int) :
    (__slot_update_events s a b).ref = s.ref := by
  unfold __slot_update_events; simp only []; split_ifs <;> rfl

@[simp] theorem update_events_do_close (s : event_slot_epoll) (a b : Int) :
    (__slot_update_events s a b).do_close = s.do_close := by
  unfold __slot_update_events; simp only []; split_ifs <;> rfl

@[simp] theorem update_events_in_handler (s : event_slot_epoll) (a b : Int) :
    (__slot_update_events s a b).in_handler = s.in_handler := by
  unfold __slot_update_events; simp only []; split_ifs <;> rfl

@[simp] theorem update_events_handler (s : event_slot_epoll) (a b : Int) :
    (__slot_update_events s a b).handler = s.handler := by
  unfold __slot_update_events; simp only []; split_ifs <;> rfl

@[simp] theorem update_events_data (s : event_slot_epoll) (a b : Int) :
    (__slot_update_events s a b).data = s.data := by
  unfold __slot_update_events; simp only []; split_ifs <;> rfl

theorem Res.ok_fst {α β : Type} {a b : α} {r r1 : β}
    (h : (Res.ok (a, r) : Res (α × β)) = Res.ok (b, r1)) : a = b := by
  simp only [Res.ok.injEq, Prod.mk.injEq] at h; exact h.1

theorem Res.ok_snd {α β : Type} {a b : α} {r r1 : β}
    (h : (Res.ok (a, r) : Res (α × β)) = Res.ok (b, r1)) : r = r1 := by
  simp only [Res.ok.injEq, Prod.mk.injEq] at h; exact h.2

theorem Res.ok_inj {α : Type} {a b : α} (h : (Res.ok a : Res α) = Res.ok b) : a = b := by
  simp only [Res.ok.injEq] at h; exact h

theorem PoolLe_alloc (k : Consts) (p : event_pool) (fd : Int) (ok : Bool) :
    PoolLe p (__event_slot_alloc k p fd ok).1 := by
  rcases alloc_cases k p fd ok with ⟨h, _⟩ | ⟨t, table, _, _, _, _, h⟩ |
    ⟨t, i, base, _, _, _, hb, _, _, hfd, _, h⟩
  · rw [h]; exact PoolLe.le_self _
  · rw [h]; exact PoolLe.le_self _
  · rw [h]
    have h1 : PoolLe p base := by
      rcases hb with ⟨_, rfl⟩ | ⟨hn, _, _, rfl⟩
      · exact PoolLe.le_self _
      · exact PoolLe_add_table _ _ hn
    exact h1.le_then ((PoolLe_set_slot _ _ _ _ (by simp [taken_slot])).le_then (PoolLe_set_used _ _ _))

theorem Quiet_alloc (k : Consts) (w : World) (fd : Int) (ok : Bool) :
    Quiet w (event_slot_alloc k w fd ok).1 :=
  ⟨PoolLe_alloc k w.pool fd ok, [], by simp [event_slot_alloc], by simp⟩

theorem Quiet_register (k : Consts) (w w1 : World) (pp : PoolPtr) (fd : Int)
    (handler data : Nat) (poll_in poll_out : Int) (ok cok : Bool) (r : Int)
    (h : event_register_epoll k w pp fd handler data poll_in poll_out ok cok = .ok (w1, r)) :
    Quiet w w1 := by
  unfold event_register_epoll at h
  split at h
  · rw [← Res.ok_fst h]; exact Quiet.quiet_self _
  · split at h
    · rw [← Res.ok_fst h]; exact Quiet.quiet_self _
    · simp only [] at h
      have ha := Quiet_alloc k w fd ok
      split at h
      · rw [← Res.ok_fst h]; exact ha
      · split at h
        · simp at h
        · simp at h
        · rename_i w2 slot hg
          have hget := Quiet_get k _ _ _ _ hg
          split at h
          · simp at h
          · have h3 : Quiet w ((w2.put slot.1 slot.2 (__slot_update_events
                { get_slot w2.pool slot.1 slot.2 with
                  events := EPOLLET, handler := handler, data := data } poll_in poll_out)).emit
              (Effect.ctl_add fd (__slot_update_events
                { get_slot w2.pool slot.1 slot.2 with
                  events := EPOLLET, handler := handler, data := data } poll_in poll_out).events
                (event_slot_alloc k w fd ok).2 (__slot_update_events
                { get_slot w2.pool slot.1 slot.2 with
                  events := EPOLLET, handler := handler, data := data } poll_in poll_out).gen)) := by
              refine (ha.quiet_then hget).quiet_then ((Quiet_put _ _ _ _ ?_).quiet_then (Quiet_emit _ _ ?_))
              · simp
              · rfl
            split at h
            · split at h
              · simp at h
              · rename_i w4 hu
                rw [← Res.ok_fst h]
                exact h3.quiet_then (Quiet_unref k _ _ _ _ hu)
            · rw [← Res.ok_fst h]; exact h3

theorem Quiet_unregister (k : Consts) (w w1 : World) (pp : PoolPtr) (fd idx do_close : Int)
    (cok : Bool) (r : Int)
    (h : event_unregister_epoll_common k w pp fd idx do_close cok = .ok (w1, r)) :
    Quiet w w1 := by
  unfold event_unregister_epoll_common at h
  split at h
  · rw [← Res.ok_fst h]; exact Quiet.quiet_self _
  · split at h
    · simp at h
    · simp at h
    · rename_i w2 slot hg
      have hget := Quiet_get k _ _ _ _ hg
      split at h
      · simp at h
      · simp only [] at h
        have h2 : Quiet w2 (if epoll_ctl cok fd = -1 then w2.emit (Effect.ctl_del fd)
            else (w2.emit (Effect.ctl_del fd)).put slot.1 slot.2
              { get_slot w2.pool slot.1 slot.2 with
                do_close := do_close, gen := (get_slot w2.pool slot.1 slot.2).gen + 1 }) := by
          split
          · refine Quiet_emit _ _ ?_; rfl
          · refine (Quiet_emit _ _ ?_).quiet_then (Quiet_put _ _ _ _ ?_)
            · rfl
            · simp
        split at h
        · simp at h
        · rename_i w3 hu1
          split at h
          · simp at h
          · rename_i w4 hu2
            rw [← Res.ok_fst h]
            exact ((hget.quiet_then h2).quiet_then (Quiet_unref k _ _ _ _ hu1)).quiet_then
              (Quiet_unref k _ _ _ _ hu2)

theorem Quiet_select_on (k : Consts) (w w1 : World) (pp : PoolPtr) (fd idx poll_in poll_out : Int)
    (cok : Bool) (r : Int)
    (h : event_select_on_epoll k w pp fd idx poll_in poll_out cok = .ok (w1, r)) :
    Quiet w w1 := by
  unfold event_select_on_epoll at h
  split at h
  · rw [← Res.ok_fst h]; exact Quiet.quiet_self _
  · split at h
    · simp at h
    · simp at h
    · rename_i w2 slot hg
      have hget := Quiet_get k _ _ _ _ hg
      split at h
      · simp at h
      · simp only [] at h
        have hp := Quiet_put w2 slot.1 slot.2
          (__slot_update_events (get_slot w2.pool slot.1 slot.2) poll_in poll_out) (by simp)
        split at h
        · simp at h
        · rename_i w3 hu
          rw [← Res.ok_fst h]
          refine (hget.quiet_then ?_).quiet_then (Quiet_unref k _ _ _ _ hu)
          split
          · exact hp
          · refine hp.quiet_then (Quiet_emit _ _ ?_); rfl

theorem Quiet_set_poller (w : World) (i t_id : Nat) : Quiet w (w.set_poller i t_id) :=
  ⟨fun _ h => ⟨h, fun _ => le_refl _⟩, [], by simp [World.set_poller], by simp⟩

theorem Quiet_set_eventthreadcount (w : World) (v : Int) :
    Quiet w (w.set_eventthreadcount v) :=
  ⟨fun _ h => ⟨h, fun _ => le_refl _⟩, [], by simp [World.set_eventthreadcount], by simp⟩

theorem Quiet_spawn_loop (spawn : Nat → SpawnResult) :
    ∀ (n i : Nat) (w : World), Quiet w (spawn_loop spawn w n i) := by
  intro n
  induction n with
  | zero => intro i w; exact Quiet.quiet_self _
  | succ n ih =>
    intro i w
    unfold spawn_loop
    simp only []
    refine Quiet.quiet_then ?_ (ih (i + 1) _)
    split
    · split
      · exact Quiet.quiet_self _
      · refine Quiet_emit _ _ ?_; rfl
      · refine (Quiet_set_poller _ _ _).quiet_then (Quiet_emit _ _ ?_); rfl
    · exact Quiet.quiet_self _

theorem Quiet_reconfigure (k : Consts) (w w1 : World) (value : Int)
    (spawn : Nat → SpawnResult) (r : Int)
    (h : event_reconfigure_threads_epoll k w value spawn = .ok (w1, r)) : Quiet w w1 := by
  unfold event_reconfigure_threads_epoll at h
  simp only [] at h
  split_ifs at h <;> first
    | (rw [← Res.ok_fst h]
       exact (Quiet_spawn_loop spawn _ _ w).quiet_then (Quiet_set_eventthreadcount _ _))
    | (rw [← Res.ok_fst h]; exact Quiet_set_eventthreadcount _ _)

theorem Quiet_run_call (k : Consts) (w w1 : World) (c : Call)
    (h : run_call k w c = .ok w1) : Quiet w w1 := by
  cases c with
  | register fd handler data poll_in poll_out ok cok =>
    simp only [run_call] at h
    split at h
    · rename_i r hr
      have e := Res.ok_inj h; subst e
      exact Quiet_register k w r.1 _ fd handler data poll_in poll_out ok cok r.2 hr
    · simp at h
  | select_on fd idx poll_in poll_out cok =>
    simp only [run_call] at h
    split at h
    · rename_i r hr
      have e := Res.ok_inj h; subst e
      exact Quiet_select_on k w r.1 _ fd idx poll_in poll_out cok r.2 hr
    · simp at h
  | unregister fd idx do_close cok =>
    simp only [run_call] at h
    split at h
    · rename_i r hr
      have e := Res.ok_inj h; subst e
      exact Quiet_unregister k w r.1 _ fd idx do_close cok r.2 hr
    · simp at h
  | reconfigure_threads value spawn =>
    simp only [run_call] at h
    split at h
    · rename_i r hr
      have e := Res.ok_inj h; subst e
      exact Quiet_reconfigure k w r.1 value spawn r.2 hr
    · simp at h

theorem Quiet_run_calls (k : Consts) :
    ∀ (cs : List Call) (w w1 : World), run_calls k w cs = .ok w1 → Quiet w w1 := by
  intro cs
  induction cs with
  | nil => intro w w1 h; simp [run_calls] at h; subst h; exact Quiet.quiet_self _
  | cons c cs ih =>
    intro w w1 h
    unfold run_calls at h
    split at h
    · rename_i w2 hc
      exact (Quiet_run_call k w w2 c hc).quiet_then (ih w2 w1 h)
    · simp at h

/-! ## Dispatch of one event -/

theorem PoolLe_emit (w : World) (e : Effect) : PoolLe w.pool (w.emit e).pool := PoolLe.le_self _

theorem dispatch_enter_ok (k : Consts) (w : World) (event : epoll_event) (t i : Nat)
    (hloc : locate k event.idx = some (t, i)) (hblk : block_exists w.pool t) :
    dispatch_enter k w event =
      if (get_slot w.pool t i).fd = -1 ∨ event.gen ≠ (get_slot w.pool t i).gen then
        .ok (w.put t i { get_slot w.pool t i with ref := (get_slot w.pool t i).ref + 1 },
             { slot := (t, i), fd := (get_slot w.pool t i).fd, handler := 0, data := 0 })
      else
        .ok (w.put t i { get_slot w.pool t i with
                ref := (get_slot w.pool t i).ref + 1,
                in_handler := (get_slot w.pool t i).in_handler + 1 },
             { slot := (t, i), fd := (get_slot w.pool t i).fd,
               handler := (get_slot w.pool t i).handler, data := (get_slot w.pool t i).data }) := by
  unfold dispatch_enter
  rw [event_slot_get_ok k w event.idx t i hloc hblk]
  simp only [put_pool, get_slot_set_slot_same _ _ _ _ hblk]
  by_cases h1 : (get_slot w.pool t i).fd = -1
  · simp [h1]
  · by_cases h2 : event.gen = (get_slot w.pool t i).gen
    · simp only [h1, h2, ne_eq, not_true_eq_false, or_self, if_false]
      congr 2
      unfold World.put
      congr 1
      simp only [set_slot]
      unfold block_exists at hblk
      cases he : w.pool.ereg t with
      | none => simp [he] at hblk
      | some table => simp [Function.update]
    · simp [h1, h2]

theorem dispatch_enter_some (k : Consts) (w w1 : World) (event : epoll_event) (c : Captured)
    (h : dispatch_enter k w event = .ok (w1, c)) :
    locate k event.idx = some c.slot ∧ block_exists w.pool c.slot.1 ∧ Quiet w w1 := by
  unfold dispatch_enter at h
  split at h
  · simp at h
  · simp at h
  · rename_i w2 slot hg
    obtain ⟨hloc, hb, rfl⟩ := event_slot_get_some k w w2 event.idx slot hg
    have hq := Quiet_get k _ _ _ _ hg
    simp only [] at h
    split_ifs at h
    · simp only [Res.ok.injEq, Prod.mk.injEq] at h
      obtain ⟨rfl, rfl⟩ := h
      exact ⟨hloc, hb, hq⟩
    · simp only [Res.ok.injEq, Prod.mk.injEq] at h
      obtain ⟨rfl, rfl⟩ := h
      exact ⟨hloc, hb, hq⟩
    · simp only [Res.ok.injEq, Prod.mk.injEq] at h
      obtain ⟨rfl, rfl⟩ := h
      refine ⟨hloc, hb, hq.quiet_then (Quiet_put _ _ _ _ ?_)⟩
      simp

theorem Quiet_dispatch_leave (k : Consts) (w w1 : World) (event : epoll_event) (c : Captured)
    (handler_ret : Int) (mod_ok : Bool) (r : Int)
    (h : dispatch_leave k w event c handler_ret mod_ok = .ok (w1, r)) : Quiet w w1 := by
  unfold dispatch_leave at h
  simp only [] at h
  have hp := Quiet_put w c.slot.1 c.slot.2
    { get_slot w.pool c.slot.1 c.slot.2 with
      in_handler := (get_slot w.pool c.slot.1 c.slot.2).in_handler - 1 } (by simp)
  split at h
  · simp at h
  · rename_i w2 hu
    rw [← Res.ok_fst h]
    refine Quiet.quiet_then ?_ (Quiet_unref k _ _ _ _ hu)
    split_ifs
    · exact hp
    · refine hp.quiet_then (Quiet_emit _ _ ?_); rfl
    · exact hp

theorem PoolLe_dispatch (k : Consts) (w w1 : World) (event : epoll_event) (body : List Call)
    (handler_ret : Int) (mod_ok : Bool) (r : Int)
    (h : event_dispatch_epoll_handler k w event body handler_ret mod_ok = .ok (w1, r)) :
    PoolLe w.pool w1.pool := by
  unfold event_dispatch_epoll_handler at h
  split at h
  · simp at h
  · rename_i w2 c he
    obtain ⟨_, _, hq⟩ := dispatch_enter_some k w w2 event c he
    split at h
    · split at h
      · simp at h
      · rename_i w3 hu
        rw [← Res.ok_fst h]
        exact hq.1.le_then (Quiet_unref k _ _ _ _ hu).1
    · simp only [] at h
      split at h
      · simp at h
      · rename_i w3 hb
        exact (hq.1.le_then ((PoolLe_emit _ _).le_then (Quiet_run_calls k _ _ _ hb).1)).le_then
          (Quiet_dispatch_leave k _ _ _ _ _ _ _ h).1

theorem PoolLe_run_op (k : Consts) (w w1 : World) (o : Op) (h : run_op k w o = .ok w1) :
    PoolLe w.pool w1.pool := by
  cases o with
  | call c => exact (Quiet_run_call k w w1 c h).1
  | dispatch event body handler_ret mod_ok =>
    simp only [run_op] at h
    split at h
    · rename_i r hr
      have e := Res.ok_inj h; subst e
      exact PoolLe_dispatch k w r.1 event body handler_ret mod_ok r.2 hr
    · simp at h

theorem PoolLe_run_ops (k : Consts) :
    ∀ (os : List Op) (w w1 : World), run_ops k w os = .ok w1 → PoolLe w.pool w1.pool := by
  intro os
  induction os with
  | nil => intro w w1 h; simp [run_ops] at h; subst h; exact PoolLe.le_self _
  | cons o os ih =>
    intro w w1 h
    unfold run_ops at h
    split at h
    · rename_i w2 ho
      exact (PoolLe_run_op k w w2 o ho).le_then (ih w2 w1 h)
    · simp at h

/-- A stale event on an existing block: the dispatch only takes its borrow of the
slot and releases it. -/
theorem stale_dispatch_eq (k : Consts) (w : World) (event : epoll_event) (body : List Call)
    (handler_ret : Int) (mod_ok : Bool) (t i : Nat)
    (hloc : locate k event.idx = some (t, i)) (hblk : block_exists w.pool t)
    (hstale : (get_slot w.pool t i).fd = -1 ∨ event.gen ≠ (get_slot w.pool t i).gen) :
    event_dispatch_epoll_handler k w event body handler_ret mod_ok =
      match event_slot_unref k
        (w.put t i { get_slot w.pool t i with ref := (get_slot w.pool t i).ref + 1 })
        (t, i) event.idx with
      | .fault e => .fault e
      | .ok w2 => .ok (w2, -1) := by
  unfold event_dispatch_epoll_handler
  rw [dispatch_enter_ok k w event t i hloc hblk, if_pos hstale]
  simp only [if_true]

/-- Releasing a borrow of a slot of an existing block returns. -/
theorem event_slot_unref_returns (k : Consts) (w : World) (idx : Int) (t i : Nat)
    (hloc : locate k idx = some (t, i)) (hblk : block_exists w.pool t) :
    ∃ w1, event_slot_unref k w (t, i) idx = .ok w1 := by
  rw [event_slot_unref_ok k w idx t i hloc hblk]
  split_ifs
  · exact ⟨_, rfl⟩
  · exact ⟨_, rfl⟩
  · exact ⟨_, rfl⟩

/-- A stale event on an existing block is dropped without a handler call. -/
theorem stale_dispatch_quiet (k : Consts) (w : World) (event : epoll_event) (body : List Call)
    (handler_ret : Int) (mod_ok : Bool) (t i : Nat)
    (hloc : locate k event.idx = some (t, i)) (hblk : block_exists w.pool t)
    (hstale : (get_slot w.pool t i).fd = -1 ∨ event.gen ≠ (get_slot w.pool t i).gen) :
    ∃ w1, event_dispatch_epoll_handler k w event body handler_ret mod_ok = .ok (w1, -1) ∧
      Quiet w w1 := by
  rw [stale_dispatch_eq k w event body handler_ret mod_ok t i hloc hblk hstale]
  have hb : block_exists (w.put t i
      { get_slot w.pool t i with ref := (get_slot w.pool t i).ref + 1 }).pool t := by
    simpa using hblk
  obtain ⟨w1, h1⟩ := event_slot_unref_returns k _ event.idx t i hloc hb
  rw [h1]
  exact ⟨w1, rfl, (Quiet_put _ _ _ _ (by simp)).quiet_then (Quiet_unref k _ _ _ _ h1)⟩

/-! ## Registration and unregistration, step by step -/

theorem set_slot_set_slot (p : event_pool) (t i : Nat) (a b : event_slot_epoll) :
    set_slot (set_slot p t i a) t i b = set_slot p t i b := by
  cases h : p.ereg t with
  | none => simp [set_slot, h]
  | some table => simp [set_slot, h, Function.update]

theorem put_put (w : World) (t i : Nat) (a b : event_slot_epoll) :
    (w.put t i a).put t i b = w.put t i b := by
  simp [World.put, set_slot_set_slot]

theorem epoll_ctl_eq_zero (ok : Bool) (fd : Int) :
    epoll_ctl ok fd = 0 ↔ 0 ≤ fd ∧ ok = true := by
  unfold epoll_ctl
  split_ifs with h1 h2
  · simp; intro h; omega
  · simp [h2]; omega
  · simp [h2]

theorem epoll_ctl_ne_neg_one (ok : Bool) (fd : Int) :
    epoll_ctl ok fd ≠ -1 ↔ epoll_ctl ok fd = 0 := by
  unfold epoll_ctl
  split_ifs <;> simp

/-- A call of `event_register_epoll` that returns a handle: the handle is the one
the allocator returned, it lies in an existing block, the assertion held, the
kernel add succeeded, and the world is the allocator's with the slot filled in
and the kernel add logged. -/
theorem register_returns_handle (k : Consts) (w w1 : World) (pp : PoolPtr) (fd : Int)
    (handler data : Nat) (poll_in poll_out : Int) (ok cok : Bool) (r : Int)
    (h : event_register_epoll k w pp fd handler data poll_in poll_out ok cok = .ok (w1, r))
    (hr : r ≠ -1) :
    ∃ t i, locate k r = some (t, i) ∧ r = (event_slot_alloc k w fd ok).2 ∧
      w.pool.destroy ≠ 1 ∧
      block_exists (event_slot_alloc k w fd ok).1.pool t ∧
      (get_slot (event_slot_alloc k w fd ok).1.pool t i).fd = fd ∧
      epoll_ctl cok fd = 0 ∧
      w1 = ((event_slot_alloc k w fd ok).1.put t i
              (registered_slot (get_slot (event_slot_alloc k w fd ok).1.pool t i)
                handler data poll_in poll_out)).emit
            (Effect.ctl_add fd
              (registered_slot (get_slot (event_slot_alloc k w fd ok).1.pool t i)
                handler data poll_in poll_out).events r
              (get_slot (event_slot_alloc k w fd ok).1.pool t i).gen) := by
  unfold event_register_epoll at h
  split at h
  · exact absurd (Res.ok_snd h).symm hr
  · split at h
    · exact absurd (Res.ok_snd h).symm hr
    · rename_i hdestroy
      simp only [] at h
      split at h
      · exact absurd (Res.ok_snd h).symm hr
      · split at h
        · simp at h
        · simp at h
        · rename_i w2 slot hg
          obtain ⟨hloc, hb, rfl⟩ := event_slot_get_some k _ w2 _ slot hg
          obtain ⟨t, i⟩ := slot
          simp only [put_pool, get_slot_set_slot_same _ _ _ _ hb] at h
          split at h
          · simp at h
          · rename_i hfd
            simp only [ne_eq, not_not] at hfd
            split at h
            · split at h
              · simp at h
              · exact absurd (Res.ok_snd h).symm hr
            · rename_i hret
              have hr2 := Res.ok_snd h
              have hw := Res.ok_fst h
              refine ⟨t, i, hr2 ▸ hloc, hr2.symm, hdestroy, hb, hfd,
                (epoll_ctl_ne_neg_one cok fd).1 hret, ?_⟩
              rw [← hw, put_put, ← hr2]
              simp only [registered_slot, update_events_gen]

/-- A call of `event_unregister_epoll_common` that returns: the handle lies in an
existing block, the assertion held, and the world went through the borrow, the
kernel delete and the two releases. -/
theorem unregister_returns (k : Consts) (w w1 : World) (fd idx do_close : Int)
    (cok : Bool) (r : Int)
    (h : event_unregister_epoll_common k w (some ()) fd idx do_close cok = .ok (w1, r)) :
    ∃ t i wa wb, locate k idx = some (t, i) ∧ block_exists w.pool t ∧
      (get_slot w.pool t i).fd = fd ∧ r = epoll_ctl cok fd ∧
      wa = (if epoll_ctl cok fd = -1 then
              (w.put t i { get_slot w.pool t i with
                  ref := (get_slot w.pool t i).ref + 1 }).emit (Effect.ctl_del fd)
            else
              (w.put t i { get_slot w.pool t i with
                  ref := (get_slot w.pool t i).ref + 1, do_close := do_close,
                  gen := (get_slot w.pool t i).gen + 1 }).emit (Effect.ctl_del fd)) ∧
      event_slot_unref k wa (t, i) idx = .ok wb ∧
      event_slot_unref k wb (t, i) idx = .ok w1 := by
  unfold event_unregister_epoll_common at h
  simp only [] at h
  split at h
  · simp at h
  · simp at h
  · rename_i w2 slot hg
    obtain ⟨hloc, hb, rfl⟩ := event_slot_get_some k _ w2 _ slot hg
    obtain ⟨t, i⟩ := slot
    simp only [put_pool, get_slot_set_slot_same _ _ _ _ hb] at h
    split at h
    · simp at h
    · rename_i hfd
      simp only [ne_eq, not_not] at hfd
      split at h
      · simp at h
      · rename_i wb hu1
        split at h
        · simp at h
        · rename_i wc hu2
          have hw := Res.ok_fst h
          have hr := Res.ok_snd h
          subst hw
          refine ⟨t, i, _, wb, hloc, hb, hfd, hr.symm, rfl, ?_, hu2⟩
          rw [← hu1]
          congr 1
          split_ifs
          · rfl
          · simp only [World.put, World.emit, emit_pool, set_slot_set_slot]

/-- A successful `event_unregister_epoll_common` raises the generation of the
slot by at least one. -/
theorem unregister_success_bumps (k : Consts) (w w1 : World) (fd idx do_close : Int)
    (cok : Bool)
    (h : event_unregister_epoll_common k w (some ()) fd idx do_close cok = .ok (w1, 0)) :
    ∃ t i, locate k idx = some (t, i) ∧ block_exists w.pool t ∧
      (get_slot w.pool t i).gen + 1 ≤ (get_slot w1.pool t i).gen := by
  obtain ⟨t, i, wa, wb, hloc, hb, _, hr, hwa, hu1, hu2⟩ :=
    unregister_returns k w w1 fd idx do_close cok 0 h
  refine ⟨t, i, hloc, hb, ?_⟩
  have hne : ¬ epoll_ctl cok fd = -1 := by rw [← hr]; decide
  rw [if_neg hne] at hwa
  have hq := (Quiet_unref k _ _ _ _ hu1).quiet_then (Quiet_unref k _ _ _ _ hu2)
  have hba : block_exists wa.pool t := by rw [hwa]; simpa using hb
  have hga : (get_slot wa.pool t i).gen = (get_slot w.pool t i).gen + 1 := by
    rw [hwa]; simp [get_slot_set_slot, hb]
  have := (hq.1 t hba).2 i
  omega

/-! ## Stale events -/

@[simp] theorem event_slot_alloc_trace (k : Consts) (w : World) (fd : Int) (ok : Bool) :
    (event_slot_alloc k w fd ok).1.trace = w.trace := rfl

/-- C1, amended. With the generation read as an unbounded integer (no
wrap-around of the 32-bit counter): if `event_register_epoll` returns the handle
`h` and its kernel add carried the tag `(h, g)`, and later a top-level
`event_unregister_epoll_common (fd, h)` returns `0`, then, whatever operations
ran in between and whatever operations ran afterwards (registrations that take
`h` again included), dispatching an event tagged `(h, g)` returns after calling
no handler. -/
theorem stale_tag_never_dispatched (k : Consts) (w w1 w2 w3 w4 : World) (fd : Int)
    (handler data : Nat) (poll_in poll_out : Int) (calloc_ok add_ok : Bool) (h : Int)
    (mask : Nat) (g : Int) (ops1 ops2 : List Op) (do_close : Int) (del_ok : Bool)
    (events : Nat) (body : List Call) (handler_ret : Int) (mod_ok : Bool)
    (hreg : event_register_epoll k w (some ()) fd handler data poll_in poll_out
      calloc_ok add_ok = .ok (w1, h))
    (hh : h ≠ -1)
    (htag : w1.trace = w.trace ++ [Effect.ctl_add fd mask h g])
    (hops1 : run_ops k w1 ops1 = .ok w2)
    (hunreg : event_unregister_epoll_common k w2 (some ()) fd h do_close del_ok = .ok (w3, 0))
    (hops2 : run_ops k w3 ops2 = .ok w4) :
    ∃ w5 extra,
      event_dispatch_epoll_handler k w4 { events := events, idx := h, gen := g } body
        handler_ret mod_ok = .ok (w5, -1) ∧
      w5.trace = w4.trace ++ extra ∧ ∀ e ∈ extra, Effect.is_handler_call e = false := by
  obtain ⟨t, i, hloc, _, _, hb, _, _, hw1⟩ :=
    register_returns_handle k w w1 _ fd handler data poll_in poll_out calloc_ok add_ok h hreg hh
  have hg : (get_slot w1.pool t i).gen = g := by
    rw [hw1] at htag
    simp only [emit_trace, put_trace, event_slot_alloc_trace, List.append_cancel_left_eq,
      List.cons.injEq, Effect.ctl_add.injEq, and_true, true_and] at htag
    rw [hw1]
    simp only [emit_pool, put_pool, get_slot_set_slot_same _ _ _ _ hb, registered_slot,
      update_events_gen]
    exact htag.2
  have hb1 : block_exists w1.pool t := by rw [hw1]; simpa using hb
  have h12 := PoolLe_run_ops k ops1 w1 w2 hops1 t hb1
  obtain ⟨t1, i1, hloc1, hb2, hbump⟩ := unregister_success_bumps k w2 w3 fd h do_close del_ok hunreg
  rw [hloc] at hloc1
  simp only [Option.some.injEq, Prod.mk.injEq] at hloc1
  obtain ⟨rfl, rfl⟩ := hloc1
  have h23 := (Quiet_unregister k w2 w3 _ fd h do_close del_ok 0 hunreg).1 t hb2
  have h34 := PoolLe_run_ops k ops2 w3 w4 hops2 t h23.1
  have hstale : (get_slot w4.pool t i).fd = -1 ∨ g ≠ (get_slot w4.pool t i).gen := by
    right
    have a := h12.2 i
    have b := h34.2 i
    omega
  obtain ⟨w5, h5, _, extra, htr, hex⟩ :=
    stale_dispatch_quiet k w4 { events := events, idx := h, gen := g } body handler_ret mod_ok
      t i hloc h34.1 hstale
  exact ⟨w5, extra, h5, htr, hex⟩

/-- Witness of C1: register descriptor `5`, unregister it, let descriptor `6` take
handle `0` again, then dispatch the event tagged `(0, 1)`. -/
theorem stale_tag_never_dispatched_witness :
    ∃ w5 extra,
      event_dispatch_epoll_handler small_consts world_reused
        { events := 1, idx := 0, gen := 1 } [] 0 true = .ok (w5, -1) ∧
      w5.trace = world_reused.trace ++ extra ∧
      ∀ e ∈ extra, Effect.is_handler_call e = false :=
  stale_tag_never_dispatched small_consts new_world world_registered world_registered
    world_unregistered world_reused 5 7 9 1 0 true true 0 (EPOLLET ||| EPOLLIN) 1 []
    [Op.call (Call.register 6 8 0 1 1 true true)] 1 true 1 [] 0 true
    rfl (by decide) rfl rfl rfl rfl

/-- C2. An event whose handle lies in an existing block and whose slot has `fd`
equal to `-1` or a generation different from the carried one: the dispatch
returns, the log grows by entries that are neither handler calls nor kernel
calls, and the handler, the data, the mask and the in-handler count of the slot
are unchanged. -/
theorem stale_event_is_dropped (k : Consts) (w : World) (event : epoll_event)
    (body : List Call) (handler_ret : Int) (mod_ok : Bool) (t i : Nat)
    (hloc : locate k event.idx = some (t, i)) (hblk : block_exists w.pool t)
    (hstale : (get_slot w.pool t i).fd = -1 ∨ event.gen ≠ (get_slot w.pool t i).gen) :
    ∃ w1 extra, event_dispatch_epoll_handler k w event body handler_ret mod_ok = .ok (w1, -1) ∧
      w1.trace = w.trace ++ extra ∧
      (∀ e ∈ extra, Effect.is_handler_call e = false ∧ Effect.is_kernel_ctl e = false) ∧
      (get_slot w1.pool t i).handler = (get_slot w.pool t i).handler ∧
      (get_slot w1.pool t i).data = (get_slot w.pool t i).data ∧
      (get_slot w1.pool t i).events = (get_slot w.pool t i).events ∧
      (get_slot w1.pool t i).in_handler = (get_slot w.pool t i).in_handler := by
  rw [stale_dispatch_eq k w event body handler_ret mod_ok t i hloc hblk hstale]
  have hb : block_exists (w.put t i
      { get_slot w.pool t i with ref := (get_slot w.pool t i).ref + 1 }).pool t := by
    simpa using hblk
  rw [event_slot_unref_ok k _ event.idx t i hloc hb]
  simp only [put_pool, get_slot_set_slot_same _ _ _ _ hblk]
  split_ifs
  · exact ⟨_, [], rfl, by simp, by simp, by simp [get_slot_set_slot, hblk]⟩
  · refine ⟨_, [Effect.slot_dealloc event.idx, Effect.close (get_slot w.pool t i).fd],
      rfl, by simp, by simp [Effect.is_handler_call, Effect.is_kernel_ctl], ?_⟩
    simp [get_slot_dealloc_world, get_slot_set_slot, hblk]
  · refine ⟨_, [Effect.slot_dealloc event.idx], rfl, by simp,
      by simp [Effect.is_handler_call, Effect.is_kernel_ctl], ?_⟩
    simp [get_slot_dealloc_world, get_slot_set_slot, hblk]

/-- Witness of C2: descriptor `6` holds handle `0` with generation `4`, the event
still carries generation `1`. -/
theorem stale_event_is_dropped_witness :
    ∃ w1 extra,
      event_dispatch_epoll_handler small_consts world_reused
        { events := 1, idx := 0, gen := 1 } [] 0 true = .ok (w1, -1) ∧
      w1.trace = world_reused.trace ++ extra ∧
      (∀ e ∈ extra, Effect.is_handler_call e = false ∧ Effect.is_kernel_ctl e = false) ∧
      (get_slot w1.pool 0 0).handler = (get_slot world_reused.pool 0 0).handler ∧
      (get_slot w1.pool 0 0).data = (get_slot world_reused.pool 0 0).data ∧
      (get_slot w1.pool 0 0).events = (get_slot world_reused.pool 0 0).events ∧
      (get_slot w1.pool 0 0).in_handler = (get_slot world_reused.pool 0 0).in_handler :=
  stale_event_is_dropped small_consts world_reused { events := 1, idx := 0, gen := 1 } [] 0 true
    0 0 (by decide) (by decide) (by decide)

/-! ## What the allocator does to one slot -/

/-- A slot of the pool after `__event_slot_alloc`: it is as before, or it belongs
to the block just created, or it is the free slot that was taken, in which case
the returned handle is the one of this slot. -/
theorem alloc_slot_cases (k : Consts) (p : event_pool) (fd : Int) (ok : Bool) (t i : Nat)
    (hb : block_exists (__event_slot_alloc k p fd ok).1 t) :
    (block_exists p t ∧ get_slot (__event_slot_alloc k p fd ok).1 t i = get_slot p t i) ∨
    (¬ block_exists p t ∧ get_slot (__event_slot_alloc k p fd ok).1 t i = fresh_slot) ∨
    (slot_free p t i ∧
      get_slot (__event_slot_alloc k p fd ok).1 t i = taken_slot (get_slot p t i) fd ∧
      (__event_slot_alloc k p fd ok).2 = ((t * k.EVENT_EPOLL_SLOTS + i : Nat) : Int) ∧
      t < k.EVENT_EPOLL_TABLES ∧ i < k.EVENT_EPOLL_SLOTS) := by
  rcases alloc_cases k p fd ok with ⟨h, _⟩ | ⟨t1, table, _, _, _, _, h⟩ |
    ⟨t1, i1, base, ht1, hi1, _, hbase, _, hbb, hfd, _, h⟩
  · rw [h] at hb ⊢; exact Or.inl ⟨hb, rfl⟩
  · rw [h] at hb ⊢; exact Or.inl ⟨hb, rfl⟩
  · rw [h] at hb ⊢
    simp only [get_slot_set_used, get_slot_set_slot, hbb, true_and]
    simp only [block_exists_set_used, block_exists_set_slot] at hb
    by_cases hti : t = t1 ∧ i = i1
    · obtain ⟨rfl, rfl⟩ := hti
      right; right
      simp only [and_self, if_true, and_true, ht1, hi1]
      rcases hbase with ⟨hbp, rfl⟩ | ⟨hnb, _, _, rfl⟩
      · exact ⟨Or.inr hfd, rfl⟩
      · refine ⟨Or.inl hnb, ?_⟩
        have : get_slot p t i = zero_slot := by
          unfold block_exists at hnb
          unfold get_slot
          cases he : p.ereg t with
          | none => rfl
          | some tb => simp [he] at hnb
        simp [taken_slot, this, fresh_slot, zero_slot]
    · rw [if_neg hti]
      rcases hbase with ⟨_, rfl⟩ | ⟨hnb, _, _, rfl⟩
      · exact Or.inl ⟨hb, rfl⟩
      · by_cases htt : t = t1
        · subst htt
          right; left
          exact ⟨hnb, by simp⟩
        · left
          simp only [block_exists_add_table, htt, false_or] at hb
          exact ⟨hb, by simp [htt]⟩

/-- The allocator leaves every slot that holds a descriptor as it is. -/
theorem alloc_keeps_busy_slot (k : Consts) (p : event_pool) (fd : Int) (ok : Bool) (t i : Nat)
    (hb : block_exists p t) (hfd : (get_slot p t i).fd ≠ -1) :
    get_slot (__event_slot_alloc k p fd ok).1 t i = get_slot p t i := by
  have hb1 := ((PoolLe_alloc k p fd ok) t hb).1
  rcases alloc_slot_cases k p fd ok t i hb1 with ⟨_, h⟩ | ⟨hn, _⟩ | ⟨hf, _⟩
  · exact h
  · exact absurd hb hn
  · rcases hf with hf | hf
    · exact absurd hb hf
    · exact absurd hf hfd

/-- A slot that was free and holds a descriptor after `__event_slot_alloc` is the
slot that was taken. -/
theorem alloc_took_slot (k : Consts) (p : event_pool) (fd : Int) (ok : Bool) (t i : Nat)
    (hfree : slot_free p t i) (hb : block_exists (__event_slot_alloc k p fd ok).1 t)
    (hfd : (get_slot (__event_slot_alloc k p fd ok).1 t i).fd ≠ -1) :
    get_slot (__event_slot_alloc k p fd ok).1 t i = taken_slot (get_slot p t i) fd ∧
      (__event_slot_alloc k p fd ok).2 = ((t * k.EVENT_EPOLL_SLOTS + i : Nat) : Int) ∧
      t < k.EVENT_EPOLL_TABLES ∧ i < k.EVENT_EPOLL_SLOTS := by
  rcases alloc_slot_cases k p fd ok t i hb with ⟨hbp, h⟩ | ⟨_, h⟩ | ⟨_, h⟩
  · rcases hfree with hf | hf
    · exact absurd hbp hf
    · rw [h] at hfd; exact absurd hf hfd
  · rw [h] at hfd; exact absurd rfl hfd
  · exact h

theorem dealloc_bumps (k : Consts) (w w1 : World) (idx : Int) (t i : Nat)
    (hloc : locate k idx = some (t, i)) (hb : block_exists w.pool t)
    (h : __event_slot_dealloc k w idx = .ok w1) :
    (get_slot w1.pool t i).gen = (get_slot w.pool t i).gen + 1 := by
  have h2 := event_slot_dealloc_ok k w idx t i hloc hb
  unfold event_slot_dealloc at h2
  rw [h2] at h
  rw [← Res.ok_inj h, get_slot_dealloc_world]
  simp [hb]

/-- The tag of a registration that returned a handle is the generation of the
slot, and the slot lies in an existing block. -/
theorem register_tag (k : Consts) (w w1 : World) (fd : Int)
    (handler data : Nat) (poll_in poll_out : Int) (ok cok : Bool) (h : Int)
    (mask : Nat) (g : Int)
    (hreg : event_register_epoll k w (some ()) fd handler data poll_in poll_out ok cok
      = .ok (w1, h))
    (hh : h ≠ -1) (htag : w1.trace = w.trace ++ [Effect.ctl_add fd mask h g]) :
    ∃ t i, locate k h = some (t, i) ∧ block_exists w1.pool t ∧
      (get_slot w1.pool t i).gen = g ∧
      block_exists (__event_slot_alloc k w.pool fd ok).1 t ∧
      (get_slot (__event_slot_alloc k w.pool fd ok).1 t i).gen = g ∧
      (get_slot (__event_slot_alloc k w.pool fd ok).1 t i).fd = fd ∧ 0 ≤ fd := by
  obtain ⟨t, i, hloc, _, _, hb, hfd, hctl, hw1⟩ :=
    register_returns_handle k w w1 _ fd handler data poll_in poll_out ok cok h hreg hh
  have hga : (get_slot (__event_slot_alloc k w.pool fd ok).1 t i).gen = g := by
    rw [hw1] at htag
    simp only [emit_trace, put_trace, event_slot_alloc_trace, List.append_cancel_left_eq,
      List.cons.injEq, Effect.ctl_add.injEq, and_true, true_and] at htag
    exact htag.2
  refine ⟨t, i, hloc, by rw [hw1]; simpa using hb, ?_, hb, hga, hfd,
    ((epoll_ctl_eq_zero cok fd).1 hctl).1⟩
  rw [hw1]
  simp only [emit_pool, put_pool, get_slot_set_slot_same _ _ _ _ hb, registered_slot,
    update_events_gen]
  exact hga

/-! ## Generations -/

/-- With the generation an unbounded integer: (1) every operation of the
engine (register, unregister, selectOn, reconfigure, dispatch) that returns keeps
every block and decreases no generation; (2) so does `__event_slot_alloc`;
(3) so does `__event_slot_dealloc`; (4) a free slot that `__event_slot_alloc`
fills has its generation raised by one; (5) `__event_slot_dealloc` on a slot of an
existing block raises its generation by one; (6) when a handle is registered with
tag generation `g1`, and after any operations the handle, then free, is
registered again with tag generation `g2`, then `g1 < g2`. -/
theorem generation_strictly_increases (k : Consts) :
    (∀ (w w1 : World) (o : Op), run_op k w o = .ok w1 → PoolLe w.pool w1.pool) ∧
    (∀ (p : event_pool) (fd : Int) (ok : Bool), PoolLe p (__event_slot_alloc k p fd ok).1) ∧
    (∀ (w w1 : World) (idx : Int), __event_slot_dealloc k w idx = .ok w1 →
      PoolLe w.pool w1.pool) ∧
    (∀ (p : event_pool) (fd : Int) (ok : Bool) (t i : Nat), slot_free p t i →
      block_exists (__event_slot_alloc k p fd ok).1 t →
      (get_slot (__event_slot_alloc k p fd ok).1 t i).fd ≠ -1 →
      (get_slot (__event_slot_alloc k p fd ok).1 t i).gen = (get_slot p t i).gen + 1) ∧
    (∀ (w w1 : World) (idx : Int) (t i : Nat), locate k idx = some (t, i) →
      block_exists w.pool t → __event_slot_dealloc k w idx = .ok w1 →
      (get_slot w1.pool t i).gen = (get_slot w.pool t i).gen + 1) ∧
    (∀ (wa wb wc wd : World) (h : Int) (fd1 fd2 : Int) (handler1 data1 handler2 data2 : Nat)
      (in1 out1 in2 out2 : Int) (ok1 cok1 ok2 cok2 : Bool) (mask1 mask2 : Nat) (g1 g2 : Int)
      (ops : List Op) (t i : Nat),
      event_register_epoll k wa (some ()) fd1 handler1 data1 in1 out1 ok1 cok1 = .ok (wb, h) →
      h ≠ -1 →
      wb.trace = wa.trace ++ [Effect.ctl_add fd1 mask1 h g1] →
      run_ops k wb ops = .ok wc →
      locate k h = some (t, i) → slot_free wc.pool t i →
      event_register_epoll k wc (some ()) fd2 handler2 data2 in2 out2 ok2 cok2 = .ok (wd, h) →
      wd.trace = wc.trace ++ [Effect.ctl_add fd2 mask2 h g2] →
      g1 < g2) := by
  refine ⟨PoolLe_run_op k, PoolLe_alloc k, fun w w1 idx h => (Quiet_dealloc k w w1 idx h).1,
    ?_, dealloc_bumps k, ?_⟩
  · intro p fd ok t i hfree hb hfd
    rw [(alloc_took_slot k p fd ok t i hfree hb hfd).1]
    rfl
  · intro wa wb wc wd h fd1 fd2 handler1 data1 handler2 data2 in1 out1 in2 out2 ok1 cok1
      ok2 cok2 mask1 mask2 g1 g2 ops t i hreg1 hh htag1 hops hloc hfree hreg2 htag2
    obtain ⟨t1, i1, hloc1, hb1, hg1, _⟩ :=
      register_tag k wa wb fd1 handler1 data1 in1 out1 ok1 cok1 h mask1 g1 hreg1 hh htag1
    obtain ⟨t2, i2, hloc2, _, _, hb2, hg2, hfd2, hfdpos⟩ :=
      register_tag k wc wd fd2 handler2 data2 in2 out2 ok2 cok2 h mask2 g2 hreg2 hh htag2
    rw [hloc] at hloc1 hloc2
    simp only [Option.some.injEq, Prod.mk.injEq] at hloc1 hloc2
    obtain ⟨rfl, rfl⟩ := hloc1
    obtain ⟨rfl, rfl⟩ := hloc2
    have hle := (PoolLe_run_ops k ops wb wc hops t hb1).2 i
    have htook := (alloc_took_slot k wc.pool fd2 ok2 t i hfree hb2 (by omega)).1
    rw [htook] at hg2
    simp only [taken_slot] at hg2
    omega

/-- An instance: descriptor `5` gets handle `0` with tag generation `1`; after
its unregistration descriptor `6` gets handle `0` with tag generation `4`. -/
theorem generation_strictly_increases_witness :
    (get_slot world_registered.pool 0 0).gen < (get_slot world_reused.pool 0 0).gen :=
  (generation_strictly_increases small_consts).2.2.2.2.2
    new_world world_registered world_unregistered world_reused 0 5 6 7 9 8 0 1 0 1 1
    true true true true (EPOLLET ||| EPOLLIN) (EPOLLET ||| EPOLLIN ||| EPOLLOUT)
    (get_slot world_registered.pool 0 0).gen (get_slot world_reused.pool 0 0).gen
    [Op.call (Call.unregister 5 0 1 true)] 0 0
    rfl (by decide) rfl rfl rfl (by decide) rfl rfl

/-! ## Used-counts that agree with the slots -/

theorem count_used_le (table : SlotTable) : ∀ n, count_used table n ≤ n := by
  intro n
  induction n with
  | zero => simp [count_used]
  | succ n ih => unfold count_used; split_ifs <;> omega

theorem count_used_eq_iff (table : SlotTable) :
    ∀ n, count_used table n = n ↔ ∀ j, j < n → (table j).fd ≠ -1 := by
  intro n
  induction n with
  | zero => simp [count_used]
  | succ n ih =>
    have hle := count_used_le table n
    unfold count_used
    constructor
    · intro h j hj
      split_ifs at h with hfd
      · omega
      · by_cases hjn : j = n
        · subst hjn; exact hfd
        · exact ih.1 (by omega) j (by omega)
    · intro h
      have h1 := ih.2 (fun j hj => h j (by omega))
      have h2 := h n (by omega)
      rw [if_neg h2, h1]

/-- In a consistent pool the allocator passes over a block only if all its slots
hold a descriptor. -/
theorem skipped_is_full (k : Consts) (p : event_pool) (hc : Consistent k p) (t i : Nat)
    (ht : t < k.EVENT_EPOLL_TABLES) (hi : i < k.EVENT_EPOLL_SLOTS)
    (hs : block_skipped k p t) : ¬ slot_free p t i := by
  have hcons := hc t ht
  unfold slot_free block_exists get_slot
  cases he : p.ereg t with
  | none =>
    rw [he] at hcons
    simp only at hcons
    rcases hs with hs | ⟨_, hs⟩
    · rw [hcons] at hs
      have : k.EVENT_EPOLL_SLOTS = 0 := by exact_mod_cast hs.symm
      omega
    · exact absurd hcons hs
  | some table =>
    rw [he] at hcons
    simp only at hcons
    rcases hs with hs | ⟨hn, _⟩
    · rw [hcons] at hs
      have h1 : count_used table k.EVENT_EPOLL_SLOTS = k.EVENT_EPOLL_SLOTS := by exact_mod_cast hs
      have := (count_used_eq_iff table _).1 h1 i hi
      simp [this]
    · rw [he] at hn; simp at hn

/-- In a consistent pool with a free slot, when a new block can be had, the
allocator takes a slot. -/
theorem alloc_takes_slot (k : Consts) (p : event_pool) (fd : Int) (hc : Consistent k p)
    (hfree : ∃ t i, t < k.EVENT_EPOLL_TABLES ∧ i < k.EVENT_EPOLL_SLOTS ∧ slot_free p t i) :
    ∃ t i base, t < k.EVENT_EPOLL_TABLES ∧ i < k.EVENT_EPOLL_SLOTS ∧
      ((block_exists p t ∧ base = p) ∨
        (¬ block_exists p t ∧ p.slots_used t = 0 ∧ base = add_table p t)) ∧
      block_exists base t ∧ (get_slot base t i).fd = -1 ∧
      __event_slot_alloc k p fd true =
        (set_used (set_slot base t i (taken_slot (get_slot base t i) fd)) t
            (base.slots_used t + 1),
          ((t * k.EVENT_EPOLL_SLOTS + i : Nat) : Int)) := by
  obtain ⟨tf, jf, htf, hjf, hfr⟩ := hfree
  rcases alloc_cases k p fd true with ⟨_, h⟩ | ⟨t, table, ht, he, hnf, hfull, _⟩ |
    ⟨t, i, base, ht, hi, _, hbase, _, hbb, hfd, _, h⟩
  · rcases h with h | h
    · simp at h
    · exact absurd hfr (skipped_is_full k p hc tf jf htf hjf (h tf htf))
  · exfalso
    have hcons := hc t ht
    rw [he] at hcons
    simp only at hcons
    apply hnf
    rw [hcons, (count_used_eq_iff table _).2 hfull]
  · refine ⟨t, i, base, ht, hi, ?_, hbb, hfd, h⟩
    rcases hbase with h1 | ⟨h1, h2, _, h3⟩
    · exact Or.inl h1
    · exact Or.inr ⟨h1, h2, h3⟩

/-! ## Registration, forwards -/

/-- The world in which `event_register_epoll` issues the kernel add, when the
allocator left the world `wa` and returned the handle `idx` of slot `(t, i)`. -/
theorem register_forward (k : Consts) (w : World) (fd : Int) (handler data : Nat)
    (poll_in poll_out : Int) (ok cok : Bool) (t i : Nat)
    (hd : w.pool.destroy ≠ 1)
    (hidx : (event_slot_alloc k w fd ok).2 = ((t * k.EVENT_EPOLL_SLOTS + i : Nat) : Int))
    (ht : t < k.EVENT_EPOLL_TABLES) (hi : i < k.EVENT_EPOLL_SLOTS)
    (hb : block_exists (event_slot_alloc k w fd ok).1.pool t)
    (hfd : (get_slot (event_slot_alloc k w fd ok).1.pool t i).fd = fd) :
    event_register_epoll k w (some ()) fd handler data poll_in poll_out ok cok =
      if epoll_ctl cok fd = -1 then
        match event_slot_unref k
          (((event_slot_alloc k w fd ok).1.put t i
              (registered_slot (get_slot (event_slot_alloc k w fd ok).1.pool t i)
                handler data poll_in poll_out)).emit
            (Effect.ctl_add fd
              (registered_slot (get_slot (event_slot_alloc k w fd ok).1.pool t i)
                handler data poll_in poll_out).events
              ((t * k.EVENT_EPOLL_SLOTS + i : Nat) : Int)
              (get_slot (event_slot_alloc k w fd ok).1.pool t i).gen))
          (t, i) ((t * k.EVENT_EPOLL_SLOTS + i : Nat) : Int) with
        | .fault e => .fault e
        | .ok w4 => .ok (w4, -1)
      else
        .ok (((event_slot_alloc k w fd ok).1.put t i
              (registered_slot (get_slot (event_slot_alloc k w fd ok).1.pool t i)
                handler data poll_in poll_out)).emit
            (Effect.ctl_add fd
              (registered_slot (get_slot (event_slot_alloc k w fd ok).1.pool t i)
                handler data poll_in poll_out).events
              ((t * k.EVENT_EPOLL_SLOTS + i : Nat) : Int)
              (get_slot (event_slot_alloc k w fd ok).1.pool t i).gen),
          ((t * k.EVENT_EPOLL_SLOTS + i : Nat) : Int)) := by
  have hloc := locate_of_lt k t i ht hi
  have hne : ((t * k.EVENT_EPOLL_SLOTS + i : Nat) : Int) ≠ -1 := by omega
  unfold event_register_epoll
  simp only [hd, if_false, hidx, hne]
  rw [event_slot_get_ok k _ _ t i hloc hb]
  simp only [put_pool, get_slot_set_slot_same _ _ _ _ hb, hfd, ne_eq, not_true_eq_false,
    if_false, put_put, registered_slot, update_events_gen]

/-! ## Registration -/

/-- In a pool that is not in destroy mode, whose used-counts agree with its
slots and that has a free slot, for a descriptor `fd ≥ 0`, when a new block can be
had and the kernel add succeeds: `event_register_epoll` returns a handle `h ≥ 0`
of a slot that then holds `fd`, the handler and the data, with reference count
`1`, in-handler count `0` and close flag `0`; and the only new log entry is the
kernel add for `fd` with the mask of the slot and the tag made of `h` and the
generation of the slot. -/
theorem register_success (k : Consts) (w : World) (fd : Int) (handler data : Nat)
    (poll_in poll_out : Int)
    (hd : w.pool.destroy ≠ 1) (hc : Consistent k w.pool)
    (hfree : ∃ t i, t < k.EVENT_EPOLL_TABLES ∧ i < k.EVENT_EPOLL_SLOTS ∧ slot_free w.pool t i)
    (hfd : 0 ≤ fd) :
    ∃ w1 h t i,
      event_register_epoll k w (some ()) fd handler data poll_in poll_out true true
        = .ok (w1, h) ∧
      0 ≤ h ∧ locate k h = some (t, i) ∧ block_exists w1.pool t ∧
      (get_slot w1.pool t i).fd = fd ∧
      (get_slot w1.pool t i).handler = handler ∧
      (get_slot w1.pool t i).data = data ∧
      (get_slot w1.pool t i).ref = 1 ∧
      (get_slot w1.pool t i).in_handler = 0 ∧
      (get_slot w1.pool t i).do_close = 0 ∧
      w1.trace = w.trace ++
        [Effect.ctl_add fd (get_slot w1.pool t i).events h (get_slot w1.pool t i).gen] := by
  obtain ⟨t, i, base, ht, hi, _, hbb, _, halloc⟩ := alloc_takes_slot k w.pool fd hc hfree
  have hwa : event_slot_alloc k w fd true =
      (World.mk (set_used (set_slot base t i (taken_slot (get_slot base t i) fd)) t
          (base.slots_used t + 1)) w.trace, ((t * k.EVENT_EPOLL_SLOTS + i : Nat) : Int)) := by
    unfold event_slot_alloc
    simp only [halloc]
  have hb : block_exists (event_slot_alloc k w fd true).1.pool t := by
    rw [hwa]; simpa using hbb
  have hs : get_slot (event_slot_alloc k w fd true).1.pool t i =
      taken_slot (get_slot base t i) fd := by
    rw [hwa]; simp [get_slot_set_slot, hbb]
  have hctl : ¬ epoll_ctl true fd = -1 := by
    rw [(epoll_ctl_eq_zero true fd).2 ⟨hfd, rfl⟩]; decide
  have hreg := register_forward k w fd handler data poll_in poll_out true true t i hd
    (by rw [hwa]) ht hi hb (by rw [hs]; rfl)
  rw [if_neg hctl] at hreg
  refine ⟨_, _, t, i, hreg, Int.ofNat_nonneg _, locate_of_lt k t i ht hi, ?_⟩
  simp only [emit_pool, put_pool, block_exists_set_slot, get_slot_set_slot_same _ _ _ _ hb,
    emit_trace, put_trace, event_slot_alloc_trace, hs, registered_slot, update_events_fd,
    update_events_handler, update_events_data, update_events_ref, update_events_in_handler,
    update_events_do_close, update_events_gen, taken_slot, zero_slot]
  simp [hb]

/-- An instance: the first registration in a new pool. -/
theorem register_success_witness :
    ∃ w1 h t i,
      event_register_epoll small_consts new_world (some ()) 5 7 9 1 0 true true
        = .ok (w1, h) ∧
      0 ≤ h ∧ locate small_consts h = some (t, i) ∧ block_exists w1.pool t ∧
      (get_slot w1.pool t i).fd = 5 ∧
      (get_slot w1.pool t i).handler = 7 ∧
      (get_slot w1.pool t i).data = 9 ∧
      (get_slot w1.pool t i).ref = 1 ∧
      (get_slot w1.pool t i).in_handler = 0 ∧
      (get_slot w1.pool t i).do_close = 0 ∧
      w1.trace = new_world.trace ++
        [Effect.ctl_add 5 (get_slot w1.pool t i).events h (get_slot w1.pool t i).gen] :=
  register_success small_consts new_world 5 7 9 1 0 (by decide) (fun _ _ => rfl)
    ⟨0, 0, by decide, by decide, by decide⟩ (by decide)

/-! ## Unregistration, forwards -/

theorem unregister_forward (k : Consts) (w : World) (fd idx do_close : Int) (cok : Bool)
    (t i : Nat) (hloc : locate k idx = some (t, i)) (hb : block_exists w.pool t)
    (hfd : (get_slot w.pool t i).fd = fd) :
    event_unregister_epoll_common k w (some ()) fd idx do_close cok =
      match event_slot_unref k
        (if epoll_ctl cok fd = -1 then
          (w.put t i { get_slot w.pool t i with
              ref := (get_slot w.pool t i).ref + 1 }).emit (Effect.ctl_del fd)
         else
          (w.put t i { get_slot w.pool t i with
              ref := (get_slot w.pool t i).ref + 1, do_close := do_close,
              gen := (get_slot w.pool t i).gen + 1 }).emit (Effect.ctl_del fd))
        (t, i) idx with
      | .fault e => .fault e
      | .ok w3 =>
        match event_slot_unref k w3 (t, i) idx with
        | .fault e => .fault e
        | .ok w4 => .ok (w4, epoll_ctl cok fd) := by
  unfold event_unregister_epoll_common
  simp only []
  rw [event_slot_get_ok k w idx t i hloc hb]
  simp only [put_pool, get_slot_set_slot_same _ _ _ _ hb, hfd, ne_eq, not_true_eq_false,
    if_false]
  congr 2
  split_ifs
  · rfl
  · simp only [World.put, World.emit, emit_pool, set_slot_set_slot]

/-- The allocator filled the free slot `(t, i)`: the pool it leaves and the
handle it returns. -/
theorem alloc_took_full (k : Consts) (p : event_pool) (fd : Int) (ok : Bool) (t i : Nat)
    (hfree : slot_free p t i) (hb : block_exists (__event_slot_alloc k p fd ok).1 t)
    (hfd : (get_slot (__event_slot_alloc k p fd ok).1 t i).fd ≠ -1) :
    ∃ base, t < k.EVENT_EPOLL_TABLES ∧ i < k.EVENT_EPOLL_SLOTS ∧
      ((block_exists p t ∧ base = p) ∨
        (¬ block_exists p t ∧ p.slots_used t = 0 ∧ base = add_table p t)) ∧
      block_exists base t ∧
      __event_slot_alloc k p fd ok =
        (set_used (set_slot base t i (taken_slot (get_slot base t i) fd)) t
            (base.slots_used t + 1),
          ((t * k.EVENT_EPOLL_SLOTS + i : Nat) : Int)) := by
  obtain ⟨_, hidx, _, _⟩ := alloc_took_slot k p fd ok t i hfree hb hfd
  rcases alloc_cases k p fd ok with ⟨h, _⟩ | ⟨t1, table, _, _, _, _, h⟩ |
    ⟨t1, i1, base, ht1, hi1, _, hbase, _, hbb, _, _, h⟩
  · rw [h] at hb hfd
    rcases hfree with hf | hf
    · exact absurd hb hf
    · exact absurd hf hfd
  · rw [h] at hb hfd
    rcases hfree with hf | hf
    · exact absurd hb hf
    · exact absurd hf hfd
  · rw [h] at hidx
    simp only at hidx
    have h1 := locate_of_lt k t1 i1 ht1 hi1
    rw [hidx] at h1
    have hti : t < k.EVENT_EPOLL_TABLES ∧ i < k.EVENT_EPOLL_SLOTS := by
      have := alloc_took_slot k p fd ok t i hfree hb hfd
      exact this.2.2
    rw [locate_of_lt k t i hti.1 hti.2] at h1
    simp only [Option.some.injEq, Prod.mk.injEq] at h1
    obtain ⟨rfl, rfl⟩ := h1
    refine ⟨base, ht1, hi1, ?_, hbb, h⟩
    rcases hbase with a | ⟨a, b, _, c⟩
    · exact Or.inl a
    · exact Or.inr ⟨a, b, c⟩

/-! ## Unregistration -/

/-- C8. In a pool that is not in destroy mode, when the allocator fills the free
slot `(t, i)` and the kernel add then fails: `event_register_epoll` returns `-1`,
the slot has `fd = -1` again, the used-count of its block is what it was before
the call, every other slot of a block that existed is unchanged, and the log
grows by the kernel add and the deallocation only, so nothing is closed. -/
theorem register_kernel_failure_releases_slot (k : Consts) (w : World) (fd : Int)
    (handler data : Nat) (poll_in poll_out : Int) (calloc_ok add_ok : Bool) (t i : Nat)
    (hd : w.pool.destroy ≠ 1) (hfree : slot_free w.pool t i)
    (hb : block_exists (__event_slot_alloc k w.pool fd calloc_ok).1 t)
    (htaken : (get_slot (__event_slot_alloc k w.pool fd calloc_ok).1 t i).fd ≠ -1)
    (hfail : epoll_ctl add_ok fd = -1) :
    ∃ w1 mask h g,
      event_register_epoll k w (some ()) fd handler data poll_in poll_out calloc_ok add_ok
        = .ok (w1, -1) ∧
      locate k h = some (t, i) ∧ block_exists w1.pool t ∧
      (get_slot w1.pool t i).fd = -1 ∧
      w1.pool.slots_used t = w.pool.slots_used t ∧
      (∀ t1 i1, (t1, i1) ≠ (t, i) → block_exists w.pool t1 →
        get_slot w1.pool t1 i1 = get_slot w.pool t1 i1) ∧
      w1.trace = w.trace ++ [Effect.ctl_add fd mask h g, Effect.slot_dealloc h] := by
  obtain ⟨base, ht, hi, hbase, hbb, halloc⟩ :=
    alloc_took_full k w.pool fd calloc_ok t i hfree hb htaken
  have hwa : event_slot_alloc k w fd calloc_ok =
      (World.mk (set_used (set_slot base t i (taken_slot (get_slot base t i) fd)) t
          (base.slots_used t + 1)) w.trace, ((t * k.EVENT_EPOLL_SLOTS + i : Nat) : Int)) := by
    unfold event_slot_alloc
    simp only [halloc]
  have hb1 : block_exists (event_slot_alloc k w fd calloc_ok).1.pool t := by
    rw [hwa]; simpa using hbb
  have hs : get_slot (event_slot_alloc k w fd calloc_ok).1.pool t i =
      taken_slot (get_slot base t i) fd := by
    rw [hwa]; simp [get_slot_set_slot, hbb]
  have hloc := locate_of_lt k t i ht hi
  have hreg := register_forward k w fd handler data poll_in poll_out calloc_ok add_ok t i hd
    (by rw [hwa]) ht hi hb1 (by rw [hs]; rfl)
  rw [if_pos hfail, event_slot_unref_ok k _ _ t i hloc (by simpa using hb1)] at hreg
  simp only [emit_pool, put_pool, get_slot_set_slot_same _ _ _ _ hb1, hs, registered_slot,
    update_events_ref, update_events_do_close, taken_slot, zero_slot] at hreg
  rw [if_neg (by decide), if_neg (by decide)] at hreg
  refine ⟨_, (__slot_update_events
      { fd := fd, events := EPOLLET, gen := (get_slot base t i).gen + 1, ref := 0 + 1,
        do_close := 0, in_handler := 0, data := data, handler := handler }
      poll_in poll_out).events, ((t * k.EVENT_EPOLL_SLOTS + i : Nat) : Int),
    (get_slot base t i).gen + 1, hreg, hloc, by simpa using hb1, ?_, ?_, ?_, ?_⟩
  · simp [get_slot_dealloc_world, hb1]
  · rw [hwa]
    simp only [slots_used_dealloc_world, if_true, emit_pool, put_pool, slots_used_set_slot,
      slots_used_set_used]
    rcases hbase with ⟨_, rfl⟩ | ⟨_, hz, rfl⟩
    · omega
    · simp [hz]
  · intro t1 i1 hne hbw
    have hne2 : ¬ (t1 = t ∧ i1 = i) := fun h => hne (by rw [h.1, h.2])
    rw [get_slot_dealloc_world]
    simp only [emit_pool, put_pool, get_slot_set_slot, hne2, and_false, if_false]
    rw [hwa]
    simp only [get_slot_set_used, get_slot_set_slot, hne2, and_false, if_false]
    rcases hbase with ⟨_, rfl⟩ | ⟨hnb, _, rfl⟩
    · rfl
    · have : t1 ≠ t := fun e => hnb (e ▸ hbw)
      simp [this]
  · simp

/-- Witness of C8: the first registration in a new pool, the kernel add failing. -/
theorem register_kernel_failure_releases_slot_witness :
    ∃ w1 mask h g,
      event_register_epoll small_consts new_world (some ()) 5 7 9 1 0 true false
        = .ok (w1, -1) ∧
      locate small_consts h = some (0, 0) ∧ block_exists w1.pool 0 ∧
      (get_slot w1.pool 0 0).fd = -1 ∧
      w1.pool.slots_used 0 = new_world.pool.slots_used 0 ∧
      (∀ t1 i1, (t1, i1) ≠ (0, 0) → block_exists new_world.pool t1 →
        get_slot w1.pool t1 i1 = get_slot new_world.pool t1 i1) ∧
      w1.trace = new_world.trace ++ [Effect.ctl_add 5 mask h g, Effect.slot_dealloc h] :=
  register_kernel_failure_releases_slot small_consts new_world 5 7 9 1 0 true false 0 0
    (by decide) (by decide) (by decide) (by decide) (by decide)

/-! ## Defects of the code -/

/-- C4 (the code breaks the claim). After descriptor `5` was registered at handle
`0` and unregistered with the close flag, which deallocated the slot once and
closed `5`, the dispatch of the stale event tagged `(0, 1)` runs
`__event_slot_dealloc` on handle `0` a second time: the log then holds two
deallocations of handle `0`, the used-count of block `0` falls from `0` to `-1`,
and `close` is called on `-1`. -/
theorem stale_dispatch_deallocates_again :
    ∃ w1,
      event_dispatch_epoll_handler small_consts world_unregistered
        { events := 1, idx := 0, gen := 1 } [] 0 true = .ok (w1, -1) ∧
      world_unregistered.trace =
        [Effect.ctl_add 5 (EPOLLET ||| EPOLLIN) 0 1, Effect.ctl_del 5,
         Effect.slot_dealloc 0, Effect.close 5] ∧
      w1.trace = world_unregistered.trace ++ [Effect.slot_dealloc 0, Effect.close (-1)] ∧
      List.count (Effect.slot_dealloc 0) w1.trace = 2 ∧
      world_unregistered.pool.slots_used 0 = 0 ∧
      w1.pool.slots_used 0 = -1 ∧
      (get_slot world_unregistered.pool 0 0).gen = 3 ∧
      (get_slot w1.pool 0 0).gen = 4 :=
  ⟨_, rfl, by decide, by decide, by decide, by decide, by decide, by decide, by decide⟩

/-- C7 (the code breaks the claim). Descriptor `5` is registered at handle `0`
with reference count `1`, generation `1` and used-count `1`. When the kernel
delete fails, `event_unregister_epoll_common` returns `-1` but has deallocated the
slot: `fd` is `-1`, the generation is `2`, the reference count is `0` and the
used-count is `0`; and the retry of the call stops at the failed assertion
`slot->fd == fd`. -/
theorem failed_unregister_deallocates_slot :
    ∃ w1,
      event_unregister_epoll_common small_consts world_registered (some ()) 5 0 1 false
        = .ok (w1, -1) ∧
      (get_slot world_registered.pool 0 0).fd = 5 ∧
      (get_slot world_registered.pool 0 0).gen = 1 ∧
      (get_slot world_registered.pool 0 0).ref = 1 ∧
      world_registered.pool.slots_used 0 = 1 ∧
      (get_slot w1.pool 0 0).fd = -1 ∧
      (get_slot w1.pool 0 0).gen = 2 ∧
      (get_slot w1.pool 0 0).ref = 0 ∧
      w1.pool.slots_used 0 = 0 ∧
      w1.trace = world_registered.trace ++ [Effect.ctl_del 5, Effect.slot_dealloc 0] ∧
      event_unregister_epoll_common small_consts w1 (some ()) 5 0 1 true
        = .fault Fault.assertion :=
  ⟨_, rfl, by decide, by decide, by decide, by decide, by decide, by decide, by decide,
    by decide, by decide, rfl⟩

/-! ## A registered slot keeps its descriptor -/

theorem slot_holds_weaken (p : event_pool) (t i : Nat) (fd n m : Int) (hm : m ≤ n)
    (h : slot_holds p t i fd n) : slot_holds p t i fd m :=
  ⟨h.1, h.2.1, le_trans hm h.2.2⟩

theorem slot_holds_put (w : World) (t i t1 i1 : Nat) (s : event_slot_epoll) (fd n : Int)
    (h : slot_holds w.pool t i fd n)
    (hs : t1 = t ∧ i1 = i → s.fd = fd ∧ n ≤ s.ref) :
    slot_holds (w.put t1 i1 s).pool t i fd n := by
  unfold slot_holds at *
  simp only [put_pool, block_exists_set_slot, get_slot_set_slot]
  refine ⟨h.1, ?_⟩
  by_cases hc : block_exists w.pool t1 ∧ t = t1 ∧ i = i1
  · rw [if_pos hc]
    exact hs ⟨hc.2.1.symm, hc.2.2.symm⟩
  · rw [if_neg hc]
    exact h.2

theorem slot_holds_ite (c : Prop) [Decidable c] (a b : World) (t i : Nat) (fd n : Int)
    (ha : slot_holds a.pool t i fd n) (hb : slot_holds b.pool t i fd n) :
    slot_holds (if c then a else b).pool t i fd n := by
  split_ifs
  · exact ha
  · exact hb

theorem slot_holds_get (k : Consts) (w w1 : World) (idx : Int) (sl : Option SlotPtr)
    (t i : Nat) (fd n : Int) (hg : event_slot_get k w idx = .ok (w1, sl))
    (h : slot_holds w.pool t i fd n) :
    slot_holds w1.pool t i fd (if sl = some (t, i) then n + 1 else n) := by
  unfold event_slot_get at hg
  split at hg
  · simp at hg
  · rename_i t1 i1 hloc
    split at hg
    · simp only [Res.ok.injEq, Prod.mk.injEq] at hg
      obtain ⟨rfl, rfl⟩ := hg
      simpa using h
    · simp only [Res.ok.injEq, Prod.mk.injEq] at hg
      obtain ⟨rfl, rfl⟩ := hg
      by_cases hc : (t1, i1) = (t, i)
      · simp only [Prod.mk.injEq] at hc
        obtain ⟨rfl, rfl⟩ := hc
        simp only [if_true]
        unfold slot_holds at *
        simp only [put_pool, block_exists_set_slot, get_slot_set_slot_same _ _ _ _ h.1]
        exact ⟨h.1, h.2.1, by omega⟩
      · have hc2 : ¬ (some (t1, i1) = some (t, i)) := by simpa using hc
        rw [if_neg hc2]
        apply slot_holds_put _ _ _ _ _ _ _ _ h
        rintro ⟨rfl, rfl⟩
        exact absurd rfl hc

theorem slot_holds_unref (k : Consts) (w w1 : World) (sl : SlotPtr) (idx : Int)
    (t i : Nat) (fd n : Int) (hloc : locate k idx = some sl)
    (hu : event_slot_unref k w sl idx = .ok w1) (hn : 1 ≤ n)
    (h : slot_holds w.pool t i fd (if sl = (t, i) then n + 1 else n)) :
    slot_holds w1.pool t i fd n := by
  obtain ⟨t1, i1⟩ := sl
  by_cases hc : (t1, i1) = (t, i)
  · simp only [Prod.mk.injEq] at hc
    obtain ⟨rfl, rfl⟩ := hc
    simp only [if_true] at h
    rw [event_slot_unref_ok k w idx t1 i1 hloc h.1] at hu
    have hr : (get_slot w.pool t1 i1).ref - 1 ≠ 0 := by have := h.2.2; omega
    rw [if_pos hr] at hu
    rw [← Res.ok_inj hu]
    apply slot_holds_put _ _ _ _ _ _ _ _ (slot_holds_weaken _ _ _ _ _ n (by omega) h)
    intro _
    exact ⟨h.2.1, by have := h.2.2; simp only; omega⟩
  · rw [if_neg hc] at h
    have hne : ¬ (t = t1 ∧ i = i1) := fun e => hc (by rw [e.1, e.2])
    by_cases hb1 : block_exists w.pool t1
    · rw [event_slot_unref_ok k w idx t1 i1 hloc hb1] at hu
      unfold slot_holds at *
      split_ifs at hu <;>
        (rw [← Res.ok_inj hu]
         simp only [emit_pool, put_pool, block_exists_dealloc_world, block_exists_set_slot,
           get_slot_dealloc_world, get_slot_set_slot, hne, and_false, if_false]
         exact h)
    · have hnone : w.pool.ereg t1 = none := by
        unfold block_exists at hb1
        cases he : w.pool.ereg t1 with
        | none => rfl
        | some tb => simp [he] at hb1
      unfold event_slot_unref at hu
      simp only [get_slot, hnone, zero_slot] at hu
      rw [if_pos (by decide)] at hu
      rw [← Res.ok_inj hu]
      apply slot_holds_put _ _ _ _ _ _ _ _ h
      rintro ⟨rfl, rfl⟩
      exact absurd rfl hc

theorem slot_holds_alloc (k : Consts) (w : World) (fd1 : Int) (ok : Bool) (t i : Nat)
    (fd n : Int) (hfd : fd ≠ -1) (h : slot_holds w.pool t i fd n) :
    slot_holds (event_slot_alloc k w fd1 ok).1.pool t i fd n := by
  unfold slot_holds at *
  have hk := alloc_keeps_busy_slot k w.pool fd1 ok t i h.1 (by rw [h.2.1]; exact hfd)
  have hb := ((PoolLe_alloc k w.pool fd1 ok) t h.1).1
  unfold event_slot_alloc
  simp only [hk]
  exact ⟨hb, h.2⟩

theorem slot_holds_register (k : Consts) (w w1 : World) (pp : PoolPtr) (fd1 : Int)
    (handler data : Nat) (poll_in poll_out : Int) (ok cok : Bool) (r : Int)
    (t i : Nat) (fd n : Int) (hfd : fd ≠ -1) (hn : 1 ≤ n)
    (hr : event_register_epoll k w pp fd1 handler data poll_in poll_out ok cok = .ok (w1, r))
    (h : slot_holds w.pool t i fd n) : slot_holds w1.pool t i fd n := by
  unfold event_register_epoll at hr
  split at hr
  · rw [← Res.ok_fst hr]; exact h
  · split at hr
    · rw [← Res.ok_fst hr]; exact h
    · simp only [] at hr
      have ha := slot_holds_alloc k w fd1 ok t i fd n hfd h
      split at hr
      · rw [← Res.ok_fst hr]; exact ha
      · split at hr
        · simp at hr
        · simp at hr
        · rename_i w2 slot hg
          have hget := slot_holds_get k _ _ _ _ t i fd n hg ha
          have hloc := (event_slot_get_some k _ _ _ _ hg).1
          split at hr
          · simp at hr
          · have h3 : slot_holds ((w2.put slot.1 slot.2 (__slot_update_events
                { get_slot w2.pool slot.1 slot.2 with
                  events := EPOLLET, handler := handler, data := data } poll_in poll_out)).emit
              (Effect.ctl_add fd1 (__slot_update_events
                { get_slot w2.pool slot.1 slot.2 with
                  events := EPOLLET, handler := handler, data := data } poll_in poll_out).events
                (event_slot_alloc k w fd1 ok).2 (__slot_update_events
                { get_slot w2.pool slot.1 slot.2 with
                  events := EPOLLET, handler := handler, data := data } poll_in poll_out).gen)).pool
                t i fd (if slot = (t, i) then n + 1 else n) := by
              have hget2 : slot_holds w2.pool t i fd (if slot = (t, i) then n + 1 else n) := by
                simpa using hget
              rw [emit_pool]
              apply slot_holds_put _ _ _ _ _ _ _ _ hget2
              rintro ⟨h1, h2⟩
              have hs : slot = (t, i) := Prod.ext h1 h2
              rw [hs] at hget2 ⊢
              simp only [if_true] at hget2 ⊢
              simp only [update_events_fd, update_events_ref]
              exact ⟨hget2.2.1, hget2.2.2⟩
            split at hr
            · split at hr
              · simp at hr
              · rename_i w4 hu
                rw [← Res.ok_fst hr]
                exact slot_holds_unref k _ _ slot _ t i fd n hloc hu hn h3
            · rw [← Res.ok_fst hr]
              refine slot_holds_weaken _ _ _ _ _ n ?_ h3
              split_ifs <;> omega

theorem slot_holds_select_on (k : Consts) (w w1 : World) (pp : PoolPtr)
    (fd1 idx poll_in poll_out : Int) (cok : Bool) (r : Int)
    (t i : Nat) (fd n : Int) (hn : 1 ≤ n)
    (hr : event_select_on_epoll k w pp fd1 idx poll_in poll_out cok = .ok (w1, r))
    (h : slot_holds w.pool t i fd n) : slot_holds w1.pool t i fd n := by
  unfold event_select_on_epoll at hr
  split at hr
  · rw [← Res.ok_fst hr]; exact h
  · split at hr
    · simp at hr
    · simp at hr
    · rename_i w2 slot hg
      have hget := slot_holds_get k _ _ _ _ t i fd n hg h
      have hloc := (event_slot_get_some k _ _ _ _ hg).1
      have hget2 : slot_holds w2.pool t i fd (if slot = (t, i) then n + 1 else n) := by
        simpa using hget
      split at hr
      · simp at hr
      · simp only [] at hr
        have hp : slot_holds (w2.put slot.1 slot.2
            (__slot_update_events (get_slot w2.pool slot.1 slot.2) poll_in poll_out)).pool
            t i fd (if slot = (t, i) then n + 1 else n) := by
          apply slot_holds_put _ _ _ _ _ _ _ _ hget2
          rintro ⟨h1, h2⟩
          have hs : slot = (t, i) := Prod.ext h1 h2
          rw [hs] at hget2 ⊢
          simp only [if_true] at hget2 ⊢
          simp only [update_events_fd, update_events_ref]
          exact ⟨hget2.2.1, hget2.2.2⟩
        split at hr
        · simp at hr
        · rename_i w3 hu
          rw [← Res.ok_fst hr]
          exact slot_holds_unref k _ _ slot _ t i fd n hloc hu hn
            (slot_holds_ite _ _ _ _ _ _ _ hp (by rw [emit_pool]; exact hp))

theorem slot_holds_unregister (k : Consts) (w w1 : World) (pp : PoolPtr)
    (fd1 idx do_close : Int) (cok : Bool) (r : Int)
    (t i : Nat) (fd n : Int) (hn : 1 ≤ n) (hother : locate k idx ≠ some (t, i))
    (hr : event_unregister_epoll_common k w pp fd1 idx do_close cok = .ok (w1, r))
    (h : slot_holds w.pool t i fd n) : slot_holds w1.pool t i fd n := by
  cases pp with
  | none =>
    simp only [event_unregister_epoll_common] at hr
    rw [← Res.ok_fst hr]; exact h
  | some u =>
    obtain ⟨t1, i1, wa, wb, hloc, hb, _, _, hwa, hu1, hu2⟩ :=
      unregister_returns k w w1 fd1 idx do_close cok r hr
    have hne : (t1, i1) ≠ (t, i) := fun e => hother (by rw [hloc, e])
    have hne2 : ¬ (t1 = t ∧ i1 = i) := fun e => hne (by rw [e.1, e.2])
    have ha : slot_holds wa.pool t i fd n := by
      rw [hwa]
      split_ifs
      · rw [emit_pool]
        exact slot_holds_put _ _ _ _ _ _ _ _ h (fun e => absurd e hne2)
      · rw [emit_pool]
        exact slot_holds_put _ _ _ _ _ _ _ _ h (fun e => absurd e hne2)
    have hb1 := slot_holds_unref k wa wb (t1, i1) idx t i fd n hloc hu1 hn
      (by rw [if_neg hne]; exact ha)
    exact slot_holds_unref k wb w1 (t1, i1) idx t i fd n hloc hu2 hn
      (by rw [if_neg hne]; exact hb1)

theorem spawn_loop_ereg (spawn : Nat → SpawnResult) :
    ∀ (n i : Nat) (w : World), (spawn_loop spawn w n i).pool.ereg = w.pool.ereg := by
  intro n
  induction n with
  | zero => intro i w; rfl
  | succ n ih =>
    intro i w
    unfold spawn_loop
    simp only []
    rw [ih]
    split
    · split <;> rfl
    · rfl

theorem slot_holds_of_ereg (p q : event_pool) (t i : Nat) (fd n : Int)
    (he : q.ereg = p.ereg) (h : slot_holds p t i fd n) : slot_holds q t i fd n := by
  unfold slot_holds block_exists get_slot at *
  rw [he]; exact h

theorem slot_holds_reconfigure (k : Consts) (w w1 : World) (value : Int)
    (spawn : Nat → SpawnResult) (r : Int) (t i : Nat) (fd n : Int)
    (hr : event_reconfigure_threads_epoll k w value spawn = .ok (w1, r))
    (h : slot_holds w.pool t i fd n) : slot_holds w1.pool t i fd n := by
  unfold event_reconfigure_threads_epoll at hr
  simp only [] at hr
  split_ifs at hr <;>
    (rw [← Res.ok_fst hr]
     refine slot_holds_of_ereg w.pool _ t i fd n ?_ h
     first
       | rfl
       | (simp only [World.set_eventthreadcount]; exact spawn_loop_ereg spawn _ _ w))

theorem slot_holds_run_call (k : Consts) (w w1 : World) (c : Call) (hidx : Int)
    (t i : Nat) (fd n : Int) (hfd : fd ≠ -1) (hn : 1 ≤ n)
    (hloc : locate k hidx = some (t, i)) (hc : c.unregisters hidx = false)
    (hr : run_call k w c = .ok w1)
    (h : slot_holds w.pool t i fd n) : slot_holds w1.pool t i fd n := by
  cases c with
  | register fd1 handler data poll_in poll_out ok cok =>
    simp only [run_call] at hr
    split at hr
    · rename_i r hreg
      have e := Res.ok_inj hr; subst e
      exact slot_holds_register k w r.1 _ fd1 handler data poll_in poll_out ok cok r.2
        t i fd n hfd hn hreg h
    · simp at hr
  | select_on fd1 idx poll_in poll_out cok =>
    simp only [run_call] at hr
    split at hr
    · rename_i r hreg
      have e := Res.ok_inj hr; subst e
      exact slot_holds_select_on k w r.1 _ fd1 idx poll_in poll_out cok r.2 t i fd n hn hreg h
    · simp at hr
  | unregister fd1 idx do_close cok =>
    simp only [run_call] at hr
    simp only [Call.unregisters, decide_eq_false_iff_not] at hc
    split at hr
    · rename_i r hreg
      have e := Res.ok_inj hr; subst e
      refine slot_holds_unregister k w r.1 _ fd1 idx do_close cok r.2 t i fd n hn ?_ hreg h
      intro hl
      exact hc (locate_inj k idx hidx (t, i) hl hloc)
    · simp at hr
  | reconfigure_threads value spawn =>
    simp only [run_call] at hr
    split at hr
    · rename_i r hreg
      have e := Res.ok_inj hr; subst e
      exact slot_holds_reconfigure k w r.1 value spawn r.2 t i fd n hreg h
    · simp at hr

theorem slot_holds_run_calls (k : Consts) (hidx : Int) (t i : Nat) (fd n : Int)
    (hfd : fd ≠ -1) (hn : 1 ≤ n) (hloc : locate k hidx = some (t, i)) :
    ∀ (cs : List Call) (w w1 : World), cs.any (Call.unregisters hidx) = false →
      run_calls k w cs = .ok w1 → slot_holds w.pool t i fd n → slot_holds w1.pool t i fd n := by
  intro cs
  induction cs with
  | nil => intro w w1 _ hr h; simp [run_calls] at hr; subst hr; exact h
  | cons c cs ih =>
    intro w w1 hc hr h
    simp only [List.any_cons, Bool.or_eq_false_iff] at hc
    unfold run_calls at hr
    split at hr
    · rename_i w2 h2
      exact ih w2 w1 hc.2 hr (slot_holds_run_call k w w2 c hidx t i fd n hfd hn hloc hc.1 h2 h)
    · simp at hr

theorem slot_holds_dispatch_enter (k : Consts) (w w1 : World) (event : epoll_event)
    (c : Captured) (t i : Nat) (fd n : Int)
    (he : dispatch_enter k w event = .ok (w1, c)) (h : slot_holds w.pool t i fd n) :
    locate k event.idx = some c.slot ∧
      slot_holds w1.pool t i fd (if c.slot = (t, i) then n + 1 else n) := by
  unfold dispatch_enter at he
  split at he
  · simp at he
  · simp at he
  · rename_i w2 slot hg
    have hget := slot_holds_get k _ _ _ _ t i fd n hg h
    have hloc := (event_slot_get_some k _ _ _ _ hg).1
    have hget2 : slot_holds w2.pool t i fd (if slot = (t, i) then n + 1 else n) := by
      simpa using hget
    simp only [] at he
    split_ifs at he
    · simp only [Res.ok.injEq, Prod.mk.injEq] at he
      obtain ⟨rfl, rfl⟩ := he
      exact ⟨hloc, hget2⟩
    · simp only [Res.ok.injEq, Prod.mk.injEq] at he
      obtain ⟨rfl, rfl⟩ := he
      exact ⟨hloc, hget2⟩
    · simp only [Res.ok.injEq, Prod.mk.injEq] at he
      obtain ⟨rfl, rfl⟩ := he
      refine ⟨hloc, ?_⟩
      apply slot_holds_put _ _ _ _ _ _ _ _ hget2
      rintro ⟨h1, h2⟩
      have hs : slot = (t, i) := Prod.ext h1 h2
      rw [hs] at hget2 ⊢
      simp only [if_true] at hget2 ⊢
      exact ⟨hget2.2.1, hget2.2.2⟩

theorem slot_holds_dispatch_leave (k : Consts) (w w1 : World) (event : epoll_event)
    (c : Captured) (handler_ret : Int) (mod_ok : Bool) (r : Int) (t i : Nat) (fd n : Int)
    (hn : 1 ≤ n) (hloc : locate k event.idx = some c.slot)
    (hl : dispatch_leave k w event c handler_ret mod_ok = .ok (w1, r))
    (h : slot_holds w.pool t i fd (if c.slot = (t, i) then n + 1 else n)) :
    slot_holds w1.pool t i fd n := by
  unfold dispatch_leave at hl
  simp only [] at hl
  have hp : slot_holds (w.put c.slot.1 c.slot.2
      { get_slot w.pool c.slot.1 c.slot.2 with
        in_handler := (get_slot w.pool c.slot.1 c.slot.2).in_handler - 1 }).pool t i fd
      (if c.slot = (t, i) then n + 1 else n) := by
    apply slot_holds_put _ _ _ _ _ _ _ _ h
    rintro ⟨h1, h2⟩
    have hs : c.slot = (t, i) := Prod.ext h1 h2
    rw [hs] at h ⊢
    simp only [if_true] at h ⊢
    exact ⟨h.2.1, h.2.2⟩
  split at hl
  · simp at hl
  · rename_i w2 hu
    rw [← Res.ok_fst hl]
    refine slot_holds_unref k _ _ c.slot _ t i fd n hloc hu hn ?_
    by_cases h1 : event.gen ≠ (get_slot w.pool c.slot.1 c.slot.2).gen
    · rw [if_pos h1]; exact hp
    · rw [if_neg h1]
      by_cases h2 : (get_slot w.pool c.slot.1 c.slot.2).in_handler - 1 = 0
      · rw [if_pos h2, emit_pool]; exact hp
      · rw [if_neg h2]; exact hp

theorem slot_holds_dispatch (k : Consts) (w w1 : World) (event : epoll_event)
    (body : List Call) (handler_ret : Int) (mod_ok : Bool) (r : Int) (hidx : Int)
    (t i : Nat) (fd n : Int) (hfd : fd ≠ -1) (hn : 1 ≤ n)
    (hloc : locate k hidx = some (t, i)) (hbody : body.any (Call.unregisters hidx) = false)
    (hd : event_dispatch_epoll_handler k w event body handler_ret mod_ok = .ok (w1, r))
    (h : slot_holds w.pool t i fd n) : slot_holds w1.pool t i fd n := by
  unfold event_dispatch_epoll_handler at hd
  split at hd
  · simp at hd
  · rename_i w2 c he
    obtain ⟨hloc2, h2⟩ := slot_holds_dispatch_enter k w w2 event c t i fd n he h
    split at hd
    · split at hd
      · simp at hd
      · rename_i w3 hu
        rw [← Res.ok_fst hd]
        exact slot_holds_unref k _ _ c.slot _ t i fd n hloc2 hu hn h2
    · simp only [] at hd
      split at hd
      · simp at hd
      · rename_i w3 hb
        have h3 := slot_holds_run_calls k hidx t i fd (if c.slot = (t, i) then n + 1 else n)
          hfd (by split_ifs <;> omega) hloc body _ w3 hbody hb (by rw [emit_pool]; exact h2)
        exact slot_holds_dispatch_leave k w3 w1 event c handler_ret mod_ok r t i fd n hn
          hloc2 hd h3

theorem slot_holds_run_op (k : Consts) (w w1 : World) (o : Op) (hidx : Int)
    (t i : Nat) (fd n : Int) (hfd : fd ≠ -1) (hn : 1 ≤ n)
    (hloc : locate k hidx = some (t, i)) (ho : o.unregisters hidx = false)
    (hr : run_op k w o = .ok w1)
    (h : slot_holds w.pool t i fd n) : slot_holds w1.pool t i fd n := by
  cases o with
  | call c => exact slot_holds_run_call k w w1 c hidx t i fd n hfd hn hloc ho hr h
  | dispatch event body handler_ret mod_ok =>
    simp only [run_op] at hr
    split at hr
    · rename_i r hd
      have e := Res.ok_inj hr; subst e
      exact slot_holds_dispatch k w r.1 event body handler_ret mod_ok r.2 hidx t i fd n
        hfd hn hloc ho hd h
    · simp at hr

theorem slot_holds_run_ops (k : Consts) (hidx : Int) (t i : Nat) (fd n : Int)
    (hfd : fd ≠ -1) (hn : 1 ≤ n) (hloc : locate k hidx = some (t, i)) :
    ∀ (os : List Op) (w w1 : World), (∀ o ∈ os, Op.unregisters hidx o = false) →
      run_ops k w os = .ok w1 → slot_holds w.pool t i fd n → slot_holds w1.pool t i fd n := by
  intro os
  induction os with
  | nil => intro w w1 _ hr h; simp [run_ops] at hr; subst hr; exact h
  | cons o os ih =>
    intro w w1 ho hr h
    unfold run_ops at hr
    split at hr
    · rename_i w2 h2
      exact ih w2 w1 (fun o1 h1 => ho o1 (List.mem_cons_of_mem _ h1)) hr
        (slot_holds_run_op k w w2 o hidx t i fd n hfd hn hloc
          (ho o (List.mem_cons_self _ _)) h2 h)
    · simp at hr

/-! ## Live events -/

theorem lor_eq_zero (a b : Nat) : a ||| b = 0 ↔ a = 0 ∧ b = 0 := by
  constructor
  · intro h
    have ha : ∀ j, a.testBit j = false := by
      intro j
      have := congrArg (fun x => Nat.testBit x j) h
      simp only [Nat.testBit_or, Nat.zero_testBit, Bool.or_eq_false_iff] at this
      exact this.1
    have hb : ∀ j, b.testBit j = false := by
      intro j
      have := congrArg (fun x => Nat.testBit x j) h
      simp only [Nat.testBit_or, Nat.zero_testBit, Bool.or_eq_false_iff] at this
      exact this.2
    exact ⟨Nat.eq_of_testBit_eq (by simpa using ha), Nat.eq_of_testBit_eq (by simpa using hb)⟩
  · rintro ⟨rfl, rfl⟩; rfl

theorem land_lor_ne_zero (e a b : Nat) :
    e &&& (a ||| b) ≠ 0 ↔ (e &&& a ≠ 0 ∨ e &&& b ≠ 0) := by
  rw [Nat.and_or_distrib_left, ne_eq, lor_eq_zero]
  tauto

theorem dispatch_leave_returns (k : Consts) (w : World) (event : epoll_event) (c : Captured)
    (handler_ret : Int) (mod_ok : Bool)
    (hloc : locate k event.idx = some c.slot) (hb : block_exists w.pool c.slot.1) :
    ∃ w1 r, dispatch_leave k w event c handler_ret mod_ok = .ok (w1, r) := by
  have key : ∀ (x : World × Int), block_exists x.1.pool c.slot.1 →
      ∃ w1 r1, (match event_slot_unref k x.1 c.slot event.idx with
        | .fault e => (Res.fault e : Res (World × Int))
        | .ok w2 => Res.ok (w2, x.2)) = Res.ok (w1, r1) := by
    intro x hx
    obtain ⟨w3, h3⟩ := event_slot_unref_returns k x.1 event.idx c.slot.1 c.slot.2 hloc hx
    have h4 : event_slot_unref k x.1 c.slot event.idx = .ok w3 := h3
    rw [h4]
    exact ⟨_, _, rfl⟩
  unfold dispatch_leave
  simp only []
  apply key
  split_ifs <;> simpa using hb

/-- A live event on a slot with a handler: the dispatch runs the handler in
`handler_world`, then the calls made meanwhile, then `dispatch_leave`. -/
theorem live_dispatch_eq (k : Consts) (w : World) (event : epoll_event) (body : List Call)
    (handler_ret : Int) (mod_ok : Bool) (t i : Nat)
    (hloc : locate k event.idx = some (t, i)) (hb : block_exists w.pool t)
    (hfd : (get_slot w.pool t i).fd ≠ -1) (hgen : event.gen = (get_slot w.pool t i).gen)
    (hh : (get_slot w.pool t i).handler ≠ 0) :
    event_dispatch_epoll_handler k w event body handler_ret mod_ok =
      match run_calls k (handler_world w event t i) body with
      | .fault e => .fault e
      | .ok w3 =>
        dispatch_leave k w3 event
          { slot := (t, i), fd := (get_slot w.pool t i).fd,
            handler := (get_slot w.pool t i).handler, data := (get_slot w.pool t i).data }
          handler_ret mod_ok := by
  unfold event_dispatch_epoll_handler
  rw [dispatch_enter_ok k w event t i hloc hb]
  have hlive : ¬ ((get_slot w.pool t i).fd = -1 ∨ event.gen ≠ (get_slot w.pool t i).gen) := by
    simp [hfd, hgen]
  rw [if_neg hlive]
  simp only [hh, if_false]
  rfl

/-- C10, as stated, fails: descriptor `5` is registered at handle `0` with a `NULL`
handler; the event tagged `(0, 1)` with the read-ready bit is live (the slot
holds `5` and has generation `1`), yet the dispatch returns with no handler call
in the log. -/
theorem live_event_null_handler_not_invoked :
    (get_slot world_null_handler.pool 0 0).fd = 5 ∧
    (get_slot world_null_handler.pool 0 0).gen = 1 ∧
    (get_slot world_null_handler.pool 0 0).handler = 0 ∧
    ∃ w1,
      event_dispatch_epoll_handler small_consts world_null_handler
        { events := EPOLLIN, idx := 0, gen := 1 } [] 0 true = .ok (w1, -1) ∧
      List.countP Effect.is_handler_call w1.trace = 0 :=
  ⟨by decide, by decide, by decide, _, rfl, by decide⟩

/-- C10, amended. For a live event (the slot lies in an existing block, its `fd`
is not `-1` and its generation is the carried one) on a slot whose handler is
not `NULL`, when the calls made while the handler runs return:
`event_dispatch_epoll_handler` returns, and the log grows by exactly one handler
call, made first, with the handler, the `fd` and the data of the slot, the
handle, and the flags `e & (EPOLLIN|EPOLLPRI)`, `e & EPOLLOUT`,
`e & (EPOLLERR|EPOLLHUP)` of the readiness bits `e`; these are non-zero exactly
when `e` has `EPOLLIN` or `EPOLLPRI`, has `EPOLLOUT`, has `EPOLLERR` or
`EPOLLHUP`; for `e = EPOLLIN` they are `1`, `0`, `0`. -/
theorem live_event_invokes_handler_once (k : Consts) (w w3 : World) (event : epoll_event)
    (body : List Call) (handler_ret : Int) (mod_ok : Bool) (t i : Nat)
    (hloc : locate k event.idx = some (t, i)) (hb : block_exists w.pool t)
    (hfd : (get_slot w.pool t i).fd ≠ -1) (hgen : event.gen = (get_slot w.pool t i).gen)
    (hh : (get_slot w.pool t i).handler ≠ 0)
    (hbody : run_calls k (handler_world w event t i) body = .ok w3) :
    (∃ w1 r extra,
      event_dispatch_epoll_handler k w event body handler_ret mod_ok = .ok (w1, r) ∧
      w1.trace = w.trace ++
        [Effect.handler (get_slot w.pool t i).handler (get_slot w.pool t i).fd event.idx
          (get_slot w.pool t i).data
          (event.events &&& (EPOLLIN ||| EPOLLPRI))
          (event.events &&& EPOLLOUT)
          (event.events &&& (EPOLLERR ||| EPOLLHUP))] ++ extra ∧
      ∀ e ∈ extra, Effect.is_handler_call e = false) ∧
    (event.events &&& (EPOLLIN ||| EPOLLPRI) ≠ 0 ↔
      (event.events &&& EPOLLIN ≠ 0 ∨ event.events &&& EPOLLPRI ≠ 0)) ∧
    (event.events &&& (EPOLLERR ||| EPOLLHUP) ≠ 0 ↔
      (event.events &&& EPOLLERR ≠ 0 ∨ event.events &&& EPOLLHUP ≠ 0)) ∧
    (event.events = EPOLLIN →
      event.events &&& (EPOLLIN ||| EPOLLPRI) = 1 ∧ event.events &&& EPOLLOUT = 0 ∧
      event.events &&& (EPOLLERR ||| EPOLLHUP) = 0) := by
  refine ⟨?_, land_lor_ne_zero _ _ _, land_lor_ne_zero _ _ _, ?_⟩
  · rw [live_dispatch_eq k w event body handler_ret mod_ok t i hloc hb hfd hgen hh, hbody]
    simp only []
    obtain ⟨hle, extra1, htr1, hq1⟩ := Quiet_run_calls k body _ w3 hbody
    have hb3 : block_exists w3.pool t :=
      (hle t (by simpa [handler_world] using hb)).1
    obtain ⟨w1, r, hl⟩ := dispatch_leave_returns k w3 event
      { slot := (t, i), fd := (get_slot w.pool t i).fd,
        handler := (get_slot w.pool t i).handler, data := (get_slot w.pool t i).data }
      handler_ret mod_ok hloc hb3
    obtain ⟨_, extra2, htr2, hq2⟩ := Quiet_dispatch_leave k w3 w1 event _ handler_ret mod_ok r hl
    refine ⟨w1, r, extra1 ++ extra2, hl, ?_, ?_⟩
    · rw [htr2, htr1]
      simp [handler_world]
    · intro e he
      rcases List.mem_append.1 he with h | h
      · exact hq1 e h
      · exact hq2 e h
  · intro he
    rw [he]
    decide

/-- Witness of C10, amended: descriptor `5` registered with handler `7`, data `9`
and interest in reading only; the event carries the read-ready bit. -/
theorem live_event_invokes_handler_once_witness :
    (∃ w1 r extra,
      event_dispatch_epoll_handler small_consts world_registered
        { events := EPOLLIN, idx := 0, gen := 1 } [] 0 true = .ok (w1, r) ∧
      w1.trace = world_registered.trace ++
        [Effect.handler (get_slot world_registered.pool 0 0).handler
          (get_slot world_registered.pool 0 0).fd 0
          (get_slot world_registered.pool 0 0).data
          (EPOLLIN &&& (EPOLLIN ||| EPOLLPRI))
          (EPOLLIN &&& EPOLLOUT)
          (EPOLLIN &&& (EPOLLERR ||| EPOLLHUP))] ++ extra ∧
      ∀ e ∈ extra, Effect.is_handler_call e = false) ∧
    (EPOLLIN &&& (EPOLLIN ||| EPOLLPRI) ≠ 0 ↔
      (EPOLLIN &&& EPOLLIN ≠ 0 ∨ EPOLLIN &&& EPOLLPRI ≠ 0)) ∧
    (EPOLLIN &&& (EPOLLERR ||| EPOLLHUP) ≠ 0 ↔
      (EPOLLIN &&& EPOLLERR ≠ 0 ∨ EPOLLIN &&& EPOLLHUP ≠ 0)) ∧
    (EPOLLIN = EPOLLIN →
      EPOLLIN &&& (EPOLLIN ||| EPOLLPRI) = 1 ∧ EPOLLIN &&& EPOLLOUT = 0 ∧
      EPOLLIN &&& (EPOLLERR ||| EPOLLHUP) = 0) :=
  live_event_invokes_handler_once small_consts world_registered
    (handler_world world_registered { events := EPOLLIN, idx := 0, gen := 1 } 0 0)
    { events := EPOLLIN, idx := 0, gen := 1 } [] 0 true 0 0
    (by decide) (by decide) (by decide) (by decide) (by decide) rfl

/-! ## Every slot that holds a descriptor is referenced -/

theorem busy_put (w : World) (t i : Nat) (s : event_slot_epoll)
    (h : busy_slots_referenced w.pool) (hs : block_exists w.pool t → s.fd ≠ -1 → 1 ≤ s.ref) :
    busy_slots_referenced (w.put t i s).pool := by
  intro t1 i1 hb hfd
  simp only [put_pool, block_exists_set_slot, get_slot_set_slot] at hb hfd ⊢
  split_ifs at hfd ⊢ with hc
  · exact hs hc.1 hfd
  · exact h t1 i1 hb hfd

theorem busy_of_ereg (p q : event_pool) (he : q.ereg = p.ereg)
    (h : busy_slots_referenced p) : busy_slots_referenced q := by
  unfold busy_slots_referenced block_exists get_slot at *
  rw [he]; exact h

theorem busy_get (k : Consts) (w w1 : World) (idx : Int) (sl : Option SlotPtr)
    (hg : event_slot_get k w idx = .ok (w1, sl)) (h : busy_slots_referenced w.pool) :
    busy_slots_referenced w1.pool := by
  unfold event_slot_get at hg
  split at hg
  · simp at hg
  · rename_i t1 i1 hloc
    split at hg
    · rw [← Res.ok_fst hg]; exact h
    · rename_i tb he
      rw [← Res.ok_fst hg]
      apply busy_put _ _ _ _ h
      intro _ hfd
      have := h t1 i1 (by simp [block_exists, he]) hfd
      simp only; omega

theorem busy_unref (k : Consts) (w w1 : World) (sl : SlotPtr) (idx : Int)
    (hloc : locate k idx = some sl)
    (hu : event_slot_unref k w sl idx = .ok w1) (h : busy_slots_referenced w.pool) :
    busy_slots_referenced w1.pool := by
  obtain ⟨t, i⟩ := sl
  by_cases hb : block_exists w.pool t
  · rw [event_slot_unref_ok k w idx t i hloc hb] at hu
    by_cases hr : (get_slot w.pool t i).ref - 1 ≠ 0
    · rw [if_pos hr] at hu
      rw [← Res.ok_inj hu]
      apply busy_put _ _ _ _ h
      intro _ hfd
      have := h t i hb hfd
      simp only; omega
    · rw [if_neg hr] at hu
      have hd : busy_slots_referenced (dealloc_world (w.put t i
          { get_slot w.pool t i with ref := (get_slot w.pool t i).ref - 1 }) idx t i).pool := by
        intro t1 i1 hb1 hfd
        rw [get_slot_dealloc_world] at hfd ⊢
        simp only [block_exists_dealloc_world, put_pool, block_exists_set_slot] at hb1
        simp only [put_pool, block_exists_set_slot, get_slot_set_slot] at hfd ⊢
        by_cases hc : t1 = t ∧ i1 = i
        · simp [hb, hc] at hfd
        · simp only [hc, and_false, if_false] at hfd ⊢
          exact h t1 i1 hb1 hfd
      split_ifs at hu
      · rw [← Res.ok_inj hu, emit_pool]; exact hd
      · rw [← Res.ok_inj hu]; exact hd
  · have hnone : w.pool.ereg t = none := by
      unfold block_exists at hb
      cases he : w.pool.ereg t with
      | none => rfl
      | some tb => simp [he] at hb
    unfold event_slot_unref at hu
    simp only [get_slot, hnone, zero_slot] at hu
    rw [if_pos (by decide)] at hu
    rw [← Res.ok_inj hu]
    refine busy_of_ereg w.pool _ ?_ h
    simp [World.put, set_slot, hnone]

/-- After the allocator every slot that holds a descriptor is referenced, except
that the slot of the returned handle may have just been taken, with no reference
yet. -/
theorem busy_alloc (k : Consts) (p : event_pool) (fd : Int) (ok : Bool)
    (h : busy_slots_referenced p) (t i : Nat)
    (hb : block_exists (__event_slot_alloc k p fd ok).1 t)
    (hfd : (get_slot (__event_slot_alloc k p fd ok).1 t i).fd ≠ -1) :
    1 ≤ (get_slot (__event_slot_alloc k p fd ok).1 t i).ref ∨
      (locate k (__event_slot_alloc k p fd ok).2 = some (t, i) ∧
        (get_slot (__event_slot_alloc k p fd ok).1 t i).ref = 0) := by
  rcases alloc_slot_cases k p fd ok t i hb with ⟨hbp, he⟩ | ⟨_, he⟩ | ⟨_, he, hidx, ht, hi⟩
  · rw [he] at hfd ⊢
    exact Or.inl (h t i hbp hfd)
  · rw [he] at hfd; exact absurd rfl hfd
  · right
    rw [hidx, he]
    exact ⟨locate_of_lt k t i ht hi, rfl⟩

theorem busy_register (k : Consts) (w w1 : World) (pp : PoolPtr) (fd : Int)
    (handler data : Nat) (poll_in poll_out : Int) (ok cok : Bool) (r : Int)
    (hr : event_register_epoll k w pp fd handler data poll_in poll_out ok cok = .ok (w1, r))
    (h : busy_slots_referenced w.pool) : busy_slots_referenced w1.pool := by
  unfold event_register_epoll at hr
  split at hr
  · rw [← Res.ok_fst hr]; exact h
  · split at hr
    · rw [← Res.ok_fst hr]; exact h
    · simp only [] at hr
      split at hr
      · rename_i hidx
        rw [← Res.ok_fst hr]
        intro t i hb hfd
        rcases busy_alloc k w.pool fd ok h t i hb hfd with h1 | ⟨h1, _⟩
        · exact h1
        · exfalso
          have e : (__event_slot_alloc k w.pool fd ok).2 = -1 := hidx
          rw [e] at h1
          have := (locate_some k (-1) t i h1).1
          omega
      · split at hr
        · simp at hr
        · simp at hr
        · rename_i w2 slot hg
          obtain ⟨hloc, hbs, hw2⟩ := event_slot_get_some k _ w2 _ slot hg
          have h2 : busy_slots_referenced w2.pool := by
            rw [hw2]
            intro t i hb hfd
            simp only [put_pool, block_exists_set_slot, get_slot_set_slot] at hb hfd ⊢
            by_cases hc : t = slot.1 ∧ i = slot.2
            · simp only [hbs, hc, and_self, if_true] at hfd ⊢
              rcases busy_alloc k w.pool fd ok h slot.1 slot.2 hbs hfd with h1 | ⟨_, h1⟩
              · have e : (event_slot_alloc k w fd ok).1.pool =
                    (__event_slot_alloc k w.pool fd ok).1 := rfl
                rw [e]; omega
              · have e : (event_slot_alloc k w fd ok).1.pool =
                    (__event_slot_alloc k w.pool fd ok).1 := rfl
                rw [e, h1]; decide
            · simp only [hc, and_false, if_false] at hfd ⊢
              rcases busy_alloc k w.pool fd ok h t i hb hfd with h1 | ⟨h1, _⟩
              · exact h1
              · exfalso
                have e : (event_slot_alloc k w fd ok).2 =
                    (__event_slot_alloc k w.pool fd ok).2 := rfl
                rw [e, h1] at hloc
                simp only [Option.some.injEq] at hloc
                exact hc ⟨by rw [← hloc], by rw [← hloc]⟩
          split at hr
          · simp at hr
          · have h3 : busy_slots_referenced ((w2.put slot.1 slot.2 (__slot_update_events
                { get_slot w2.pool slot.1 slot.2 with
                  events := EPOLLET, handler := handler, data := data } poll_in poll_out)).emit
              (Effect.ctl_add fd (__slot_update_events
                { get_slot w2.pool slot.1 slot.2 with
                  events := EPOLLET, handler := handler, data := data } poll_in poll_out).events
                (event_slot_alloc k w fd ok).2 (__slot_update_events
                { get_slot w2.pool slot.1 slot.2 with
                  events := EPOLLET, handler := handler, data := data } poll_in poll_out).gen)).pool
                := by
              rw [emit_pool]
              apply busy_put _ _ _ _ h2
              simp only [update_events_fd, update_events_ref]
              intro hb2 hfd
              exact h2 slot.1 slot.2 hb2 hfd
            split at hr
            · split at hr
              · simp at hr
              · rename_i w4 hu
                rw [← Res.ok_fst hr]
                exact busy_unref k _ _ slot _ hloc hu h3
            · rw [← Res.ok_fst hr]; exact h3

theorem busy_select_on (k : Consts) (w w1 : World) (pp : PoolPtr)
    (fd idx poll_in poll_out : Int) (cok : Bool) (r : Int)
    (hr : event_select_on_epoll k w pp fd idx poll_in poll_out cok = .ok (w1, r))
    (h : busy_slots_referenced w.pool) : busy_slots_referenced w1.pool := by
  unfold event_select_on_epoll at hr
  split at hr
  · rw [← Res.ok_fst hr]; exact h
  · split at hr
    · simp at hr
    · simp at hr
    · rename_i w2 slot hg
      have h2 := busy_get k _ _ _ _ hg h
      obtain ⟨hloc, hbs, hw2⟩ := event_slot_get_some k _ w2 _ slot hg
      have hb2 : block_exists w2.pool slot.1 := by rw [hw2]; simpa using hbs
      split at hr
      · simp at hr
      · simp only [] at hr
        have hp : busy_slots_referenced (w2.put slot.1 slot.2
            (__slot_update_events (get_slot w2.pool slot.1 slot.2) poll_in poll_out)).pool := by
          apply busy_put _ _ _ _ h2
          simp only [update_events_fd, update_events_ref]
          exact fun _ => h2 slot.1 slot.2 hb2
        split at hr
        · simp at hr
        · rename_i w3 hu
          rw [← Res.ok_fst hr]
          refine busy_unref k _ _ slot _ hloc hu ?_
          split_ifs
          · exact hp
          · rw [emit_pool]; exact hp

theorem busy_unregister (k : Consts) (w w1 : World) (pp : PoolPtr)
    (fd idx do_close : Int) (cok : Bool) (r : Int)
    (hr : event_unregister_epoll_common k w pp fd idx do_close cok = .ok (w1, r))
    (h : busy_slots_referenced w.pool) : busy_slots_referenced w1.pool := by
  cases pp with
  | none =>
    simp only [event_unregister_epoll_common] at hr
    rw [← Res.ok_fst hr]; exact h
  | some u =>
    obtain ⟨t, i, wa, wb, hloc, hb, _, _, hwa, hu1, hu2⟩ :=
      unregister_returns k w w1 fd idx do_close cok r hr
    have ha : busy_slots_referenced wa.pool := by
      rw [hwa]
      split_ifs
      · rw [emit_pool]
        apply busy_put _ _ _ _ h
        intro _ hfd
        have := h t i hb hfd
        simp only; omega
      · rw [emit_pool]
        apply busy_put _ _ _ _ h
        intro _ hfd
        have := h t i hb hfd
        simp only; omega
    exact busy_unref k wb w1 (t, i) idx hloc hu2 (busy_unref k wa wb (t, i) idx hloc hu1 ha)

theorem busy_reconfigure (k : Consts) (w w1 : World) (value : Int)
    (spawn : Nat → SpawnResult) (r : Int)
    (hr : event_reconfigure_threads_epoll k w value spawn = .ok (w1, r))
    (h : busy_slots_referenced w.pool) : busy_slots_referenced w1.pool := by
  unfold event_reconfigure_threads_epoll at hr
  simp only [] at hr
  split_ifs at hr <;>
    (rw [← Res.ok_fst hr]
     refine busy_of_ereg w.pool _ ?_ h
     first
       | rfl
       | (simp only [World.set_eventthreadcount]; exact spawn_loop_ereg spawn _ _ w))

theorem busy_run_call (k : Consts) (w w1 : World) (c : Call)
    (hr : run_call k w c = .ok w1) (h : busy_slots_referenced w.pool) :
    busy_slots_referenced w1.pool := by
  cases c with
  | register fd handler data poll_in poll_out ok cok =>
    simp only [run_call] at hr
    split at hr
    · rename_i r hreg
      have e := Res.ok_inj hr; subst e
      exact busy_register k w r.1 _ fd handler data poll_in poll_out ok cok r.2 hreg h
    · simp at hr
  | select_on fd idx poll_in poll_out cok =>
    simp only [run_call] at hr
    split at hr
    · rename_i r hreg
      have e := Res.ok_inj hr; subst e
      exact busy_select_on k w r.1 _ fd idx poll_in poll_out cok r.2 hreg h
    · simp at hr
  | unregister fd idx do_close cok =>
    simp only [run_call] at hr
    split at hr
    · rename_i r hreg
      have e := Res.ok_inj hr; subst e
      exact busy_unregister k w r.1 _ fd idx do_close cok r.2 hreg h
    · simp at hr
  | reconfigure_threads value spawn =>
    simp only [run_call] at hr
    split at hr
    · rename_i r hreg
      have e := Res.ok_inj hr; subst e
      exact busy_reconfigure k w r.1 value spawn r.2 hreg h
    · simp at hr

theorem busy_run_calls (k : Consts) :
    ∀ (cs : List Call) (w w1 : World), run_calls k w cs = .ok w1 →
      busy_slots_referenced w.pool → busy_slots_referenced w1.pool := by
  intro cs
  induction cs with
  | nil => intro w w1 hr h; simp [run_calls] at hr; subst hr; exact h
  | cons c cs ih =>
    intro w w1 hr h
    unfold run_calls at hr
    split at hr
    · rename_i w2 h2
      exact ih w2 w1 hr (busy_run_call k w w2 c h2 h)
    · simp at hr

theorem busy_dispatch (k : Consts) (w w1 : World) (event : epoll_event)
    (body : List Call) (handler_ret : Int) (mod_ok : Bool) (r : Int)
    (hd : event_dispatch_epoll_handler k w event body handler_ret mod_ok = .ok (w1, r))
    (h : busy_slots_referenced w.pool) : busy_slots_referenced w1.pool := by
  unfold event_dispatch_epoll_handler at hd
  split at hd
  · simp at hd
  · rename_i w2 c he
    have hloc := (dispatch_enter_some k w w2 event c he).1
    have h2 : busy_slots_referenced w2.pool := by
      unfold dispatch_enter at he
      split at he
      · simp at he
      · simp at he
      · rename_i wg slot hg
        have hgq := busy_get k _ _ _ _ hg h
        obtain ⟨_, hbs, hwg⟩ := event_slot_get_some k _ wg _ slot hg
        have hbg : block_exists wg.pool slot.1 := by rw [hwg]; simpa using hbs
        simp only [] at he
        split_ifs at he
        · rw [← Res.ok_fst he]; exact hgq
        · rw [← Res.ok_fst he]; exact hgq
        · rw [← Res.ok_fst he]
          apply busy_put _ _ _ _ hgq
          exact fun _ => hgq slot.1 slot.2 hbg
    split at hd
    · split at hd
      · simp at hd
      · rename_i w3 hu
        rw [← Res.ok_fst hd]
        exact busy_unref k _ _ c.slot _ hloc hu h2
    · simp only [] at hd
      split at hd
      · simp at hd
      · rename_i w3 hb
        have h3 := busy_run_calls k body _ w3 hb (by rw [emit_pool]; exact h2)
        unfold dispatch_leave at hd
        simp only [] at hd
        split at hd
        · simp at hd
        · rename_i w4 hu
          rw [← Res.ok_fst hd]
          refine busy_unref k _ _ c.slot _ hloc hu ?_
          have hp : busy_slots_referenced (w3.put c.slot.1 c.slot.2
              { get_slot w3.pool c.slot.1 c.slot.2 with
                in_handler := (get_slot w3.pool c.slot.1 c.slot.2).in_handler - 1 }).pool := by
            apply busy_put _ _ _ _ h3
            intro hb3 hfd
            exact h3 c.slot.1 c.slot.2 hb3 hfd
          split_ifs
          · exact hp
          · rw [emit_pool]; exact hp
          · exact hp

theorem busy_run_op (k : Consts) (w w1 : World) (o : Op)
    (hr : run_op k w o = .ok w1) (h : busy_slots_referenced w.pool) :
    busy_slots_referenced w1.pool := by
  cases o with
  | call c => exact busy_run_call k w w1 c hr h
  | dispatch event body handler_ret mod_ok =>
    simp only [run_op] at hr
    split at hr
    · rename_i r hd
      have e := Res.ok_inj hr; subst e
      exact busy_dispatch k w r.1 event body handler_ret mod_ok r.2 hd h
    · simp at hr

theorem busy_run_ops (k : Consts) :
    ∀ (os : List Op) (w w1 : World), run_ops k w os = .ok w1 →
      busy_slots_referenced w.pool → busy_slots_referenced w1.pool := by
  intro os
  induction os with
  | nil => intro w w1 hr h; simp [run_ops] at hr; subst hr; exact h
  | cons o os ih =>
    intro w w1 hr h
    unfold run_ops at hr
    split at hr
    · rename_i w2 h2
      exact ih w2 w1 hr (busy_run_op k w w2 o h2 h)
    · simp at hr

theorem busy_new_pool (count eventthreadcount : Int) (ok : Bool) (epfd : Int) (p : event_pool)
    (h : event_pool_new_epoll count eventthreadcount ok epfd = some p) :
    busy_slots_referenced p := by
  unfold event_pool_new_epoll at h
  split_ifs at h
  simp only [Option.some.injEq] at h
  subst h
  intro t i hb
  simp [block_exists] at hb

/-! ## The descriptor of a registered handle -/

/-- C9. In any pool reached from a new pool by operations of the engine, when
`event_register_epoll (fd, ...)` returns a handle `h ≥ 0`, then after any
operations that return and do not unregister `h` (selectOn on any handle,
registrations, unregistrations of other handles, reconfiguration of the threads,
dispatches of live or stale events whose handlers do not unregister `h`),
`event_slot_get` on `h` yields the slot and its `fd` is still the registered
descriptor. -/
theorem registered_fd_is_stable (k : Consts) (count eventthreadcount epfd : Int)
    (p0 : event_pool) (ops0 : List Op) (w w1 w2 : World) (fd : Int)
    (handler data : Nat) (poll_in poll_out : Int) (calloc_ok add_ok : Bool) (h : Int)
    (ops : List Op)
    (hnew : event_pool_new_epoll count eventthreadcount true epfd = some p0)
    (hreach : run_ops k { pool := p0, trace := [] } ops0 = .ok w)
    (hreg : event_register_epoll k w (some ()) fd handler data poll_in poll_out
      calloc_ok add_ok = .ok (w1, h))
    (hh : 0 ≤ h)
    (hno : ∀ o ∈ ops, Op.unregisters h o = false)
    (hops : run_ops k w1 ops = .ok w2) :
    ∃ t i w3, locate k h = some (t, i) ∧
      event_slot_get k w2 h = .ok (w3, some (t, i)) ∧ (get_slot w3.pool t i).fd = fd := by
  have hbusy : busy_slots_referenced w.pool :=
    busy_run_ops k ops0 _ w hreach (busy_new_pool count eventthreadcount true epfd p0 hnew)
  have hbusy1 := busy_register k w w1 _ fd handler data poll_in poll_out calloc_ok add_ok h
    hreg hbusy
  obtain ⟨t, i, hloc, _, _, hb, hfd, hctl, hw1⟩ :=
    register_returns_handle k w w1 _ fd handler data poll_in poll_out calloc_ok add_ok h hreg
      (by omega)
  have hpos := ((epoll_ctl_eq_zero add_ok fd).1 hctl).1
  have hb1 : block_exists w1.pool t := by rw [hw1]; simpa using hb
  have hfd1 : (get_slot w1.pool t i).fd = fd := by
    rw [hw1]
    simp only [emit_pool, put_pool, get_slot_set_slot_same _ _ _ _ hb, registered_slot,
      update_events_fd]
    exact hfd
  have h1 : slot_holds w1.pool t i fd 1 :=
    ⟨hb1, hfd1, hbusy1 t i hb1 (by rw [hfd1]; omega)⟩
  have h2 := slot_holds_run_ops k h t i fd 1 (by omega) (le_refl _) hloc ops w1 w2 hno hops h1
  refine ⟨t, i, _, hloc, event_slot_get_ok k w2 h t i hloc h2.1, ?_⟩
  simp only [put_pool, get_slot_set_slot_same _ _ _ _ h2.1]
  exact h2.2.1

/-- Witness of C9: descriptor `5` registered at handle `0` in a new pool, then the
operations `stable_ops`. -/
theorem registered_fd_is_stable_witness :
    ∃ t i w3, locate small_consts 0 = some (t, i) ∧
      event_slot_get small_consts world_after_stable_ops 0 = .ok (w3, some (t, i)) ∧
      (get_slot w3.pool t i).fd = 5 :=
  registered_fd_is_stable small_consts 16 1 3 new_world.pool [] new_world world_registered
    world_after_stable_ops 5 7 9 1 0 true true 0 stable_ops
    rfl rfl rfl (by decide) (by decide) rfl

/-! ## Interest change on a registered slot -/

theorem update_events_with_ref (s : event_slot_epoll) (a b r : Int) :
    __slot_update_events { s with ref := r } a b =
      { __slot_update_events s a b with ref := r } := by
  unfold __slot_update_events; simp only []; split_ifs <;> rfl

/-- Taking a borrow, updating the mask and releasing the borrow leaves the slot
with the updated mask and nothing else changed. -/
theorem update_events_borrowed (s : event_slot_epoll) (a b : Int) :
    ({ __slot_update_events { s with ref := s.ref + 1 } a b with
        ref := (__slot_update_events { s with ref := s.ref + 1 } a b).ref - 1 } :
      event_slot_epoll) = __slot_update_events s a b := by
  have h : s.ref + 1 - 1 = s.ref := by omega
  unfold __slot_update_events; simp only []; split_ifs <;> simp only [h]

/-- The run of `event_select_on_epoll` on a slot that holds the descriptor
passed: the mask is updated, the kernel modify is issued unless a handler runs,
and the borrow is released. -/
theorem select_on_forward (k : Consts) (w : World) (fd idx poll_in poll_out : Int) (cok : Bool)
    (t i : Nat) (hloc : locate k idx = some (t, i)) (hb : block_exists w.pool t)
    (hfd : (get_slot w.pool t i).fd = fd) :
    event_select_on_epoll k w (some ()) fd idx poll_in poll_out cok =
      match event_slot_unref k
        (if (get_slot w.pool t i).in_handler ≠ 0 then
          w.put t i (__slot_update_events
            { get_slot w.pool t i with ref := (get_slot w.pool t i).ref + 1 } poll_in poll_out)
         else
          (w.put t i (__slot_update_events
            { get_slot w.pool t i with ref := (get_slot w.pool t i).ref + 1 }
              poll_in poll_out)).emit
            (Effect.ctl_mod fd
              (__slot_update_events (get_slot w.pool t i) poll_in poll_out).events idx
              (get_slot w.pool t i).gen))
        (t, i) idx with
      | .fault e => .fault e
      | .ok w3 => .ok (w3, idx) := by
  unfold event_select_on_epoll
  simp only []
  rw [event_slot_get_ok k w idx t i hloc hb]
  simp only [put_pool, get_slot_set_slot_same _ _ _ _ hb]
  rw [if_neg (by simpa using hfd)]
  simp only [update_events_in_handler, update_events_gen, put_put, update_events_with_ref]
  try rfl

/-- Releasing a borrow of a slot that keeps another reference only lowers the
reference count. -/
theorem unref_put_keeps (k : Consts) (w : World) (idx : Int) (t i : Nat) (s : event_slot_epoll)
    (hloc : locate k idx = some (t, i)) (hb : block_exists w.pool t) (hs : s.ref - 1 ≠ 0) :
    event_slot_unref k (w.put t i s) (t, i) idx =
      .ok (w.put t i { s with ref := s.ref - 1 }) := by
  rw [event_slot_unref_ok k _ idx t i hloc (by simpa using hb)]
  simp only [put_pool, get_slot_set_slot_same _ _ _ _ hb]
  rw [if_pos hs, put_put]

theorem unref_put_emit_keeps (k : Consts) (w : World) (idx : Int) (t i : Nat)
    (s : event_slot_epoll) (e : Effect)
    (hloc : locate k idx = some (t, i)) (hb : block_exists w.pool t) (hs : s.ref - 1 ≠ 0) :
    event_slot_unref k ((w.put t i s).emit e) (t, i) idx =
      .ok ((w.put t i { s with ref := s.ref - 1 }).emit e) := by
  rw [event_slot_unref_ok k _ idx t i hloc (by simpa using hb)]
  simp only [emit_pool, put_pool, get_slot_set_slot_same _ _ _ _ hb]
  rw [if_pos hs]
  simp only [World.put, World.emit, set_slot_set_slot]

/-- The result of `event_select_on_epoll` when the slot keeps a reference
besides the borrow: only the mask has changed, and the kernel modify is in the
log exactly when no handler runs. -/
theorem select_on_registered (k : Consts) (w : World) (fd idx poll_in poll_out : Int)
    (cok : Bool) (t i : Nat) (hloc : locate k idx = some (t, i)) (hb : block_exists w.pool t)
    (hfd : (get_slot w.pool t i).fd = fd) (href : (get_slot w.pool t i).ref ≠ 0) :
    event_select_on_epoll k w (some ()) fd idx poll_in poll_out cok =
      .ok (if (get_slot w.pool t i).in_handler ≠ 0 then
            w.put t i (__slot_update_events (get_slot w.pool t i) poll_in poll_out)
           else
            (w.put t i (__slot_update_events (get_slot w.pool t i) poll_in poll_out)).emit
              (Effect.ctl_mod fd
                (__slot_update_events (get_slot w.pool t i) poll_in poll_out).events idx
                (get_slot w.pool t i).gen), idx) := by
  rw [select_on_forward k w fd idx poll_in poll_out cok t i hloc hb hfd]
  split_ifs with hin
  · rw [unref_put_keeps k w idx t i _ hloc hb (by simpa using href), update_events_borrowed]
  · rw [unref_put_emit_keeps k w idx t i _ _ hloc hb (by simpa using href),
      update_events_borrowed]

/-! ## Interest change: `event_select_on_epoll` -/

/-- C12. On a registered slot (handle `h` at `(t, i)`, in an existing block,
holding `fd`, with at least the reference of the registration)
`event_select_on_epoll` returns, whatever the tri-state arguments and whatever the
kernel answers; the slot it leaves is the old slot with the mask updated by
`__slot_update_events`; the log gains exactly one kernel modify, carrying the new
mask and the tag `(h, generation of the slot)`, when the in-handler count is `0`,
and nothing otherwise (in particular when the count is greater than `0`); and
the reference count, the descriptor, the generation and the in-handler count of
the slot are what they were. -/
theorem select_on_updates_mask (k : Consts) (w : World) (fd h poll_in poll_out : Int)
    (ctl_ok : Bool) (t i : Nat)
    (hloc : locate k h = some (t, i)) (hreg : slot_holds w.pool t i fd 1) :
    ∃ w1, event_select_on_epoll k w (some ()) fd h poll_in poll_out ctl_ok = .ok (w1, h) ∧
      get_slot w1.pool t i = __slot_update_events (get_slot w.pool t i) poll_in poll_out ∧
      w1.trace = w.trace ++
        (if (get_slot w.pool t i).in_handler = 0 then
          [Effect.ctl_mod fd (get_slot w1.pool t i).events h (get_slot w.pool t i).gen]
         else []) ∧
      (0 < (get_slot w.pool t i).in_handler → w1.trace = w.trace) ∧
      (get_slot w1.pool t i).ref = (get_slot w.pool t i).ref ∧
      (get_slot w1.pool t i).fd = (get_slot w.pool t i).fd ∧
      (get_slot w1.pool t i).gen = (get_slot w.pool t i).gen ∧
      (get_slot w1.pool t i).in_handler = (get_slot w.pool t i).in_handler := by
  obtain ⟨hb, hfd, href⟩ := hreg
  have href0 : (get_slot w.pool t i).ref ≠ 0 := by omega
  rw [select_on_registered k w fd h poll_in poll_out ctl_ok t i hloc hb hfd href0]
  refine ⟨_, rfl, ?_⟩
  by_cases hin : (get_slot w.pool t i).in_handler = 0
  · simp [hin, get_slot_set_slot_same _ _ _ _ hb]
  · simp [hin, get_slot_set_slot_same _ _ _ _ hb]

theorem select_on_updates_mask_witness :
    ∃ w1, event_select_on_epoll small_consts world_registered (some ()) 5 0 0 1 true
        = .ok (w1, 0) ∧
      get_slot w1.pool 0 0 = __slot_update_events (get_slot world_registered.pool 0 0) 0 1 ∧
      w1.trace = world_registered.trace ++
        (if (get_slot world_registered.pool 0 0).in_handler = 0 then
          [Effect.ctl_mod 5 (get_slot w1.pool 0 0).events 0
            (get_slot world_registered.pool 0 0).gen]
         else []) ∧
      (0 < (get_slot world_registered.pool 0 0).in_handler →
        w1.trace = world_registered.trace) ∧
      (get_slot w1.pool 0 0).ref = (get_slot world_registered.pool 0 0).ref ∧
      (get_slot w1.pool 0 0).fd = (get_slot world_registered.pool 0 0).fd ∧
      (get_slot w1.pool 0 0).gen = (get_slot world_registered.pool 0 0).gen ∧
      (get_slot w1.pool 0 0).in_handler = (get_slot world_registered.pool 0 0).in_handler :=
  select_on_updates_mask small_consts world_registered 5 0 0 1 true 0 0 rfl
    ⟨by decide, by decide, by decide⟩

/-- C13 (the code breaks the claim). `event_select_on_epoll` computes the result
of the kernel modify and drops it: the call returns the same value, and leaves
the same world, whether the modify succeeds or fails. On the registered
descriptor `5` at handle `0`, whose in-handler count is `0`, the call with a
failing kernel modify issues the modify and returns the handle `0`, as the call
with a succeeding modify does. -/
theorem select_on_hides_kernel_failure :
    (∀ (k : Consts) (w : World) (pool : PoolPtr) (fd idx poll_in poll_out : Int),
      event_select_on_epoll k w pool fd idx poll_in poll_out false =
        event_select_on_epoll k w pool fd idx poll_in poll_out true) ∧
    (get_slot world_registered.pool 0 0).fd = 5 ∧
    (get_slot world_registered.pool 0 0).in_handler = 0 ∧
    epoll_ctl false 5 = -1 ∧
    ∃ w1,
      event_select_on_epoll small_consts world_registered (some ()) 5 0 1 1 false
        = .ok (w1, 0) ∧
      event_select_on_epoll small_consts world_registered (some ()) 5 0 1 1 true
        = .ok (w1, 0) ∧
      w1.trace = world_registered.trace ++
        [Effect.ctl_mod 5 (EPOLLET ||| EPOLLIN ||| EPOLLOUT) 0 1] :=
  ⟨fun _ _ _ _ _ _ _ => rfl, by decide, by decide, by decide, _, rfl, rfl, by decide⟩

/-! ## Interest changes while a handler runs -/

theorem apply_selects_nil (s : event_slot_epoll) : apply_selects s [] = s := rfl

theorem apply_selects_cons (s : event_slot_epoll) (a : Int × Int × Bool)
    (sel : List (Int × Int × Bool)) :
    apply_selects s (a :: sel) = apply_selects (__slot_update_events s a.1 a.2.1) sel := rfl

theorem apply_selects_fields (sel : List (Int × Int × Bool)) :
    ∀ s : event_slot_epoll,
      (apply_selects s sel).fd = s.fd ∧ (apply_selects s sel).gen = s.gen ∧
      (apply_selects s sel).ref = s.ref ∧ (apply_selects s sel).in_handler = s.in_handler ∧
      (apply_selects s sel).do_close = s.do_close := by
  induction sel with
  | nil => intro s; simp [apply_selects_nil]
  | cons a sel ih =>
    intro s
    rw [apply_selects_cons]
    obtain ⟨h1, h2, h3, h4, h5⟩ := ih (__slot_update_events s a.1 a.2.1)
    simp [h1, h2, h3, h4, h5]

theorem update_events_events_congr (s s1 : event_slot_epoll) (a b : Int)
    (h : s.events = s1.events) :
    (__slot_update_events s a b).events = (__slot_update_events s1 a b).events := by
  unfold __slot_update_events; simp only []; split_ifs <;> simp only [h]

theorem apply_selects_events_congr (sel : List (Int × Int × Bool)) :
    ∀ s s1 : event_slot_epoll, s.events = s1.events →
      (apply_selects s sel).events = (apply_selects s1 sel).events := by
  induction sel with
  | nil => intro s s1 h; exact h
  | cons a sel ih =>
    intro s s1 h
    rw [apply_selects_cons, apply_selects_cons]
    exact ih _ _ (update_events_events_congr s s1 a.1 a.2.1 h)

/-- Interest changes on a slot whose handler runs: each call returns, none
writes to the log, and the slot ends with the mask updated by all of them in
order. -/
theorem select_calls_in_handler (k : Consts) (fd idx : Int) (t i : Nat)
    (hloc : locate k idx = some (t, i)) :
    ∀ (sel : List (Int × Int × Bool)) (w : World), block_exists w.pool t →
      (get_slot w.pool t i).fd = fd → (get_slot w.pool t i).ref ≠ 0 →
      (get_slot w.pool t i).in_handler ≠ 0 →
      ∃ w3, run_calls k w (select_calls fd idx sel) = .ok w3 ∧ w3.trace = w.trace ∧
        block_exists w3.pool t ∧
        get_slot w3.pool t i = apply_selects (get_slot w.pool t i) sel := by
  intro sel
  induction sel with
  | nil => intro w hb _ _ _; exact ⟨w, rfl, rfl, hb, rfl⟩
  | cons a sel ih =>
    intro w hb hfd href hin
    have hstep : run_call k w (Call.select_on fd idx a.1 a.2.1 a.2.2) =
        .ok (w.put t i (__slot_update_events (get_slot w.pool t i) a.1 a.2.1)) := by
      simp only [run_call]
      rw [select_on_registered k w fd idx a.1 a.2.1 a.2.2 t i hloc hb hfd href, if_pos hin]
    have hb1 : block_exists
        (w.put t i (__slot_update_events (get_slot w.pool t i) a.1 a.2.1)).pool t := by
      simpa using hb
    have hs1 : get_slot (w.put t i (__slot_update_events (get_slot w.pool t i) a.1 a.2.1)).pool
        t i = __slot_update_events (get_slot w.pool t i) a.1 a.2.1 := by
      simp [get_slot_set_slot_same _ _ _ _ hb]
    obtain ⟨w3, hrun, htr, hb3, hs3⟩ := ih _ hb1 (by rw [hs1]; simpa using hfd)
      (by rw [hs1]; simpa using href) (by rw [hs1]; simpa using hin)
    refine ⟨w3, ?_, ?_, hb3, ?_⟩
    · simp only [select_calls, List.map_cons, run_calls]
      rw [hstep]
      exact hrun
    · rw [htr]; rfl
    · rw [hs3, hs1, apply_selects_cons]

/-- The second half of a dispatch when the generation is unchanged and the
in-handler count returns to `0` on a slot that keeps another reference: the
kernel modify with the slot's current mask is issued and the borrow released. -/
theorem dispatch_leave_rearms (k : Consts) (w : World) (event : epoll_event) (c : Captured)
    (handler_ret : Int) (mod_ok : Bool) (t i : Nat) (hc : c.slot = (t, i))
    (hloc : locate k event.idx = some (t, i)) (hb : block_exists w.pool t)
    (hgen : event.gen = (get_slot w.pool t i).gen)
    (hin : (get_slot w.pool t i).in_handler = 1)
    (href : (get_slot w.pool t i).ref - 1 ≠ 0) :
    ∃ w1, dispatch_leave k w event c handler_ret mod_ok = .ok (w1, epoll_ctl mod_ok c.fd) ∧
      w1.trace = w.trace ++
        [Effect.ctl_mod c.fd (get_slot w.pool t i).events event.idx event.gen] ∧
      (get_slot w1.pool t i).events = (get_slot w.pool t i).events := by
  unfold dispatch_leave
  simp only [hc]
  have hne : ¬ event.gen ≠ (get_slot w.pool t i).gen := by simp [hgen]
  have h0 : (get_slot w.pool t i).in_handler - 1 = 0 := by rw [hin]; rfl
  rw [if_neg hne, if_pos h0]
  simp only []
  rw [unref_put_emit_keeps k w event.idx t i
    { get_slot w.pool t i with in_handler := (get_slot w.pool t i).in_handler - 1 } _
    hloc hb href]
  refine ⟨_, rfl, by simp [World.emit, World.put], ?_⟩
  simp [get_slot_set_slot_same _ _ _ _ hb]

/-! ## The bits of the interest mask -/

theorem testBit_of_lt_word (m b : Nat) (hm : m < 2 ^ 32) (hb : 32 ≤ b) : m.testBit b = false :=
  Nat.testBit_lt_two_pow (lt_of_lt_of_le hm (Nat.pow_le_pow_right (by decide) hb))

theorem testBit_land_bnot32 (m n b : Nat) (hm : m < 2 ^ 32) :
    (m &&& bnot32 (2 ^ n)).testBit b = (m.testBit b && !decide (n = b)) := by
  have hw : (0xFFFFFFFF : Nat) = 2 ^ 32 - 1 := by decide
  rw [Nat.testBit_and, bnot32, Nat.testBit_xor, hw, Nat.testBit_two_pow_sub_one,
    Nat.testBit_two_pow]
  by_cases hb : b < 32
  · simp [hb]
  · rw [testBit_of_lt_word m b hm (by omega)]
    simp

/-- One axis of the tri-state rule on bit `n` of a 32-bit word: the bits of the
result. -/
theorem tri_state_bits (m n : Nat) (p : Int) (hm : m < 2 ^ 32) (hn : n < 32) :
    (∀ b, (if p = 1 then m ||| 2 ^ n else if p = 0 then m &&& bnot32 (2 ^ n) else m).testBit b =
      if b = n then (if p = 1 then true else if p = 0 then false else m.testBit n)
      else m.testBit b) ∧
    (if p = 1 then m ||| 2 ^ n else if p = 0 then m &&& bnot32 (2 ^ n) else m) < 2 ^ 32 := by
  by_cases h1 : p = 1
  · simp only [h1, if_true]
    refine ⟨fun b => ?_, Nat.or_lt_two_pow hm (Nat.pow_lt_pow_right (by decide) hn)⟩
    rw [Nat.testBit_or, Nat.testBit_two_pow]
    by_cases hb : b = n
    · simp [hb]
    · have : ¬ n = b := fun h => hb h.symm
      simp [hb, this]
  · by_cases h0 : p = 0
    · simp only [h0, if_true, if_false, show ¬ ((0 : Int) = 1) by decide]
      refine ⟨fun b => ?_, lt_of_le_of_lt Nat.and_le_left hm⟩
      rw [testBit_land_bnot32 m n b hm]
      by_cases hb : b = n
      · simp [hb]
      · have : ¬ n = b := fun h => hb h.symm
        simp [hb, this]
    · simp only [h1, h0, if_false]
      refine ⟨fun b => ?_, hm⟩
      by_cases hb : b = n
      · simp [hb]
      · simp [hb]

theorem update_events_eq (slot : event_slot_epoll) (poll_in poll_out : Int) :
    (__slot_update_events slot poll_in poll_out).events =
      (if poll_out = 1 then
          (if poll_in = 1 then slot.events ||| 2 ^ 0
           else if poll_in = 0 then slot.events &&& bnot32 (2 ^ 0) else slot.events) ||| 2 ^ 2
       else if poll_out = 0 then
          (if poll_in = 1 then slot.events ||| 2 ^ 0
           else if poll_in = 0 then slot.events &&& bnot32 (2 ^ 0) else slot.events) &&&
            bnot32 (2 ^ 2)
       else
          (if poll_in = 1 then slot.events ||| 2 ^ 0
           else if poll_in = 0 then slot.events &&& bnot32 (2 ^ 0) else slot.events)) := by
  unfold __slot_update_events
  simp only []
  split_ifs <;> rfl

/-- The bits of the mask that `__slot_update_events` leaves, for a mask that is
a 32-bit word: bit `0` (readable) follows `poll_in`, bit `2` (writable) follows
`poll_out`, every other bit is as before, and the result is a 32-bit word. -/
theorem update_events_bits (slot : event_slot_epoll) (poll_in poll_out : Int)
    (hm : slot.events < 2 ^ 32) :
    (∀ b, (__slot_update_events slot poll_in poll_out).events.testBit b =
      (if b = 0 then
        (if poll_in = 1 then true else if poll_in = 0 then false else slot.events.testBit 0)
       else if b = 2 then
        (if poll_out = 1 then true else if poll_out = 0 then false else slot.events.testBit 2)
       else slot.events.testBit b)) ∧
    (__slot_update_events slot poll_in poll_out).events < 2 ^ 32 := by
  rw [update_events_eq]
  obtain ⟨hin, hlt⟩ := tri_state_bits slot.events 0 poll_in hm (by decide)
  obtain ⟨hout, hlt2⟩ := tri_state_bits _ 2 poll_out hlt (by decide)
  refine ⟨fun b => ?_, hlt2⟩
  rw [hout b, hin 2, hin b]
  by_cases hb0 : b = 0
  · subst hb0
    simp
  · by_cases hb2 : b = 2
    · subst hb2
      simp
    · simp [hb0, hb2]

/-- The mask that `event_register_epoll` leaves in the slot of the handle it
returns. -/
theorem register_mask (k : Consts) (w w1 : World) (fd : Int) (handler data : Nat)
    (poll_in poll_out : Int) (calloc_ok ctl_ok : Bool) (h : Int)
    (hreg : event_register_epoll k w (some ()) fd handler data poll_in poll_out calloc_ok ctl_ok
      = .ok (w1, h))
    (hh : h ≠ -1) :
    ∃ t i s, locate k h = some (t, i) ∧ block_exists w1.pool t ∧ s.events = EPOLLET ∧
      (get_slot w1.pool t i).events = (__slot_update_events s poll_in poll_out).events := by
  obtain ⟨t, i, hloc, _, _, hb, _, _, hw1⟩ :=
    register_returns_handle k w w1 (some ()) fd handler data poll_in poll_out calloc_ok ctl_ok h
      hreg hh
  subst hw1
  have hs : get_slot (((event_slot_alloc k w fd calloc_ok).1.put t i
      (registered_slot (get_slot (event_slot_alloc k w fd calloc_ok).1.pool t i)
        handler data poll_in poll_out)).emit
      (Effect.ctl_add fd
        (registered_slot (get_slot (event_slot_alloc k w fd calloc_ok).1.pool t i)
          handler data poll_in poll_out).events h
        (get_slot (event_slot_alloc k w fd calloc_ok).1.pool t i).gen)).pool t i =
      registered_slot (get_slot (event_slot_alloc k w fd calloc_ok).1.pool t i)
        handler data poll_in poll_out := by
    simp only [emit_pool, put_pool, get_slot_set_slot_same _ _ _ _ hb]
  refine ⟨t, i,
    { get_slot (event_slot_alloc k w fd calloc_ok).1.pool t i with
      ref := (get_slot (event_slot_alloc k w fd calloc_ok).1.pool t i).ref + 1,
      events := EPOLLET, handler := handler, data := data },
    hloc, by simpa using hb, rfl, ?_⟩
  rw [hs]
  rfl

/-- C14. (1) `EPOLLIN`, `EPOLLOUT` and `EPOLLET` are the bits `0`, `2` and `31` of
the mask. (2) For every slot whose mask is a 32-bit word and all arguments,
`__slot_update_events` leaves a mask whose bit `0` (readable) is set when
`poll_in = 1`, clear when `poll_in = 0` and as before otherwise (in particular
for `-1`), whose bit `2` (writable) follows `poll_out` in the same way, and
whose every other bit, the edge-trigger bit included, is as before; the result
is again a 32-bit word. (3) When `event_register_epoll` returns a handle, the mask
of its slot is a 32-bit word with the edge-trigger bit set, and with the
arguments `(-1, -1)` it is exactly `EPOLLET`. (4) `event_select_on_epoll` on a
registered slot whose mask is a 32-bit word with the edge-trigger bit set
returns and leaves a 32-bit word with the edge-trigger bit set. -/
theorem tri_state_interest_mask (k : Consts) :
    (EPOLLIN = 2 ^ 0 ∧ EPOLLOUT = 2 ^ 2 ∧ EPOLLET = 2 ^ 31) ∧
    (∀ (slot : event_slot_epoll) (poll_in poll_out : Int), slot.events < 2 ^ 32 →
      (∀ b, (__slot_update_events slot poll_in poll_out).events.testBit b =
        (if b = 0 then
          (if poll_in = 1 then true else if poll_in = 0 then false
           else slot.events.testBit 0)
         else if b = 2 then
          (if poll_out = 1 then true else if poll_out = 0 then false
           else slot.events.testBit 2)
         else slot.events.testBit b)) ∧
      (__slot_update_events slot poll_in poll_out).events < 2 ^ 32) ∧
    (∀ (w w1 : World) (fd : Int) (handler data : Nat) (poll_in poll_out : Int)
      (calloc_ok ctl_ok : Bool) (h : Int),
      event_register_epoll k w (some ()) fd handler data poll_in poll_out calloc_ok ctl_ok
        = .ok (w1, h) →
      h ≠ -1 →
      ∃ t i, locate k h = some (t, i) ∧ block_exists w1.pool t ∧
        (get_slot w1.pool t i).events.testBit 31 = true ∧
        (get_slot w1.pool t i).events < 2 ^ 32 ∧
        (poll_in = -1 → poll_out = -1 → (get_slot w1.pool t i).events = EPOLLET)) ∧
    (∀ (w : World) (fd h poll_in poll_out : Int) (ctl_ok : Bool) (t i : Nat),
      locate k h = some (t, i) → slot_holds w.pool t i fd 1 →
      (get_slot w.pool t i).events < 2 ^ 32 →
      (get_slot w.pool t i).events.testBit 31 = true →
      ∃ w1, event_select_on_epoll k w (some ()) fd h poll_in poll_out ctl_ok = .ok (w1, h) ∧
        (get_slot w1.pool t i).events.testBit 31 = true ∧
        (get_slot w1.pool t i).events < 2 ^ 32) := by
  refine ⟨⟨by decide, by decide, by decide⟩, ?_, ?_, ?_⟩
  · intro slot poll_in poll_out hm
    exact update_events_bits slot poll_in poll_out hm
  · intro w w1 fd handler data poll_in poll_out calloc_ok ctl_ok h hreg hh
    obtain ⟨t, i, s, hloc, hb, hs, hev⟩ :=
      register_mask k w w1 fd handler data poll_in poll_out calloc_ok ctl_ok h hreg hh
    have hlt : s.events < 2 ^ 32 := by rw [hs]; decide
    obtain ⟨hbits, hword⟩ := update_events_bits s poll_in poll_out hlt
    refine ⟨t, i, hloc, hb, ?_, by rw [hev]; exact hword, ?_⟩
    · rw [hev, hbits 31, hs]
      simp only [show ¬ (31 : Nat) = 0 by decide, show ¬ (31 : Nat) = 2 by decide, if_false]
      decide
    · intro h1 h2
      rw [hev, h1, h2, ← hs]
      unfold __slot_update_events
      simp
  · intro w fd h poll_in poll_out ctl_ok t i hloc hreg hm het
    obtain ⟨hb, hfd, href⟩ := hreg
    have href0 : (get_slot w.pool t i).ref ≠ 0 := by omega
    rw [select_on_registered k w fd h poll_in poll_out ctl_ok t i hloc hb hfd href0]
    obtain ⟨hbits, hword⟩ := update_events_bits (get_slot w.pool t i) poll_in poll_out hm
    have hs : ∀ w2 : World,
        w2.pool = (w.put t i (__slot_update_events (get_slot w.pool t i) poll_in poll_out)).pool →
        (get_slot w2.pool t i).events.testBit 31 = true ∧
          (get_slot w2.pool t i).events < 2 ^ 32 := by
      intro w2 hw2
      rw [hw2, put_pool, get_slot_set_slot_same _ _ _ _ hb, hbits 31]
      exact ⟨by simpa using het, hword⟩
    refine ⟨_, rfl, hs _ ?_⟩
    split_ifs <;> rfl

theorem tri_state_interest_mask_witness :
    ((∀ b, (__slot_update_events (get_slot world_registered.pool 0 0) 0 1).events.testBit b =
        (if b = 0 then
          (if (0 : Int) = 1 then true else if (0 : Int) = 0 then false
           else (get_slot world_registered.pool 0 0).events.testBit 0)
         else if b = 2 then
          (if (1 : Int) = 1 then true else if (1 : Int) = 0 then false
           else (get_slot world_registered.pool 0 0).events.testBit 2)
         else (get_slot world_registered.pool 0 0).events.testBit b)) ∧
      (__slot_update_events (get_slot world_registered.pool 0 0) 0 1).events < 2 ^ 32) ∧
    (∃ t i, locate small_consts 0 = some (t, i) ∧
        block_exists world_registered_unspecified.pool t ∧
        (get_slot world_registered_unspecified.pool t i).events.testBit 31 = true ∧
        (get_slot world_registered_unspecified.pool t i).events < 2 ^ 32 ∧
        ((-1 : Int) = -1 → (-1 : Int) = -1 →
          (get_slot world_registered_unspecified.pool t i).events = EPOLLET)) ∧
    (∃ w1, event_select_on_epoll small_consts world_registered (some ()) 5 0 0 1 false
        = .ok (w1, 0) ∧
      (get_slot w1.pool 0 0).events.testBit 31 = true ∧
      (get_slot w1.pool 0 0).events < 2 ^ 32) :=
  ⟨(tri_state_interest_mask small_consts).2.1 (get_slot world_registered.pool 0 0) 0 1
      (by decide),
    (tri_state_interest_mask small_consts).2.2.1 new_world world_registered_unspecified
      5 7 9 (-1) (-1) true true 0 rfl (by decide),
    (tri_state_interest_mask small_consts).2.2.2 world_registered 5 0 0 1 false 0 0 rfl
      ⟨by decide, by decide, by decide⟩ (by decide) (by decide)⟩

/-! ## Unregistration of a slot that holds only its registration -/

/-- With reference count `1`, `event_unregister_epoll_common` releases the last
reference whatever the kernel answers: the slot is deallocated once, and the
descriptor is closed once when the close flag that the slot then carries is
set. -/
theorem unregister_last_reference (k : Consts) (w : World) (fd idx do_close : Int) (cok : Bool)
    (t i : Nat) (hloc : locate k idx = some (t, i)) (hb : block_exists w.pool t)
    (hfd : (get_slot w.pool t i).fd = fd) (href : (get_slot w.pool t i).ref = 1) :
    ∃ w1, event_unregister_epoll_common k w (some ()) fd idx do_close cok
        = .ok (w1, epoll_ctl cok fd) ∧
      block_exists w1.pool t ∧ (get_slot w1.pool t i).fd = -1 ∧
      w1.trace = w.trace ++ [Effect.ctl_del fd, Effect.slot_dealloc idx] ++
        (if (if epoll_ctl cok fd = -1 then (get_slot w.pool t i).do_close else do_close) ≠ 0
          then [Effect.close fd] else []) := by
  rw [unregister_forward k w fd idx do_close cok t i hloc hb hfd]
  by_cases hret : epoll_ctl cok fd = -1
  · rw [if_pos hret]
    rw [event_slot_unref_ok k _ idx t i hloc (by simpa using hb)]
    simp only [emit_pool, put_pool, get_slot_set_slot_same _ _ _ _ hb, href]
    rw [if_pos (by decide)]
    simp only []
    rw [event_slot_unref_ok k _ idx t i hloc (by simpa using hb)]
    simp only [emit_pool, put_pool, block_exists_set_slot, get_slot_set_slot, hb, true_and,
      and_self, if_true, hfd]
    rw [if_neg (by decide), if_pos hret]
    by_cases hdc : (get_slot w.pool t i).do_close = 0
    · simp only [hdc, ne_eq, not_true_eq_false, if_false]
      refine ⟨_, rfl, ?_⟩
      simp [get_slot_dealloc_world, get_slot_set_slot, hb, dealloc_world, World.emit, World.put]
    · simp only [ne_eq, hdc, not_false_eq_true, if_true]
      refine ⟨_, rfl, ?_⟩
      simp [get_slot_dealloc_world, get_slot_set_slot, hb, dealloc_world, World.emit, World.put]
  · rw [if_neg hret]
    rw [event_slot_unref_ok k _ idx t i hloc (by simpa using hb)]
    simp only [emit_pool, put_pool, get_slot_set_slot_same _ _ _ _ hb, href]
    rw [if_pos (by decide)]
    simp only []
    rw [event_slot_unref_ok k _ idx t i hloc (by simpa using hb)]
    simp only [emit_pool, put_pool, block_exists_set_slot, get_slot_set_slot, hb, true_and,
      and_self, if_true, hfd]
    rw [if_neg (by decide), if_neg hret]
    by_cases hdc : do_close = 0
    · simp only [hdc, ne_eq, not_true_eq_false, if_false]
      refine ⟨_, rfl, ?_⟩
      simp [get_slot_dealloc_world, get_slot_set_slot, hb, dealloc_world, World.emit, World.put]
    · simp only [ne_eq, hdc, not_false_eq_true, if_true]
      refine ⟨_, rfl, ?_⟩
      simp [get_slot_dealloc_world, get_slot_set_slot, hb, dealloc_world, World.emit, World.put]

/-- On a slot whose descriptor is `-1` or another one than the `fd` passed,
`event_select_on_epoll` stops at its assertion `slot->fd == fd`. -/
theorem select_on_asserts (k : Consts) (w : World) (fd idx poll_in poll_out : Int) (cok : Bool)
    (t i : Nat) (hloc : locate k idx = some (t, i)) (hb : block_exists w.pool t)
    (hfd : (get_slot w.pool t i).fd ≠ fd) :
    event_select_on_epoll k w (some ()) fd idx poll_in poll_out cok = .fault .assertion := by
  unfold event_select_on_epoll
  simp only []
  rw [event_slot_get_ok k w idx t i hloc hb]
  simp only [put_pool, get_slot_set_slot_same _ _ _ _ hb]
  rw [if_pos (by simpa using hfd)]

/-- The loop of `event_reconfigure_threads_epoll` writes only to `pollers` and to
the log. -/
theorem spawn_loop_fields (spawn : Nat → SpawnResult) :
    ∀ (n i : Nat) (w : World),
      (spawn_loop spawn w n i).pool.destroy = w.pool.destroy ∧
      (spawn_loop spawn w n i).pool.eventthreadcount = w.pool.eventthreadcount ∧
      (spawn_loop spawn w n i).pool.activethreadcount = w.pool.activethreadcount := by
  intro n
  induction n with
  | zero => intro i w; exact ⟨rfl, rfl, rfl⟩
  | succ n ih =>
    intro i w
    unfold spawn_loop
    simp only []
    refine ⟨(ih _ _).1.trans ?_, (ih _ _).2.1.trans ?_, (ih _ _).2.2.trans ?_⟩ <;>
    · split
      · split <;> rfl
      · rfl

/-- The value that `event_reconfigure_threads_epoll` stores as the desired thread
count. -/
theorem reconfigure_target (k : Consts) (destroy value : Int) (hmax : 1 ≤ k.EVENT_MAX_THREADS) :
    (if destroy = 1 then (0 : Int)
     else if (if value > (k.EVENT_MAX_THREADS : Int) then (k.EVENT_MAX_THREADS : Int) else value) ≤ 0
       then 1
       else (if value > (k.EVENT_MAX_THREADS : Int) then (k.EVENT_MAX_THREADS : Int) else value)) =
    (if destroy = 1 then 0 else min (max value 1) (k.EVENT_MAX_THREADS : Int)) := by
  have hm : (1 : Int) ≤ (k.EVENT_MAX_THREADS : Int) := by exact_mod_cast hmax
  by_cases hd : destroy = 1
  · simp [hd]
  · simp only [hd, if_false]
    split_ifs <;> omega

/-- With `EVENT_MAX_THREADS` at least `1` and a desired thread count that is
not negative (so that the loop over `pollers` starts inside the array), for every
`value`: `event_reconfigure_threads_epoll` returns `0`; the desired thread count
it leaves is `min (max value 1) EVENT_MAX_THREADS` when the pool is not in destroy
mode and `0` when it is; the destroy flag is unchanged; and the desired count is
`0` only in destroy mode. -/
theorem reconfigure_clamps_thread_count (k : Consts) (w : World) (value : Int)
    (spawn : Nat → SpawnResult)
    (hmax : 1 ≤ k.EVENT_MAX_THREADS) (hold : 0 ≤ w.pool.eventthreadcount) :
    ∃ w1, event_reconfigure_threads_epoll k w value spawn = .ok (w1, 0) ∧
      w1.pool.eventthreadcount =
        (if w.pool.destroy = 1 then 0 else min (max value 1) (k.EVENT_MAX_THREADS : Int)) ∧
      w1.pool.destroy = w.pool.destroy ∧
      (w1.pool.eventthreadcount = 0 → w.pool.destroy = 1) := by
  have hm : (1 : Int) ≤ (k.EVENT_MAX_THREADS : Int) := by exact_mod_cast hmax
  have hzero : (if w.pool.destroy = 1 then (0 : Int)
      else min (max value 1) (k.EVENT_MAX_THREADS : Int)) = 0 → w.pool.destroy = 1 := by
    intro h0
    by_contra hd
    rw [if_neg hd] at h0
    omega
  unfold event_reconfigure_threads_epoll
  simp only []
  rw [reconfigure_target k w.pool.destroy value hmax]
  generalize (if w.pool.destroy = 1 then (0 : Int)
      else min (max value 1) (k.EVENT_MAX_THREADS : Int)) = v at hzero ⊢
  by_cases h1 : w.pool.eventthreadcount < v
  · rw [if_pos h1, if_neg (not_lt.mpr hold)]
    exact ⟨_, rfl, rfl, (spawn_loop_fields spawn _ _ w).1, hzero⟩
  · rw [if_neg h1]
    exact ⟨_, rfl, rfl, rfl, hzero⟩

theorem reconfigure_clamps_thread_count_witness :
    ∃ w1, event_reconfigure_threads_epoll small_consts world_registered 9
        (fun _ => SpawnResult.created 11) = .ok (w1, 0) ∧
      w1.pool.eventthreadcount =
        (if world_registered.pool.destroy = 1 then 0
         else min (max 9 1) (small_consts.EVENT_MAX_THREADS : Int)) ∧
      w1.pool.destroy = world_registered.pool.destroy ∧
      (w1.pool.eventthreadcount = 0 → world_registered.pool.destroy = 1) :=
  reconfigure_clamps_thread_count small_consts world_registered 9
    (fun _ => SpawnResult.created 11) (by decide) (by decide)

/-! ## Handlers running at the same time -/

/-- C18 (the code breaks the claim). Descriptor `5` is registered at handle `0`
with the tag `(0, 1)`; its mask is `EPOLLET | EPOLLIN`, without `EPOLLONESHOT`, so
the kernel may report a second event with the same tag while the handler of the
first runs. A first worker enters the dispatch of such an event: it captures the
handler `7` and the in-handler count is `1`. A second worker then dispatches a
second event with the same tag: it captures the handler `7` as well, the
in-handler count is `2` while both handlers run, and the second dispatch logs
its handler call and returns without a kernel modify while the first is still
in its handler. -/
theorem second_dispatch_enters_same_handler :
    (get_slot world_registered.pool 0 0).events = EPOLLET ||| EPOLLIN ∧
    (get_slot world_registered.pool 0 0).events &&& EPOLLONESHOT = 0 ∧
    (∃ c1, dispatch_enter small_consts world_registered { events := EPOLLIN, idx := 0, gen := 1 }
        = .ok (world_in_handler, c1) ∧ c1.handler = 7) ∧
    (get_slot world_in_handler.pool 0 0).in_handler = 1 ∧
    (∃ w2 c2, dispatch_enter small_consts world_in_handler { events := EPOLLIN, idx := 0, gen := 1 }
        = .ok (w2, c2) ∧ c2.handler = 7 ∧ (get_slot w2.pool 0 0).in_handler = 2) ∧
    (get_slot (handler_world world_in_handler { events := EPOLLIN, idx := 0, gen := 1 }
      0 0).pool 0 0).in_handler = 2 ∧
    (∃ w3 r, event_dispatch_epoll_handler small_consts world_in_handler
        { events := EPOLLIN, idx := 0, gen := 1 } [] 0 true = .ok (w3, r) ∧
      w3.trace = world_in_handler.trace ++ [Effect.handler 7 5 0 9 1 0 0] ∧
      (get_slot w3.pool 0 0).in_handler = 1) :=
  ⟨by decide, by decide, ⟨_, rfl, by decide⟩, by decide, ⟨_, _, rfl, by decide, by decide⟩,
    by decide, ⟨_, _, rfl, by decide, by decide⟩⟩

/-! ## Rejected calls -/

/-- C19. When the destroy flag of the pool is `1`, `event_register_epoll` returns
`-1` and leaves the world as it was, whatever the other arguments and whatever
the environment would answer: no slot is allocated, no block created, nothing
is logged (so no kernel call is made), and every slot and every used-count is
unchanged. -/
theorem register_rejected_in_destroy_mode (k : Consts) (w : World) (fd : Int)
    (handler data : Nat) (poll_in poll_out : Int) (calloc_ok ctl_ok : Bool)
    (hd : w.pool.destroy = 1) :
    ∃ w1, event_register_epoll k w (some ()) fd handler data poll_in poll_out calloc_ok ctl_ok
        = .ok (w1, -1) ∧
      w1 = w ∧ w1.trace = w.trace ∧
      (∀ t, block_exists w1.pool t ↔ block_exists w.pool t) ∧
      (∀ t i, get_slot w1.pool t i = get_slot w.pool t i) ∧
      (∀ t, w1.pool.slots_used t = w.pool.slots_used t) := by
  refine ⟨w, ?_, rfl, rfl, fun _ => Iff.rfl, fun _ _ => rfl, fun _ => rfl⟩
  unfold event_register_epoll
  simp only [hd, if_true]

theorem register_rejected_in_destroy_mode_witness :
    ∃ w1, event_register_epoll small_consts world_destroying (some ()) 6 8 0 1 1 true true
        = .ok (w1, -1) ∧
      w1 = world_destroying ∧ w1.trace = world_destroying.trace ∧
      (∀ t, block_exists w1.pool t ↔ block_exists world_destroying.pool t) ∧
      (∀ t i, get_slot w1.pool t i = get_slot world_destroying.pool t i) ∧
      (∀ t, w1.pool.slots_used t = world_destroying.pool.slots_used t) :=
  register_rejected_in_destroy_mode small_consts world_destroying 6 8 0 1 1 true true rfl

/-- C20 (the code breaks the claim). With a `NULL` pool, `event_register_epoll` and
`event_unregister_epoll_common` return `-1` and change nothing, but
`event_select_on_epoll` returns the handle it was given, which is what it returns
on success: called with the handle `0` it returns `0`, not `-1`. -/
theorem select_on_null_pool_returns_handle :
    (∀ (k : Consts) (w : World) (fd : Int) (handler data : Nat) (poll_in poll_out : Int)
      (calloc_ok ctl_ok : Bool),
      event_register_epoll k w none fd handler data poll_in poll_out calloc_ok ctl_ok
        = .ok (w, -1)) ∧
    (∀ (k : Consts) (w : World) (fd idx do_close : Int) (ctl_ok : Bool),
      event_unregister_epoll_common k w none fd idx do_close ctl_ok = .ok (w, -1)) ∧
    (∀ (k : Consts) (w : World) (fd idx poll_in poll_out : Int) (ctl_ok : Bool),
      event_select_on_epoll k w none fd idx poll_in poll_out ctl_ok = .ok (w, idx)) ∧
    event_select_on_epoll small_consts world_registered none 5 0 1 0 true
      = .ok (world_registered, 0) ∧
    event_select_on_epoll small_consts world_registered (some ()) 5 0 1 0 true
      = .ok ((event_select_on_epoll small_consts world_registered (some ()) 5 0 1 0 true).world,
             0) ∧
    (0 : Int) ≠ -1 :=
  ⟨fun _ _ _ _ _ _ _ _ _ => rfl, fun _ _ _ _ _ _ => rfl, fun _ _ _ _ _ _ _ => rfl, rfl, rfl,
    by decide⟩

/-! ## Worker threads -/

@[simp] theorem set_poller_pollers (w : World) (i t_id : Nat) :
    (w.set_poller i t_id).pool.pollers = Function.update w.pool.pollers i t_id := rfl

@[simp] theorem set_poller_trace (w : World) (i t_id : Nat) :
    (w.set_poller i t_id).trace = w.trace := rfl

@[simp] theorem set_poller_activethreadcount (w : World) (i t_id : Nat) :
    (w.set_poller i t_id).pool.activethreadcount = w.pool.activethreadcount := rfl

@[simp] theorem set_poller_eventthreadcount (w : World) (i t_id : Nat) :
    (w.set_poller i t_id).pool.eventthreadcount = w.pool.eventthreadcount := rfl

@[simp] theorem set_activethreadcount_pollers (w : World) (v : Int) :
    (w.set_activethreadcount v).pool.pollers = w.pool.pollers := rfl

@[simp] theorem set_activethreadcount_trace (w : World) (v : Int) :
    (w.set_activethreadcount v).trace = w.trace := rfl

@[simp] theorem set_activethreadcount_value (w : World) (v : Int) :
    (w.set_activethreadcount v).pool.activethreadcount = v := rfl

@[simp] theorem set_activethreadcount_eventthreadcount (w : World) (v : Int) :
    (w.set_activethreadcount v).pool.eventthreadcount = w.pool.eventthreadcount := rfl

@[simp] theorem set_eventthreadcount_pollers (w : World) (v : Int) :
    (w.set_eventthreadcount v).pool.pollers = w.pool.pollers := rfl

@[simp] theorem set_eventthreadcount_trace (w : World) (v : Int) :
    (w.set_eventthreadcount v).trace = w.trace := rfl

@[simp] theorem set_eventthreadcount_activethreadcount (w : World) (v : Int) :
    (w.set_eventthreadcount v).pool.activethreadcount = w.pool.activethreadcount := rfl

theorem created_threads_append (a b : List Effect) :
    created_threads (a ++ b) = created_threads a ++ created_threads b := by
  induction a with
  | nil => rfl
  | cons e a ih =>
    cases e with
    | pthread_create idx started =>
      cases started
      · simpa [created_threads] using ih
      · simpa [created_threads] using ih
    | _ => simpa [created_threads] using ih

/-- The threads that the loop of `event_reconfigure_threads_epoll` creates: their
indices are distinct and lie in the range of the loop, the thread-identity slot
of each was vacant before and is occupied after, and no occupied slot and no
slot below the range is changed. -/
theorem spawn_loop_threads (spawn : Nat → SpawnResult) (hs : valid_spawn spawn) :
    ∀ (n i : Nat) (w : World), ∃ extra,
      (spawn_loop spawn w n i).trace = w.trace ++ extra ∧
      (created_threads extra).Nodup ∧
      (∀ j ∈ created_threads extra, i + 1 ≤ j ∧ j ≤ i + n ∧ w.pool.pollers (j - 1) = 0 ∧
        (spawn_loop spawn w n i).pool.pollers (j - 1) ≠ 0) ∧
      (∀ m, w.pool.pollers m ≠ 0 ∨ m < i →
        (spawn_loop spawn w n i).pool.pollers m = w.pool.pollers m) := by
  intro n
  induction n with
  | zero =>
    intro i w
    exact ⟨[], by simp [spawn_loop], by simp [created_threads], by simp [created_threads],
      fun _ _ => rfl⟩
  | succ n ih =>
    intro i w
    have hskip : ∀ w1 : World, w1.pool.pollers = w.pool.pollers →
        ∀ pre : List Effect, w1.trace = w.trace ++ pre → created_threads pre = [] →
        spawn_loop spawn w (n + 1) i = spawn_loop spawn w1 n (i + 1) →
        ∃ extra,
          (spawn_loop spawn w (n + 1) i).trace = w.trace ++ extra ∧
          (created_threads extra).Nodup ∧
          (∀ j ∈ created_threads extra, i + 1 ≤ j ∧ j ≤ i + (n + 1) ∧
            w.pool.pollers (j - 1) = 0 ∧
            (spawn_loop spawn w (n + 1) i).pool.pollers (j - 1) ≠ 0) ∧
          (∀ m, w.pool.pollers m ≠ 0 ∨ m < i →
            (spawn_loop spawn w (n + 1) i).pool.pollers m = w.pool.pollers m) := by
      intro w1 hp pre htr hpre heq
      obtain ⟨extra, h1, h2, h3, h4⟩ := ih (i + 1) w1
      rw [heq]
      refine ⟨pre ++ extra, by rw [h1, htr, List.append_assoc], ?_, ?_, ?_⟩
      · rw [created_threads_append, hpre]; simpa using h2
      · intro j hj
        rw [created_threads_append, hpre] at hj
        obtain ⟨a, b, c, d⟩ := h3 j (by simpa using hj)
        exact ⟨by omega, by omega, by rw [← hp]; exact c, d⟩
      · intro m hm
        rw [h4 m (by rw [hp]; rcases hm with h | h; exact Or.inl h; exact Or.inr (by omega)), hp]
    by_cases hp : w.pool.pollers i = 0
    · cases hsp : spawn i with
      | calloc_failed =>
        exact hskip w rfl [] (by simp) rfl (by rw [spawn_loop]; simp only [hp, hsp, if_true])
      | create_failed =>
        exact hskip (w.emit (Effect.pthread_create (i + 1) false)) rfl
          [Effect.pthread_create (i + 1) false] rfl rfl
          (by rw [spawn_loop]; simp only [hp, hsp, if_true])
      | created t_id =>
        have heq : spawn_loop spawn w (n + 1) i =
            spawn_loop spawn ((w.set_poller i t_id).emit (Effect.pthread_create (i + 1) true))
              n (i + 1) := by
          rw [spawn_loop]; simp only [hp, hsp, if_true]
        obtain ⟨extra, h1, h2, h3, h4⟩ := ih (i + 1)
          ((w.set_poller i t_id).emit (Effect.pthread_create (i + 1) true))
        rw [heq]
        refine ⟨Effect.pthread_create (i + 1) true :: extra, ?_, ?_, ?_, ?_⟩
        · rw [h1]; simp [World.emit]
        · simp only [created_threads, List.nodup_cons]
          refine ⟨fun hmem => ?_, h2⟩
          have := (h3 _ hmem).1
          omega
        · intro j hj
          simp only [created_threads, List.mem_cons] at hj
          rcases hj with rfl | hj
          · refine ⟨le_refl _, by omega, by simpa using hp, ?_⟩
            rw [h4 (i + 1 - 1) (Or.inr (by omega))]
            simp only [emit_pool, set_poller_pollers, Nat.add_sub_cancel, Function.update_same]
            exact hs i t_id hsp
          · obtain ⟨a, b, c, d⟩ := h3 j hj
            refine ⟨by omega, by omega, ?_, d⟩
            simp only [emit_pool, set_poller_pollers] at c
            rwa [Function.update_noteq (by omega)] at c
        · intro m hm
          have hmi : m ≠ i := by
            rcases hm with h | h
            · intro e; rw [e] at h; exact h hp
            · omega
          rw [h4 m (by
            simp only [emit_pool, set_poller_pollers, Function.update_noteq hmi]
            rcases hm with h | h
            · exact Or.inl h
            · exact Or.inr (by omega))]
          simp only [emit_pool, set_poller_pollers, Function.update_noteq hmi]
    · exact hskip w rfl [] (by simp) rfl (by rw [spawn_loop]; simp only [hp, if_false])

/-- The threads that the loop of `event_dispatch_epoll` creates: their indices are
distinct and lie in the range of the loop, the thread-identity slot of each is
occupied after the loop, and the active count is not touched. -/
theorem dispatch_spawn_loop_threads (spawn : Nat → SpawnResult) (hs : valid_spawn spawn) :
    ∀ (n i : Nat) (w : World), ∃ extra,
      (dispatch_spawn_loop spawn w n i).trace = w.trace ++ extra ∧
      (created_threads extra).Nodup ∧
      (∀ j ∈ created_threads extra, i + 1 ≤ j ∧ j ≤ i + n ∧
        (dispatch_spawn_loop spawn w n i).pool.pollers (j - 1) ≠ 0) ∧
      (∀ m, m < i → (dispatch_spawn_loop spawn w n i).pool.pollers m = w.pool.pollers m) ∧
      (dispatch_spawn_loop spawn w n i).pool.activethreadcount = w.pool.activethreadcount := by
  intro n
  induction n with
  | zero =>
    intro i w
    exact ⟨[], by simp [dispatch_spawn_loop], by simp [created_threads],
      by simp [created_threads], fun _ _ => rfl, rfl⟩
  | succ n ih =>
    intro i w
    have hstop : ∀ (w1 : World) (pre : List Effect), w1.pool = w.pool →
        w1.trace = w.trace ++ pre → created_threads pre = [] →
        dispatch_spawn_loop spawn w (n + 1) i = w1 →
        ∃ extra,
          (dispatch_spawn_loop spawn w (n + 1) i).trace = w.trace ++ extra ∧
          (created_threads extra).Nodup ∧
          (∀ j ∈ created_threads extra, i + 1 ≤ j ∧ j ≤ i + (n + 1) ∧
            (dispatch_spawn_loop spawn w (n + 1) i).pool.pollers (j - 1) ≠ 0) ∧
          (∀ m, m < i →
            (dispatch_spawn_loop spawn w (n + 1) i).pool.pollers m = w.pool.pollers m) ∧
          (dispatch_spawn_loop spawn w (n + 1) i).pool.activethreadcount =
            w.pool.activethreadcount := by
      intro w1 pre hp htr hpre heq
      rw [heq]
      exact ⟨pre, htr, by rw [hpre]; exact List.nodup_nil, by rw [hpre]; simp,
        fun _ _ => by rw [hp], by rw [hp]⟩
    have hskip : ∀ (w1 : World) (pre : List Effect), w1.pool = w.pool →
        w1.trace = w.trace ++ pre → created_threads pre = [] →
        dispatch_spawn_loop spawn w (n + 1) i = dispatch_spawn_loop spawn w1 n (i + 1) →
        ∃ extra,
          (dispatch_spawn_loop spawn w (n + 1) i).trace = w.trace ++ extra ∧
          (created_threads extra).Nodup ∧
          (∀ j ∈ created_threads extra, i + 1 ≤ j ∧ j ≤ i + (n + 1) ∧
            (dispatch_spawn_loop spawn w (n + 1) i).pool.pollers (j - 1) ≠ 0) ∧
          (∀ m, m < i →
            (dispatch_spawn_loop spawn w (n + 1) i).pool.pollers m = w.pool.pollers m) ∧
          (dispatch_spawn_loop spawn w (n + 1) i).pool.activethreadcount =
            w.pool.activethreadcount := by
      intro w1 pre hp htr hpre heq
      obtain ⟨extra, h1, h2, h3, h4, h5⟩ := ih (i + 1) w1
      rw [heq]
      refine ⟨pre ++ extra, by rw [h1, htr, List.append_assoc], ?_, ?_, ?_, by rw [h5, hp]⟩
      · rw [created_threads_append, hpre]; simpa using h2
      · intro j hj
        rw [created_threads_append, hpre] at hj
        obtain ⟨a, b, c⟩ := h3 j (by simpa using hj)
        exact ⟨by omega, by omega, c⟩
      · intro m hm
        rw [h4 m (by omega), hp]
    cases hsp : spawn i with
    | calloc_failed =>
      by_cases hi : i = 0
      · exact hstop w [] rfl (by simp) rfl
          (by rw [dispatch_spawn_loop]; simp only [hsp]; rw [if_pos hi])
      · exact hskip w [] rfl (by simp) rfl
          (by rw [dispatch_spawn_loop]; simp only [hsp]; rw [if_neg hi])
    | create_failed =>
      by_cases hi : i = 0
      · exact hstop (w.emit (Effect.pthread_create (i + 1) false))
          [Effect.pthread_create (i + 1) false] rfl rfl rfl
          (by rw [dispatch_spawn_loop]; simp only [hsp]; rw [if_pos hi])
      · exact hskip (w.emit (Effect.pthread_create (i + 1) false))
          [Effect.pthread_create (i + 1) false] rfl rfl rfl
          (by rw [dispatch_spawn_loop]; simp only [hsp]; rw [if_neg hi])
    | created t_id =>
      have heq : dispatch_spawn_loop spawn w (n + 1) i =
          dispatch_spawn_loop spawn
            ((w.set_poller i t_id).emit (Effect.pthread_create (i + 1) true)) n (i + 1) := by
        rw [dispatch_spawn_loop]; simp only [hsp]
      obtain ⟨extra, h1, h2, h3, h4, h5⟩ := ih (i + 1)
        ((w.set_poller i t_id).emit (Effect.pthread_create (i + 1) true))
      rw [heq]
      refine ⟨Effect.pthread_create (i + 1) true :: extra, ?_, ?_, ?_, ?_, ?_⟩
      · rw [h1]; simp [World.emit]
      · simp only [created_threads, List.nodup_cons]
        refine ⟨fun hmem => ?_, h2⟩
        have := (h3 _ hmem).1
        omega
      · intro j hj
        simp only [created_threads, List.mem_cons] at hj
        rcases hj with rfl | hj
        · refine ⟨le_refl _, by omega, ?_⟩
          rw [h4 (i + 1 - 1) (by omega)]
          simp only [emit_pool, set_poller_pollers, Nat.add_sub_cancel, Function.update_same]
          exact hs i t_id hsp
        · obtain ⟨a, b, c⟩ := h3 j hj
          exact ⟨by omega, by omega, c⟩
      · intro m hm
        rw [h4 m (by omega)]
        simp only [emit_pool, set_poller_pollers, Function.update_noteq (show m ≠ i by omega)]
      · rw [h5]; rfl

theorem nodup_length_le (l : List Nat) (M : Nat) (hn : l.Nodup)
    (h : ∀ j ∈ l, 1 ≤ j ∧ j ≤ M) : l.length ≤ M := by
  have hsub : l.toFinset ⊆ Finset.Icc 1 M := by
    intro x hx
    rw [List.mem_toFinset] at hx
    rw [Finset.mem_Icc]
    exact h x hx
  have := Finset.card_le_card hsub
  rw [List.toFinset_card_of_nodup hn, Nat.card_Icc] at this
  omega

theorem thread_inv_bound (k : Consts) (s : ThreadSys) (h : thread_inv k s) :
    s.world.pool.activethreadcount ≤ (k.EVENT_MAX_THREADS : Int) + 1 := by
  obtain ⟨hn, hb, hc⟩ := h
  have hlen := nodup_length_le _ k.EVENT_MAX_THREADS hn (fun j hj => ⟨(hb j hj).1, (hb j hj).2.1⟩)
  rw [List.length_append] at hlen
  rw [hc]
  have : (s.running.length : Int) ≤ (k.EVENT_MAX_THREADS : Int) := by exact_mod_cast (by omega)
  omega

/-- Entering the dispatch on a pool on which no thread runs establishes
`thread_inv`. -/
theorem thread_inv_dispatch_entry (k : Consts) (p : event_pool) (spawn : Nat → SpawnResult)
    (s1 : ThreadSys) (hmax : 1 ≤ k.EVENT_MAX_THREADS) (hs : valid_spawn spawn)
    (hact : p.activethreadcount = 0)
    (h : thread_step k (ThreadSys.init p) (ThreadStep.dispatch_entry spawn) = some s1) :
    thread_inv k s1 := by
  have hm : (1 : Int) ≤ (k.EVENT_MAX_THREADS : Int) := by exact_mod_cast hmax
  simp only [thread_step, ThreadSys.init, Option.some.injEq] at h
  subst h
  unfold event_dispatch_epoll_start
  simp only []
  generalize hpc : (if (if p.eventthreadcount > (k.EVENT_MAX_THREADS : Int)
      then (k.EVENT_MAX_THREADS : Int) else p.eventthreadcount) ≤ 0 then (1 : Int)
      else (if p.eventthreadcount > (k.EVENT_MAX_THREADS : Int)
        then (k.EVENT_MAX_THREADS : Int) else p.eventthreadcount)) = pc
  have hpcle : pc.toNat ≤ k.EVENT_MAX_THREADS := by
    rw [← hpc]
    split_ifs <;> omega
  obtain ⟨extra, h1, h2, h3, _, h5⟩ := dispatch_spawn_loop_threads spawn hs pc.toNat 0
    (World.set_activethreadcount { pool := p, trace := [] } (p.activethreadcount + 1))
  have htr : (dispatch_spawn_loop spawn
      (World.set_activethreadcount { pool := p, trace := [] } (p.activethreadcount + 1))
      pc.toNat 0).trace = extra := by
    rw [h1]; rfl
  refine ⟨?_, ?_, ?_⟩
  · simp only [htr, List.length_nil, List.drop_zero, List.nil_append, List.append_nil]
    exact h2
  · intro j hj
    simp only [htr, List.length_nil, List.drop_zero, List.nil_append, List.append_nil] at hj
    obtain ⟨a, b, c⟩ := h3 j hj
    exact ⟨by omega, by omega, c⟩
  · show (dispatch_spawn_loop spawn
        (World.set_activethreadcount { pool := p, trace := [] } (p.activethreadcount + 1))
        pc.toNat 0).pool.activethreadcount = 1 + ((([] : List Nat).length : Nat) : Int)
    rw [h5, set_activethreadcount_value, hact]
    rfl

/-- Every step other than an entry into the dispatch keeps `thread_inv`. -/
theorem thread_inv_step (k : Consts) (s s1 : ThreadSys) (o : ThreadStep)
    (hmax : 1 ≤ k.EVENT_MAX_THREADS) (hv : o.valid) (hd : o.is_dispatch_entry = false)
    (hinv : thread_inv k s) (h : thread_step k s o = some s1) : thread_inv k s1 := by
  obtain ⟨hn, hb, hc⟩ := hinv
  cases o with
  | dispatch_entry spawn => simp [ThreadStep.is_dispatch_entry] at hd
  | worker_start j =>
    simp only [thread_step] at h
    split_ifs at h with hj
    simp only [Option.some.injEq] at h
    subst h
    have hperm : (s.created.erase j ++ j :: s.running).Perm (s.created ++ s.running) := by
      have h1 : (j :: s.created.erase j).Perm s.created := (List.perm_cons_erase hj).symm
      exact List.perm_middle.trans (by simpa using h1.append_right s.running)
    refine ⟨hperm.nodup_iff.mpr hn, fun x hx => hb x (hperm.mem_iff.mp hx), ?_⟩
    show s.world.pool.activethreadcount + 1 = 1 + (((j :: s.running).length : Nat) : Int)
    rw [hc, List.length_cons]
    push_cast
    omega
  | worker_exit j =>
    simp only [thread_step] at h
    split_ifs at h with hj
    unfold worker_check_exit at h
    split_ifs at h with hlt hz
    simp only [Option.some.injEq] at h
    subst h
    have hsub : (s.created ++ s.running.erase j).Sublist (s.created ++ s.running) :=
      List.Sublist.append_left (List.erase_sublist j s.running) s.created
    have hnr : s.running.Nodup := (List.nodup_append.mp hn).2.1
    have hdis := (List.nodup_append.mp hn).2.2
    refine ⟨hn.sublist hsub, fun x hx => ?_, ?_⟩
    · obtain ⟨a, b, c⟩ := hb x (hsub.subset hx)
      have hxj : x ≠ j := by
        rintro rfl
        rcases List.mem_append.mp hx with h1 | h1
        · exact hdis h1 hj
        · exact ((hnr.mem_erase_iff).mp h1).1 rfl
      refine ⟨a, b, ?_⟩
      show Function.update s.world.pool.pollers (j - 1) 0 (x - 1) ≠ 0
      rw [Function.update_noteq (by omega)]
      exact c
    · show s.world.pool.activethreadcount - 1 = 1 + (((s.running.erase j).length : Nat) : Int)
      have hpos : 1 ≤ s.running.length := List.length_pos_of_mem hj
      rw [hc, List.length_erase_of_mem hj]
      omega
  | reconfigure value spawn =>
    have hm : (1 : Int) ≤ (k.EVENT_MAX_THREADS : Int) := by exact_mod_cast hmax
    simp only [thread_step] at h
    unfold event_reconfigure_threads_epoll at h
    simp only [] at h
    rw [reconfigure_target k s.world.pool.destroy value hmax] at h
    have hvle : (if s.world.pool.destroy = 1 then (0 : Int)
        else min (max value 1) (k.EVENT_MAX_THREADS : Int)) ≤ (k.EVENT_MAX_THREADS : Int) := by
      split_ifs <;> omega
    generalize (if s.world.pool.destroy = 1 then (0 : Int)
        else min (max value 1) (k.EVENT_MAX_THREADS : Int)) = v at h hvle
    by_cases h1 : s.world.pool.eventthreadcount < v
    · rw [if_pos h1] at h
      by_cases h2 : s.world.pool.eventthreadcount < 0
      · rw [if_pos h2] at h
        simp at h
      · rw [if_neg h2] at h
        simp only [Option.some.injEq] at h
        subst h
        obtain ⟨extra, e1, e2, e3, e4⟩ := spawn_loop_threads spawn hv
          (v - s.world.pool.eventthreadcount).toNat s.world.pool.eventthreadcount.toNat s.world
        have hdrop : List.drop s.world.trace.length
            ((spawn_loop spawn s.world (v - s.world.pool.eventthreadcount).toNat
              s.world.pool.eventthreadcount.toNat).set_eventthreadcount v).trace = extra := by
          rw [set_eventthreadcount_trace, e1, List.drop_left]
        simp only [hdrop]
        have hperm : (s.created ++ created_threads extra ++ s.running).Perm
            (created_threads extra ++ (s.created ++ s.running)) := by
          rw [List.append_assoc]
          exact (List.perm_append_comm_assoc _ _ _)
        have hdisj : ∀ x, x ∈ created_threads extra → x ∈ s.created ++ s.running → False := by
          intro x hx hy
          exact (hb x hy).2.2 (e3 x hx).2.2.1
        refine ⟨hperm.nodup_iff.mpr (List.nodup_append.mpr ⟨e2, hn, fun x hx hy => hdisj x hx hy⟩),
          fun x hx => ?_, ?_⟩
        · rcases List.mem_append.mp (hperm.mem_iff.mp hx) with hx1 | hx1
          · obtain ⟨a, b, _, d⟩ := e3 x hx1
            exact ⟨by omega, by omega, d⟩
          · obtain ⟨a, b, c⟩ := hb x hx1
            refine ⟨a, b, ?_⟩
            show (spawn_loop spawn s.world (v - s.world.pool.eventthreadcount).toNat
              s.world.pool.eventthreadcount.toNat).pool.pollers (x - 1) ≠ 0
            rw [e4 (x - 1) (Or.inl c)]
            exact c
        · show (spawn_loop spawn s.world (v - s.world.pool.eventthreadcount).toNat
              s.world.pool.eventthreadcount.toNat).pool.activethreadcount =
            1 + ((s.running.length : Nat) : Int)
          rw [(spawn_loop_fields spawn _ _ s.world).2.2]
          exact hc
    · rw [if_neg h1] at h
      simp only [Option.some.injEq] at h
      subst h
      simp only [set_eventthreadcount_trace, List.drop_length, created_threads, List.append_nil]
      exact ⟨hn, hb, hc⟩

/-! ## The active thread count -/

theorem valid_spawn_all : valid_spawn spawn_all := by
  intro i t_id h
  simp only [spawn_all, SpawnResult.created.injEq] at h
  omega

theorem thread_inv_steps (k : Consts) (hmax : 1 ≤ k.EVENT_MAX_THREADS) :
    ∀ (steps : List ThreadStep) (s s1 : ThreadSys),
      (∀ o ∈ steps, ThreadStep.valid o) →
      (∀ o ∈ steps, ThreadStep.is_dispatch_entry o = false) →
      thread_inv k s → thread_steps k s steps = some s1 → thread_inv k s1 := by
  intro steps
  induction steps with
  | nil =>
    intro s s1 _ _ hinv h
    simp only [thread_steps, Option.some.injEq] at h
    rw [← h]; exact hinv
  | cons o os ih =>
    intro s s1 hv hd hinv h
    simp only [thread_steps] at h
    cases hstep : thread_step k s o with
    | none => rw [hstep] at h; simp at h
    | some s2 =>
      rw [hstep] at h
      exact ih s2 s1 (fun o1 ho1 => hv o1 (List.mem_cons_of_mem _ ho1))
        (fun o1 ho1 => hd o1 (List.mem_cons_of_mem _ ho1))
        (thread_inv_step k s s2 o hmax (hv o (List.mem_cons_self _ _))
          (hd o (List.mem_cons_self _ _)) hinv hstep) h

/-- C17, as stated, fails. With `EVENT_MAX_THREADS = 4`, on the pool that
`event_pool_new_epoll (16, 4)` returns: the entry into the dispatch counts the
calling thread as active and starts four workers; when the four workers have
started the active thread count is `5`. And when `event_reconfigure_threads_epoll`
raises the count from `1` to `4` before the dispatch is entered, the dispatch
starts workers for indices that already have one, and the active thread count
reaches `8`. -/
theorem active_threads_exceed_max :
    event_pool_new_epoll 16 4 true 3 = some pool_four_threads ∧
    event_pool_new_epoll 16 1 true 3 = some new_world.pool ∧
    small_consts.EVENT_MAX_THREADS = 4 ∧
    (∃ s, thread_steps small_consts (ThreadSys.init pool_four_threads)
        [ThreadStep.dispatch_entry spawn_all,
         ThreadStep.worker_start 1, ThreadStep.worker_start 2, ThreadStep.worker_start 3,
         ThreadStep.worker_start 4] = some s ∧
      s.world.pool.activethreadcount = 5 ∧ s.running = [4, 3, 2, 1]) ∧
    (∃ s, thread_steps small_consts (ThreadSys.init new_world.pool)
        [ThreadStep.reconfigure 4 spawn_all,
         ThreadStep.dispatch_entry spawn_all,
         ThreadStep.worker_start 2, ThreadStep.worker_start 3, ThreadStep.worker_start 4,
         ThreadStep.worker_start 1, ThreadStep.worker_start 2, ThreadStep.worker_start 3,
         ThreadStep.worker_start 4] = some s ∧
      s.world.pool.activethreadcount = 8) :=
  ⟨rfl, rfl, rfl, ⟨_, rfl, by decide, by decide⟩, ⟨_, rfl, by decide⟩⟩

/-- C17, amended. With `EVENT_MAX_THREADS` at least `1` and thread identities
that are not `0`: in every state reached from a newly created pool by one entry
into the dispatch (`event_dispatch_epoll`), taken first, followed by any steps
that are worker starts, worker self-terminations and calls of
`event_reconfigure_threads_epoll`, the active thread count is at most
`EVENT_MAX_THREADS + 1`. -/
theorem active_threads_bounded (k : Consts) (count eventthreadcount epfd : Int)
    (p0 : event_pool) (spawn0 : Nat → SpawnResult) (steps : List ThreadStep) (s : ThreadSys)
    (hmax : 1 ≤ k.EVENT_MAX_THREADS)
    (hnew : event_pool_new_epoll count eventthreadcount true epfd = some p0)
    (hs0 : valid_spawn spawn0)
    (hvalid : ∀ o ∈ steps, ThreadStep.valid o)
    (hone : ∀ o ∈ steps, ThreadStep.is_dispatch_entry o = false)
    (hrun : thread_steps k (ThreadSys.init p0) (ThreadStep.dispatch_entry spawn0 :: steps)
      = some s) :
    s.world.pool.activethreadcount ≤ (k.EVENT_MAX_THREADS : Int) + 1 := by
  have hact : p0.activethreadcount = 0 := by
    unfold event_pool_new_epoll at hnew
    split_ifs at hnew
    simp only [Option.some.injEq] at hnew
    rw [← hnew]
  simp only [thread_steps] at hrun
  cases hstep : thread_step k (ThreadSys.init p0) (ThreadStep.dispatch_entry spawn0) with
  | none => rw [hstep] at hrun; simp at hrun
  | some s1 =>
    rw [hstep] at hrun
    exact thread_inv_bound k s
      (thread_inv_steps k hmax steps s1 s hvalid hone
        (thread_inv_dispatch_entry k p0 spawn0 s1 hmax hs0 hact hstep) hrun)

theorem active_threads_bounded_witness :
    thread_steps small_consts (ThreadSys.init pool_four_threads)
      (ThreadStep.dispatch_entry spawn_all :: sample_thread_steps) = some sample_thread_sys ∧
    sample_thread_sys.running = [4, 3, 2, 1] ∧
    sample_thread_sys.world.pool.activethreadcount ≤
      (small_consts.EVENT_MAX_THREADS : Int) + 1 :=
  ⟨rfl, by decide,
    active_threads_bounded small_consts 16 4 3 pool_four_threads spawn_all sample_thread_steps
      sample_thread_sys (by decide) rfl valid_spawn_all
      (by
        intro o ho
        simp only [sample_thread_steps, List.mem_cons, List.mem_singleton, List.not_mem_nil,
          or_false] at ho
        rcases ho with rfl | rfl | rfl | rfl | rfl | rfl | rfl | rfl | rfl | rfl
        all_goals first | trivial | exact valid_spawn_all)
      (by decide)
      rfl⟩

/-! ## Borrow and release -/

/-- C21, as stated, fails: with two blocks of two slots, after the descriptors
`5`, `6`, `7` and `8` have been registered every slot holds a descriptor and both
used-counts are `2`; `__event_slot_alloc` then returns `-1` although `calloc` would
succeed (no block allocation is attempted), and `event_register_epoll` returns
`-1`. -/
theorem alloc_fails_when_every_block_is_full :
    (∀ t, t < 2 → ∀ i, i < 2 → (get_slot world_full.pool t i).fd ≠ -1) ∧
    world_full.pool.slots_used 0 = 2 ∧ world_full.pool.slots_used 1 = 2 ∧
    __event_slot_alloc small_consts world_full.pool 9 true = (world_full.pool, -1) ∧
    event_register_epoll small_consts world_full (some ()) 9 7 9 1 0 true true
      = .ok (world_full, -1) :=
  ⟨by decide, by decide, by decide, rfl, rfl⟩

/-- C21, amended. `__event_slot_alloc` returns `-1` only when the allocation of a
new block fails or the scan passes over every one of the `EVENT_EPOLL_TABLES`
blocks, and then the pool is unchanged; when block allocation succeeds and the
scan does not pass over some block, the handle returned is not negative. In a
pool whose used-counts agree with its slots, a block that the scan passes over
has no free slot. -/
theorem alloc_fails_only_without_memory_or_room (k : Consts) (p : event_pool) (fd : Int)
    (calloc_ok : Bool) :
    ((__event_slot_alloc k p fd calloc_ok).2 = -1 →
      (calloc_ok = false ∨ ∀ j, j < k.EVENT_EPOLL_TABLES → block_skipped k p j) ∧
      (__event_slot_alloc k p fd calloc_ok).1 = p) ∧
    (calloc_ok = true → (∃ j, j < k.EVENT_EPOLL_TABLES ∧ ¬ block_skipped k p j) →
      0 ≤ (__event_slot_alloc k p fd calloc_ok).2) ∧
    (Consistent k p → ∀ j, j < k.EVENT_EPOLL_TABLES → block_skipped k p j →
      ∀ i, i < k.EVENT_EPOLL_SLOTS → ¬ slot_free p j i) := by
  refine ⟨?_, ?_, fun hc j hj hs i hi => skipped_is_full k p hc j i hj hi hs⟩
  · intro h
    rcases alloc_cases k p fd calloc_ok with ⟨h1, h2⟩ | ⟨t, table, _, _, _, _, h1⟩ |
      ⟨t, i, base, _, _, _, _, _, _, _, _, h1⟩
    · exact ⟨h2, by rw [h1]⟩
    · rw [h1] at h
      simp only at h
      omega
    · rw [h1] at h
      simp only at h
      omega
  · intro hok ⟨j, hj, hns⟩
    rcases alloc_cases k p fd calloc_ok with ⟨_, h2⟩ | ⟨t, table, _, _, _, _, h1⟩ |
      ⟨t, i, base, _, _, _, _, _, _, _, _, h1⟩
    · rcases h2 with h2 | h2
      · rw [hok] at h2; exact absurd h2 (by decide)
      · exact absurd (h2 j hj) hns
    · rw [h1]
      simp only
      omega
    · rw [h1]
      simp only
      omega

theorem alloc_fails_only_without_memory_or_room_witness :
    0 ≤ (__event_slot_alloc small_consts new_world.pool 5 true).2 ∧
    ¬ slot_free world_full.pool 1 1 :=
  ⟨(alloc_fails_only_without_memory_or_room small_consts new_world.pool 5 true).2.1 rfl
      ⟨0, by decide, fun h => by
        rcases h with h | ⟨_, h⟩
        · exact absurd h (by decide)
        · exact h rfl⟩,
    (alloc_fails_only_without_memory_or_room small_consts world_full.pool 5 true).2.2
      (by
        intro t ht
        have h2 : t = 0 ∨ t = 1 := by
          have : t < 2 := ht
          omega
        rcases h2 with rfl | rfl <;> rfl)
      1 (by decide) (Or.inl (by decide)) 1 (by decide)⟩

/-- C28 (the code breaks the claim). From the pool that `event_pool_new_epoll`
returns, descriptor `5` is registered (handle `0`, tag `(0, 1)`), unregistered
with a succeeding kernel delete, and the stale event tagged `(0, 1)` is
dispatched. Both slots of block `0` are then empty, yet its used-count is `-1`:
the used-counts do not agree with the slots. After the descriptors `6` and `7`
have then been registered both slots of block `0` hold a descriptor and the
used-count is `1`, so the allocator takes the block for not full: the
registration of descriptor `8` gets the handle `2` of a block that does not
exist and stops at the dereference of the `NULL` slot pointer. -/
theorem stale_dispatch_breaks_used_count :
    event_pool_new_epoll 16 1 true 3 = some new_world.pool ∧
    run_ops small_consts new_world stale_ops = .ok world_miscounted ∧
    block_exists world_miscounted.pool 0 ∧
    (get_slot world_miscounted.pool 0 0).fd = -1 ∧
    (get_slot world_miscounted.pool 0 1).fd = -1 ∧
    world_miscounted.pool.slots_used 0 = -1 ∧
    ¬ Consistent small_consts world_miscounted.pool ∧
    (get_slot world_miscounted_full.pool 0 0).fd = 6 ∧
    (get_slot world_miscounted_full.pool 0 1).fd = 7 ∧
    world_miscounted_full.pool.slots_used 0 = 1 ∧
    ¬ block_exists world_miscounted_full.pool 1 ∧
    (__event_slot_alloc small_consts world_miscounted_full.pool 8 true).2 = 2 ∧
    event_register_epoll small_consts world_miscounted_full (some ()) 8 7 9 1 0 true true
      = .fault Fault.null_slot :=
  ⟨rfl, rfl, by decide, by decide, by decide, by decide,
    fun hc => by
      have h : (-1 : Int) = 0 := hc 0 (by decide)
      exact absurd h (by decide),
    by decide, by decide, by decide, by decide, by decide, rfl⟩

/-! ## The first worker -/

/-- C22 (the code breaks the claim). `event_pool_new_epoll (16, 0)` returns the
pool `pool_zero_threads`, which is not in destroy mode and whose desired thread
count is `0`. `event_dispatch_epoll` takes the count for `1` and starts the first
worker; the worker counts itself as active and, at the top of its loop, finds
the desired count `0` below its index `1`: it clears its thread-identity slot,
lowers the active count and terminates. No worker is left, so the wait of
`event_dispatch_epoll` for the first worker ends. -/
theorem first_worker_terminates :
    event_pool_new_epoll 16 0 true 3 = some pool_zero_threads ∧
    pool_zero_threads.destroy = 0 ∧
    pool_zero_threads.eventthreadcount < 1 ∧
    (∃ s, thread_steps small_consts (ThreadSys.init pool_zero_threads)
        [ThreadStep.dispatch_entry spawn_all] = some s ∧
      s.created = [1] ∧ s.world.pool.pollers 0 = 100) ∧
    (∃ s w1, thread_steps small_consts (ThreadSys.init pool_zero_threads)
        [ThreadStep.dispatch_entry spawn_all, ThreadStep.worker_start 1] = some s ∧
      s.running = [1] ∧ worker_check_exit s.world 1 = .ok (w1, true)) ∧
    (∃ s, thread_steps small_consts (ThreadSys.init pool_zero_threads)
        [ThreadStep.dispatch_entry spawn_all, ThreadStep.worker_start 1,
         ThreadStep.worker_exit 1] = some s ∧
      s.created = [] ∧ s.running = [] ∧ s.world.pool.pollers 0 = 0 ∧
      s.world.pool.destroy = 0 ∧ s.world.pool.eventthreadcount = 0) :=
  ⟨rfl, rfl, by decide, ⟨_, rfl, by decide, by decide⟩, ⟨_, _, rfl, by decide, rfl⟩,
    ⟨_, rfl, by decide, by decide, by decide, by decide, by decide⟩⟩

/-! ## A slot that the calls of a handler leave alone -/

theorem slot_is_put (w : World) (t i t1 i1 : Nat) (s : event_slot_epoll) (fd g n m : Int)
    (h : slot_is w.pool t i fd g n m)
    (hs : t1 = t ∧ i1 = i → s.fd = fd ∧ s.gen = g ∧ s.ref = n ∧ s.in_handler = m) :
    slot_is (w.put t1 i1 s).pool t i fd g n m := by
  unfold slot_is at *
  simp only [put_pool, block_exists_set_slot, get_slot_set_slot]
  refine ⟨h.1, ?_⟩
  by_cases hc : block_exists w.pool t1 ∧ t = t1 ∧ i = i1
  · rw [if_pos hc]
    exact hs ⟨hc.2.1.symm, hc.2.2.symm⟩
  · rw [if_neg hc]
    exact h.2

theorem slot_is_ite (c : Prop) [Decidable c] (a b : World) (t i : Nat) (fd g n m : Int)
    (ha : slot_is a.pool t i fd g n m) (hb : slot_is b.pool t i fd g n m) :
    slot_is (if c then a else b).pool t i fd g n m := by
  split_ifs
  · exact ha
  · exact hb

theorem slot_is_get (k : Consts) (w w1 : World) (idx : Int) (sl : Option SlotPtr)
    (t i : Nat) (fd g n m : Int) (hg : event_slot_get k w idx = .ok (w1, sl))
    (h : slot_is w.pool t i fd g n m) :
    slot_is w1.pool t i fd g (if sl = some (t, i) then n + 1 else n) m := by
  unfold event_slot_get at hg
  split at hg
  · simp at hg
  · rename_i t1 i1 hloc
    split at hg
    · simp only [Res.ok.injEq, Prod.mk.injEq] at hg
      obtain ⟨rfl, rfl⟩ := hg
      simpa using h
    · simp only [Res.ok.injEq, Prod.mk.injEq] at hg
      obtain ⟨rfl, rfl⟩ := hg
      by_cases hc : (t1, i1) = (t, i)
      · simp only [Prod.mk.injEq] at hc
        obtain ⟨rfl, rfl⟩ := hc
        simp only [if_true]
        unfold slot_is at *
        simp only [put_pool, block_exists_set_slot, get_slot_set_slot_same _ _ _ _ h.1]
        exact ⟨h.1, h.2.1, h.2.2.1, by rw [h.2.2.2.1], h.2.2.2.2⟩
      · have hc2 : ¬ (some (t1, i1) = some (t, i)) := by simpa using hc
        rw [if_neg hc2]
        apply slot_is_put _ _ _ _ _ _ _ _ _ _ h
        rintro ⟨rfl, rfl⟩
        exact absurd rfl hc

theorem slot_is_unref (k : Consts) (w w1 : World) (sl : SlotPtr) (idx : Int)
    (t i : Nat) (fd g n m : Int) (hloc : locate k idx = some sl)
    (hu : event_slot_unref k w sl idx = .ok w1) (hn : n ≠ 0)
    (h : slot_is w.pool t i fd g (if sl = (t, i) then n + 1 else n) m) :
    slot_is w1.pool t i fd g n m := by
  obtain ⟨t1, i1⟩ := sl
  by_cases hc : (t1, i1) = (t, i)
  · simp only [Prod.mk.injEq] at hc
    obtain ⟨rfl, rfl⟩ := hc
    simp only [if_true] at h
    rw [event_slot_unref_ok k w idx t1 i1 hloc h.1] at hu
    have hr : (get_slot w.pool t1 i1).ref - 1 ≠ 0 := by rw [h.2.2.2.1]; omega
    rw [if_pos hr] at hu
    rw [← Res.ok_inj hu]
    unfold slot_is at *
    simp only [put_pool, block_exists_set_slot, get_slot_set_slot_same _ _ _ _ h.1]
    exact ⟨h.1, h.2.1, h.2.2.1, by rw [h.2.2.2.1]; omega, h.2.2.2.2⟩
  · rw [if_neg hc] at h
    have hne : ¬ (t = t1 ∧ i = i1) := fun e => hc (by rw [e.1, e.2])
    by_cases hb1 : block_exists w.pool t1
    · rw [event_slot_unref_ok k w idx t1 i1 hloc hb1] at hu
      unfold slot_is at *
      split_ifs at hu <;>
        (rw [← Res.ok_inj hu]
         simp only [emit_pool, put_pool, block_exists_dealloc_world, block_exists_set_slot,
           get_slot_dealloc_world, get_slot_set_slot, hne, and_false, if_false]
         exact h)
    · have hnone : w.pool.ereg t1 = none := by
        unfold block_exists at hb1
        cases he : w.pool.ereg t1 with
        | none => rfl
        | some tb => simp [he] at hb1
      unfold event_slot_unref at hu
      simp only [get_slot, hnone, zero_slot] at hu
      rw [if_pos (by decide)] at hu
      rw [← Res.ok_inj hu]
      apply slot_is_put _ _ _ _ _ _ _ _ _ _ h
      rintro ⟨rfl, rfl⟩
      exact absurd rfl hc

theorem slot_is_alloc (k : Consts) (w : World) (fd1 : Int) (ok : Bool) (t i : Nat)
    (fd g n m : Int) (hfd : fd ≠ -1) (h : slot_is w.pool t i fd g n m) :
    slot_is (event_slot_alloc k w fd1 ok).1.pool t i fd g n m := by
  unfold slot_is at *
  have hk := alloc_keeps_busy_slot k w.pool fd1 ok t i h.1 (by rw [h.2.1]; exact hfd)
  have hb := ((PoolLe_alloc k w.pool fd1 ok) t h.1).1
  unfold event_slot_alloc
  simp only [hk]
  exact ⟨hb, h.2⟩

theorem slot_is_register (k : Consts) (w w1 : World) (pp : PoolPtr) (fd1 : Int)
    (handler data : Nat) (poll_in poll_out : Int) (ok cok : Bool) (r : Int)
    (t i : Nat) (fd g n m : Int) (hfd : fd ≠ -1) (hn : n ≠ 0) (hne : fd1 ≠ fd)
    (hr : event_register_epoll k w pp fd1 handler data poll_in poll_out ok cok = .ok (w1, r))
    (h : slot_is w.pool t i fd g n m) : slot_is w1.pool t i fd g n m := by
  unfold event_register_epoll at hr
  split at hr
  · rw [← Res.ok_fst hr]; exact h
  · split at hr
    · rw [← Res.ok_fst hr]; exact h
    · simp only [] at hr
      have ha := slot_is_alloc k w fd1 ok t i fd g n m hfd h
      split at hr
      · rw [← Res.ok_fst hr]; exact ha
      · split at hr
        · simp at hr
        · simp at hr
        · rename_i w2 slot hg
          have hget := slot_is_get k _ _ _ _ t i fd g n m hg ha
          have hloc := (event_slot_get_some k _ _ _ _ hg).1
          split at hr
          · simp at hr
          · rename_i hassert
            have hslot : slot ≠ (t, i) := by
              intro hs
              apply hne
              have h1 : (get_slot w2.pool slot.1 slot.2).fd = fd1 := by
                by_contra hc
                exact hassert hc
              rw [hs] at h1
              rw [← h1]
              exact hget.2.1
            have hget2 : slot_is w2.pool t i fd g n m := by
              have : ¬ (some slot = some (t, i)) := by simpa using hslot
              rw [if_neg this] at hget
              exact hget
            have hnslot : ¬ (slot.1 = t ∧ slot.2 = i) := fun e => hslot (Prod.ext e.1 e.2)
            have h3 : slot_is ((w2.put slot.1 slot.2 (__slot_update_events
                { get_slot w2.pool slot.1 slot.2 with
                  events := EPOLLET, handler := handler, data := data } poll_in poll_out)).emit
              (Effect.ctl_add fd1 (__slot_update_events
                { get_slot w2.pool slot.1 slot.2 with
                  events := EPOLLET, handler := handler, data := data } poll_in poll_out).events
                (event_slot_alloc k w fd1 ok).2 (__slot_update_events
                { get_slot w2.pool slot.1 slot.2 with
                  events := EPOLLET, handler := handler, data := data } poll_in poll_out).gen)).pool
                t i fd g n m := by
              rw [emit_pool]
              exact slot_is_put _ _ _ _ _ _ _ _ _ _ hget2 (fun e => absurd e hnslot)
            split at hr
            · split at hr
              · simp at hr
              · rename_i w4 hu
                rw [← Res.ok_fst hr]
                exact slot_is_unref k _ _ slot _ t i fd g n m hloc hu hn
                  (by rw [if_neg hslot]; exact h3)
            · rw [← Res.ok_fst hr]
              exact h3

theorem slot_is_select_on (k : Consts) (w w1 : World) (pp : PoolPtr)
    (fd1 idx poll_in poll_out : Int) (cok : Bool) (r : Int)
    (t i : Nat) (fd g n m : Int) (hn : n ≠ 0)
    (hr : event_select_on_epoll k w pp fd1 idx poll_in poll_out cok = .ok (w1, r))
    (h : slot_is w.pool t i fd g n m) : slot_is w1.pool t i fd g n m := by
  unfold event_select_on_epoll at hr
  split at hr
  · rw [← Res.ok_fst hr]; exact h
  · split at hr
    · simp at hr
    · simp at hr
    · rename_i w2 slot hg
      have hget := slot_is_get k _ _ _ _ t i fd g n m hg h
      have hloc := (event_slot_get_some k _ _ _ _ hg).1
      have hget2 : slot_is w2.pool t i fd g (if slot = (t, i) then n + 1 else n) m := by
        simpa using hget
      split at hr
      · simp at hr
      · simp only [] at hr
        have hp : slot_is (w2.put slot.1 slot.2
            (__slot_update_events (get_slot w2.pool slot.1 slot.2) poll_in poll_out)).pool
            t i fd g (if slot = (t, i) then n + 1 else n) m := by
          apply slot_is_put _ _ _ _ _ _ _ _ _ _ hget2
          rintro ⟨h1, h2⟩
          have hs : slot = (t, i) := Prod.ext h1 h2
          rw [hs] at hget2 ⊢
          simp only [if_true] at hget2 ⊢
          simp only [update_events_fd, update_events_ref, update_events_gen,
            update_events_in_handler]
          exact hget2.2
        split at hr
        · simp at hr
        · rename_i w3 hu
          rw [← Res.ok_fst hr]
          exact slot_is_unref k _ _ slot _ t i fd g n m hloc hu hn
            (slot_is_ite _ _ _ _ _ _ _ _ _ hp (by rw [emit_pool]; exact hp))

theorem slot_is_unregister (k : Consts) (w w1 : World) (pp : PoolPtr)
    (fd1 idx do_close : Int) (cok : Bool) (r : Int)
    (t i : Nat) (fd g n m : Int) (hn : n ≠ 0) (hother : locate k idx ≠ some (t, i))
    (hr : event_unregister_epoll_common k w pp fd1 idx do_close cok = .ok (w1, r))
    (h : slot_is w.pool t i fd g n m) : slot_is w1.pool t i fd g n m := by
  cases pp with
  | none =>
    simp only [event_unregister_epoll_common] at hr
    rw [← Res.ok_fst hr]; exact h
  | some u =>
    obtain ⟨t1, i1, wa, wb, hloc, hb, _, _, hwa, hu1, hu2⟩ :=
      unregister_returns k w w1 fd1 idx do_close cok r hr
    have hne : (t1, i1) ≠ (t, i) := fun e => hother (by rw [hloc, e])
    have hne2 : ¬ (t1 = t ∧ i1 = i) := fun e => hne (by rw [e.1, e.2])
    have ha : slot_is wa.pool t i fd g n m := by
      rw [hwa]
      split_ifs
      · rw [emit_pool]
        exact slot_is_put _ _ _ _ _ _ _ _ _ _ h (fun e => absurd e hne2)
      · rw [emit_pool]
        exact slot_is_put _ _ _ _ _ _ _ _ _ _ h (fun e => absurd e hne2)
    have hb1 := slot_is_unref k wa wb (t1, i1) idx t i fd g n m hloc hu1 hn
      (by rw [if_neg hne]; exact ha)
    exact slot_is_unref k wb w1 (t1, i1) idx t i fd g n m hloc hu2 hn
      (by rw [if_neg hne]; exact hb1)

theorem slot_is_of_ereg (p q : event_pool) (t i : Nat) (fd g n m : Int)
    (he : q.ereg = p.ereg) (h : slot_is p t i fd g n m) : slot_is q t i fd g n m := by
  unfold slot_is block_exists get_slot at *
  rw [he]; exact h

theorem slot_is_reconfigure (k : Consts) (w w1 : World) (value : Int)
    (spawn : Nat → SpawnResult) (r : Int) (t i : Nat) (fd g n m : Int)
    (hr : event_reconfigure_threads_epoll k w value spawn = .ok (w1, r))
    (h : slot_is w.pool t i fd g n m) : slot_is w1.pool t i fd g n m := by
  unfold event_reconfigure_threads_epoll at hr
  simp only [] at hr
  split_ifs at hr <;>
    (rw [← Res.ok_fst hr]
     refine slot_is_of_ereg w.pool _ t i fd g n m ?_ h
     first
       | rfl
       | (simp only [World.set_eventthreadcount]; exact spawn_loop_ereg spawn _ _ w))

theorem slot_is_run_call (k : Consts) (w w1 : World) (c : Call) (hidx : Int)
    (t i : Nat) (fd g n m : Int) (hfd : fd ≠ -1) (hn : n ≠ 0)
    (hloc : locate k hidx = some (t, i)) (hc : c.leaves hidx fd = true)
    (hr : run_call k w c = .ok w1)
    (h : slot_is w.pool t i fd g n m) : slot_is w1.pool t i fd g n m := by
  cases c with
  | register fd1 handler data poll_in poll_out ok cok =>
    simp only [run_call] at hr
    simp only [Call.leaves, decide_eq_true_eq] at hc
    split at hr
    · rename_i r hreg
      have e := Res.ok_inj hr; subst e
      exact slot_is_register k w r.1 _ fd1 handler data poll_in poll_out ok cok r.2
        t i fd g n m hfd hn hc hreg h
    · simp at hr
  | select_on fd1 idx poll_in poll_out cok =>
    simp only [run_call] at hr
    split at hr
    · rename_i r hreg
      have e := Res.ok_inj hr; subst e
      exact slot_is_select_on k w r.1 _ fd1 idx poll_in poll_out cok r.2 t i fd g n m hn hreg h
    · simp at hr
  | unregister fd1 idx do_close cok =>
    simp only [run_call] at hr
    simp only [Call.leaves, decide_eq_true_eq] at hc
    split at hr
    · rename_i r hreg
      have e := Res.ok_inj hr; subst e
      refine slot_is_unregister k w r.1 _ fd1 idx do_close cok r.2 t i fd g n m hn ?_ hreg h
      intro hl
      exact hc (locate_inj k idx hidx (t, i) hl hloc)
    · simp at hr
  | reconfigure_threads value spawn =>
    simp only [run_call] at hr
    split at hr
    · rename_i r hreg
      have e := Res.ok_inj hr; subst e
      exact slot_is_reconfigure k w r.1 value spawn r.2 t i fd g n m hreg h
    · simp at hr

theorem slot_is_run_calls (k : Consts) (hidx : Int) (t i : Nat) (fd g n m : Int)
    (hfd : fd ≠ -1) (hn : n ≠ 0) (hloc : locate k hidx = some (t, i)) :
    ∀ (cs : List Call) (w w1 : World), (∀ c ∈ cs, Call.leaves hidx fd c = true) →
      run_calls k w cs = .ok w1 → slot_is w.pool t i fd g n m →
      slot_is w1.pool t i fd g n m := by
  intro cs
  induction cs with
  | nil => intro w w1 _ hr h; simp [run_calls] at hr; subst hr; exact h
  | cons c cs ih =>
    intro w w1 hc hr h
    unfold run_calls at hr
    split at hr
    · rename_i w2 h2
      exact ih w2 w1 (fun c1 hc1 => hc c1 (List.mem_cons_of_mem _ hc1)) hr
        (slot_is_run_call k w w2 c hidx t i fd g n m hfd hn hloc
          (hc c (List.mem_cons_self _ _)) h2 h)
    · simp at hr

/-! ## The second half of a dispatch -/

/-- Releasing a borrow returns and logs no kernel call and no handler call. -/
theorem unref_trace (k : Consts) (w : World) (idx : Int) (t i : Nat)
    (hloc : locate k idx = some (t, i)) (hb : block_exists w.pool t) :
    ∃ w1 extra, event_slot_unref k w (t, i) idx = .ok w1 ∧ w1.trace = w.trace ++ extra ∧
      ∀ e ∈ extra, Effect.is_kernel_ctl e = false := by
  rw [event_slot_unref_ok k w idx t i hloc hb]
  split_ifs
  · exact ⟨_, [], rfl, by simp, by simp⟩
  · refine ⟨_, [Effect.slot_dealloc idx, Effect.close (get_slot w.pool t i).fd], rfl,
      by simp [dealloc_world, World.emit, World.put], ?_⟩
    intro e he
    simp only [List.mem_cons, List.mem_singleton, List.not_mem_nil, or_false] at he
    rcases he with rfl | rfl <;> rfl
  · refine ⟨_, [Effect.slot_dealloc idx], rfl,
      by simp [dealloc_world, World.emit, World.put], ?_⟩
    intro e he
    simp only [List.mem_cons, List.mem_singleton, List.not_mem_nil, or_false] at he
    rcases he with rfl
    rfl

/-- The rule of the kernel modify after a handler has returned: the modify,
with the slot's mask and the tag of the event, is logged exactly when the
generation of the slot is that of the event and the in-handler count is `0`
after the decrement; what else the dispatch logs before it returns is no
kernel call. -/
theorem dispatch_leave_modify_rule (k : Consts) (w : World) (event : epoll_event) (c : Captured)
    (handler_ret : Int) (mod_ok : Bool)
    (hloc : locate k event.idx = some c.slot) (hb : block_exists w.pool c.slot.1) :
    ∃ w1 r extra, dispatch_leave k w event c handler_ret mod_ok = .ok (w1, r) ∧
      w1.trace = w.trace ++
        (if event.gen = (get_slot w.pool c.slot.1 c.slot.2).gen ∧
            (get_slot w.pool c.slot.1 c.slot.2).in_handler - 1 = 0
         then [Effect.ctl_mod c.fd (get_slot w.pool c.slot.1 c.slot.2).events event.idx
                event.gen]
         else []) ++ extra ∧
      ∀ e ∈ extra, Effect.is_kernel_ctl e = false := by
  have key : ∀ (x : World × Int) (pre : List Effect), block_exists x.1.pool c.slot.1 →
      x.1.trace = w.trace ++ pre →
      ∃ w1 r1 extra, (match event_slot_unref k x.1 c.slot event.idx with
        | .fault e => (Res.fault e : Res (World × Int))
        | .ok w2 => Res.ok (w2, x.2)) = Res.ok (w1, r1) ∧
        w1.trace = w.trace ++ pre ++ extra ∧
        ∀ e ∈ extra, Effect.is_kernel_ctl e = false := by
    intro x pre hx htr
    obtain ⟨w3, extra, h3, h4, h5⟩ := unref_trace k x.1 event.idx c.slot.1 c.slot.2 hloc hx
    have h6 : event_slot_unref k x.1 c.slot event.idx = .ok w3 := h3
    rw [h6]
    exact ⟨_, _, extra, rfl, by rw [h4, htr], h5⟩
  unfold dispatch_leave
  simp only []
  by_cases hg : event.gen = (get_slot w.pool c.slot.1 c.slot.2).gen
  · by_cases hz : (get_slot w.pool c.slot.1 c.slot.2).in_handler - 1 = 0
    · rw [if_neg (by simpa using hg), if_pos hz, if_pos ⟨hg, hz⟩]
      exact key _ _ (by simpa using hb) (by simp [World.emit, World.put])
    · rw [if_neg (by simpa using hg), if_neg hz, if_neg (fun h => hz h.2)]
      exact key _ [] (by simpa using hb) (by simp [World.put])
  · rw [if_pos (by simpa using hg), if_neg (fun h => hg h.1)]
    exact key _ [] (by simpa using hb) (by simp [World.put])

/-- The second half of a dispatch when the generation is unchanged and the slot
keeps another reference: the counts are lowered, and the kernel modify is
issued when the in-handler count is `0` after the decrement. -/
theorem dispatch_leave_live (k : Consts) (w : World) (event : epoll_event) (c : Captured)
    (handler_ret : Int) (mod_ok : Bool) (t i : Nat) (hc : c.slot = (t, i))
    (hloc : locate k event.idx = some (t, i)) (hb : block_exists w.pool t)
    (hgen : event.gen = (get_slot w.pool t i).gen)
    (href : (get_slot w.pool t i).ref - 1 ≠ 0) :
    ∃ w1 r, dispatch_leave k w event c handler_ret mod_ok = .ok (w1, r) ∧
      w1.trace = w.trace ++
        (if (get_slot w.pool t i).in_handler - 1 = 0
         then [Effect.ctl_mod c.fd (get_slot w.pool t i).events event.idx event.gen]
         else []) ∧
      block_exists w1.pool t ∧
      (get_slot w1.pool t i).events = (get_slot w.pool t i).events ∧
      (get_slot w1.pool t i).fd = (get_slot w.pool t i).fd ∧
      (get_slot w1.pool t i).gen = (get_slot w.pool t i).gen ∧
      (get_slot w1.pool t i).ref = (get_slot w.pool t i).ref - 1 ∧
      (get_slot w1.pool t i).in_handler = (get_slot w.pool t i).in_handler - 1 := by
  unfold dispatch_leave
  simp only [hc]
  have hne : ¬ event.gen ≠ (get_slot w.pool t i).gen := by simp [hgen]
  rw [if_neg hne]
  by_cases h0 : (get_slot w.pool t i).in_handler - 1 = 0
  · rw [if_pos h0, if_pos h0]
    simp only []
    rw [unref_put_emit_keeps k w event.idx t i
      { get_slot w.pool t i with in_handler := (get_slot w.pool t i).in_handler - 1 } _
      hloc hb href]
    refine ⟨_, _, rfl, by simp [World.emit, World.put], by simpa using hb, ?_, ?_, ?_, ?_, ?_⟩ <;>
      simp [get_slot_set_slot_same _ _ _ _ hb]
  · rw [if_neg h0, if_neg h0]
    simp only []
    rw [unref_put_keeps k w event.idx t i
      { get_slot w.pool t i with in_handler := (get_slot w.pool t i).in_handler - 1 }
      hloc hb href]
    refine ⟨_, _, rfl, by simp [World.put], by simpa using hb, ?_, ?_, ?_, ?_, ?_⟩ <;>
      simp [get_slot_set_slot_same _ _ _ _ hb]

/-! ## Deferred re-arm -/

/-- C24, amended. A live event arrives for the slot `(t, i)` of handle
`event.idx`, which has a handler and holds the reference of its registration. The calls made
while the handler runs return and leave the handle alone (none unregisters it,
none registers its descriptor again). Then the dispatch returns; after the
handler has returned it logs exactly one kernel modify, for the slot's
descriptor, with the mask the slot then has and the tag `(event.idx, event.gen)`,
when no other handler runs on the slot, and nothing otherwise; on return the
in-handler count, the reference count, the generation and the descriptor of the
slot are what they were before the dispatch. In general, for any world in which
a handler returns, the kernel modify is logged exactly when the generation of
the slot is that of the event and the in-handler count is `0` after the
decrement. -/
theorem rearm_after_handler (k : Consts) (w w3 : World) (event : epoll_event)
    (body : List Call) (handler_ret : Int) (mod_ok : Bool) (t i : Nat)
    (hloc : locate k event.idx = some (t, i)) (hb : block_exists w.pool t)
    (hfd : (get_slot w.pool t i).fd ≠ -1) (hgen : event.gen = (get_slot w.pool t i).gen)
    (hh : (get_slot w.pool t i).handler ≠ 0)
    (href : 1 ≤ (get_slot w.pool t i).ref)
    (hleaves : ∀ c ∈ body, Call.leaves event.idx (get_slot w.pool t i).fd c = true)
    (hbody : run_calls k (handler_world w event t i) body = .ok w3) :
    (∃ w1 r,
      event_dispatch_epoll_handler k w event body handler_ret mod_ok = .ok (w1, r) ∧
      w1.trace = w3.trace ++
        (if (get_slot w.pool t i).in_handler = 0
         then [Effect.ctl_mod (get_slot w.pool t i).fd (get_slot w3.pool t i).events
                event.idx event.gen]
         else []) ∧
      (get_slot w1.pool t i).events = (get_slot w3.pool t i).events ∧
      (get_slot w1.pool t i).in_handler = (get_slot w.pool t i).in_handler ∧
      (get_slot w1.pool t i).ref = (get_slot w.pool t i).ref ∧
      (get_slot w1.pool t i).gen = (get_slot w.pool t i).gen ∧
      (get_slot w1.pool t i).fd = (get_slot w.pool t i).fd) ∧
    (∀ (wh : World) (c : Captured), locate k event.idx = some c.slot →
      block_exists wh.pool c.slot.1 →
      ∃ w1 r extra, dispatch_leave k wh event c handler_ret mod_ok = .ok (w1, r) ∧
        w1.trace = wh.trace ++
          (if event.gen = (get_slot wh.pool c.slot.1 c.slot.2).gen ∧
              (get_slot wh.pool c.slot.1 c.slot.2).in_handler - 1 = 0
           then [Effect.ctl_mod c.fd (get_slot wh.pool c.slot.1 c.slot.2).events event.idx
                  event.gen]
           else []) ++ extra ∧
        ∀ e ∈ extra, Effect.is_kernel_ctl e = false) := by
  refine ⟨?_, fun wh c hl hbh => dispatch_leave_modify_rule k wh event c handler_ret mod_ok hl hbh⟩
  have hstart : slot_is (handler_world w event t i).pool t i (get_slot w.pool t i).fd
      (get_slot w.pool t i).gen ((get_slot w.pool t i).ref + 1)
      ((get_slot w.pool t i).in_handler + 1) := by
    unfold slot_is
    simp [handler_world, get_slot_set_slot_same _ _ _ _ hb, hb]
  obtain ⟨hb3, hfd3, hgen3, href3, hin3⟩ :=
    slot_is_run_calls k event.idx t i _ _ _ _ hfd (by omega) hloc body _ w3 hleaves hbody hstart
  obtain ⟨w1, r, hleave, htr, _, hev, hfd1, hgen1, href1, hin1⟩ :=
    dispatch_leave_live k w3 event
      { slot := (t, i), fd := (get_slot w.pool t i).fd,
        handler := (get_slot w.pool t i).handler, data := (get_slot w.pool t i).data }
      handler_ret mod_ok t i rfl hloc hb3 (by rw [hgen3]; exact hgen) (by rw [href3]; omega)
  refine ⟨w1, r, ?_, ?_, hev, by rw [hin1, hin3]; omega, by rw [href1, href3]; omega,
    by rw [hgen1, hgen3], by rw [hfd1, hfd3]⟩
  · rw [live_dispatch_eq k w event body handler_ret mod_ok t i hloc hb hfd hgen hh, hbody]
    exact hleave
  · rw [htr, hin3]
    have : (get_slot w.pool t i).in_handler + 1 - 1 = (get_slot w.pool t i).in_handler := by
      omega
    rw [this]

theorem rearm_after_handler_witness :
    ∃ w1 r,
      event_dispatch_epoll_handler small_consts world_registered
        { events := EPOLLIN, idx := 0, gen := 1 } handler_calls 0 true = .ok (w1, r) ∧
      w1.trace = world_handler_returned.trace ++
        (if (get_slot world_registered.pool 0 0).in_handler = 0
         then [Effect.ctl_mod (get_slot world_registered.pool 0 0).fd
                (get_slot world_handler_returned.pool 0 0).events 0 1]
         else []) ∧
      (get_slot w1.pool 0 0).events = (get_slot world_handler_returned.pool 0 0).events ∧
      (get_slot w1.pool 0 0).in_handler = (get_slot world_registered.pool 0 0).in_handler ∧
      (get_slot w1.pool 0 0).ref = (get_slot world_registered.pool 0 0).ref ∧
      (get_slot w1.pool 0 0).gen = (get_slot world_registered.pool 0 0).gen ∧
      (get_slot w1.pool 0 0).fd = (get_slot world_registered.pool 0 0).fd :=
  (rearm_after_handler small_consts world_registered world_handler_returned
    { events := EPOLLIN, idx := 0, gen := 1 } handler_calls 0 true 0 0 rfl (by decide)
    (by decide) (by decide) (by decide) (by decide) (by decide) rfl).1

/-! ## Unregistration while the handler runs -/

theorem run_calls_append (k : Consts) :
    ∀ (a b : List Call) (w : World),
      run_calls k w (a ++ b) =
        match run_calls k w a with
        | .ok w1 => run_calls k w1 b
        | .fault e => .fault e := by
  intro a
  induction a with
  | nil => intro b w; rfl
  | cons c a ih =>
    intro b w
    simp only [List.cons_append, run_calls]
    cases run_call k w c with
    | ok w1 => exact ih b w1
    | fault e => rfl

/-- A successful `event_unregister_epoll_common` on a slot that has two
references besides the borrow of the call: the slot keeps the descriptor and
one reference less, carries the close flag and the next generation, and only
the kernel delete is logged. -/
theorem unregister_borrowed (k : Consts) (w : World) (fd idx do_close : Int) (cok : Bool)
    (t i : Nat) (hloc : locate k idx = some (t, i)) (hb : block_exists w.pool t)
    (hfd : (get_slot w.pool t i).fd = fd) (href : (get_slot w.pool t i).ref = 2)
    (hok : epoll_ctl cok fd = 0) :
    ∃ w1, event_unregister_epoll_common k w (some ()) fd idx do_close cok = .ok (w1, 0) ∧
      w1.trace = w.trace ++ [Effect.ctl_del fd] ∧ block_exists w1.pool t ∧
      get_slot w1.pool t i =
        { get_slot w.pool t i with
          ref := 1, do_close := do_close, gen := (get_slot w.pool t i).gen + 1 } := by
  have hne : ¬ epoll_ctl cok fd = -1 := by rw [hok]; decide
  rw [unregister_forward k w fd idx do_close cok t i hloc hb hfd, if_neg hne, hok]
  rw [unref_put_emit_keeps k w idx t i _ _ hloc hb (by simp only []; rw [href]; decide)]
  simp only []
  rw [unref_put_emit_keeps k w idx t i _ _ hloc hb (by simp only []; rw [href]; decide)]
  simp only []
  refine ⟨_, rfl, by simp [World.emit, World.put], by simpa using hb, ?_⟩
  simp only [emit_pool, put_pool, get_slot_set_slot_same _ _ _ _ hb, href]
  rfl

/-- The second half of a dispatch when the slot was unregistered while the
handler ran and the dispatch holds the last reference: no kernel modify is
issued, the slot is deallocated and the descriptor it still holds is closed
when the close flag is set. -/
theorem dispatch_leave_after_unregister (k : Consts) (w : World) (event : epoll_event)
    (c : Captured) (handler_ret : Int) (mod_ok : Bool) (t i : Nat) (hc : c.slot = (t, i))
    (hloc : locate k event.idx = some (t, i)) (hb : block_exists w.pool t)
    (hgen : event.gen ≠ (get_slot w.pool t i).gen)
    (href : (get_slot w.pool t i).ref = 1) :
    ∃ w1, dispatch_leave k w event c handler_ret mod_ok = .ok (w1, handler_ret) ∧
      w1.trace = w.trace ++ [Effect.slot_dealloc event.idx] ++
        (if (get_slot w.pool t i).do_close ≠ 0 then [Effect.close (get_slot w.pool t i).fd]
         else []) ∧
      block_exists w1.pool t ∧ (get_slot w1.pool t i).fd = -1 := by
  unfold dispatch_leave
  simp only [hc]
  rw [if_pos hgen]
  simp only []
  rw [event_slot_unref_ok k _ event.idx t i hloc (by simpa using hb)]
  simp only [put_pool, get_slot_set_slot_same _ _ _ _ hb, href]
  rw [if_neg (by decide)]
  by_cases hdc : (get_slot w.pool t i).do_close = 0
  · rw [if_neg (by simpa using hdc), if_neg (by simpa using hdc)]
    refine ⟨_, rfl, by simp [dealloc_world, World.emit, World.put], ?_, ?_⟩
    · simpa using hb
    · simp [get_slot_dealloc_world, get_slot_set_slot, hb]
  · rw [if_pos (by simpa using hdc), if_pos (by simpa using hdc)]
    refine ⟨_, rfl, by simp [dealloc_world, World.emit, World.put], ?_, ?_⟩
    · simpa using hb
    · simp [get_slot_dealloc_world, get_slot_set_slot, hb]

/-- A live event arrives for the slot `(t, i)` of handle `event.idx`, which
has a handler, reference count `1` and an in-handler count that is not
negative. While the handler runs, interest changes `sel` are made on the handle
and then the handle is unregistered, the kernel delete succeeding. Then the
calls of the handler return; the unregistration returns `0`, logs only the
kernel delete and leaves the slot in its block with its descriptor and
reference count `1`; the dispatch returns what the handler returned; after the
handler call the log holds the kernel delete, then one deallocation of the
handle, then the close of the slot's descriptor exactly when the
unregistration asked for it, and no kernel modify; and the slot is empty at the
end. -/
theorem unregister_in_handler_defers_dealloc (k : Consts) (w : World) (event : epoll_event)
    (sel : List (Int × Int × Bool)) (do_close : Int) (del_ok : Bool) (handler_ret : Int)
    (mod_ok : Bool) (t i : Nat)
    (hloc : locate k event.idx = some (t, i)) (hb : block_exists w.pool t)
    (hfd : (get_slot w.pool t i).fd ≠ -1) (hgen : event.gen = (get_slot w.pool t i).gen)
    (hh : (get_slot w.pool t i).handler ≠ 0)
    (href : (get_slot w.pool t i).ref = 1)
    (hin : 0 ≤ (get_slot w.pool t i).in_handler)
    (hdel : epoll_ctl del_ok (get_slot w.pool t i).fd = 0) :
    ∃ wa wb w1,
      run_calls k (handler_world w event t i)
        (select_calls (get_slot w.pool t i).fd event.idx sel) = .ok wa ∧
      wa.trace = (handler_world w event t i).trace ∧
      event_unregister_epoll_common k wa (some ()) (get_slot w.pool t i).fd event.idx
        do_close del_ok = .ok (wb, 0) ∧
      wb.trace = wa.trace ++ [Effect.ctl_del (get_slot w.pool t i).fd] ∧
      block_exists wb.pool t ∧
      (get_slot wb.pool t i).fd = (get_slot w.pool t i).fd ∧
      (get_slot wb.pool t i).ref = 1 ∧
      event_dispatch_epoll_handler k w event
        (select_calls (get_slot w.pool t i).fd event.idx sel ++
          [Call.unregister (get_slot w.pool t i).fd event.idx do_close del_ok])
        handler_ret mod_ok = .ok (w1, handler_ret) ∧
      w1.trace = w.trace ++
        [Effect.handler (get_slot w.pool t i).handler (get_slot w.pool t i).fd event.idx
          (get_slot w.pool t i).data
          (event.events &&& (EPOLLIN ||| EPOLLPRI))
          (event.events &&& EPOLLOUT)
          (event.events &&& (EPOLLERR ||| EPOLLHUP)),
         Effect.ctl_del (get_slot w.pool t i).fd, Effect.slot_dealloc event.idx] ++
        (if do_close ≠ 0 then [Effect.close (get_slot w.pool t i).fd] else []) ∧
      (get_slot w1.pool t i).fd = -1 := by
  have hbh : block_exists (handler_world w event t i).pool t := by
    simpa [handler_world] using hb
  have hsh : get_slot (handler_world w event t i).pool t i =
      { get_slot w.pool t i with
        ref := (get_slot w.pool t i).ref + 1,
        in_handler := (get_slot w.pool t i).in_handler + 1 } := by
    simp [handler_world, get_slot_set_slot_same _ _ _ _ hb]
  obtain ⟨wa, hrun, htra, hba, hsa⟩ :=
    select_calls_in_handler k (get_slot w.pool t i).fd event.idx t i hloc sel
      (handler_world w event t i) hbh (by rw [hsh]) (by rw [hsh]; simp only []; omega)
      (by rw [hsh]; simp only []; omega)
  obtain ⟨f1, f2, f3, _, _⟩ :=
    apply_selects_fields sel (get_slot (handler_world w event t i).pool t i)
  rw [← hsa] at f1 f2 f3
  have hfda : (get_slot wa.pool t i).fd = (get_slot w.pool t i).fd := by rw [f1, hsh]
  have hgena : (get_slot wa.pool t i).gen = (get_slot w.pool t i).gen := by rw [f2, hsh]
  have hrefa : (get_slot wa.pool t i).ref = 2 := by rw [f3, hsh]; simp only []; omega
  obtain ⟨wb, hun, htrb, hbb, hsb⟩ :=
    unregister_borrowed k wa (get_slot w.pool t i).fd event.idx do_close del_ok t i hloc hba
      hfda hrefa hdel
  have hfdb : (get_slot wb.pool t i).fd = (get_slot w.pool t i).fd := by rw [hsb]; exact hfda
  have hrefb : (get_slot wb.pool t i).ref = 1 := by rw [hsb]
  have hgenb : (get_slot wb.pool t i).gen = (get_slot w.pool t i).gen + 1 := by
    rw [hsb]; simp only []; rw [hgena]
  have hdcb : (get_slot wb.pool t i).do_close = do_close := by rw [hsb]
  obtain ⟨w1, hleave, htr1, _, hfd1⟩ := dispatch_leave_after_unregister k wb event
    { slot := (t, i), fd := (get_slot w.pool t i).fd,
      handler := (get_slot w.pool t i).handler, data := (get_slot w.pool t i).data }
    handler_ret mod_ok t i rfl hloc hbb (by rw [hgenb, hgen]; omega) hrefb
  have hbody : run_calls k (handler_world w event t i)
      (select_calls (get_slot w.pool t i).fd event.idx sel ++
        [Call.unregister (get_slot w.pool t i).fd event.idx do_close del_ok]) = .ok wb := by
    rw [run_calls_append, hrun]
    simp only [run_calls, run_call, hun]
  refine ⟨wa, wb, w1, hrun, htra, hun, htrb, hbb, hfdb, hrefb, ?_, ?_, hfd1⟩
  · rw [live_dispatch_eq k w event _ handler_ret mod_ok t i hloc hb hfd hgen hh, hbody]
    exact hleave
  · rw [htr1, htrb, htra, hdcb, hfdb]
    simp [handler_world, World.emit, World.put]

theorem unregister_in_handler_defers_dealloc_witness :
    ∃ wa wb w1,
      run_calls small_consts
        (handler_world world_registered { events := EPOLLIN, idx := 0, gen := 1 } 0 0)
        (select_calls (get_slot world_registered.pool 0 0).fd 0 [(0, 1, true)]) = .ok wa ∧
      wa.trace =
        (handler_world world_registered { events := EPOLLIN, idx := 0, gen := 1 } 0 0).trace ∧
      event_unregister_epoll_common small_consts wa (some ())
        (get_slot world_registered.pool 0 0).fd 0 1 true = .ok (wb, 0) ∧
      wb.trace = wa.trace ++ [Effect.ctl_del (get_slot world_registered.pool 0 0).fd] ∧
      block_exists wb.pool 0 ∧
      (get_slot wb.pool 0 0).fd = (get_slot world_registered.pool 0 0).fd ∧
      (get_slot wb.pool 0 0).ref = 1 ∧
      event_dispatch_epoll_handler small_consts world_registered
        { events := EPOLLIN, idx := 0, gen := 1 }
        (select_calls (get_slot world_registered.pool 0 0).fd 0 [(0, 1, true)] ++
          [Call.unregister (get_slot world_registered.pool 0 0).fd 0 1 true])
        7 true = .ok (w1, 7) ∧
      w1.trace = world_registered.trace ++
        [Effect.handler (get_slot world_registered.pool 0 0).handler
          (get_slot world_registered.pool 0 0).fd 0 (get_slot world_registered.pool 0 0).data
          (EPOLLIN &&& (EPOLLIN ||| EPOLLPRI)) (EPOLLIN &&& EPOLLOUT)
          (EPOLLIN &&& (EPOLLERR ||| EPOLLHUP)),
         Effect.ctl_del (get_slot world_registered.pool 0 0).fd, Effect.slot_dealloc 0] ++
        (if (1 : Int) ≠ 0 then [Effect.close (get_slot world_registered.pool 0 0).fd] else []) ∧
      (get_slot w1.pool 0 0).fd = -1 :=
  unregister_in_handler_defers_dealloc small_consts world_registered
    { events := EPOLLIN, idx := 0, gen := 1 } [(0, 1, true)] 1 true 7 true 0 0 rfl (by decide)
    (by decide) (by decide) (by decide) (by decide) (by decide) (by decide)

/-! ## The frame of a reconfiguration -/

/-- The loop of `event_reconfigure_threads_epoll` changes only the thread
identities and the log. -/
theorem spawn_loop_pool (spawn : Nat → SpawnResult) :
    ∀ (n i : Nat) (w : World),
      (spawn_loop spawn w n i).pool.fd = w.pool.fd ∧
      (spawn_loop spawn w n i).pool.count = w.pool.count ∧
      (spawn_loop spawn w n i).pool.slots_used = w.pool.slots_used := by
  intro n
  induction n with
  | zero => intro i w; exact ⟨rfl, rfl, rfl⟩
  | succ n ih =>
    intro i w
    unfold spawn_loop
    simp only []
    refine ⟨(ih _ _).1.trans ?_, (ih _ _).2.1.trans ?_, (ih _ _).2.2.trans ?_⟩ <;>
    · split
      · split <;> rfl
      · rfl

theorem spawn_attempts_zero (spawn : Nat → SpawnResult) (pollers : Nat → Nat) (i : Nat) :
    spawn_attempts spawn pollers i 0 = [] := rfl

theorem spawn_attempts_succ (spawn : Nat → SpawnResult) (pollers : Nat → Nat) (i n : Nat) :
    spawn_attempts spawn pollers i (n + 1) =
      (if pollers i = 0 then (spawn_effect i (spawn i)).toList else []) ++
        spawn_attempts spawn pollers (i + 1) n := by
  unfold spawn_attempts
  rw [List.range'_succ, List.filterMap_cons]
  by_cases h : pollers i = 0
  · rw [if_pos h, if_pos h]
    cases spawn_effect i (spawn i) <;> rfl
  · rw [if_neg h, if_neg h]
    rfl

theorem spawn_attempts_congr (spawn : Nat → SpawnResult) (p q : Nat → Nat) (i n : Nat)
    (h : ∀ m, i ≤ m → q m = p m) :
    spawn_attempts spawn q i n = spawn_attempts spawn p i n := by
  unfold spawn_attempts
  apply List.filterMap_congr
  intro m hm
  rw [List.mem_range'_1] at hm
  rw [h m hm.1]

/-- The loop of `event_reconfigure_threads_epoll` over the `n` indices from `i`:
the log grows by the attempts for the vacant indices, and an entry changes only
when it is vacant and in the range, to the identity of a successful attempt. -/
theorem spawn_loop_frame (spawn : Nat → SpawnResult) :
    ∀ (n i : Nat) (w : World),
      (spawn_loop spawn w n i).trace = w.trace ++ spawn_attempts spawn w.pool.pollers i n ∧
      ∀ m, (spawn_loop spawn w n i).pool.pollers m =
        if i ≤ m ∧ m < i + n ∧ w.pool.pollers m = 0 then spawned_id (spawn m)
        else w.pool.pollers m := by
  intro n
  induction n with
  | zero =>
    intro i w
    refine ⟨by simp [spawn_loop, spawn_attempts_zero], fun m => ?_⟩
    have : ¬ (i ≤ m ∧ m < i + 0 ∧ w.pool.pollers m = 0) := by omega
    rw [if_neg this]
    rfl
  | succ n ih =>
    intro i w
    have key : ∀ w1 : World,
        spawn_loop spawn w (n + 1) i = spawn_loop spawn w1 n (i + 1) →
        w1.trace = w.trace ++
          (if w.pool.pollers i = 0 then (spawn_effect i (spawn i)).toList else []) →
        (∀ m, w1.pool.pollers m =
          if m = i ∧ w.pool.pollers m = 0 then spawned_id (spawn m) else w.pool.pollers m) →
        (spawn_loop spawn w (n + 1) i).trace =
            w.trace ++ spawn_attempts spawn w.pool.pollers i (n + 1) ∧
          ∀ m, (spawn_loop spawn w (n + 1) i).pool.pollers m =
            if i ≤ m ∧ m < i + (n + 1) ∧ w.pool.pollers m = 0 then spawned_id (spawn m)
            else w.pool.pollers m := by
      intro w1 he ht hp
      rw [he]
      obtain ⟨h1, h2⟩ := ih (i + 1) w1
      refine ⟨?_, fun m => ?_⟩
      · rw [h1, ht, spawn_attempts_succ, List.append_assoc]
        congr 2
        apply spawn_attempts_congr
        intro m hm
        rw [hp m, if_neg (by omega)]
      · have hpm := hp m
        rw [h2 m]
        by_cases hmi : m = i
        · subst hmi
          rw [if_neg (by omega), hpm]
          by_cases hv : w.pool.pollers m = 0
          · rw [if_pos ⟨rfl, hv⟩, if_pos ⟨le_refl _, by omega, hv⟩]
          · rw [if_neg (fun h => hv h.2), if_neg (fun h => hv h.2.2)]
        · rw [if_neg (fun h => hmi h.1)] at hpm
          rw [hpm]
          by_cases hc : i + 1 ≤ m ∧ m < i + 1 + n ∧ w.pool.pollers m = 0
          · rw [if_pos hc, if_pos ⟨by omega, by omega, hc.2.2⟩]
          · rw [if_neg hc, if_neg (fun h => hc ⟨by omega, by omega, h.2.2⟩)]
    by_cases hv : w.pool.pollers i = 0
    · cases hs : spawn i with
      | calloc_failed =>
        refine key w (by rw [spawn_loop]; simp only [hv, hs, if_true]) ?_ ?_
        · simp [hv, hs, spawn_effect]
        · intro m
          by_cases hm : m = i ∧ w.pool.pollers m = 0
          · rw [if_pos hm, hm.2, hm.1, hs]; rfl
          · rw [if_neg hm]
      | create_failed =>
        refine key (w.emit (Effect.pthread_create (i + 1) false))
          (by rw [spawn_loop]; simp only [hv, hs, if_true]) ?_ ?_
        · simp [hv, hs, spawn_effect, World.emit]
        · intro m
          by_cases hm : m = i ∧ w.pool.pollers m = 0
          · rw [if_pos hm, hm.1, hs]; exact hv
          · rw [if_neg hm]; rfl
      | created t_id =>
        refine key ((w.set_poller i t_id).emit (Effect.pthread_create (i + 1) true))
          (by rw [spawn_loop]; simp only [hv, hs, if_true]) ?_ ?_
        · simp [hv, hs, spawn_effect, World.emit, World.set_poller]
        · intro m
          by_cases hm : m = i ∧ w.pool.pollers m = 0
          · rw [if_pos hm, hm.1, hs]
            simp [World.emit, World.set_poller, spawned_id]
          · rw [if_neg hm]
            by_cases hmi : m = i
            · subst hmi
              exact absurd ⟨rfl, hv⟩ hm
            · simp [World.emit, World.set_poller, Function.update, hmi]
    · refine key w (by rw [spawn_loop]; simp only [hv, if_false]) ?_ ?_
      · simp [hv]
      · intro m
        by_cases hm : m = i ∧ w.pool.pollers m = 0
        · exact absurd (hm.1 ▸ hm.2) hv
        · rw [if_neg hm]


/-- The pool is not in destroy mode, its desired thread count `old` is not
negative, and `v` is the clamped value `min (max value 1) EVENT_MAX_THREADS`.
`event_reconfigure_threads_epoll` returns `0`. When `v ≤ old` the resulting
world is the old one with the desired count `v`: nothing is logged, no entry
changes. When `old < v`, the log grows by one attempt for each vacant index `i`
with `old ≤ i < v`, in increasing order, a `pthread_create` for the worker index
`i + 1` unless the allocation of the thread data failed, and nothing else; an
entry changes only when it is vacant and its index is in `[old, v)`, and then
holds the new identity when the attempt succeeded and stays vacant otherwise.
In both cases the desired count becomes `v` and no other field of the pool
changes. -/
theorem reconfigure_spawns_for_vacant_indices (k : Consts) (w : World) (value : Int)
    (spawn : Nat → SpawnResult)
    (hmax : 1 ≤ k.EVENT_MAX_THREADS) (hold : 0 ≤ w.pool.eventthreadcount)
    (hd : w.pool.destroy ≠ 1) :
    ∃ w1, event_reconfigure_threads_epoll k w value spawn = .ok (w1, 0) ∧
      (min (max value 1) (k.EVENT_MAX_THREADS : Int) ≤ w.pool.eventthreadcount →
        w1 = w.set_eventthreadcount (min (max value 1) (k.EVENT_MAX_THREADS : Int))) ∧
      (w.pool.eventthreadcount < min (max value 1) (k.EVENT_MAX_THREADS : Int) →
        w1.trace = w.trace ++ spawn_attempts spawn w.pool.pollers
          w.pool.eventthreadcount.toNat
          (min (max value 1) (k.EVENT_MAX_THREADS : Int) - w.pool.eventthreadcount).toNat ∧
        ∀ m : Nat, w1.pool.pollers m =
          if w.pool.eventthreadcount ≤ (m : Int) ∧
              (m : Int) < min (max value 1) (k.EVENT_MAX_THREADS : Int) ∧
              w.pool.pollers m = 0
          then spawned_id (spawn m) else w.pool.pollers m) ∧
      w1.pool.eventthreadcount = min (max value 1) (k.EVENT_MAX_THREADS : Int) ∧
      w1.pool.fd = w.pool.fd ∧ w1.pool.count = w.pool.count ∧
      w1.pool.ereg = w.pool.ereg ∧ w1.pool.slots_used = w.pool.slots_used ∧
      w1.pool.destroy = w.pool.destroy ∧
      w1.pool.activethreadcount = w.pool.activethreadcount := by
  unfold event_reconfigure_threads_epoll
  simp only []
  rw [reconfigure_target k w.pool.destroy value hmax, if_neg hd]
  generalize min (max value 1) (k.EVENT_MAX_THREADS : Int) = v
  by_cases h1 : w.pool.eventthreadcount < v
  · rw [if_pos h1, if_neg (not_lt.mpr hold)]
    obtain ⟨ht, hp⟩ := spawn_loop_frame spawn (v - w.pool.eventthreadcount).toNat
      w.pool.eventthreadcount.toNat w
    obtain ⟨hf1, hf2, hf3⟩ := spawn_loop_fields spawn (v - w.pool.eventthreadcount).toNat
      w.pool.eventthreadcount.toNat w
    obtain ⟨hg1, hg2, hg3⟩ := spawn_loop_pool spawn (v - w.pool.eventthreadcount).toNat
      w.pool.eventthreadcount.toNat w
    refine ⟨_, rfl, fun h => absurd h (not_le.mpr h1), fun _ => ⟨ht, fun m => ?_⟩, rfl, hg1, hg2,
      spawn_loop_ereg spawn _ _ w, hg3, hf1, hf3⟩
    show (spawn_loop spawn w _ _).pool.pollers m = _
    rw [hp m]
    by_cases hc : w.pool.eventthreadcount ≤ (m : Int) ∧ (m : Int) < v ∧ w.pool.pollers m = 0
    · rw [if_pos hc, if_pos ⟨by omega, by omega, hc.2.2⟩]
    · rw [if_neg hc, if_neg (fun h => hc ⟨by omega, by omega, h.2.2⟩)]
  · rw [if_neg h1]
    exact ⟨_, rfl, fun _ => rfl, fun h => absurd h h1, rfl, rfl, rfl, rfl, rfl, rfl, rfl⟩

theorem reconfigure_spawns_for_vacant_indices_witness :
    ∃ w1, event_reconfigure_threads_epoll small_consts world_shrunk 9 spawn_all = .ok (w1, 0) ∧
      (min (max 9 1) (small_consts.EVENT_MAX_THREADS : Int) ≤ world_shrunk.pool.eventthreadcount →
        w1 = world_shrunk.set_eventthreadcount
          (min (max 9 1) (small_consts.EVENT_MAX_THREADS : Int))) ∧
      (world_shrunk.pool.eventthreadcount <
          min (max 9 1) (small_consts.EVENT_MAX_THREADS : Int) →
        w1.trace = world_shrunk.trace ++ spawn_attempts spawn_all world_shrunk.pool.pollers
          world_shrunk.pool.eventthreadcount.toNat
          (min (max 9 1) (small_consts.EVENT_MAX_THREADS : Int) -
            world_shrunk.pool.eventthreadcount).toNat ∧
        ∀ m : Nat, w1.pool.pollers m =
          if world_shrunk.pool.eventthreadcount ≤ (m : Int) ∧
              (m : Int) < min (max 9 1) (small_consts.EVENT_MAX_THREADS : Int) ∧
              world_shrunk.pool.pollers m = 0
          then spawned_id (spawn_all m) else world_shrunk.pool.pollers m) ∧
      w1.pool.eventthreadcount = min (max 9 1) (small_consts.EVENT_MAX_THREADS : Int) ∧
      w1.pool.fd = world_shrunk.pool.fd ∧ w1.pool.count = world_shrunk.pool.count ∧
      w1.pool.ereg = world_shrunk.pool.ereg ∧
      w1.pool.slots_used = world_shrunk.pool.slots_used ∧
      w1.pool.destroy = world_shrunk.pool.destroy ∧
      w1.pool.activethreadcount = world_shrunk.pool.activethreadcount :=
  reconfigure_spawns_for_vacant_indices small_consts world_shrunk 9 spawn_all
    (by decide) (by decide) (by decide)

/-! ## Registration in a pool whose used-count was lowered twice -/

/-- C3 (the code breaks the claim). From the pool that `event_pool_new_epoll`
returns, `alias_ops` run: descriptor `7` is registered at handle `2` with the tag
`(2, 1)`, and the dispatch of a stale event for handle `0` lowers the used-count
of block `0` a second time, so that block `0`, once filled again, counts as not
full. A later registration of descriptor `7` then allocates nothing: it gets
handle `2` again, of the slot that still holds the first registration, and its
kernel add carries the tag `(2, 1)` again. The generation tagged at the later
registration of the handle is not greater than the one tagged at the earlier
one. -/
theorem alias_registration_repeats_tag :
    event_pool_new_epoll 16 1 true 3 = some new_world.pool ∧
    run_ops small_consts new_world alias_ops = .ok world_alias ∧
    world_alias.trace =
      [Effect.ctl_add 5 (EPOLLET ||| EPOLLIN) 0 1, Effect.ctl_add 6 (EPOLLET ||| EPOLLIN) 1 1,
       Effect.ctl_add 7 (EPOLLET ||| EPOLLIN) 2 1, Effect.ctl_del 5, Effect.slot_dealloc 0,
       Effect.slot_dealloc 0, Effect.ctl_add 8 (EPOLLET ||| EPOLLIN) 0 5] ∧
    (get_slot world_alias.pool 0 0).fd = 8 ∧ (get_slot world_alias.pool 0 1).fd = 6 ∧
    world_alias.pool.slots_used 0 = 1 ∧
    (get_slot world_alias.pool 1 0).fd = 7 ∧ (get_slot world_alias.pool 1 0).gen = 1 ∧
    event_register_epoll small_consts world_alias (some ()) 7 8 10 1 1 true true
      = .ok (world_alias_again, 2) ∧
    world_alias_again.trace = world_alias.trace ++
      [Effect.ctl_add 7 (EPOLLET ||| EPOLLIN ||| EPOLLOUT) 2 1] ∧
    (get_slot world_alias_again.pool 1 0).gen = 1 ∧
    (get_slot world_alias_again.pool 1 0).ref = 2 :=
  ⟨rfl, rfl, by decide, by decide, by decide, by decide, by decide, by decide, rfl, by decide,
    by decide, by decide⟩

/-- C5 (the code breaks the claim). `world_alias` is reached from a new pool by
`alias_ops`; it is not in destroy mode and slot `1` of block `1` is free. The
registration of descriptor `9`, with `calloc` and the kernel add succeeding,
returns no handle: the allocator takes block `0`, whose used-count is `1`, for
not full, finds no free slot in it and returns handle `2` without allocating;
slot `(1, 0)` of that handle holds descriptor `7`, and the run stops at
`assert (slot->fd == fd)`. -/
theorem register_asserts_despite_free_slot :
    run_ops small_consts new_world alias_ops = .ok world_alias ∧
    world_alias.pool.destroy = 0 ∧
    block_exists world_alias.pool 1 ∧ slot_free world_alias.pool 1 1 ∧
    (get_slot world_alias.pool 0 0).fd ≠ -1 ∧ (get_slot world_alias.pool 0 1).fd ≠ -1 ∧
    world_alias.pool.slots_used 0 = 1 ∧
    __event_slot_alloc small_consts world_alias.pool 9 true = (world_alias.pool, 2) ∧
    locate small_consts 2 = some (1, 0) ∧ (get_slot world_alias.pool 1 0).fd = 7 ∧
    event_register_epoll small_consts world_alias (some ()) 9 7 9 1 0 true true
      = .fault Fault.assertion :=
  ⟨rfl, by decide, by decide, by decide, by decide, by decide, by decide,
    rfl, by decide, by decide, rfl⟩

/-! ## Dispatches that leave without a kernel modify -/

/-- C24, as stated, fails, in three ways. (1) In `world_in_handler` another
dispatch of handle `0` is in progress (in-handler count `1`): the dispatch of a
second live event, whose handler makes no call, returns without a kernel
modify. (2) In `world_null_handler` handle `0` has the handler `NULL`: the
dispatch of a live event calls nothing, issues no kernel modify and leaves the
in-handler count at `1` instead of `0`. (3) In `world_alias` the used-count of
block `0` is too low: the handler of a live event for handle `2` registers the
descriptor `7` of the handle again, the registration gets the same slot, and
the reference count is `2` after the dispatch instead of `1`. -/
theorem dispatch_without_rearm :
    (∃ w1, event_dispatch_epoll_handler small_consts world_in_handler
        { events := EPOLLIN, idx := 0, gen := 1 } [] 0 true = .ok (w1, 0) ∧
      (get_slot world_in_handler.pool 0 0).fd = 5 ∧
      (get_slot world_in_handler.pool 0 0).gen = 1 ∧
      (get_slot world_in_handler.pool 0 0).in_handler = 1 ∧
      w1.trace = world_in_handler.trace ++ [Effect.handler 7 5 0 9 1 0 0]) ∧
    (∃ w1, event_dispatch_epoll_handler small_consts world_null_handler
        { events := EPOLLIN, idx := 0, gen := 1 } [] 0 true = .ok (w1, -1) ∧
      (get_slot world_null_handler.pool 0 0).fd = 5 ∧
      (get_slot world_null_handler.pool 0 0).gen = 1 ∧
      (get_slot world_null_handler.pool 0 0).handler = 0 ∧
      (get_slot world_null_handler.pool 0 0).in_handler = 0 ∧
      w1.trace = world_null_handler.trace ∧
      (get_slot w1.pool 0 0).in_handler = 1) ∧
    (∃ w1, event_dispatch_epoll_handler small_consts world_alias
        { events := EPOLLIN, idx := 2, gen := 1 } [Call.register 7 8 10 1 1 true true] 0 true =
          .ok (w1, 0) ∧
      run_ops small_consts new_world alias_ops = .ok world_alias ∧
      (get_slot world_alias.pool 1 0).fd = 7 ∧
      (get_slot world_alias.pool 1 0).gen = 1 ∧
      (get_slot world_alias.pool 1 0).in_handler = 0 ∧
      (get_slot world_alias.pool 1 0).ref = 1 ∧
      (get_slot w1.pool 1 0).ref = 2) :=
  ⟨⟨_, rfl, by decide, by decide, by decide, by decide⟩,
   ⟨_, rfl, by decide, by decide, by decide, by decide, by decide, by decide⟩,
   ⟨_, rfl, rfl, by decide, by decide, by decide, by decide, by decide⟩⟩

/-! ## A second unregistration inside the handler -/

/-- C25 (the code breaks the claim). In `world_registered` handle `0` holds
descriptor `5` with reference count `1`, and a live event for it is dispatched.
Its handler unregisters the handle with the close flag, the kernel delete
succeeding: the call returns `0`, the slot keeps its descriptor and the
reference count is `1`. The handler then unregisters the handle once more and
the kernel delete fails: the call returns `-1` and yet releases two references,
so the slot is deallocated and descriptor `5` closed while the handler is still
running. The final release of the dispatch then lowers the reference count to
`-1` and deallocates nothing. -/
theorem second_unregister_deallocates_in_handler :
    (get_slot world_registered.pool 0 0).fd = 5 ∧
    (get_slot world_registered.pool 0 0).gen = 1 ∧
    (get_slot world_registered.pool 0 0).ref = 1 ∧
    event_unregister_epoll_common small_consts
      (handler_world world_registered { events := EPOLLIN, idx := 0, gen := 1 } 0 0)
      (some ()) 5 0 1 true = .ok (world_unregistered_in_handler, 0) ∧
    (get_slot world_unregistered_in_handler.pool 0 0).fd = 5 ∧
    (get_slot world_unregistered_in_handler.pool 0 0).ref = 1 ∧
    event_unregister_epoll_common small_consts world_unregistered_in_handler
      (some ()) 5 0 1 false = .ok (world_unregistered_twice, -1) ∧
    (get_slot world_unregistered_twice.pool 0 0).fd = -1 ∧
    (get_slot world_unregistered_twice.pool 0 0).ref = 0 ∧
    (get_slot world_unregistered_twice.pool 0 0).in_handler = 1 ∧
    world_unregistered_twice.trace = world_registered.trace ++
      [Effect.handler 7 5 0 9 1 0 0, Effect.ctl_del 5, Effect.ctl_del 5,
       Effect.slot_dealloc 0, Effect.close 5] ∧
    (∃ w1, event_dispatch_epoll_handler small_consts world_registered
        { events := EPOLLIN, idx := 0, gen := 1 }
        [Call.unregister 5 0 1 true, Call.unregister 5 0 1 false] 0 true = .ok (w1, 0) ∧
      w1.trace = world_unregistered_twice.trace ∧
      (get_slot w1.pool 0 0).ref = -1) :=
  ⟨by decide, by decide, by decide, rfl, by decide, by decide, rfl, by decide, by decide,
    by decide, by decide, ⟨_, rfl, by decide, by decide⟩⟩

/-! ## Reconfiguration of a pool created with a negative thread count -/

/-- C16 (the code breaks the claim). `event_pool_new_epoll (16, -3)` returns a
pool, not in destroy mode, whose desired thread count is `-3`. For every value
`event_reconfigure_threads_epoll` finds the old count below the clamped value
and starts its loop at `pollers[-3]`, outside the array: the call does not
return `0`. -/
theorem reconfigure_reads_before_pollers :
    event_pool_new_epoll 16 (-3) true 3 = some (pool_of_count (-3)) ∧
    (pool_of_count (-3)).destroy = 0 ∧
    ∀ (value : Int) (spawn : Nat → SpawnResult),
      event_reconfigure_threads_epoll small_consts
        { pool := pool_of_count (-3), trace := [] } value spawn = .fault Fault.bad_index := by
  refine ⟨rfl, rfl, fun value spawn => ?_⟩
  unfold event_reconfigure_threads_epoll
  simp only []
  rw [reconfigure_target small_consts _ value (by decide)]
  have hd : (pool_of_count (-3)).destroy ≠ 1 := by decide
  have ho : (pool_of_count (-3)).eventthreadcount = -3 := rfl
  simp only [hd, if_false, ho]
  have hm : (small_consts.EVENT_MAX_THREADS : Int) = 4 := rfl
  rw [if_pos (by rw [hm]; omega), if_pos (by decide)]

/-- C27 (the code breaks the claim). `event_pool_new_epoll (16, -1)` returns a
pool, not in destroy mode, with desired thread count `-1` and every
thread-identity entry vacant. `event_reconfigure_threads_epoll` with value `1`
starts its loop at `pollers[-1]`, outside the array, and no worker is started
for the vacant index `0`, which lies between the old count and the new one:
nothing is logged. -/
theorem reconfigure_starts_below_index_zero :
    event_pool_new_epoll 16 (-1) true 3 = some (pool_of_count (-1)) ∧
    (pool_of_count (-1)).destroy = 0 ∧
    (pool_of_count (-1)).eventthreadcount = -1 ∧
    (pool_of_count (-1)).pollers 0 = 0 ∧
    min (max (1 : Int) 1) (small_consts.EVENT_MAX_THREADS : Int) = 1 ∧
    event_reconfigure_threads_epoll small_consts
      { pool := pool_of_count (-1), trace := [] } 1 spawn_all = .fault Fault.bad_index :=
  ⟨rfl, rfl, rfl, rfl, by decide, rfl⟩

end EventEpoll

namespace EventPoll

/-! ## The search -/

theorem reg_read_some (p : event_pool) (a : Nat → reg_entry) (i : Int)
    (hreg : p.reg = some a) (h0 : 0 ≤ i) (h1 : i < p.count) :
    reg_read p i = some (a i.toNat) := by
  unfold reg_read
  rw [hreg]
  simp only []
  rw [if_pos ⟨h0, h1⟩]

theorem get_reg_some (p : event_pool) (a : Nat → reg_entry) (i : Nat)
    (hreg : p.reg = some a) : get_reg p i = a i := by
  unfold get_reg
  rw [hreg]

/-- The loop of `__event_getindex` over the `n` indices from `i`, all inside the
array: it returns the smallest index among them whose entry has the descriptor
`fd`, and `-1` when there is none. -/
theorem getindex_loop_spec (p : event_pool) (a : Nat → reg_entry) (fd : Int)
    (hreg : p.reg = some a) :
    ∀ (n i : Nat), ((i + n : Nat) : Int) ≤ p.count →
      (getindex_loop p fd n i = some (-1) ∧ ∀ j, i ≤ j → j < i + n → (a j).fd ≠ fd) ∨
      (∃ j : Nat, getindex_loop p fd n i = some (j : Int) ∧ i ≤ j ∧ j < i + n ∧
        (a j).fd = fd ∧ ∀ j1, i ≤ j1 → j1 < j → (a j1).fd ≠ fd) := by
  intro n
  induction n with
  | zero =>
    intro i _
    exact Or.inl ⟨rfl, fun j h1 h2 => by omega⟩
  | succ n ih =>
    intro i hb
    have hread : reg_read p (i : Int) = some (a i) := by
      have := reg_read_some p a (i : Int) hreg (by omega) (by omega)
      simpa using this
    unfold getindex_loop
    rw [hread]
    simp only []
    by_cases hfd : (a i).fd = fd
    · rw [if_pos hfd]
      exact Or.inr ⟨i, rfl, le_refl _, by omega, hfd, fun j1 h1 h2 => by omega⟩
    · rw [if_neg hfd]
      rcases ih (i + 1) (by omega) with ⟨h1, h2⟩ | ⟨j, h1, h2, h3, h4, h5⟩
      · refine Or.inl ⟨h1, fun j hj1 hj2 => ?_⟩
        by_cases hji : j = i
        · rw [hji]; exact hfd
        · exact h2 j (by omega) (by omega)
      · refine Or.inr ⟨j, h1, by omega, by omega, h4, fun j1 hj1 hj2 => ?_⟩
        by_cases hji : j1 = i
        · rw [hji]; exact hfd
        · exact h5 j1 (by omega) hj2

/-- The search without a usable hint. -/
theorem getindex_loop_used (p : event_pool) (a : Nat → reg_entry) (fd : Int)
    (hreg : p.reg = some a) (hused : p.used ≤ p.count) :
    (getindex_loop p fd p.used.toNat 0 = some (-1) ∧ ¬ registered p fd) ∨
    (∃ j : Nat, getindex_loop p fd p.used.toNat 0 = some (j : Int) ∧ (j : Int) < p.used ∧
      (a j).fd = fd ∧ ∀ j1 : Nat, j1 < j → (a j1).fd ≠ fd) := by
  by_cases hpos : p.used ≤ 0
  · refine Or.inl ⟨?_, ?_⟩
    · rw [Int.toNat_eq_zero.mpr hpos]
      rfl
    · rintro ⟨i, hi, _⟩
      omega
  rcases getindex_loop_spec p a fd hreg p.used.toNat 0 (by omega) with
    ⟨h1, h2⟩ | ⟨j, h1, _, h3, h4, h5⟩
  · refine Or.inl ⟨h1, ?_⟩
    rintro ⟨i, hi, hfd⟩
    rw [get_reg_some p a i hreg] at hfd
    exact h2 i (Nat.zero_le _) (by omega) hfd
  · exact Or.inr ⟨j, h1, by omega, h4, fun j1 hj1 => h5 j1 (Nat.zero_le _) hj1⟩


/-- For a pool that is not `NULL`, whose array is allocated and holds at
least `used` elements, `__event_getindex` returns a value `r`. `r = -1` exactly
when no entry among `reg[0 .. used)` has the descriptor `fd`; otherwise
`0 ≤ r < used` and `reg[r].fd = fd`. When the hint `idx` is in range and
`reg[idx].fd = fd`, then `r = idx`; otherwise no entry before `r` has the
descriptor `fd`, so `r` is the smallest matching index. -/
theorem getindex_finds_registered_fd (p : event_pool) (fd idx : Int)
    (hreg : p.reg.isSome = true) (hused : p.used ≤ p.count) :
    ∃ r, __event_getindex p (some ()) fd idx = some r ∧
      (r = -1 ↔ ¬ registered p fd) ∧
      (r ≠ -1 → 0 ≤ r ∧ r < p.used ∧ (get_reg p r.toNat).fd = fd) ∧
      (0 ≤ idx → idx < p.used → (get_reg p idx.toNat).fd = fd → r = idx) ∧
      (¬ (0 ≤ idx ∧ idx < p.used ∧ (get_reg p idx.toNat).fd = fd) →
        ∀ j : Nat, (j : Int) < r → (get_reg p j).fd ≠ fd) := by
  obtain ⟨a, ha⟩ := Option.isSome_iff_exists.mp hreg
  have hget : ∀ i, get_reg p i = a i := fun i => get_reg_some p a i ha
  have hloop : ∀ (hno : ¬ (0 ≤ idx ∧ idx < p.used ∧ (a idx.toNat).fd = fd)),
      ∃ r, getindex_loop p fd p.used.toNat 0 = some r ∧
        (r = -1 ↔ ¬ registered p fd) ∧
        (r ≠ -1 → 0 ≤ r ∧ r < p.used ∧ (get_reg p r.toNat).fd = fd) ∧
        (0 ≤ idx → idx < p.used → (get_reg p idx.toNat).fd = fd → r = idx) ∧
        (¬ (0 ≤ idx ∧ idx < p.used ∧ (get_reg p idx.toNat).fd = fd) →
          ∀ j : Nat, (j : Int) < r → (get_reg p j).fd ≠ fd) := by
    intro hno
    rcases getindex_loop_used p a fd ha hused with ⟨h1, h2⟩ | ⟨j, h1, h2, h3, h4⟩
    · refine ⟨-1, h1, ⟨fun _ => h2, fun _ => rfl⟩, fun h => absurd rfl h, ?_, ?_⟩
      · intro h0 hlt hfd
        rw [hget] at hfd
        exact absurd ⟨h0, hlt, hfd⟩ hno
      · intro _ j hj
        omega
    · refine ⟨(j : Int), h1, ⟨fun h => by omega, fun h => ?_⟩, fun _ => ⟨by omega, h2, ?_⟩, ?_, ?_⟩
      · exact absurd ⟨j, h2, by rw [hget]; exact h3⟩ h
      · rw [hget]
        simpa using h3
      · intro h0 hlt hfd
        rw [hget] at hfd
        exact absurd ⟨h0, hlt, hfd⟩ hno
      · intro _ j1 hj1
        rw [hget]
        exact h4 j1 (by omega)
  unfold __event_getindex
  simp only []
  by_cases hin : idx > -1 ∧ idx < p.used
  · rw [if_pos hin, reg_read_some p a idx ha (by omega) (by omega)]
    simp only []
    by_cases hfd : (a idx.toNat).fd = fd
    · rw [if_pos hfd]
      refine ⟨idx, rfl, ⟨fun h => by omega, fun h => ?_⟩, fun _ => ⟨by omega, hin.2, ?_⟩,
        fun _ _ _ => rfl, fun hno => ?_⟩
      · refine absurd ⟨idx.toNat, by omega, ?_⟩ h
        rw [hget]; exact hfd
      · rw [hget]; exact hfd
      · refine absurd ⟨by omega, hin.2, ?_⟩ hno
        rw [hget]; exact hfd
    · rw [if_neg hfd]
      exact hloop (fun h => hfd h.2.2)
  · rw [if_neg hin]
    exact hloop (fun h => hin ⟨by omega, h.2.1⟩)

theorem getindex_finds_registered_fd_witness :
    ∃ r, __event_getindex sample_pool (some ()) 7 0 = some r ∧
      (r = -1 ↔ ¬ registered sample_pool 7) ∧
      (r ≠ -1 → 0 ≤ r ∧ r < sample_pool.used ∧ (get_reg sample_pool r.toNat).fd = 7) ∧
      (0 ≤ (0 : Int) → (0 : Int) < sample_pool.used →
        (get_reg sample_pool (0 : Int).toNat).fd = 7 → r = 0) ∧
      (¬ (0 ≤ (0 : Int) ∧ (0 : Int) < sample_pool.used ∧
          (get_reg sample_pool (0 : Int).toNat).fd = 7) →
        ∀ j : Nat, (j : Int) < r → (get_reg sample_pool j).fd ≠ 7) :=
  getindex_finds_registered_fd sample_pool 7 0 rfl (by decide)


/-- For a pool that is not `NULL` and whose array holds at least `used` elements,
`__event_getindex` returns `-1` exactly when the descriptor is not registered,
and otherwise the index of an entry with the descriptor. -/
theorem getindex_returns (p : event_pool) (fd idx : Int)
    (hreg : p.reg.isSome = true) (hused : p.used ≤ p.count) :
    ∃ r, __event_getindex p (some ()) fd idx = some r ∧
      (r = -1 ↔ ¬ registered p fd) ∧
      (r ≠ -1 → 0 ≤ r ∧ r < p.used ∧ (get_reg p r.toNat).fd = fd) := by
  obtain ⟨a, ha⟩ := Option.isSome_iff_exists.mp hreg
  have hget : ∀ i, get_reg p i = a i := fun i => get_reg_some p a i ha
  have hloop : ∃ r, getindex_loop p fd p.used.toNat 0 = some r ∧
      (r = -1 ↔ ¬ registered p fd) ∧
      (r ≠ -1 → 0 ≤ r ∧ r < p.used ∧ (get_reg p r.toNat).fd = fd) := by
    rcases getindex_loop_used p a fd ha hused with ⟨h1, h2⟩ | ⟨j, h1, h2, h3, _⟩
    · exact ⟨-1, h1, ⟨fun _ => h2, fun _ => rfl⟩, fun h => absurd rfl h⟩
    · refine ⟨(j : Int), h1, ⟨fun h => by omega, fun h => ?_⟩, fun _ => ⟨by omega, h2, ?_⟩⟩
      · exact absurd ⟨j, h2, by rw [hget]; exact h3⟩ h
      · rw [hget]
        simpa using h3
  unfold __event_getindex
  simp only []
  by_cases hin : idx > -1 ∧ idx < p.used
  · rw [if_pos hin, reg_read_some p a idx ha (by omega) (by omega)]
    simp only []
    by_cases hfd : (a idx.toNat).fd = fd
    · rw [if_pos hfd]
      refine ⟨idx, rfl, ⟨fun h => by omega, fun h => ?_⟩, fun _ => ⟨by omega, hin.2, ?_⟩⟩
      · refine absurd ⟨idx.toNat, by omega, ?_⟩ h
        rw [hget]; exact hfd
      · rw [hget]; exact hfd
    · rw [if_neg hfd]
      exact hloop
  · rw [if_neg hin]
    exact hloop

/-! ## Unregistration and registration -/

theorem reg_write_some (p : event_pool) (a : Nat → reg_entry) (i : Int) (e : reg_entry)
    (hreg : p.reg = some a) (h0 : 0 ≤ i) (h1 : i < p.count) :
    reg_write p i e = some { p with reg := some (Function.update a i.toNat e) } := by
  unfold reg_write
  rw [hreg]
  simp only []
  rw [if_pos ⟨h0, h1⟩]

/-- Unregistration when the search finds the index `r`: the last entry is copied
to `reg[r]` and `used` is lowered. -/
theorem unregister_poll_found (p : event_pool) (a : Nat → reg_entry) (fd idx_hint r : Int)
    (hreg : p.reg = some a) (hused : p.used ≤ p.count)
    (hget : __event_getindex p (some ()) fd idx_hint = some r)
    (h0 : 0 ≤ r) (h1 : r < p.used) :
    event_unregister_poll p (some ()) fd idx_hint =
      some ({ count := p.count,
              reg := some (Function.update a r.toNat (a (p.used - 1).toNat)),
              used := p.used - 1, changed := 1 }, r) := by
  unfold event_unregister_poll
  simp only []
  rw [hget]
  simp only []
  rw [if_neg (by omega)]
  rw [reg_read_some { p with used := p.used - 1 } a (p.used - 1) hreg
    (by omega) (by show p.used - 1 < p.count; omega)]
  simp only []
  rw [reg_write_some { p with used := p.used - 1 } a r _ hreg h0
    (by show r < p.count; omega)]

/-- Unregistration when the search finds nothing. -/
theorem unregister_poll_missing (p : event_pool) (fd idx_hint : Int)
    (hget : __event_getindex p (some ()) fd idx_hint = some (-1)) :
    event_unregister_poll p (some ()) fd idx_hint = some (p, -1) := by
  unfold event_unregister_poll
  simp only []
  rw [hget]
  simp only []
  exact if_pos trivial

/-- Registration when the array has room or `realloc` succeeds. -/
theorem register_poll_appends (p : event_pool) (a : Nat → reg_entry) (fd : Int)
    (handler data : Nat) (poll_in poll_out : Int) (realloc_ok : Bool)
    (hreg : p.reg = some a) (h0 : 0 ≤ p.used) (hused : p.used ≤ p.count)
    (hmax : p.count + 256 ≤ INT_MAX) (hroom : realloc_ok = true ∨ p.count ≠ p.used) :
    event_register_poll p (some ()) fd handler data poll_in poll_out realloc_ok =
      some ({ count := if p.count = p.used then p.count + 256 else p.count,
              reg := some (Function.update a p.used.toNat
                { fd := fd,
                  events :=
                    (if poll_out = 1 then
                       (if poll_in = 1 then POLLPRI ||| POLLIN
                        else if poll_in = 0 then POLLPRI &&& bnot32 POLLIN
                        else POLLPRI) ||| POLLOUT
                     else if poll_out = 0 then
                       (if poll_in = 1 then POLLPRI ||| POLLIN
                        else if poll_in = 0 then POLLPRI &&& bnot32 POLLIN
                        else POLLPRI) &&& bnot32 POLLOUT
                     else
                       (if poll_in = 1 then POLLPRI ||| POLLIN
                        else if poll_in = 0 then POLLPRI &&& bnot32 POLLIN
                        else POLLPRI)),
                  data := data, handler := handler }),
              used := p.used + 1, changed := 1 }, p.used) := by
  unfold event_register_poll
  simp only []
  by_cases hc : p.count = p.used
  · have hok : realloc_ok = true := by
      rcases hroom with h | h
      · exact h
      · exact absurd hc h
    rw [if_pos hc, if_neg (by omega), hok, if_pos rfl]
    simp only []
    rw [if_neg (by omega)]
    rw [reg_write_some _ a p.used _ (by rw [hreg]) h0 (by show p.used < p.count + 256; omega)]
    rw [if_pos hc]
  · rw [if_neg hc]
    simp only []
    rw [if_neg (by omega)]
    rw [reg_write_some { p with used := p.used + 1 } a p.used _ hreg h0
      (by show p.used < p.count; omega)]
    rw [if_neg hc]


/-- C30, amended. The pool is well formed and its registered descriptors are pairwise
distinct. `event_unregister_poll` of a registered `fd` returns the index `r`
that held it, lowers `used` by `1`, sets `changed`, and leaves as registrations
exactly the former ones with a descriptor other than `fd`: every entry other
than `reg[r]` stays where it was, and `reg[r]` receives the formerly last
entry when `r` was not the last index. `event_unregister_poll` of a descriptor
that is not registered returns `-1` and leaves the pool as it was.
`event_register_poll`, when the array has room or `realloc` succeeds (and
`count + 256` fits an `int`), returns the index `used`, stores the new
registration there, raises `used` by `1`, sets `changed` and keeps the entries
below. The resulting pools are well formed, and their descriptors are pairwise
distinct (after a registration when the new descriptor was not registered). -/
theorem unregister_and_register_poll (p : event_pool) (fd idx_hint new_fd : Int)
    (handler data : Nat) (poll_in poll_out : Int) (realloc_ok : Bool)
    (hwf : well_formed p) (hd : distinct_fds p) :
    (registered p fd →
      ∃ p1 r, event_unregister_poll p (some ()) fd idx_hint = some (p1, r) ∧
        0 ≤ r ∧ r < p.used ∧ (get_reg p r.toNat).fd = fd ∧
        p1.used = p.used - 1 ∧ p1.changed = 1 ∧ p1.count = p.count ∧
        (∀ e, is_registration p1 e ↔ (is_registration p e ∧ e.fd ≠ fd)) ∧
        (∀ i : Nat, (i : Int) ≠ r → get_reg p1 i = get_reg p i) ∧
        (r < p.used - 1 → get_reg p1 r.toNat = get_reg p (p.used - 1).toNat) ∧
        well_formed p1 ∧ distinct_fds p1) ∧
    (¬ registered p fd →
      event_unregister_poll p (some ()) fd idx_hint = some (p, -1)) ∧
    (realloc_ok = true ∨ p.count ≠ p.used → p.count + 256 ≤ INT_MAX →
      ∃ p1, event_register_poll p (some ()) new_fd handler data poll_in poll_out realloc_ok =
          some (p1, p.used) ∧
        p1.used = p.used + 1 ∧ p1.changed = 1 ∧
        p1.count = (if p.count = p.used then p.count + 256 else p.count) ∧
        (get_reg p1 p.used.toNat).fd = new_fd ∧
        (get_reg p1 p.used.toNat).handler = handler ∧
        (get_reg p1 p.used.toNat).data = data ∧
        (get_reg p1 p.used.toNat).events =
          (if poll_out = 1 then
             (if poll_in = 1 then POLLPRI ||| POLLIN
              else if poll_in = 0 then POLLPRI &&& bnot32 POLLIN
              else POLLPRI) ||| POLLOUT
           else if poll_out = 0 then
             (if poll_in = 1 then POLLPRI ||| POLLIN
              else if poll_in = 0 then POLLPRI &&& bnot32 POLLIN
              else POLLPRI) &&& bnot32 POLLOUT
           else
             (if poll_in = 1 then POLLPRI ||| POLLIN
              else if poll_in = 0 then POLLPRI &&& bnot32 POLLIN
              else POLLPRI)) ∧
        (∀ i : Nat, (i : Int) < p.used → get_reg p1 i = get_reg p i) ∧
        well_formed p1 ∧ (¬ registered p new_fd → distinct_fds p1)) := by
  obtain ⟨hsome, hu0, huc⟩ := hwf
  obtain ⟨a, ha⟩ := Option.isSome_iff_exists.mp hsome
  have hget : ∀ i, get_reg p i = a i := fun i => get_reg_some p a i ha
  obtain ⟨r, hr, hr1, hr2⟩ := getindex_returns p fd idx_hint hsome huc
  have hda : ∀ i j : Nat, (i : Int) < p.used → (j : Int) < p.used →
      (a i).fd = (a j).fd → i = j := by
    intro i j hi hj h
    exact hd i j hi hj (by rw [hget, hget]; exact h)
  refine ⟨fun hregd => ?_, fun hnot => ?_, fun hroom hmax => ?_⟩
  · have hne : r ≠ -1 := fun h => (hr1.mp h) hregd
    obtain ⟨h0, h1, hfd⟩ := hr2 hne
    rw [hget] at hfd
    have hup : ∀ i : Nat,
        get_reg { count := p.count,
                  reg := some (Function.update a r.toNat (a (p.used - 1).toNat)),
                  used := p.used - 1, changed := 1 } i =
          if i = r.toNat then a (p.used - 1).toNat else a i := by
      intro i
      simp only [get_reg, Function.update_apply]
    refine ⟨_, r, unregister_poll_found p a fd idx_hint r ha huc hr h0 h1, h0, h1,
      by rw [hget]; exact hfd, rfl, rfl, rfl, fun e => ⟨?_, ?_⟩, fun i hi => ?_, fun _ => ?_,
      ⟨rfl, by show 0 ≤ p.used - 1; omega, by show p.used - 1 ≤ p.count; omega⟩, ?_⟩
    · rintro ⟨i, hi, he⟩
      have hi1 : (i : Int) < p.used - 1 := hi
      rw [hup] at he
      by_cases hir : i = r.toNat
      · rw [if_pos hir] at he
        refine ⟨⟨(p.used - 1).toNat, by omega, by rw [hget]; exact he⟩, ?_⟩
        rw [← he]
        intro hfd1
        have := hda (p.used - 1).toNat r.toNat (by omega) (by omega) (hfd1.trans hfd.symm)
        omega
      · rw [if_neg hir] at he
        refine ⟨⟨i, by omega, by rw [hget]; exact he⟩, ?_⟩
        rw [← he]
        intro hfd1
        exact hir (hda i r.toNat (by omega) (by omega) (hfd1.trans hfd.symm))
    · rintro ⟨⟨i, hi, he⟩, hefd⟩
      rw [hget] at he
      have hir : i ≠ r.toNat := by
        intro h
        apply hefd
        rw [← he, h]
        exact hfd
      by_cases hlast : (i : Int) < p.used - 1
      · refine ⟨i, hlast, ?_⟩
        rw [hup, if_neg hir]
        exact he
      · have hil : i = (p.used - 1).toNat := by omega
        refine ⟨r.toNat, by show ((r.toNat : Nat) : Int) < p.used - 1; omega, ?_⟩
        rw [hup, if_pos rfl, ← hil]
        exact he
    · rw [hup, hget, if_neg (by omega)]
    · rw [hup, hget, if_pos rfl]
    · intro i j hi hj hij
      have hi1 : (i : Int) < p.used - 1 := hi
      have hj1 : (j : Int) < p.used - 1 := hj
      rw [hup, hup] at hij
      by_cases hir : i = r.toNat
      · by_cases hjr : j = r.toNat
        · rw [hir, hjr]
        · rw [if_pos hir, if_neg hjr] at hij
          have := hda (p.used - 1).toNat j (by omega) (by omega) hij
          omega
      · by_cases hjr : j = r.toNat
        · rw [if_neg hir, if_pos hjr] at hij
          have := hda i (p.used - 1).toNat (by omega) (by omega) hij
          omega
        · rw [if_neg hir, if_neg hjr] at hij
          exact hda i j (by omega) (by omega) hij
  · rw [hr1.mpr hnot] at hr
    exact unregister_poll_missing p fd idx_hint hr
  · have hup : ∀ (c : Int) (e : reg_entry) (i : Nat),
        get_reg { count := c, reg := some (Function.update a p.used.toNat e),
                  used := p.used + 1, changed := 1 } i =
          if i = p.used.toNat then e else a i := by
      intro c e i
      simp only [get_reg, Function.update_apply]
    refine ⟨_, register_poll_appends p a new_fd handler data poll_in poll_out realloc_ok ha hu0
      huc hmax hroom, rfl, rfl, rfl, ?_, ?_, ?_, ?_, fun i hi => ?_, ⟨rfl, ?_, ?_⟩, fun hnew => ?_⟩
    · rw [hup, if_pos rfl]
    · rw [hup, if_pos rfl]
    · rw [hup, if_pos rfl]
    · rw [hup, if_pos rfl]
    · rw [hup, hget, if_neg (by omega)]
    · show 0 ≤ p.used + 1
      omega
    · show p.used + 1 ≤ (if p.count = p.used then p.count + 256 else p.count)
      split_ifs <;> omega
    · intro i j hi hj hij
      have hi1 : (i : Int) < p.used + 1 := hi
      have hj1 : (j : Int) < p.used + 1 := hj
      rw [hup, hup] at hij
      by_cases hiu : i = p.used.toNat
      · by_cases hju : j = p.used.toNat
        · rw [hiu, hju]
        · rw [if_pos hiu, if_neg hju] at hij
          exact absurd ⟨j, by omega, by rw [hget]; exact hij.symm⟩ hnew
      · by_cases hju : j = p.used.toNat
        · rw [if_neg hiu, if_pos hju] at hij
          exact absurd ⟨i, by omega, by rw [hget]; exact hij⟩ hnew
        · rw [if_neg hiu, if_neg hju] at hij
          exact hda i j (by omega) (by omega) hij

theorem sample_pool_well_formed : well_formed sample_pool :=
  ⟨rfl, by decide, by decide⟩

theorem sample_pool_distinct : distinct_fds sample_pool := by
  intro i j hi hj h
  have hu : sample_pool.used = 3 := rfl
  have hi3 : i < 3 := by omega
  have hj3 : j < 3 := by omega
  interval_cases i <;> interval_cases j <;> first | rfl | exact absurd h (by decide)

theorem unregister_and_register_poll_witness :
    (∃ p1 r, event_unregister_poll sample_pool (some ()) 3 2 = some (p1, r) ∧
        0 ≤ r ∧ r < sample_pool.used ∧ (get_reg sample_pool r.toNat).fd = 3 ∧
        p1.used = sample_pool.used - 1 ∧ p1.changed = 1 ∧ p1.count = sample_pool.count ∧
        (∀ e, is_registration p1 e ↔ (is_registration sample_pool e ∧ e.fd ≠ 3)) ∧
        (∀ i : Nat, (i : Int) ≠ r → get_reg p1 i = get_reg sample_pool i) ∧
        (r < sample_pool.used - 1 →
          get_reg p1 r.toNat = get_reg sample_pool (sample_pool.used - 1).toNat) ∧
        well_formed p1 ∧ distinct_fds p1) ∧
    event_unregister_poll sample_pool (some ()) 9 2 = some (sample_pool, -1) ∧
    (∃ p1, event_register_poll sample_pool (some ()) 9 13 90 1 0 true =
          some (p1, sample_pool.used) ∧
        p1.used = sample_pool.used + 1 ∧ p1.changed = 1 ∧
        p1.count = (if sample_pool.count = sample_pool.used then sample_pool.count + 256
                    else sample_pool.count) ∧
        (get_reg p1 sample_pool.used.toNat).fd = 9 ∧
        (get_reg p1 sample_pool.used.toNat).handler = 13 ∧
        (get_reg p1 sample_pool.used.toNat).data = 90 ∧
        (get_reg p1 sample_pool.used.toNat).events =
          (if (0 : Int) = 1 then
             (if (1 : Int) = 1 then POLLPRI ||| POLLIN
              else if (1 : Int) = 0 then POLLPRI &&& bnot32 POLLIN
              else POLLPRI) ||| POLLOUT
           else if (0 : Int) = 0 then
             (if (1 : Int) = 1 then POLLPRI ||| POLLIN
              else if (1 : Int) = 0 then POLLPRI &&& bnot32 POLLIN
              else POLLPRI) &&& bnot32 POLLOUT
           else
             (if (1 : Int) = 1 then POLLPRI ||| POLLIN
              else if (1 : Int) = 0 then POLLPRI &&& bnot32 POLLIN
              else POLLPRI)) ∧
        (∀ i : Nat, (i : Int) < sample_pool.used → get_reg p1 i = get_reg sample_pool i) ∧
        well_formed p1 ∧ (¬ registered sample_pool 9 → distinct_fds p1)) :=
  ⟨(unregister_and_register_poll sample_pool 3 2 9 13 90 1 0 true sample_pool_well_formed
      sample_pool_distinct).1 ⟨0, by decide, rfl⟩,
   (unregister_and_register_poll sample_pool 9 2 9 13 90 1 0 true sample_pool_well_formed
      sample_pool_distinct).2.1 (by
        rintro ⟨i, hi, h⟩
        have hu : sample_pool.used = 3 := rfl
        have hi3 : i < 3 := by omega
        interval_cases i <;> exact absurd h (by decide)),
   (unregister_and_register_poll sample_pool 3 2 9 13 90 1 0 true sample_pool_well_formed
      sample_pool_distinct).2.2 (Or.inl rfl) (by decide)⟩

/-! ## A failing `realloc` -/

/-- C29 (the code breaks the claim). In `full_pool` the descriptors `3`, `5` and
`7` are registered and the array is full. The registration of descriptor `9`
has to grow the array; `realloc` fails, and the call returns `-1` leaving
`count` raised to `259`, `used` at `3` and the array pointer `NULL`. In this pool,
which is not `NULL`, `__event_getindex` has no result for any descriptor and any
hint: its first read of `reg[...]` goes through the `NULL` array. -/
theorem getindex_after_failed_realloc :
    registered full_pool 3 ∧ well_formed full_pool ∧
    event_register_poll full_pool (some ()) 9 13 90 1 0 false =
      some (pool_without_array, -1) ∧
    ∀ fd idx : Int, __event_getindex pool_without_array (some ()) fd idx = none := by
  refine ⟨⟨0, by decide, rfl⟩, ⟨rfl, by decide, by decide⟩, rfl, fun fd idx => ?_⟩
  unfold __event_getindex
  simp only []
  have hread : ∀ i, reg_read pool_without_array i = none := fun _ => rfl
  have hloop : getindex_loop pool_without_array fd pool_without_array.used.toNat 0 = none := by
    show getindex_loop pool_without_array fd 3 0 = none
    unfold getindex_loop
    rw [hread]
  rw [hread, hloop]
  split_ifs <;> rfl


theorem single_pool_without_array_distinct : distinct_fds single_pool_without_array := by
  intro i j hi hj _
  have hu : single_pool_without_array.used = 1 := rfl
  omega

theorem huge_pool_distinct : distinct_fds huge_pool := by
  intro i j _ _ h
  have h1 : ((i : Int)) = (j : Int) := h
  exact_mod_cast h1

/-- C30, as stated, fails, in three ways. (1) `single_pool` is well formed, holds
one registration, and its array is full: when `realloc` fails,
`event_register_poll` returns `-1`, not the index `used = 1`, and appends
nothing. (2) The pool it leaves has `used = 1` and the array pointer `NULL`; its
registered descriptors are pairwise distinct, and `event_unregister_poll` has
no result in it for any descriptor and hint, registered or not. (3) `huge_pool`
is well formed with pairwise distinct descriptors and `count = used = INT_MAX`:
`count += 256` overflows and `event_register_poll` has no result although
`realloc` would succeed. -/
theorem register_poll_fails_without_memory :
    (well_formed single_pool ∧ distinct_fds single_pool ∧
      event_register_poll single_pool (some ()) 9 13 90 1 0 false =
        some (single_pool_without_array, -1) ∧
      single_pool.used = 1) ∧
    (distinct_fds single_pool_without_array ∧
      ∀ fd idx_hint : Int,
        event_unregister_poll single_pool_without_array (some ()) fd idx_hint = none) ∧
    (well_formed huge_pool ∧ distinct_fds huge_pool ∧
      event_register_poll huge_pool (some ()) (-5) 13 90 1 0 true = none) := by
  refine ⟨⟨⟨rfl, by decide, by decide⟩, ?_, rfl, rfl⟩,
    ⟨single_pool_without_array_distinct, fun fd idx_hint => ?_⟩,
    ⟨⟨rfl, by decide, by decide⟩, huge_pool_distinct, rfl⟩⟩
  · intro i j hi hj _
    have hu : single_pool.used = 1 := rfl
    omega
  · have hread : ∀ i, reg_read single_pool_without_array i = none := fun _ => rfl
    have hloop :
        getindex_loop single_pool_without_array fd single_pool_without_array.used.toNat 0
          = none := by
      show getindex_loop single_pool_without_array fd 1 0 = none
      unfold getindex_loop
      rw [hread]
    have hget : __event_getindex single_pool_without_array (some ()) fd idx_hint = none := by
      unfold __event_getindex
      simp only []
      rw [hread, hloop]
      split_ifs <;> rfl
    unfold event_unregister_poll
    simp only []
    rw [hget]

end EventPoll

namespace EventEpoll32

open EventEpoll (Consts event_slot_epoll event_pool World Effect Res Fault SlotPtr PoolPtr
  TableScan epoll_event Call Captured get_slot set_slot set_used zero_slot fresh_table
  scan_tables find_free locate epoll_ctl __slot_update_events EPOLLET EPOLLIN EPOLLPRI EPOLLOUT
  EPOLLERR EPOLLHUP event_reconfigure_threads_epoll small_consts new_world)

/-! ## Wrap-around of the generation -/

theorem wrap_int_zero : wrap_int 0 = 0 := by decide

theorem wrap_int_one : wrap_int 1 = 1 := by decide

theorem wrap_int_two : wrap_int 2 = 2 := by decide

theorem wrap_int_three : wrap_int 3 = 3 := by decide

/-- Wrapping an intermediate result does not change the wrapped sum. -/
theorem wrap_int_add (x y : Int) : wrap_int (wrap_int x + y) = wrap_int (x + y) := by
  unfold wrap_int
  omega

/-- A value in the range of an `int` is its own wrapped value. -/
theorem wrap_int_of_range (x : Int) (h0 : -2147483648 ≤ x) (h1 : x < 2147483648) :
    wrap_int x = x := by
  unfold wrap_int
  omega

theorem wrap_int_idem (x : Int) : wrap_int (wrap_int x) = wrap_int x := by
  unfold wrap_int
  omega

theorem read_mask : (EPOLLET ||| EPOLLIN) &&& EventEpoll.bnot32 EPOLLOUT = EPOLLET ||| EPOLLIN := by
  decide

theorem run_calls_concat (k : Consts) :
    ∀ (a b : List Call) (w : World),
      run_calls k w (a ++ b) =
        match run_calls k w a with
        | .ok w1 => run_calls k w1 b
        | .fault e => .fault e := by
  intro a
  induction a with
  | nil => intro b w; rfl
  | cons c cs ih =>
    intro b w
    simp only [List.cons_append, run_calls]
    cases run_call k w c with
    | ok w1 => exact ih b w1
    | fault e => rfl

/-- The first registration in a new pool: descriptor `5` gets handle `0` and the
tag `(0, 1)`. -/
theorem register_in_new_world :
    event_register_epoll small_consts new_world (some ()) 5 7 9 1 0 true true =
      .ok (busy_world 5 7 9 1 [Effect.ctl_add 5 (EPOLLET ||| EPOLLIN) 0 1], 0) := by
  simp [new_world, busy_world, one_slot_world, event_register_epoll, event_slot_alloc,
    __event_slot_alloc, scan_tables, find_free, small_consts, EventEpoll.__event_newtable,
    EventEpoll.add_table, EventEpoll.fresh_slot, fresh_table,
    event_slot_get, locate, get_slot, set_slot, set_used, World.put, World.emit,
    epoll_ctl, __slot_update_events, zero_slot, wrap_int_zero, wrap_int_one, read_mask]

/-- A registration that takes the free slot `0` of block `0`: the generation of
the slot is raised by one, with wrap-around, and tagged. -/
theorem register_in_cycle_world (g : Int) (tr : List Effect) (fd : Int) (handler data : Nat)
    (hfd : 0 ≤ fd) :
    event_register_epoll small_consts (cycle_world g tr) (some ()) fd handler data 1 0 true true =
      .ok (busy_world fd handler data (wrap_int (g + 1))
        (tr ++ [Effect.ctl_add fd (EPOLLET ||| EPOLLIN) 0 (wrap_int (g + 1))]), 0) := by
  have hne : fd ≠ -1 := by omega
  have hlt : ¬ fd < 0 := by omega
  simp [cycle_world, busy_world, one_slot_world, released_slot, event_register_epoll,
    event_slot_alloc, __event_slot_alloc, scan_tables, find_free, small_consts,
    event_slot_get, locate, get_slot, set_slot, set_used, World.put, World.emit,
    epoll_ctl, __slot_update_events, zero_slot, wrap_int_zero, wrap_int_one, read_mask, hne, hlt]

/-- The unregistration of descriptor `5` from slot `0` of block `0`: the
generation is raised twice, with wrap-around, and the slot is free again. -/
theorem unregister_busy_world (g : Int) (tr : List Effect) :
    event_unregister_epoll_common small_consts (busy_world 5 7 9 g tr) (some ()) 5 0 0 true =
      .ok (cycle_world (wrap_int (wrap_int (g + 1) + 1))
        (tr ++ [Effect.ctl_del 5, Effect.slot_dealloc 0]), 0) := by
  simp [cycle_world, busy_world, one_slot_world, released_slot, event_unregister_epoll_common,
    event_slot_get, event_slot_unref, event_slot_dealloc, __event_slot_dealloc, locate,
    get_slot, set_slot, set_used, World.put, World.emit, epoll_ctl, small_consts,
    wrap_int_zero, wrap_int_one, wrap_int_two]

/-- A live event for the registration in slot `0` of block `0`, with a handler
that makes no call: the handler is called and the watch re-armed. -/
theorem dispatch_busy_world (g : Int) (tr : List Effect) (fd : Int) (handler data : Nat)
    (hfd : 0 ≤ fd) (hh : handler ≠ 0) :
    event_dispatch_epoll_handler small_consts (busy_world fd handler data g tr)
        { events := EPOLLIN, idx := 0, gen := g } [] 0 true =
      .ok (busy_world fd handler data g
        (tr ++ [Effect.handler handler fd 0 data 1 0 0,
                Effect.ctl_mod fd (EPOLLET ||| EPOLLIN) 0 g]), 0) := by
  have hne : fd ≠ -1 := by omega
  have hlt : ¬ fd < 0 := by omega
  have h1 : EPOLLIN &&& (EPOLLIN ||| EPOLLPRI) = 1 := by decide
  have h2 : EPOLLIN &&& EPOLLOUT = 0 := by decide
  have h3 : EPOLLIN &&& (EPOLLERR ||| EPOLLHUP) = 0 := by decide
  simp [busy_world, one_slot_world, event_dispatch_epoll_handler, dispatch_enter, dispatch_leave,
    run_calls, event_slot_get, event_slot_unref, locate, get_slot, set_slot, World.put,
    World.emit, epoll_ctl, small_consts, wrap_int_zero, wrap_int_one, wrap_int_two, hne, hlt,
    hh, h1, h2, h3]

/-- One pair of `cycle` raises the generation of the slot by three, with
wrap-around. -/
theorem cycle_step (g : Int) (tr : List Effect) :
    run_calls small_consts (cycle_world g tr) cycle =
      .ok (cycle_world (wrap_int (g + 3))
        (tr ++ [Effect.ctl_add 5 (EPOLLET ||| EPOLLIN) 0 (wrap_int (g + 1)), Effect.ctl_del 5,
                Effect.slot_dealloc 0])) := by
  have hg : wrap_int (wrap_int (wrap_int (g + 1) + 1) + 1) = wrap_int (g + 3) := by
    unfold wrap_int
    omega
  simp only [cycle, run_calls, run_call]
  rw [register_in_cycle_world g tr 5 7 9 (by decide)]
  simp only []
  rw [unregister_busy_world]
  simp only [hg, List.append_assoc, List.cons_append, List.nil_append]

/-- After `n` pairs of `cycle` the slot is free with its generation raised by
`3 * n`, with wrap-around. -/
theorem cycles_run :
    ∀ (n : Nat) (g : Int) (tr : List Effect), wrap_int g = g →
      ∃ tr1, run_calls small_consts (cycle_world g tr) (cycles n) =
        .ok (cycle_world (wrap_int (g + 3 * (n : Int))) tr1) := by
  intro n
  induction n with
  | zero =>
    intro g tr hg
    refine ⟨tr, ?_⟩
    simp only [cycles, run_calls, Nat.cast_zero, mul_zero, add_zero, hg]
  | succ n ih =>
    intro g tr _
    obtain ⟨tr1, h1⟩ := ih (wrap_int (g + 3)) _ (wrap_int_idem _)
    refine ⟨tr1, ?_⟩
    rw [cycles, run_calls_concat, cycle_step]
    simp only []
    rw [h1, wrap_int_add]
    congr 3
    push_cast
    ring


/-- C1, as stated, fails in the compiled code, whose generation is a 32-bit `int`.
In a new pool descriptor `5` is registered with handler `7`: it gets handle `0`
and the kernel tag `(0, 1)`. It is unregistered, with no dispatch in flight, and
the call returns `0`. Then descriptor `5` is registered and unregistered
`4294967295` more times; every pair raises the generation of slot `0` by three,
and after the last pair the generation has wrapped around to `0`. The
registration of descriptor `6` with handler `8` takes handle `0` and tags it
`(0, 1)` again. The dispatch of an event tagged `(0, 1)`, which the kernel queued
for the first registration, finds the generation equal and calls handler `8`. -/
theorem stale_tag_dispatched_after_wraparound :
    ∃ w1 w2 w3 w4 w5 : World,
      EventEpoll.event_pool_new_epoll 16 1 true 3 = some new_world.pool ∧
      event_register_epoll small_consts new_world (some ()) 5 7 9 1 0 true true = .ok (w1, 0) ∧
      w1.trace = new_world.trace ++ [Effect.ctl_add 5 (EPOLLET ||| EPOLLIN) 0 1] ∧
      event_unregister_epoll_common small_consts w1 (some ()) 5 0 0 true = .ok (w2, 0) ∧
      run_calls small_consts w2 (cycles 4294967295) = .ok w3 ∧
      event_register_epoll small_consts w3 (some ()) 6 8 10 1 0 true true = .ok (w4, 0) ∧
      w4.trace = w3.trace ++ [Effect.ctl_add 6 (EPOLLET ||| EPOLLIN) 0 1] ∧
      event_dispatch_epoll_handler small_consts w4 { events := EPOLLIN, idx := 0, gen := 1 }
        [] 0 true = .ok (w5, 0) ∧
      w5.trace = w4.trace ++
        [Effect.handler 8 6 0 10 1 0 0, Effect.ctl_mod 6 (EPOLLET ||| EPOLLIN) 0 1] := by
  obtain ⟨tr1, hc⟩ := cycles_run 4294967295 3
    [Effect.ctl_add 5 (EPOLLET ||| EPOLLIN) 0 1, Effect.ctl_del 5, Effect.slot_dealloc 0]
    wrap_int_three
  have h0 : wrap_int (3 + 3 * ((4294967295 : Nat) : Int)) = 0 := by decide
  have h3 : wrap_int (wrap_int (1 + 1) + 1) = 3 := by decide
  have h1 : wrap_int (0 + 1) = 1 := by decide
  rw [h0] at hc
  have hu := unregister_busy_world 1 [Effect.ctl_add 5 (EPOLLET ||| EPOLLIN) 0 1]
  rw [h3] at hu
  have hr := register_in_cycle_world 0 tr1 6 8 10 (by decide)
  rw [h1] at hr
  exact ⟨_, _, _, _, _, rfl, register_in_new_world, rfl, hu, hc, hr, rfl,
    dispatch_busy_world 1 _ 6 8 10 (by decide) (by decide), rfl⟩

end EventEpoll32
